import Mathlib

/-!
# Logical plan rewriting: projection elimination and filter pushdown

A shallow embedding of `pkg/sql/plan/opt_misc.go`.

* The plan arena `builder.qry.Nodes` is a `List Node`; a node id is an index in it.
  Go mutates nodes through pointers; here every write is an explicit update of the
  arena at the node's index and every read goes to the current arena.
* An out-of-range index (a Go run-time panic) is `Err.panic`.  The recursion over node
  ids is driven by a fuel argument; running out of it is `Err.fuel`.
* Expressions are values.  Each expression is owned by the one field that holds it, so
  the in-place update of function arguments is the rebuilding of the expression.  Nil
  expression pointers are not represented: the lists of a node hold expressions.
-/

namespace Plan

/-! ## Expressions -/

/-- Modelled from the spec: the literal of a constant expression (`plan.Const`, declared
outside these files): a boolean (`Const_Bval`), numeric, string or null literal. -/
inductive Const where
  | bval (b : Bool)
  | ival (i : Int)
  | sval (s : String)
  | null
  deriving DecidableEq, Repr

/-- Modelled from the spec: the type annotation `Typ` of an expression (`plan.Type`, declared
outside these files); `NotNullable` is the one field the passes read. -/
structure Typ where
  notNullable : Bool := false
  deriving DecidableEq, Repr

/-- Modelled from the spec: the expression type `plan.Expr` is declared outside these files.
An expression is a column reference `Expr_Col` (producer tag `RelPos`, position `ColPos`),
a constant `Expr_C`, or a function call `Expr_F` (name `Func.ObjName`, arguments `Args`). -/
inductive Expr where
  | col (typ : Typ) (relPos : Int) (colPos : Int)
  | c (typ : Typ) (value : Const)
  | f (typ : Typ) (objName : String) (args : List Expr)
  deriving Repr

mutual
/-- Decision procedure for equality of expressions. -/
def Expr.decEq : (a b : Expr) → Decidable (a = b)
  | .col t r p, .col t2 r2 p2 =>
    if h : t = t2 ∧ r = r2 ∧ p = p2 then isTrue (by rcases h with ⟨rfl, rfl, rfl⟩; rfl)
    else isFalse (by intro e; cases e; exact h ⟨rfl, rfl, rfl⟩)
  | .c t v, .c t2 v2 =>
    if h : t = t2 ∧ v = v2 then isTrue (by rcases h with ⟨rfl, rfl⟩; rfl)
    else isFalse (by intro e; cases e; exact h ⟨rfl, rfl⟩)
  | .f t n a, .f t2 n2 a2 =>
    if h : t = t2 ∧ n = n2 then
      match Expr.decEqList a a2 with
      | isTrue h2 => isTrue (by rcases h with ⟨rfl, rfl⟩; rw [h2])
      | isFalse h2 => isFalse (by intro e; cases e; exact h2 rfl)
    else isFalse (by intro e; cases e; exact h ⟨rfl, rfl⟩)
  | .col .., .c .. => isFalse (by intro e; cases e)
  | .col .., .f .. => isFalse (by intro e; cases e)
  | .c .., .col .. => isFalse (by intro e; cases e)
  | .c .., .f .. => isFalse (by intro e; cases e)
  | .f .., .col .. => isFalse (by intro e; cases e)
  | .f .., .c .. => isFalse (by intro e; cases e)
/-- Decision procedure for equality of expression lists. -/
def Expr.decEqList : (a b : List Expr) → Decidable (a = b)
  | [], [] => isTrue rfl
  | x :: xs, y :: ys =>
    match Expr.decEq x y with
    | isTrue h1 =>
      match Expr.decEqList xs ys with
      | isTrue h2 => isTrue (by rw [h1, h2])
      | isFalse h2 => isFalse (by intro e; cases e; exact h2 rfl)
    | isFalse h1 => isFalse (by intro e; cases e; exact h1 rfl)
  | [], _ :: _ => isFalse (by intro e; cases e)
  | _ :: _, [] => isFalse (by intro e; cases e)
end

instance : DecidableEq Expr := Expr.decEq

/-- The type test `proj.Expr.(*plan.Expr_Col)`. -/
def Expr.isCol : Expr → Bool
  | .col .. => true
  | _ => false

/-- The type test `proj.Expr.(*plan.Expr_C)`. -/
def Expr.isC : Expr → Bool
  | .c .. => true
  | _ => false

/-- The type test `proj.Expr.(*plan.Expr_F)`. -/
def Expr.isF : Expr → Bool
  | .f .. => true
  | _ => false

mutual
/-- Modelled from the spec: `DeepCopyExpr` is defined outside these files; `deepCopy(e)` is a
structural clone with independent ownership. -/
def DeepCopyExpr : Expr → Expr
  | .col t r p => .col t r p
  | .c t v => .c t v
  | .f t n args => .f t n (DeepCopyExprList args)
/-- The clone of an argument list, element by element. -/
def DeepCopyExprList : List Expr → List Expr
  | [] => []
  | a :: as => DeepCopyExpr a :: DeepCopyExprList as
end

/-! ## Plan nodes and the arena -/

/-- Modelled from the spec: node kinds (`plan.Node_NodeType`, declared outside these files):
the kinds named in `opt_misc.go`, and `SORT` standing for the further kinds, which all reach
the `default` branch of `pushdownFilters`. -/
inductive NodeType where
  | UNKNOWN | VALUE_SCAN | TABLE_SCAN | FUNCTION_SCAN | EXTERNAL_SCAN | PROJECT
  | EXTERNAL_FUNCTION | AGG | DISTINCT | FILTER | JOIN | SORT
  | UNION | UNION_ALL | INTERSECT | INTERSECT_ALL | MINUS | MINUS_ALL
  deriving DecidableEq, Repr

/-- Modelled from the spec: join types (`plan.Node_JoinType`, declared outside these files);
`INNER` is the zero value. -/
inductive JoinType where
  | INNER | LEFT | RIGHT | OUTER | SEMI | ANTI | SINGLE | MARK
  deriving DecidableEq, Repr

/-- Modelled from the spec: an `ORDER BY` entry (`plan.OrderBySpec`, declared outside these
files): an expression and its direction flag. -/
structure OrderBySpec where
  expr : Expr
  flag : Nat := 0
  deriving DecidableEq, Repr

/-- Modelled from the spec: a plan node (`plan.Node`, declared outside these files), with the
fields the two passes read or write.  The defaults are Go's zero values, which is what a node
literal leaves in the fields it does not name. -/
structure Node where
  nodeType : NodeType
  children : List Nat := []
  bindingTags : List Int := []
  projectList : List Expr := []
  onList : List Expr := []
  filterList : List Expr := []
  groupBy : List Expr := []
  groupingSet : List Expr := []
  aggList : List Expr := []
  orderBy : List OrderBySpec := []
  joinType : JoinType := JoinType.INNER
  limit : Option Expr := none
  offset : Option Expr := none
  rowsetData : Option Unit := none
  deriving DecidableEq, Repr

/-- The arena `builder.qry.Nodes`. -/
abbrev Nodes := List Node

/-- Ways a call can fail to return: a Go run-time panic, or the model's fuel running out. -/
inductive Err where
  | panic
  | fuel
  deriving DecidableEq, Repr

instance instDecidableEqExcept {ε α : Type} [DecidableEq ε] [DecidableEq α] :
    DecidableEq (Except ε α)
  | .ok a, .ok b =>
    if h : a = b then isTrue (by rw [h]) else isFalse (by intro e; cases e; exact h rfl)
  | .error a, .error b =>
    if h : a = b then isTrue (by rw [h]) else isFalse (by intro e; cases e; exact h rfl)
  | .ok _, .error _ => isFalse (by intro e; cases e)
  | .error _, .ok _ => isFalse (by intro e; cases e)

/-- The read `builder.qry.Nodes[nodeID]`. -/
def getNode (nodes : Nodes) (nodeID : Nat) : Except Err Node :=
  match nodes[nodeID]? with
  | some node => .ok node
  | none => .error .panic

/-- The read `node.Children[i]`. -/
def getChild (node : Node) (i : Nat) : Except Err Nat :=
  match node.children[i]? with
  | some c => .ok c
  | none => .error .panic

/-- The read `node.BindingTags[i]`. -/
def getTag (node : Node) (i : Nat) : Except Err Int :=
  match node.bindingTags[i]? with
  | some t => .ok t
  | none => .error .panic

/-- The write `node.Children[i] = childID` through the pointer `builder.qry.Nodes[nodeID]`. -/
def setChild (nodes : Nodes) (nodeID i childID : Nat) : Except Err Nodes :=
  match nodes[nodeID]? with
  | some node =>
    if i < node.children.length then
      .ok (nodes.set nodeID { node with children := node.children.set i childID })
    else .error .panic
  | none => .error .panic

/-- The conversion `int32(i)` of a slice index (two's complement wrap-around). -/
def int32 (i : Nat) : Int :=
  ((i + 2147483648) % 4294967296 : Nat) - 2147483648

/-! ## Substitution maps -/

/-- The substitution map `map[[2]int32]*plan.Expr`, as an association list without
repeated keys; `ProjMap.get?` is the lookup `projMap[mapID]`. -/
abbrev ProjMap := List ((Int × Int) × Expr)

/-- The lookup `projExpr, ok := projMap[mapID]`. -/
def ProjMap.get? (m : ProjMap) (k : Int × Int) : Option Expr :=
  match m with
  | [] => none
  | (k2, v) :: rest => if k = k2 then some v else ProjMap.get? rest k

/-- The assignment `projMap[k] = v`. -/
def ProjMap.set (m : ProjMap) (k : Int × Int) (v : Expr) : ProjMap :=
  (k, v) :: m.filter (fun p => !decide (p.1 = k))

/-- The loop `for ref, expr := range childProjMap { projMap[ref] = expr }`. -/
def ProjMap.merge (projMap : ProjMap) : ProjMap → ProjMap
  | [] => projMap
  | (ref, expr) :: rest => (ProjMap.merge projMap rest).set ref expr

/-! ## Projection elimination -/

mutual
/-- Embedding of `removeProjectionsForExpr`. -/
def removeProjectionsForExpr : Expr → ProjMap → Expr
  | .col t r p, projMap =>
    match projMap.get? (r, p) with
    | some projExpr => DeepCopyExpr projExpr
    | none => .col t r p
  | .f t n args, projMap => .f t n (removeProjectionsForArgs args projMap)
  | .c t v, _ => .c t v
/-- The loop `for i, arg := range ne.F.Args` inside `removeProjectionsForExpr`. -/
def removeProjectionsForArgs : List Expr → ProjMap → List Expr
  | [], _ => []
  | arg :: rest, projMap =>
    removeProjectionsForExpr arg projMap :: removeProjectionsForArgs rest projMap
end

/-- Embedding of `removeProjectionsForExprList`: every slot is overwritten by its substitution. -/
def removeProjectionsForExprList : List Expr → ProjMap → List Expr
  | [], _ => []
  | expr :: rest, projMap =>
    removeProjectionsForExpr expr projMap :: removeProjectionsForExprList rest projMap

/-- The loop `for i := range node.OrderBy` of `removeSimpleProjections`. -/
def removeProjectionsForOrderBy : List OrderBySpec → ProjMap → List OrderBySpec
  | [], _ => []
  | o :: rest, projMap =>
    { o with expr := removeProjectionsForExpr o.expr projMap } ::
      removeProjectionsForOrderBy rest projMap

/-- Embedding of `canRemoveProject`; the child is read in the current arena. -/
def canRemoveProject (nodes : Nodes) (parentType : NodeType) (node : Node) : Except Err Bool :=
  if node.nodeType ≠ .PROJECT ∨ node.limit.isSome ∨ node.offset.isSome then .ok false
  else if parentType = .DISTINCT ∨ parentType = .UNKNOWN then .ok false
  else if parentType = .UNION ∨ parentType = .UNION_ALL then .ok false
  else if parentType = .MINUS ∨ parentType = .MINUS_ALL then .ok false
  else if parentType = .INTERSECT ∨ parentType = .INTERSECT_ALL then .ok false
  else if parentType = .FUNCTION_SCAN ∨ parentType = .EXTERNAL_FUNCTION then .ok false
  else do
    let childID ← getChild node 0
    let child ← getNode nodes childID
    let childType := child.nodeType
    if childType = .VALUE_SCAN ∨ childType = .EXTERNAL_SCAN then .ok false
    else if childType = .FUNCTION_SCAN ∨ childType = .EXTERNAL_FUNCTION then .ok false
    else .ok true

/-- The loop computing `allColRef` in `removeSimpleProjections`. -/
def allColRef : List Expr → Bool
  | [] => true
  | proj :: rest => if !proj.isCol && !proj.isC then false else allColRef rest

/-- The loop `for i, proj := range node.ProjectList { projMap[[2]int32{tag, int32(i)}] = proj }`,
from position `i` on. -/
def recordProjections (tag : Int) : List Expr → Nat → ProjMap → ProjMap
  | [], _, projMap => projMap
  | proj :: rest, i, projMap => recordProjections tag rest (i + 1) (projMap.set (tag, int32 i) proj)

/-- The loop over `node.Children` in `removeSimpleProjections`: `k` iterations from index `i`,
with `rec` the recursive call. -/
def removeChildProjections (rec : Nodes → Nat → NodeType → Except Err (Nodes × Nat × ProjMap))
    (nodeID : Nat) : Nat → Nat → Nodes → ProjMap → Except Err (Nodes × ProjMap)
  | 0, _, nodes, projMap => .ok (nodes, projMap)
  | k + 1, i, nodes, projMap => do
    let node ← getNode nodes nodeID
    let childID ← getChild node i
    let (nodes1, newChildID, childProjMap) ← rec nodes childID node.nodeType
    let nodes2 ← setChild nodes1 nodeID i newChildID
    removeChildProjections rec nodeID k (i + 1) nodes2 (projMap.merge childProjMap)

/-- The six calls of `removeProjectionsForExprList` and the `OrderBy` loop on one node. -/
def Node.removeProjections (node : Node) (projMap : ProjMap) : Node :=
  { node with
    projectList := removeProjectionsForExprList node.projectList projMap
    onList := removeProjectionsForExprList node.onList projMap
    filterList := removeProjectionsForExprList node.filterList projMap
    groupBy := removeProjectionsForExprList node.groupBy projMap
    groupingSet := removeProjectionsForExprList node.groupingSet projMap
    aggList := removeProjectionsForExprList node.aggList projMap
    orderBy := removeProjectionsForOrderBy node.orderBy projMap }

/-- The tail of `removeSimpleProjections`, after the children: substitution in the node's own
lists, then the decision to elide the node. -/
def removeProjectionsAt (nodes1 : Nodes) (nodeID : Nat) (parentType : NodeType)
    (projMap : ProjMap) : Except Err (Nodes × Nat × ProjMap) := do
  let node1 ← getNode nodes1 nodeID
  let node2 := node1.removeProjections projMap
  let nodes2 := nodes1.set nodeID node2
  if ← canRemoveProject nodes2 parentType node2 then
    if allColRef node2.projectList then
      let tag ← getTag node2 0
      let projMap2 := recordProjections tag node2.projectList 0 projMap
      let childID ← getChild node2 0
      return (nodes2, childID, projMap2)
    else return (nodes2, nodeID, projMap)
  else return (nodes2, nodeID, projMap)

/-- Embedding of `removeSimpleProjections`. -/
def removeSimpleProjections :
    Nat → Nodes → Nat → NodeType → Except Err (Nodes × Nat × ProjMap)
  | 0, _, _, _ => .error .fuel
  | fuel + 1, nodes, nodeID, parentType => do
    let node ← getNode nodes nodeID
    let (nodes1, projMap) ←
      removeChildProjections (removeSimpleProjections fuel) nodeID node.children.length 0 nodes []
    removeProjectionsAt nodes1 nodeID parentType projMap

/-! ## Filter pushdown -/

/-- Modelled from the spec: the join-side classification (NONE, LEFT, RIGHT, BOTH, MARK) that
`getJoinSide` returns; its constants are declared outside these files.  The source treats
it as a set of bit flags (`side&JoinSideLeft`), with `JoinSideBoth` the union of left and
right; `other` stands for any further flag. -/
structure JoinSide where
  left : Bool := false
  right : Bool := false
  mark : Bool := false
  other : Bool := false
  deriving DecidableEq, Repr

/-- The constant `JoinSideNone`. -/
def JoinSideNone : JoinSide := {}

/-- The constant `JoinSideLeft`. -/
def JoinSideLeft : JoinSide := { left := true }

/-- The constant `JoinSideRight`. -/
def JoinSideRight : JoinSide := { right := true }

/-- The constant `JoinSideBoth`. -/
def JoinSideBoth : JoinSide := { left := true, right := true }

/-- The constant `JoinSideMark`. -/
def JoinSideMark : JoinSide := { mark := true }

/-- The functions `pushdownFilters` calls that are defined outside these files, taken as
parameters.  Tag sets (`map[int32]*Binding` used for membership only) are lists of tags;
`walkThroughDNF` returns `none` for a nil expression. -/
structure Helpers where
  containsTag : Expr → Int → Bool
  replaceColRefs : Expr → Int → List Expr → Expr
  replaceColRefsForSet : Expr → List Expr → Expr
  splitPlanConjunction : Expr → List Expr
  splitPlanConjunctions : List Expr → List Expr
  applyDistributivity : Expr → Expr
  getJoinSide : Expr → List Int → List Int → Int → JoinSide
  rejectsNull : Expr → Bool
  checkDNF : Expr → List String
  walkThroughDNF : Expr → String → Option Expr
  predsDeduction : List Expr → List Expr → List Expr
  enumerateTags : Nodes → Nat → List Int

/-- Modelled from the spec: `appendNode` is defined outside these files; it appends the node
to the arena and returns the id of the new slot. -/
def appendNode (nodes : Nodes) (node : Node) : Nodes × Nat :=
  (nodes ++ [node], nodes.length)

/-- The write of one field group through the pointer `builder.qry.Nodes[nodeID]`. -/
def modifyNode (nodes : Nodes) (nodeID : Nat) (g : Node → Node) : Except Err Nodes :=
  match nodes[nodeID]? with
  | some node => .ok (nodes.set nodeID (g node))
  | none => .error .panic

/-- The result type of `pushdownFilters`: the arena, the returned node id and the filters
that could not be placed. -/
abbrev Pushed := Except Err (Nodes × Nat × List Expr)

/-- The block that follows every push into a child slot `i`: the recursive call on
`node.Children[i]`, a new `FILTER` node over `node.Children[i]` when the call returns residue,
and the write of `node.Children[i]`. -/
def pushToChild (rec : Nodes → Nat → List Expr → Pushed) (nodes : Nodes) (nodeID i : Nat)
    (canPushdown : List Expr) : Except Err Nodes := do
  let node ← getNode nodes nodeID
  let c ← getChild node i
  let (nodes1, childID, cantPushdownChild) ← rec nodes c canPushdown
  if cantPushdownChild.length > 0 then
    let node1 ← getNode nodes1 nodeID
    let c1 ← getChild node1 i
    let (nodes2, newID) := appendNode nodes1
      { nodeType := .FILTER, children := [c1], filterList := cantPushdownChild }
    setChild nodes2 nodeID i newID
  else
    setChild nodes1 nodeID i childID

/-- The loop of the `AGG` case: a filter without the aggregate tag is rewritten over the
group-by list and pushed, the others are kept. -/
def splitAggFilters (h : Helpers) (groupTag aggregateTag : Int) (groupBy : List Expr) :
    List Expr → List Expr → List Expr → List Expr × List Expr
  | [], canPushdown, cantPushdown => (canPushdown, cantPushdown)
  | filter :: rest, canPushdown, cantPushdown =>
    if !h.containsTag filter aggregateTag then
      splitAggFilters h groupTag aggregateTag groupBy rest
        (canPushdown ++ [h.replaceColRefs filter groupTag groupBy]) cantPushdown
    else
      splitAggFilters h groupTag aggregateTag groupBy rest canPushdown (cantPushdown ++ [filter])

/-- The loops `for _, cond := range list { out = append(out,
splitPlanConjunction(applyDistributivity(ctx, cond))...) }`. -/
def appendConjuncts (h : Helpers) : List Expr → List Expr → List Expr
  | out, [] => out
  | out, cond :: rest =>
    appendConjuncts h (out ++ h.splitPlanConjunction (h.applyDistributivity cond)) rest

/-- The inner loop of the first pass over a join's filters: some argument of the call is
classified `JoinSideBoth`. -/
def anyArgBoth (h : Helpers) (leftTags rightTags : List Int) (markTag : Int) : List Expr → Bool
  | [] => false
  | arg :: rest =>
    if h.getJoinSide arg leftTags rightTags markTag = JoinSideBoth then true
    else anyArgBoth h leftTags rightTags markTag rest

/-- The value of `canTurnInner` for one filter. -/
def canTurnInner (h : Helpers) (leftTags rightTags : List Int) (markTag : Int)
    (filter : Expr) : Bool :=
  (match filter with
    | .f _ _ args => !anyArgBoth h leftTags rightTags markTag args
    | _ => true) && h.rejectsNull filter

/-- The value of `leftOrRightJoin` for a filter of side `side`. -/
def leftOrRightJoin (joinType : JoinType) (side : JoinSide) : Bool :=
  (decide (joinType = .LEFT) && side.right) || (decide (joinType = .RIGHT) && side.left)

/-- The first loop over a join's filters reaches its `break`: some filter can turn the join
into an inner join. -/
def turnsInner (h : Helpers) (joinType : JoinType) (leftTags rightTags : List Int)
    (markTag : Int) : List Expr → Bool
  | [] => false
  | filter :: rest =>
    if canTurnInner h leftTags rightTags markTag filter &&
        leftOrRightJoin joinType (h.getJoinSide filter leftTags rightTags markTag) then true
    else turnsInner h joinType leftTags rightTags markTag rest

/-- The loop over the conjuncts of a `LEFT` join's on-list: a conjunct that does not touch
the left side goes to `rightPushdown`, the others to `newOnList`. -/
def splitOnConjuncts (h : Helpers) (leftTags rightTags : List Int) (markTag : Int) :
    List Expr → List Expr → List Expr → List Expr × List Expr
  | [], rightPushdown, newOnList => (rightPushdown, newOnList)
  | conjElem :: rest, rightPushdown, newOnList =>
    if !(h.getJoinSide conjElem leftTags rightTags markTag).left then
      splitOnConjuncts h leftTags rightTags markTag rest (rightPushdown ++ [conjElem]) newOnList
    else
      splitOnConjuncts h leftTags rightTags markTag rest rightPushdown (newOnList ++ [conjElem])

/-- The inner loop `for _, key := range keys` of the DNF extraction. -/
def walkKeys (h : Helpers) (filter : Expr) : List String → List Expr
  | [] => []
  | key :: rest =>
    match h.walkThroughDNF filter key with
    | some extraFilter => extraFilter :: walkKeys h filter rest
    | none => walkKeys h filter rest

/-- The DNF extraction loop: the extra filters found for the filters classified
`JoinSideBoth` that are calls of `or`, before their deep copy. -/
def dnfExtras (h : Helpers) : List (Expr × JoinSide) → List Expr
  | [] => []
  | (filter, side) :: rest =>
    if side ≠ JoinSideBoth then dnfExtras h rest
    else
      match filter with
      | .f _ objName _ =>
        if objName = "or" then walkKeys h filter (h.checkDNF filter) ++ dnfExtras h rest
        else dnfExtras h rest
      | _ => dnfExtras h rest

/-- The fields of a join node and the three filter lists that the placement loop updates. -/
structure JoinState where
  joinType : JoinType
  bindingTags : List Int
  onList : List Expr
  leftPushdown : List Expr := []
  rightPushdown : List Expr := []
  cantPushdown : List Expr := []
  deriving DecidableEq, Repr

/-- The test for the boolean constant `true` (`Expr_C` holding `Const_Bval` with `Bval`). -/
def isTrueConst : Expr → Bool
  | .c _ (.bval true) => true
  | _ => false

/-- The statement `cantPushdown = append(cantPushdown, filter)`. -/
def JoinState.keep (st : JoinState) (filter : Expr) : JoinState :=
  { st with cantPushdown := st.cantPushdown ++ [filter] }

/-- One iteration of the placement loop of the `JOIN` case, for a filter and its side. -/
def placeFilter (h : Helpers) (separateNonEquiConds : Bool) (leftTags rightTags : List Int)
    (markTag : Int) (st : JoinState) (filter : Expr) (side : JoinSide) : Except Err JoinState :=
  if side = JoinSideNone then
    if isTrueConst filter then .ok st
    else
      match st.joinType with
      | .INNER =>
        .ok { st with
          leftPushdown := st.leftPushdown ++ [DeepCopyExpr filter]
          rightPushdown := st.rightPushdown ++ [filter] }
      | .LEFT | .SEMI | .ANTI | .SINGLE | .MARK =>
        .ok { st with leftPushdown := st.leftPushdown ++ [filter] }
      | _ => .ok (st.keep filter)
  else if side = JoinSideLeft then
    if st.joinType ≠ .OUTER ∧ st.joinType ≠ .RIGHT then
      .ok { st with leftPushdown := st.leftPushdown ++ [filter] }
    else .ok (st.keep filter)
  else if side = JoinSideRight then
    if st.joinType = .INNER ∨ st.joinType = .RIGHT then
      .ok { st with rightPushdown := st.rightPushdown ++ [filter] }
    else .ok (st.keep filter)
  else if side = JoinSideBoth then
    if st.joinType = .INNER then
      if separateNonEquiConds then
        match filter with
        | .f _ objName args =>
          if objName = "=" then
            match args[0]? with
            | none => .error .panic
            | some arg0 =>
              if h.getJoinSide arg0 leftTags rightTags markTag ≠ JoinSideBoth then
                match args[1]? with
                | none => .error .panic
                | some arg1 =>
                  if h.getJoinSide arg1 leftTags rightTags markTag ≠ JoinSideBoth then
                    .ok { st with onList := st.onList ++ [filter] }
                  else .ok (st.keep filter)
              else .ok (st.keep filter)
          else .ok (st.keep filter)
        | _ => .ok (st.keep filter)
      else .ok { st with onList := st.onList ++ [filter] }
    else .ok (st.keep filter)
  else if side = JoinSideMark then
    match filter with
    | .col _ relPos _ =>
      match st.bindingTags[0]? with
      | none => .error .panic
      | some tag =>
        if relPos = tag then .ok { st with joinType := .SEMI, bindingTags := [] }
        else .ok (st.keep filter)
    | .f typ objName args =>
      if typ.notNullable && decide (objName = "not") then
        match args[0]? with
        | none => .error .panic
        | some (Expr.col _ relPos _) =>
          match st.bindingTags[0]? with
          | none => .error .panic
          | some tag =>
            if relPos = tag then .ok { st with joinType := .ANTI, bindingTags := [] }
            else .ok (st.keep filter)
        | some _ => .ok (st.keep filter)
      else .ok (st.keep filter)
    | _ => .ok (st.keep filter)
  else .ok (st.keep filter)

/-- The placement loop `for i, filter := range filters { switch joinSides[i] ... }`. -/
def placeFilters (h : Helpers) (separateNonEquiConds : Bool) (leftTags rightTags : List Int)
    (markTag : Int) : JoinState → List (Expr × JoinSide) → Except Err JoinState
  | st, [] => .ok st
  | st, (filter, side) :: rest => do
    let st1 ← placeFilter h separateNonEquiConds leftTags rightTags markTag st filter side
    placeFilters h separateNonEquiConds leftTags rightTags markTag st1 rest

/-- The part of the `JOIN` case that precedes the recursive calls: on-list normalisation,
strength reduction, DNF extraction and placement.  It returns the join's new `JoinType`,
`BindingTags` and `OnList` and the lists `leftPushdown`, `rightPushdown`, `cantPushdown`. -/
def classifyJoinFilters (h : Helpers) (separateNonEquiConds : Bool)
    (leftTags rightTags : List Int) (markTag : Int) (node : Node) (filters : List Expr) :
    Except Err JoinState :=
  let onList0 := h.splitPlanConjunctions node.onList
  let filters1 := if node.joinType = .INNER then appendConjuncts h filters onList0 else filters
  let onList1 := if node.joinType = .INNER then [] else onList0
  let turnInner := turnsInner h node.joinType leftTags rightTags markTag filters1
  let filters2 := if turnInner then appendConjuncts h filters1 onList1 else filters1
  let joinType2 := if turnInner then JoinType.INNER else node.joinType
  let split :=
    if turnInner then ([], [])
    else if node.joinType = .LEFT then
      splitOnConjuncts h leftTags rightTags markTag (appendConjuncts h [] onList1) [] []
    else ([], onList1)
  let joinSides := filters2.map (fun filter => h.getJoinSide filter leftTags rightTags markTag)
  let extraFilters := if separateNonEquiConds then [] else dnfExtras h (filters2.zip joinSides)
  let filters3 := filters2 ++ extraFilters.map DeepCopyExpr
  let joinSides3 := joinSides ++
    extraFilters.map (fun extraFilter => h.getJoinSide extraFilter leftTags rightTags markTag)
  placeFilters h separateNonEquiConds leftTags rightTags markTag
    { joinType := joinType2, bindingTags := node.bindingTags, onList := split.2,
      rightPushdown := split.1 }
    (filters3.zip joinSides3)

/-- The two advisory calls of the `JOIN` case on an inner join: their returned ids and
residues are dropped, their effect on the arena stays. -/
def pushDeduced (h : Helpers) (rec : Nodes → Nat → List Expr → Pushed) (nodes : Nodes)
    (nodeID : Nat) (leftPushdown rightPushdown : List Expr) : Except Err Nodes := do
  let node ← getNode nodes nodeID
  if node.joinType = .INNER then
    let c0 ← getChild node 0
    let (nodes1, _, _) ← rec nodes c0 (h.predsDeduction rightPushdown node.onList)
    let node1 ← getNode nodes1 nodeID
    let c1 ← getChild node1 1
    let (nodes2, _, _) ← rec nodes1 c1 (h.predsDeduction leftPushdown node1.onList)
    return nodes2
  else return nodes

/-- The `AGG` case of `pushdownFilters`. -/
def pushdownAgg (h : Helpers) (rec : Nodes → Nat → List Expr → Pushed) (nodes : Nodes)
    (nodeID : Nat) (node : Node) (filters : List Expr) : Pushed := do
  let groupTag ← getTag node 0
  let aggregateTag ← getTag node 1
  let split := splitAggFilters h groupTag aggregateTag node.groupBy filters [] []
  let nodes1 ← pushToChild rec nodes nodeID 0 split.1
  return (nodes1, nodeID, split.2)

/-- The `FILTER` case of `pushdownFilters`. -/
def pushdownFilter (h : Helpers) (rec : Nodes → Nat → List Expr → Pushed) (nodes : Nodes)
    (nodeID : Nat) (node : Node) (filters : List Expr) : Pushed := do
  let canPushdown := appendConjuncts h filters node.filterList
  let c ← getChild node 0
  let (nodes1, childID, cantPushdownChild) ← rec nodes c canPushdown
  if cantPushdownChild.length > 0 then
    let nodes2 ← setChild nodes1 nodeID 0 childID
    let nodes3 ← modifyNode nodes2 nodeID (fun n => { n with filterList := cantPushdownChild })
    return (nodes3, nodeID, [])
  else
    return (nodes1, childID, [])

/-- The statement `if node.JoinType == plan.Node_MARK { markTag = node.BindingTags[0] }`. -/
def getMarkTag (node : Node) : Except Err Int :=
  if node.joinType = .MARK then getTag node 0 else .ok 0

/-- The `JOIN` case of `pushdownFilters`. -/
def pushdownJoin (h : Helpers) (separateNonEquiConds : Bool)
    (rec : Nodes → Nat → List Expr → Pushed) (nodes : Nodes) (nodeID : Nat) (node : Node)
    (filters : List Expr) : Pushed := do
  let c0 ← getChild node 0
  let leftTags := h.enumerateTags nodes c0
  let c1 ← getChild node 1
  let rightTags := h.enumerateTags nodes c1
  let markTag ← getMarkTag node
  let st ← classifyJoinFilters h separateNonEquiConds leftTags rightTags markTag node filters
  let nodes1 ← modifyNode nodes nodeID (fun n =>
    { n with joinType := st.joinType, bindingTags := st.bindingTags, onList := st.onList })
  let nodes2 ← pushDeduced h rec nodes1 nodeID st.leftPushdown st.rightPushdown
  let nodes3 ← pushToChild rec nodes2 nodeID 0 st.leftPushdown
  let nodes4 ← pushToChild rec nodes3 nodeID 1 st.rightPushdown
  return (nodes4, nodeID, st.cantPushdown)

/-- The case of `pushdownFilters` for the set operations `UNION`, `UNION_ALL`, `MINUS`,
`MINUS_ALL`, `INTERSECT`, `INTERSECT_ALL`. -/
def pushdownSetOp (h : Helpers) (rec : Nodes → Nat → List Expr → Pushed) (nodes : Nodes)
    (nodeID : Nat) (node : Node) (filters : List Expr) : Pushed := do
  let c0 ← getChild node 0
  let leftChild ← getNode nodes c0
  let c1 ← getChild node 1
  let rightChild ← getNode nodes c1
  let canPushdown := filters.map (fun filter =>
    h.replaceColRefsForSet (DeepCopyExpr filter) leftChild.projectList)
  let canPushDownRight := filters.map (fun filter =>
    h.replaceColRefsForSet filter rightChild.projectList)
  let nodes1 ← pushToChild rec nodes nodeID 0 canPushdown
  let nodes2 ← pushToChild rec nodes1 nodeID 1 canPushDownRight
  return (nodes2, nodeID, [])

/-- The `PROJECT` case of `pushdownFilters`. -/
def pushdownProject (h : Helpers) (rec : Nodes → Nat → List Expr → Pushed) (nodes : Nodes)
    (nodeID : Nat) (node : Node) (filters : List Expr) : Pushed := do
  let c0 ← getChild node 0
  let child ← getNode nodes c0
  if (child.nodeType = .VALUE_SCAN ∨ child.nodeType = .EXTERNAL_SCAN) ∧
      child.rowsetData = none then
    return (nodes, nodeID, filters)
  else
    let projectTag ← getTag node 0
    let canPushdown := filters.map (fun filter =>
      h.replaceColRefs filter projectTag node.projectList)
    let nodes1 ← pushToChild rec nodes nodeID 0 canPushdown
    return (nodes1, nodeID, [])

/-- The `TABLE_SCAN`, `EXTERNAL_SCAN` case of `pushdownFilters`. -/
def pushdownScan (nodes : Nodes) (nodeID : Nat) (filters : List Expr) : Pushed := do
  let nodes1 ← modifyNode nodes nodeID (fun n => { n with filterList := n.filterList ++ filters })
  return (nodes1, nodeID, [])

/-- The `FUNCTION_SCAN` case of `pushdownFilters`.  The second value of the recursive call is
named `err` in the source and tested against nil; the call is made with nil filters, for
which every case returns a residue that is nil exactly when it is empty. -/
def pushdownFunctionScan (rec : Nodes → Nat → List Expr → Pushed) (nodes : Nodes)
    (nodeID : Nat) (node : Node) (filters : List Expr) : Pushed := do
  let nodes1 ← modifyNode nodes nodeID (fun n => { n with filterList := n.filterList ++ filters })
  let childId ← getChild node 0
  let (nodes2, childId2, err) ← rec nodes1 childId []
  if err ≠ [] then
    return (nodes2, 0, err)
  else
    let nodes3 ← setChild nodes2 nodeID 0 childId2
    return (nodes3, nodeID, [])

/-- The `default` case of `pushdownFilters`. -/
def pushdownDefault (rec : Nodes → Nat → List Expr → Pushed) (nodes : Nodes)
    (nodeID : Nat) (node : Node) (filters : List Expr) : Pushed := do
  if node.children.length > 0 then
    let nodes1 ← pushToChild rec nodes nodeID 0 filters
    return (nodes1, nodeID, [])
  else
    return (nodes, nodeID, filters)

/-- Embedding of `pushdownFilters`: the `switch node.NodeType` over the cases above. -/
def pushdownFilters (h : Helpers) (separateNonEquiConds : Bool) :
    Nat → Nodes → Nat → List Expr → Pushed
  | 0, _, _, _ => .error .fuel
  | fuel + 1, nodes, nodeID, filters => do
    let node ← getNode nodes nodeID
    match node.nodeType with
    | .AGG =>
      pushdownAgg h (pushdownFilters h separateNonEquiConds fuel) nodes nodeID node filters
    | .FILTER =>
      pushdownFilter h (pushdownFilters h separateNonEquiConds fuel) nodes nodeID node filters
    | .JOIN =>
      pushdownJoin h separateNonEquiConds (pushdownFilters h separateNonEquiConds fuel)
        nodes nodeID node filters
    | .UNION | .UNION_ALL | .MINUS | .MINUS_ALL | .INTERSECT | .INTERSECT_ALL =>
      pushdownSetOp h (pushdownFilters h separateNonEquiConds fuel) nodes nodeID node filters
    | .PROJECT =>
      pushdownProject h (pushdownFilters h separateNonEquiConds fuel) nodes nodeID node filters
    | .TABLE_SCAN | .EXTERNAL_SCAN => pushdownScan nodes nodeID filters
    | .FUNCTION_SCAN =>
      pushdownFunctionScan (pushdownFilters h separateNonEquiConds fuel) nodes nodeID node
        filters
    | _ => pushdownDefault (pushdownFilters h separateNonEquiConds fuel) nodes nodeID node filters

/-! ## Well-formed plans -/

/-- A plan is well formed with respect to a rank on node ids when every child id of every
node is an index of the arena and has a smaller rank than its parent (the plan is a finite
tree or DAG), and every `PROJECT` node has a child and a binding tag. -/
def WellFormed (rank : Nat → Nat) (nodes : Nodes) : Prop :=
  ∀ p ∈ nodes.enum,
    (∀ c ∈ p.2.children, c < nodes.length ∧ rank c < rank p.1) ∧
      (p.2.nodeType = .PROJECT → p.2.children ≠ [] ∧ p.2.bindingTags ≠ [])

instance instDecidableWellFormed (rank : Nat → Nat) (nodes : Nodes) :
    Decidable (WellFormed rank nodes) := by
  unfold WellFormed
  infer_instance

/-- The arena `nodes1` extends `nodes`: every node of `nodes` is still at its index in
`nodes1`, with the same kind and as many child slots. -/
def Extends (nodes nodes1 : Nodes) : Prop :=
  ∀ (j : Nat) (node : Node), nodes[j]? = some node →
    ∃ node1 : Node, nodes1[j]? = some node1 ∧ node1.nodeType = node.nodeType ∧
      node1.children.length = node.children.length

/-- The value of `filters` when the placement loop of the `JOIN` case starts: the incoming
filters, the on-list conjuncts folded in for an inner or strength-reduced join, and the
copies of the DNF extras. -/
def joinFilters (h : Helpers) (separateNonEquiConds : Bool) (leftTags rightTags : List Int)
    (markTag : Int) (node : Node) (filters : List Expr) : List Expr :=
  let onList0 := h.splitPlanConjunctions node.onList
  let filters1 := if node.joinType = .INNER then appendConjuncts h filters onList0 else filters
  let onList1 := if node.joinType = .INNER then [] else onList0
  let turnInner := turnsInner h node.joinType leftTags rightTags markTag filters1
  let filters2 := if turnInner then appendConjuncts h filters1 onList1 else filters1
  let joinSides := filters2.map (fun filter => h.getJoinSide filter leftTags rightTags markTag)
  let extraFilters := if separateNonEquiConds then [] else dnfExtras h (filters2.zip joinSides)
  filters2 ++ extraFilters.map DeepCopyExpr

/-- The join's `JoinType`, `BindingTags`, `OnList` and the list `rightPushdown` when the
placement loop of the `JOIN` case starts; `leftPushdown` and `cantPushdown` are empty. -/
def joinStart (h : Helpers) (leftTags rightTags : List Int) (markTag : Int) (node : Node)
    (filters : List Expr) : JoinState :=
  let onList0 := h.splitPlanConjunctions node.onList
  let filters1 := if node.joinType = .INNER then appendConjuncts h filters onList0 else filters
  let onList1 := if node.joinType = .INNER then [] else onList0
  let turnInner := turnsInner h node.joinType leftTags rightTags markTag filters1
  let joinType2 := if turnInner then JoinType.INNER else node.joinType
  let split :=
    if turnInner then ([], [])
    else if node.joinType = .LEFT then
      splitOnConjuncts h leftTags rightTags markTag (appendConjuncts h [] onList1) [] []
    else ([], onList1)
  { joinType := joinType2, bindingTags := node.bindingTags, onList := split.2,
    rightPushdown := split.1 }

/-! ## Tree-shaped plans -/

/-- The kinds of the `default` case of `pushdownFilters`. -/
def NodeType.isOther : NodeType → Bool
  | .UNKNOWN | .VALUE_SCAN | .EXTERNAL_FUNCTION | .DISTINCT | .SORT => true
  | _ => false

/-- The kinds of the case of `pushdownFilters` for the set operations. -/
def NodeType.isSetOp : NodeType → Bool
  | .UNION | .UNION_ALL | .MINUS | .MINUS_ALL | .INTERSECT | .INTERSECT_ALL => true
  | _ => false

/-- The kinds of the nodes that `pushdownFilters` treats as the parent of one child: `AGG`,
`PROJECT`, and the kinds of the `default` case. -/
def NodeType.isUnary (k : NodeType) : Bool :=
  decide (k = .AGG) || decide (k = .PROJECT) || k.isOther

/-- The shape of a plan tree without `FUNCTION_SCAN` nodes: the ids of its nodes, arranged as
the tree that the child pointers draw.  A `scan` is a `TABLE_SCAN` or `EXTERNAL_SCAN`, a
`leaf` a node of a kind of the `default` case without children, a `unary` an `AGG`, a
`PROJECT` or a node of a kind of the `default` case with one child, a `setop` a set
operation. -/
inductive Shape where
  | scan (id : Nat)
  | leaf (id : Nat)
  | filter (id : Nat) (child : Shape)
  | unary (id : Nat) (child : Shape)
  | join (id : Nat) (left right : Shape)
  | setop (id : Nat) (left right : Shape)
  deriving DecidableEq, Repr

/-- The id of the root of a shape. -/
def Shape.root : Shape → Nat
  | .scan id => id
  | .leaf id => id
  | .filter id _ => id
  | .unary id _ => id
  | .join id _ _ => id
  | .setop id _ _ => id

/-- The ids of the nodes of a shape, root first. -/
def Shape.ids : Shape → List Nat
  | .scan id => [id]
  | .leaf id => [id]
  | .filter id c => id :: c.ids
  | .unary id c => id :: c.ids
  | .join id l r => id :: (l.ids ++ r.ids)
  | .setop id l r => id :: (l.ids ++ r.ids)

/-- The root of the shape is of a kind whose case may return filters unplaced: a join, an
`AGG`, a `PROJECT`, or a node of a kind of the `default` case. -/
def Shape.mayKeep : Shape → Bool
  | .join _ _ _ => true
  | .unary _ _ => true
  | .leaf _ => true
  | _ => false

/-- A bound on the depth that the recursion of `pushdownFilters` reaches on a shape, now and
after any number of calls: one level per node, and one more for the `FILTER` that a node may
receive above a child whose case may return filters unplaced. -/
def Shape.bound : Shape → Nat
  | .scan _ => 1
  | .leaf _ => 1
  | .filter _ c => c.bound + 1
  | .unary _ c => c.bound + (if c.mayKeep then 1 else 0) + 1
  | .join _ l r =>
    max (l.bound + (if l.mayKeep then 1 else 0)) (r.bound + (if r.mayKeep then 1 else 0)) + 1
  | .setop _ l r =>
    max (l.bound + (if l.mayKeep then 1 else 0)) (r.bound + (if r.mayKeep then 1 else 0)) + 1

/-- The bound of a shape as the child of a node that may put a `FILTER` above it. -/
def Shape.slot (t : Shape) : Nat := t.bound + (if t.mayKeep then 1 else 0)

/-- The arena holds the shape: each id holds a node of the kind the shape says, whose child
pointers are the roots of the sub-shapes; a `MARK` join has a binding tag. -/
def Shape.fits (nodes : Nodes) : Shape → Bool
  | .scan id =>
    match nodes[id]? with
    | some n => decide (n.nodeType = .TABLE_SCAN) || decide (n.nodeType = .EXTERNAL_SCAN)
    | none => false
  | .leaf id =>
    match nodes[id]? with
    | some n => n.nodeType.isOther && decide (n.children = [])
    | none => false
  | .filter id c =>
    (match nodes[id]? with
      | some n => decide (n.nodeType = .FILTER) && decide (n.children = [c.root])
      | none => false) && c.fits nodes
  | .unary id c =>
    (match nodes[id]? with
      | some n => n.nodeType.isUnary && decide (n.children = [c.root])
      | none => false) && c.fits nodes
  | .join id l r =>
    (match nodes[id]? with
      | some n => decide (n.nodeType = .JOIN) && decide (n.children = [l.root, r.root]) &&
          (!decide (n.joinType = .MARK) || !n.bindingTags.isEmpty)
      | none => false) && l.fits nodes && r.fits nodes
  | .setop id l r =>
    (match nodes[id]? with
      | some n => n.nodeType.isSetOp && decide (n.children = [l.root, r.root])
      | none => false) && l.fits nodes && r.fits nodes

/-- The predicates that the node `i` of the arena holds: its filterList and, for a join, its
on-list. -/
def nodePreds (nodes : Nodes) (i : Nat) : List Expr :=
  match nodes[i]? with
  | some n => n.filterList ++ (if n.nodeType = .JOIN then n.onList else [])
  | none => []

/-- The predicates held by the nodes of a shape. -/
def Shape.preds (nodes : Nodes) (t : Shape) : List Expr := t.ids.flatMap (nodePreds nodes)

/-- The arena holds the shape as a tree: no id occurs twice. -/
def Shape.Good (nodes : Nodes) (t : Shape) : Prop := t.fits nodes = true ∧ t.ids.Nodup

/-- The binding tags of the node `i`, or `below` when it has none. -/
def ownTags (nodes : Nodes) (i : Nat) (below : List Int) : List Int :=
  match nodes[i]? with
  | some n => if n.bindingTags.isEmpty then below else n.bindingTags
  | none => []

/-- The binding tags in sight from the root of a shape, from left to right: those of a node
that carries binding tags, followed for a join by those in sight from its children; those in
sight from the children of a node without binding tags; a `FILTER` is looked through. -/
def Shape.tags (nodes : Nodes) : Shape → List Int
  | .scan id =>
    match nodes[id]? with
    | some n => n.bindingTags
    | none => []
  | .leaf id =>
    match nodes[id]? with
    | some n => n.bindingTags
    | none => []
  | .filter _ c => c.tags nodes
  | .unary id c => ownTags nodes id (c.tags nodes)
  | .join id l r =>
    (match nodes[id]? with
      | some n => n.bindingTags
      | none => []) ++ (l.tags nodes ++ r.tags nodes)
  | .setop id l r => ownTags nodes id (l.tags nodes ++ r.tags nodes)

/-- The conjuncts that the node `i` of the arena holds: for a `FILTER`, the conjuncts of the
entries of its filterList, as the loop of the `FILTER` case collects them; for another node,
the entries of its filterList and, for a join, of its on-list. -/
def nodeConjuncts (h : Helpers) (nodes : Nodes) (i : Nat) : List Expr :=
  match nodes[i]? with
  | some n =>
    if n.nodeType = .FILTER then appendConjuncts h [] n.filterList
    else n.filterList ++ (if n.nodeType = .JOIN then n.onList else [])
  | none => []

/-- The conjuncts held by the nodes of a shape. -/
def Shape.conjuncts (h : Helpers) (nodes : Nodes) (t : Shape) : List Expr :=
  t.ids.flatMap (nodeConjuncts h nodes)

/-- The mark tags of the `MARK` joins of a shape: the first binding tag of each. -/
def Shape.marks (nodes : Nodes) : Shape → List Int
  | .scan _ => []
  | .leaf _ => []
  | .filter _ c => c.marks nodes
  | .unary _ c => c.marks nodes
  | .setop _ l r => l.marks nodes ++ r.marks nodes
  | .join id l r =>
    (match nodes[id]? with
      | some n => if n.joinType = .MARK then n.bindingTags.take 1 else []
      | none => []) ++ (l.marks nodes ++ r.marks nodes)

/-- The shape is made of joins, `FILTER` nodes and scans, and only the `MARK` joins among the
joins carry binding tags. -/
def Shape.plain (nodes : Nodes) : Shape → Bool
  | .scan _ => true
  | .leaf _ => false
  | .filter _ c => c.plain nodes
  | .unary _ _ => false
  | .setop _ _ _ => false
  | .join id l r =>
    (match nodes[id]? with
      | some n => decide (n.joinType = .MARK) || n.bindingTags.isEmpty
      | none => true) && l.plain nodes && r.plain nodes

/-- No `FILTER` of the shape carries a binding tag, and the scans have no children. -/
def Shape.bare (nodes : Nodes) : Shape → Bool
  | .scan id =>
    match nodes[id]? with
    | some n => n.children.isEmpty
    | none => true
  | .leaf _ => true
  | .filter id c =>
    (match nodes[id]? with
      | some n => n.bindingTags.isEmpty
      | none => true) && c.bare nodes
  | .unary _ c => c.bare nodes
  | .join _ l r => l.bare nodes && r.bare nodes
  | .setop _ l r => l.bare nodes && r.bare nodes

/-- The predicate `p` is a conjunct that the normalisation helpers leave in place: it is
among its own conjuncts, and `splitPlanConjunctions` keeps it in every list that holds it. -/
def Helpers.ownConjunct (h : Helpers) (p : Expr) : Prop :=
  p ∈ h.splitPlanConjunction (h.applyDistributivity p) ∧
    ∀ l : List Expr, p ∈ l → p ∈ h.splitPlanConjunctions l

/-- With the mark tag `mt`, `getJoinSide` classifies `p` as NONE, LEFT, RIGHT or BOTH, whatever
the tags of the two sides. -/
def Helpers.sidedAt (h : Helpers) (p : Expr) (mt : Int) : Prop :=
  ∀ lt rt : List Int, h.getJoinSide p lt rt mt = JoinSideNone ∨
    h.getJoinSide p lt rt mt = JoinSideLeft ∨ h.getJoinSide p lt rt mt = JoinSideRight ∨
    h.getJoinSide p lt rt mt = JoinSideBoth

/-- The predicates that the no-loss property follows through a call: `p` is its own conjunct,
is classified NONE, LEFT, RIGHT or BOTH for the mark tag 0 of the joins that are no `MARK`
joins and for each mark tag in `marks`, and is not the literal `true`. -/
def Helpers.tracks (h : Helpers) (marks : List Int) (p : Expr) : Prop :=
  h.ownConjunct p ∧ (∀ mt : Int, mt = 0 ∨ mt ∈ marks → h.sidedAt p mt) ∧
    isTrueConst p = false

/-- A second run derives nothing from the predicate `q`: `q` is its own single conjunct, and
the DNF extraction finds no conjunct in it. -/
def Helpers.calm (h : Helpers) (q : Expr) : Prop :=
  h.splitPlanConjunction (h.applyDistributivity q) = [q] ∧ walkKeys h q (h.checkDNF q) = []

/-- A second run derives nothing from the node `i`: the entries of a `FILTER` are calm; the
on-list of a join is returned as it is by `splitPlanConjunctions`, its entries are calm, and
for an inner join `predsDeduction` deduces nothing from it and no filter. -/
def nodeCalm (h : Helpers) (nodes : Nodes) (i : Nat) : Prop :=
  ∀ n, nodes[i]? = some n →
    (n.nodeType = .FILTER → ∀ q ∈ n.filterList, h.calm q) ∧
    (n.nodeType = .JOIN → h.splitPlanConjunctions n.onList = n.onList ∧
      (∀ q ∈ n.onList, h.calm q) ∧
      (n.joinType = .INNER → h.predsDeduction [] n.onList = []))

/-- A second run derives nothing from the nodes of the shape. -/
def Shape.calm (h : Helpers) (nodes : Nodes) (t : Shape) : Prop :=
  ∀ i ∈ t.ids, nodeCalm h nodes i

/-- The tags that `enumerateTags` reports for the root of a plan tree in which no `FILTER`
carries a binding tag depend only on the binding tags in sight from that root. -/
def Helpers.stableTags (h : Helpers) : Prop :=
  ∀ (nodes nodes1 : Nodes) (t t1 : Shape), t.Good nodes → t1.Good nodes1 →
    t.bare nodes = true → t1.bare nodes1 = true → t1.tags nodes1 = t.tags nodes →
    h.enumerateTags nodes1 t1.root = h.enumerateTags nodes t.root

/-- The arena `nodes1` comes from `nodes` by clearing binding tags only: it is not shorter,
every node of `nodes` has in `nodes1` the binding tags it had or none, and the new nodes have
none. -/
def Sheds (nodes nodes1 : Nodes) : Prop :=
  nodes.length ≤ nodes1.length ∧
  (∀ (i : Nat) (n n1 : Node), nodes[i]? = some n → nodes1[i]? = some n1 →
    n1.bindingTags = n.bindingTags ∨ n1.bindingTags = []) ∧
  (∀ (i : Nat) (n1 : Node), nodes.length ≤ i → nodes1[i]? = some n1 → n1.bindingTags = [])

/-- Every node of `nodes` has in `nodes1` the binding tags it had. -/
def Steady (nodes nodes1 : Nodes) : Prop :=
  ∀ (i : Nat) (n n1 : Node), nodes[i]? = some n → nodes1[i]? = some n1 →
    n1.bindingTags = n.bindingTags

/-- The test of the `PROJECT` case that stops the pushdown: the child is a `VALUE_SCAN` or an
`EXTERNAL_SCAN` without rowset data. -/
def projectStops (child : Node) : Prop :=
  (child.nodeType = .VALUE_SCAN ∨ child.nodeType = .EXTERNAL_SCAN) ∧ child.rowsetData = none

/-- The node `n`, the parent of one child, pushes nothing and returns the incoming filters
`F`: an `AGG` has its two binding tags and keeps every filter of `F`; a `PROJECT` has a
binding tag and receives no filter; a node of another kind receives no filter. -/
def unaryKeeps (h : Helpers) (n : Node) (F : List Expr) : Prop :=
  (n.nodeType = .AGG → ∃ g a, getTag n 0 = .ok g ∧ getTag n 1 = .ok a ∧
    splitAggFilters h g a n.groupBy F [] [] = ([], F)) ∧
  (n.nodeType = .PROJECT → F = [] ∧ ∃ g, getTag n 0 = .ok g) ∧
  (n.nodeType.isOther = true → F = [])

/-- The plan below the shape is settled for the incoming filters `F`: a scan receives no
filter; a `FILTER` receives no filter, holds some, each its own single conjunct, and its
child is settled for them; a join classifies `F` and its on-list into the fields it already
has, with nothing to push and all of `F` unplaced, an inner join has nothing deduced from its
on-list, and both children are settled for no filter; a set operation receives no filter and
both its children are settled for no filter; the parent of one child is a `PROJECT` that
stops the pushdown, or it pushes nothing, returns `F`, and its child is settled for no
filter; a node without children of a kind of the `default` case returns `F`. -/
def Shape.settled (h : Helpers) (sep : Bool) (nodes : Nodes) : Shape → List Expr → Prop
  | .scan _, F => F = []
  | .leaf _, _ => True
  | .filter id c, F =>
    F = [] ∧ ∃ n, nodes[id]? = some n ∧ n.filterList ≠ [] ∧
      appendConjuncts h [] n.filterList = n.filterList ∧ c.settled h sep nodes n.filterList
  | .unary id c, F =>
    ∃ n, nodes[id]? = some n ∧
      ((n.nodeType = .PROJECT ∧ ∃ child, nodes[c.root]? = some child ∧ projectStops child) ∨
        (unaryKeeps h n F ∧ c.settled h sep nodes []))
  | .join id l r, F =>
    (∃ n mt, nodes[id]? = some n ∧ getMarkTag n = .ok mt ∧
      classifyJoinFilters h sep (h.enumerateTags nodes l.root) (h.enumerateTags nodes r.root)
          mt n F =
        .ok { joinType := n.joinType, bindingTags := n.bindingTags, onList := n.onList,
              cantPushdown := F } ∧
      (n.joinType = .INNER → h.predsDeduction [] n.onList = [])) ∧
      l.settled h sep nodes [] ∧ r.settled h sep nodes []
  | .setop _ l r, F => F = [] ∧ l.settled h sep nodes [] ∧ r.settled h sep nodes []

/-- What a call on the root of the shape `t` with the filters `F` achieves, when it returns
`out`: `t1` is the shape below the returned id and `t2` the shape below the old root; the
nodes outside `t` are untouched; no join gains a binding tag and no join becomes a `MARK`
join; when no binding tag is cleared, the binding tags in sight stay the same; without
`separateNonEquiConds`, on a tree of joins, `FILTER` nodes and scans in which only the `MARK`
joins carry binding tags, every tracked predicate among the incoming filters and the
conjuncts of `t` is returned unplaced or held by a node of `t1`, and every tracked conjunct
of `t` is a conjunct of `t2`; and when no `FILTER` carries a binding tag, no binding tag is
cleared and a second run derives nothing from the plan below the returned id, that plan is
settled for the filters returned unplaced. -/
structure Conserves (h : Helpers) (sep : Bool) (nodes : Nodes) (t : Shape) (F : List Expr)
    (out : Nodes × Nat × List Expr) (t1 t2 : Shape) : Prop where
  len : nodes.length ≤ out.1.length
  frame : ∀ i, i ∉ t.ids → i < nodes.length → out.1[i]? = nodes[i]?
  good1 : t1.Good out.1
  root1 : t1.root = out.2.1
  ids1 : ∀ i ∈ t1.ids, i ∈ t.ids ∨ nodes.length ≤ i
  bound1 : t1.bound ≤ t.bound
  slot1 : t1.slot ≤ t.slot
  good2 : t2.Good out.1
  root2 : t2.root = t.root
  ids2 : ∀ i ∈ t2.ids, i ∈ t.ids ∨ nodes.length ≤ i
  bound2 : t2.bound ≤ t.bound
  slot2 : t2.slot ≤ t.slot
  residue : out.2.2 ≠ [] → out.2.1 = t.root ∧ t.mayKeep = true
  tags1 : Steady nodes out.1 → t1.tags out.1 = t.tags nodes
  tags2 : Steady nodes out.1 → t2.tags out.1 = t.tags nodes
  marks1 : ∀ m ∈ t1.marks out.1, m ∈ t.marks nodes
  marks2 : ∀ m ∈ t2.marks out.1, m ∈ t.marks nodes
  plain1 : t.plain nodes = true → t1.plain out.1 = true
  plain2 : t.plain nodes = true → t2.plain out.1 = true
  bare1 : t.bare nodes = true → t1.bare out.1 = true
  bare2 : t.bare nodes = true → t2.bare out.1 = true
  kept1 : sep = false → t.plain nodes = true → ∀ p, h.tracks (t.marks nodes) p →
    (p ∈ F ∨ p ∈ t.conjuncts h nodes) → p ∈ out.2.2 ∨ p ∈ t1.preds out.1
  kept2 : sep = false → t.plain nodes = true → ∀ p, h.tracks (t.marks nodes) p →
    p ∈ t.conjuncts h nodes → p ∈ t2.conjuncts h out.1
  settled1 : h.stableTags → t.bare nodes = true → Steady nodes out.1 → t1.calm h out.1 →
    (∀ q ∈ out.2.2, h.calm q) → t1.settled h sep out.1 out.2.2
  sheds : Sheds nodes out.1

/-- The state of the placement loop of a join of type `T` with binding tags `B`, with empty
lists. -/
def JoinState.blank (T : JoinType) (B : List Int) : JoinState :=
  { joinType := T, bindingTags := B, onList := [] }

/-- The state `s` after a step that has the effect `d` on the blank state: the join type and
the binding tags of `d`, and the lists of `s` followed by those of `d`. -/
def JoinState.plus (s d : JoinState) : JoinState :=
  { joinType := d.joinType, bindingTags := d.bindingTags, onList := s.onList ++ d.onList,
    leftPushdown := s.leftPushdown ++ d.leftPushdown,
    rightPushdown := s.rightPushdown ++ d.rightPushdown,
    cantPushdown := s.cantPushdown ++ d.cantPushdown }

/-- What calls on the root of the shape `t` leave below that root: `t2` is the shape below the
old root in the arena `nodes1`; it is made of nodes of `t` and of new nodes, is not deeper,
the same binding tags are in sight from its root when none is cleared, its joins have no new
binding tag and no new `MARK` join is among them, and without `separateNonEquiConds`, on a tree of joins,
`FILTER` nodes and scans in which only the `MARK` joins carry binding tags, it holds every
tracked conjunct that `t` held. -/
structure Stays (h : Helpers) (sep : Bool) (nodes : Nodes) (t : Shape) (nodes1 : Nodes)
    (t2 : Shape) : Prop where
  good : t2.Good nodes1
  root : t2.root = t.root
  ids : ∀ i ∈ t2.ids, i ∈ t.ids ∨ nodes.length ≤ i
  bound : t2.bound ≤ t.bound
  slot : t2.slot ≤ t.slot
  tags : Steady nodes nodes1 → t2.tags nodes1 = t.tags nodes
  marks : ∀ m ∈ t2.marks nodes1, m ∈ t.marks nodes
  plain : t.plain nodes = true → t2.plain nodes1 = true
  bare : t.bare nodes = true → t2.bare nodes1 = true
  kept : sep = false → t.plain nodes = true → ∀ p, h.tracks (t.marks nodes) p →
    p ∈ t.conjuncts h nodes → p ∈ t2.conjuncts h nodes1
  sheds : Sheds nodes nodes1

/-- What the block `pushToChild` with the filters `F` leaves in a child slot that held the
root of the shape `s`: the slot holds the root of the shape `s1` in the arena `nodes1`; `s1` is
made of nodes of `s` and of new nodes, fits the slot, has the same binding tags in sight when
none is cleared, and joins with no new binding tag; without `separateNonEquiConds`, on a tree
of joins, `FILTER` nodes and scans in which only the `MARK` joins carry binding tags, it
holds every tracked predicate among the filters pushed and the conjuncts that `s` held; and
when no `FILTER` carries a binding tag, no binding tag is cleared and a second run derives
nothing from `s1`, the plan below the slot is settled for no filter. -/
structure Hangs (h : Helpers) (sep : Bool) (nodes : Nodes) (s : Shape) (F : List Expr)
    (nodes1 : Nodes) (s1 : Shape) : Prop where
  good : s1.Good nodes1
  ids : ∀ i ∈ s1.ids, i ∈ s.ids ∨ nodes.length ≤ i
  slot : s1.slot ≤ s.slot
  tags : Steady nodes nodes1 → s1.tags nodes1 = s.tags nodes
  marks : ∀ m ∈ s1.marks nodes1, m ∈ s.marks nodes
  plain : s.plain nodes = true → s1.plain nodes1 = true
  bare : s.bare nodes = true → s1.bare nodes1 = true
  kept : sep = false → s.plain nodes = true → ∀ p, h.tracks (s.marks nodes) p →
    (p ∈ F ∨ p ∈ s.conjuncts h nodes) → p ∈ s1.preds nodes1
  settled : h.stableTags → s.bare nodes = true → Steady nodes nodes1 → s1.calm h nodes1 →
    s1.settled h sep nodes1 []
  sheds : Sheds nodes nodes1

/-! ## Example plans -/

/-- The plan of `SELECT a FROM (SELECT a, b FROM t) s WHERE s.a > 1`: a table scan (tag 1),
the inner `PROJECT` (tag 5), the `FILTER`, and the root `PROJECT` (tag 7). -/
def planA : Nodes :=
  [ { nodeType := .TABLE_SCAN, bindingTags := [1] },
    { nodeType := .PROJECT, children := [0], bindingTags := [5],
      projectList := [.col {} 1 0, .col {} 1 1] },
    { nodeType := .FILTER, children := [1],
      filterList := [.f {} ">" [.col {} 5 0, .c {} (.ival 1)]] },
    { nodeType := .PROJECT, children := [2], bindingTags := [7], projectList := [.col {} 5 0] } ]

/-- The inner `PROJECT` node of `planA`. -/
def planA_inner : Node :=
  { nodeType := .PROJECT, children := [0], bindingTags := [5],
    projectList := [.col {} 1 0, .col {} 1 1] }

/-- The `FILTER` node of `planA`. -/
def planA_filter : Node :=
  { nodeType := .FILTER, children := [1],
    filterList := [.f {} ">" [.col {} 5 0, .c {} (.ival 1)]] }

/-- The root `PROJECT` node of `planA`. -/
def planA_root : Node :=
  { nodeType := .PROJECT, children := [2], bindingTags := [7], projectList := [.col {} 5 0] }

/-- The plan `planA` after `removeSimpleProjections` has run on its `FILTER` node: the filter
reads the scan's column and its child is the scan. -/
def planA_filterDone : Nodes :=
  [ { nodeType := .TABLE_SCAN, bindingTags := [1] },
    { nodeType := .PROJECT, children := [0], bindingTags := [5],
      projectList := [.col {} 1 0, .col {} 1 1] },
    { nodeType := .FILTER, children := [0],
      filterList := [.f {} ">" [.col {} 1 0, .c {} (.ival 1)]] },
    { nodeType := .PROJECT, children := [2], bindingTags := [7], projectList := [.col {} 5 0] } ]

mutual
/-- Sample `containsTag`: some column of the expression has producer tag `tag`. -/
def exContainsTag : Expr → Int → Bool
  | .col _ r _, tag => decide (r = tag)
  | .c _ _, _ => false
  | .f _ _ args, tag => exContainsTagList args tag
/-- Sample `containsTag` on an argument list. -/
def exContainsTagList : List Expr → Int → Bool
  | [], _ => false
  | a :: as, tag => exContainsTag a tag || exContainsTagList as tag
end

mutual
/-- Sample `replaceColRefs`: a column with producer tag `tag` and position `p` becomes a copy
of the `p`-th expression of the list. -/
def exReplaceColRefs : Expr → Int → List Expr → Expr
  | .col t r p, tag, exprs =>
    if r = tag then
      match exprs[p.toNat]? with
      | some e => DeepCopyExpr e
      | none => .col t r p
    else .col t r p
  | .c t v, _, _ => .c t v
  | .f t n args, tag, exprs => .f t n (exReplaceColRefsList args tag exprs)
/-- Sample `replaceColRefs` on an argument list. -/
def exReplaceColRefsList : List Expr → Int → List Expr → List Expr
  | [], _, _ => []
  | a :: as, tag, exprs => exReplaceColRefs a tag exprs :: exReplaceColRefsList as tag exprs
end

/-- A concrete choice of the helper functions, used to run `pushdownFilters` on the example
plans: tags are looked up column by column, a predicate is its own only conjunct, nothing
is derived and every expression is classified `JoinSideNone`.  The theorems below hold for
every choice of the helpers. -/
def exHelpers : Helpers where
  containsTag := exContainsTag
  replaceColRefs := exReplaceColRefs
  replaceColRefsForSet := fun e _ => e
  splitPlanConjunction := fun e => [e]
  splitPlanConjunctions := fun l => l
  applyDistributivity := fun e => e
  getJoinSide := fun _ _ _ _ => JoinSideNone
  rejectsNull := fun _ => false
  checkDNF := fun _ => []
  walkThroughDNF := fun _ _ => none
  predsDeduction := fun _ _ => []
  enumerateTags := fun _ _ => []

/-- An aggregation over a table scan: group tag 2, aggregate tag 3, grouping on `t.a`. -/
def planAgg : Nodes :=
  [ { nodeType := .TABLE_SCAN, bindingTags := [1] },
    { nodeType := .AGG, children := [0], bindingTags := [2, 3], groupBy := [.col {} 1 0],
      aggList := [.f {} "sum" [.col {} 1 1]] } ]

/-- The `AGG` node of `planAgg`. -/
def planAgg_agg : Node :=
  { nodeType := .AGG, children := [0], bindingTags := [2, 3], groupBy := [.col {} 1 0],
    aggList := [.f {} "sum" [.col {} 1 1]] }

/-- The filters `g.a > 1` (on the group column) and `sum(b) > 5` (on the aggregate). -/
def planAgg_filters : List Expr :=
  [.f {} ">" [.col {} 2 0, .c {} (.ival 1)], .f {} ">" [.col {} 3 0, .c {} (.ival 5)]]

/-- A projection straight over a table scan. -/
def planP : Nodes :=
  [ { nodeType := .TABLE_SCAN, bindingTags := [1] },
    { nodeType := .PROJECT, children := [0], bindingTags := [5],
      projectList := [.col {} 1 0, .col {} 1 1] } ]

/-- The predicate `t.a > 1`. -/
def predA : Expr := .f {} ">" [.col {} 1 0, .c {} (.ival 1)]

/-- A `FILTER` holding `t.a > 1` over a table scan. -/
def planF : Nodes :=
  [ { nodeType := .TABLE_SCAN, bindingTags := [1] },
    { nodeType := .FILTER, children := [0], filterList := [predA] } ]

/-- The `FILTER` node of `planF`. -/
def planF_filter : Node := { nodeType := .FILTER, children := [0], filterList := [predA] }

/-- The plan `planF` once `t.a > 1` has reached the scan. -/
def planF_pushed : Nodes :=
  [ { nodeType := .TABLE_SCAN, bindingTags := [1], filterList := [predA] },
    { nodeType := .FILTER, children := [0], filterList := [predA] } ]

/-- The plan `planAgg` once `g.a > 1`, rewritten to `t.a > 1`, has reached the scan. -/
def planAgg_pushed : Nodes :=
  [ { nodeType := .TABLE_SCAN, bindingTags := [1], filterList := [predA] },
    { nodeType := .AGG, children := [0], bindingTags := [2, 3], groupBy := [.col {} 1 0],
      aggList := [.f {} "sum" [.col {} 1 1]] } ]

/-- The `PROJECT` node of `planP`. -/
def planP_project : Node :=
  { nodeType := .PROJECT, children := [0], bindingTags := [5],
    projectList := [.col {} 1 0, .col {} 1 1] }

/-- The plan `planP` once `s.a > 1`, rewritten to `t.a > 1`, has reached the scan. -/
def planP_pushed : Nodes :=
  [ { nodeType := .TABLE_SCAN, bindingTags := [1], filterList := [predA] },
    { nodeType := .PROJECT, children := [0], bindingTags := [5],
      projectList := [.col {} 1 0, .col {} 1 1] } ]

/-- The union of two join sides (`side |= ...`). -/
def JoinSide.union (a b : JoinSide) : JoinSide :=
  { left := a.left || b.left, right := a.right || b.right, mark := a.mark || b.mark,
    other := a.other || b.other }

mutual
/-- Sample `getJoinSide`, following the description of the classification: a column is LEFT,
RIGHT or MARK by the tag set that holds its producer tag, a constant is NONE, and a call has
the union of the sides of its arguments. -/
def exGetJoinSide : Expr → List Int → List Int → Int → JoinSide
  | .col _ r _, leftTags, rightTags, markTag =>
    if r ∈ leftTags then JoinSideLeft
    else if r ∈ rightTags then JoinSideRight
    else if r = markTag then JoinSideMark
    else JoinSideNone
  | .c _ _, _, _, _ => JoinSideNone
  | .f _ _ args, leftTags, rightTags, markTag =>
    exGetJoinSideList args leftTags rightTags markTag
/-- Sample `getJoinSide` on an argument list: the union of the sides. -/
def exGetJoinSideList : List Expr → List Int → List Int → Int → JoinSide
  | [], _, _, _ => JoinSideNone
  | a :: as, leftTags, rightTags, markTag =>
    (exGetJoinSide a leftTags rightTags markTag).union
      (exGetJoinSideList as leftTags rightTags markTag)
end

/-- Sample `enumerateTags`: the binding tags of the nodes of the subtree, to depth `fuel`. -/
def exEnumerateTags (nodes : Nodes) : Nat → Nat → List Int
  | 0, _ => []
  | fuel + 1, nodeID =>
    match nodes[nodeID]? with
    | none => []
    | some node => node.bindingTags ++ node.children.flatMap (exEnumerateTags nodes fuel)

/-- Sample `rejectsNull`: a comparison by `=` rejects NULL, nothing else is known to. -/
def exRejectsNull : Expr → Bool
  | .f _ objName _ => decide (objName = "=")
  | _ => false

/-- Sample DNF extraction: the first conjunct of two disjuncts of an `or`, when both
disjuncts are calls of `and` that start with the same conjunct. -/
def exCommonConjunct : Expr → Option Expr
  | .f _ "or" [.f _ "and" (x :: _), .f _ "and" (y :: _)] => if x = y then some x else none
  | _ => none

/-- A second concrete choice of the helper functions, for the example joins: sides and tags
follow the plan, a predicate is its own only conjunct, `=` rejects NULL, a conjunct common
to both disjuncts of an `or` is extracted, and nothing is deduced. -/
def exJoinHelpers : Helpers where
  containsTag := exContainsTag
  replaceColRefs := exReplaceColRefs
  replaceColRefsForSet := fun e _ => e
  splitPlanConjunction := fun e => [e]
  splitPlanConjunctions := fun l => l
  applyDistributivity := fun e => e
  getJoinSide := exGetJoinSide
  rejectsNull := exRejectsNull
  checkDNF := fun e => if (exCommonConjunct e).isSome then ["common"] else []
  walkThroughDNF := fun e _ => exCommonConjunct e
  predsDeduction := fun _ _ => []
  enumerateTags := fun nodes nodeID => exEnumerateTags nodes nodes.length nodeID

/-- The nodes reachable from `nodeID` through child pointers, to depth `fuel`. -/
def reachable (nodes : Nodes) : Nat → Nat → List Nat
  | 0, _ => []
  | fuel + 1, nodeID =>
    match nodes[nodeID]? with
    | none => []
    | some node => nodeID :: node.children.flatMap (reachable nodes fuel)

/-- The join condition `l.k = r.k`. -/
def condLR : Expr := .f {} "=" [.col {} 1 0, .col {} 2 0]

/-- The predicate `r.v = 10`. -/
def predRV : Expr := .f {} "=" [.col {} 2 1, .c {} (.ival 10)]

/-- The predicate `r.v IS NULL`. -/
def predRNull : Expr := .f {} "isnull" [.col {} 2 1]

/-- The plan of `l LEFT JOIN r ON l.k = r.k`: the scans of `l` (tag 1) and `r` (tag 2) and
the join. -/
def planB : Nodes :=
  [ { nodeType := .TABLE_SCAN, bindingTags := [1] },
    { nodeType := .TABLE_SCAN, bindingTags := [2] },
    { nodeType := .JOIN, children := [0, 1], joinType := .LEFT, onList := [condLR] } ]

/-- The join node of `planB`. -/
def planB_join : Node :=
  { nodeType := .JOIN, children := [0, 1], joinType := .LEFT, onList := [condLR] }

/-- A mark join of `l` and `r` with mark tag 9. -/
def planM : Nodes :=
  [ { nodeType := .TABLE_SCAN, bindingTags := [1] },
    { nodeType := .TABLE_SCAN, bindingTags := [2] },
    { nodeType := .JOIN, children := [0, 1], joinType := .MARK, bindingTags := [9] } ]

/-- The negation `not(m)` of the mark column, with a nullable type. -/
def predNotMark : Expr := .f { notNullable := false } "not" [.col {} 9 0]

/-- The negation `not(m)` of the mark column, with a type marked not nullable. -/
def predNotMarkNN : Expr := .f { notNullable := true } "not" [.col {} 9 0]

/-- The predicate `l.v = r.v`, which touches both sides of the join of `planB`. -/
def predLR : Expr := .f {} "=" [.col {} 1 1, .col {} 2 1]

/-- The plan `planB` after `l.v = r.v` has turned its join into an inner join. -/
def planB_inner : Nodes :=
  [ { nodeType := .TABLE_SCAN, bindingTags := [1] },
    { nodeType := .TABLE_SCAN, bindingTags := [2] },
    { nodeType := .JOIN, children := [0, 1], joinType := .INNER, onList := [predLR, condLR] } ]

/-- The state of the placement at the mark join of `planM`, before any filter is placed. -/
def planM_state : JoinState := { joinType := .MARK, bindingTags := [9], onList := [] }


/-- The plan `planB` after `r.v = 10` has been pushed: the join is an inner join, the scan of
`r` holds the filter after the deduced predicates `d2`, the scan of `l` holds the deduced
predicates `d1`. -/
def planB_done (d1 d2 : List Expr) : Nodes :=
  [ { nodeType := .TABLE_SCAN, bindingTags := [1], filterList := d1 },
    { nodeType := .TABLE_SCAN, bindingTags := [2], filterList := d2 ++ [predRV] },
    { nodeType := .JOIN, children := [0, 1], joinType := .INNER, onList := [condLR] } ]

/-- The plan `planA` after `removeSimpleProjections` has run from its root: the `FILTER` and
the root `PROJECT` read the scan's column, and the child of the `FILTER` is the scan. -/
def planA_simplified : Nodes :=
  [ { nodeType := .TABLE_SCAN, bindingTags := [1] },
    { nodeType := .PROJECT, children := [0], bindingTags := [5],
      projectList := [.col {} 1 0, .col {} 1 1] },
    { nodeType := .FILTER, children := [0], filterList := [predA] },
    { nodeType := .PROJECT, children := [2], bindingTags := [7], projectList := [.col {} 1 0] } ]

/-- The plan `planA_simplified` after `pushdownFilters` has run from its root: the scan holds
`t.a > 1` and is the child of the root. -/
def planA_done : Nodes :=
  [ { nodeType := .TABLE_SCAN, bindingTags := [1], filterList := [predA] },
    { nodeType := .PROJECT, children := [0], bindingTags := [5],
      projectList := [.col {} 1 0, .col {} 1 1] },
    { nodeType := .FILTER, children := [0], filterList := [predA] },
    { nodeType := .PROJECT, children := [0], bindingTags := [7], projectList := [.col {} 1 0] } ]

/-- The predicate `l.v < r.v`, which touches both sides of a join of `l` and `r` and is not
an equality. -/
def predLT : Expr := .f {} "<" [.col {} 1 1, .col {} 2 1]

/-- The predicate `g.x > 1` on the column of a table function with tag 4. -/
def predG : Expr := .f {} ">" [.col {} 4 0, .c {} (.ival 1)]

/-- A table function (tag 4) whose source is `l INNER JOIN r ON l.v < r.v`, under a `FILTER`
holding `g.x > 1`; node 0 is the scan of a table `u` (tag 3) that is not part of this
subtree. -/
def planG : Nodes :=
  [ { nodeType := .TABLE_SCAN, bindingTags := [3] },
    { nodeType := .TABLE_SCAN, bindingTags := [1] },
    { nodeType := .TABLE_SCAN, bindingTags := [2] },
    { nodeType := .JOIN, children := [1, 2], joinType := .INNER, onList := [predLT] },
    { nodeType := .FUNCTION_SCAN, children := [3], bindingTags := [4] },
    { nodeType := .FILTER, children := [4], filterList := [predG] } ]

/-- The plan `planG` after `pushdownFilters` has run from the table function with
`separateNonEquiConds`: the join has given up its non-equi condition. -/
def planG_function : Nodes :=
  [ { nodeType := .TABLE_SCAN, bindingTags := [3] },
    { nodeType := .TABLE_SCAN, bindingTags := [1] },
    { nodeType := .TABLE_SCAN, bindingTags := [2] },
    { nodeType := .JOIN, children := [1, 2], joinType := .INNER },
    { nodeType := .FUNCTION_SCAN, children := [3], bindingTags := [4] },
    { nodeType := .FILTER, children := [4], filterList := [predG] } ]

/-- The plan `planG` after `pushdownFilters` has run from the `FILTER` with
`separateNonEquiConds`: the child of the `FILTER` is node 0, the scan of `u`. -/
def planG_filter : Nodes :=
  [ { nodeType := .TABLE_SCAN, bindingTags := [3] },
    { nodeType := .TABLE_SCAN, bindingTags := [1] },
    { nodeType := .TABLE_SCAN, bindingTags := [2] },
    { nodeType := .JOIN, children := [1, 2], joinType := .INNER },
    { nodeType := .FUNCTION_SCAN, children := [3], bindingTags := [4], filterList := [predG] },
    { nodeType := .FILTER, children := [0], filterList := [predLT] } ]

/-- Sample `splitPlanConjunction`: the arguments of a call of `and`, the predicate itself
otherwise. -/
def exSplitAnd : Expr → List Expr
  | .f _ "and" args => args
  | e => [e]

/-- The join condition `l.k = c.k` between `l` (tag 1) and a third table `c` (tag 3). -/
def condLC : Expr := .f {} "=" [.col {} 1 0, .col {} 3 0]

/-- The plan of `(l INNER JOIN r ON l.v < r.v) INNER JOIN c ON l.k = c.k`: the scans of `l`,
`r` and `c` (tags 1, 2, 3), the inner join of `l` and `r` (node 3) and the root join
(node 4). -/
def planN : Nodes :=
  [ { nodeType := .TABLE_SCAN, bindingTags := [1] },
    { nodeType := .TABLE_SCAN, bindingTags := [2] },
    { nodeType := .TABLE_SCAN, bindingTags := [3] },
    { nodeType := .JOIN, children := [0, 1], joinType := .INNER, onList := [predLT] },
    { nodeType := .JOIN, children := [3, 2], joinType := .INNER, onList := [condLC] } ]

/-- The plan `planN` after `pushdownFilters` from the root with `separateNonEquiConds`: the
join of `l` and `r` has an empty on-list. -/
def planN_done : Nodes :=
  [ { nodeType := .TABLE_SCAN, bindingTags := [1] },
    { nodeType := .TABLE_SCAN, bindingTags := [2] },
    { nodeType := .TABLE_SCAN, bindingTags := [3] },
    { nodeType := .JOIN, children := [0, 1], joinType := .INNER },
    { nodeType := .JOIN, children := [3, 2], joinType := .INNER, onList := [condLC] } ]

/-- The predicate `l.k = 1`. -/
def predLK : Expr := .f {} "=" [.col {} 1 0, .c {} (.ival 1)]

/-- The predicate `(l.k = 1 and r.v = 10) or (l.k = 1 and r.k = 1)`, whose two disjuncts
start with the conjunct `l.k = 1`. -/
def predOr : Expr :=
  .f {} "or" [.f {} "and" [predLK, predRV],
    .f {} "and" [predLK, .f {} "=" [.col {} 2 0, .c {} (.ival 1)]]]

/-- The plan of `l INNER JOIN r ON (l.k = 1 and r.v = 10) or (l.k = 1 and r.k = 1)`. -/
def planD : Nodes :=
  [ { nodeType := .TABLE_SCAN, bindingTags := [1] },
    { nodeType := .TABLE_SCAN, bindingTags := [2] },
    { nodeType := .JOIN, children := [0, 1], joinType := .INNER, onList := [predOr] } ]

/-- The plan `planD` after one run of `pushdownFilters`: the scan of `l` holds the conjunct
`l.k = 1` extracted from the disjunction. -/
def planD_once : Nodes :=
  [ { nodeType := .TABLE_SCAN, bindingTags := [1], filterList := [predLK] },
    { nodeType := .TABLE_SCAN, bindingTags := [2] },
    { nodeType := .JOIN, children := [0, 1], joinType := .INNER, onList := [predOr] } ]

/-- The plan `planD` after two runs of `pushdownFilters`: the scan of `l` holds the extracted
conjunct twice. -/
def planD_twice : Nodes :=
  [ { nodeType := .TABLE_SCAN, bindingTags := [1], filterList := [predLK, predLK] },
    { nodeType := .TABLE_SCAN, bindingTags := [2] },
    { nodeType := .JOIN, children := [0, 1], joinType := .INNER, onList := [predOr] } ]

/-- The mark column `m` of the mark join of `planM`. -/
def predMark : Expr := .col {} 9 0

/-- The plan `planM` after the filter `m` has turned its mark join into a semi join. -/
def planM_semi : Nodes :=
  [ { nodeType := .TABLE_SCAN, bindingTags := [1] },
    { nodeType := .TABLE_SCAN, bindingTags := [2] },
    { nodeType := .JOIN, children := [0, 1], joinType := .SEMI } ]

/-- The join node of `planM`. -/
def planM_join : Node :=
  { nodeType := .JOIN, children := [0, 1], joinType := .MARK, bindingTags := [9] }

/-! ## Invariants of the arena across the two passes -/

/-- Every value of the substitution map is a bare column or a constant. -/
def ProjMap.simple (m : ProjMap) : Prop := ∀ kv ∈ m, kv.2.isCol = true ∨ kv.2.isC = true

/-- The changes of join type that filter pushdown makes: none, a left or right join to an
inner join, and any join to a semi or anti join. -/
def JoinType.mayBecome (a b : JoinType) : Prop :=
  a = b ∨ ((a = .LEFT ∨ a = .RIGHT) ∧ b = .INNER) ∨ b = .SEMI ∨ b = .ANTI

/-- The node is a `FILTER` with exactly one child and a non-empty filterList. -/
def Node.isWrapper (n : Node) : Prop :=
  n.nodeType = .FILTER ∧ n.children.length = 1 ∧ n.filterList ≠ []

/-- The arena `nodes1` has grown from `nodes`: every node of `nodes` is still at its index,
with the same kind and as many child slots, a join type that the old one may become (the same
one when the node is no join), and is a `FILTER` with one child and a non-empty filterList if
it was one; and every new node is such a `FILTER`. -/
def Grows (nodes nodes1 : Nodes) : Prop :=
  (∀ (j : Nat) (n : Node), nodes[j]? = some n →
    ∃ n1 : Node, nodes1[j]? = some n1 ∧ n1.nodeType = n.nodeType ∧
      n1.children.length = n.children.length ∧ n.joinType.mayBecome n1.joinType ∧
      (n.nodeType ≠ .JOIN → n1.joinType = n.joinType) ∧ (n.isWrapper → n1.isWrapper)) ∧
    ∀ (j : Nat) (n1 : Node), nodes.length ≤ j → nodes1[j]? = some n1 → n1.isWrapper

/-- The plan of `l LEFT JOIN r ON l.k = r.k` under a sort: the scans of `l` (tag 1) and `r`
(tag 2), the left join (node 2) and the `SORT` root (node 3). -/
def planS : Nodes :=
  [ { nodeType := .TABLE_SCAN, bindingTags := [1] },
    { nodeType := .TABLE_SCAN, bindingTags := [2] },
    { nodeType := .JOIN, children := [0, 1], joinType := .LEFT, onList := [condLR] },
    { nodeType := .SORT, children := [2] } ]

/-- The plan `planS` after `pushdownFilters` from the root with the filter `r.v IS NULL`: the
left join has returned the filter, which sits in a new `FILTER` (node 4) above it. -/
def planS_done : Nodes :=
  [ { nodeType := .TABLE_SCAN, bindingTags := [1] },
    { nodeType := .TABLE_SCAN, bindingTags := [2] },
    { nodeType := .JOIN, children := [0, 1], joinType := .LEFT, onList := [condLR] },
    { nodeType := .SORT, children := [4] },
    { nodeType := .FILTER, children := [2], filterList := [predRNull] } ]

/-! ## The procedure without the advisory calls -/

/-- The `JOIN` case of `pushdownFilters` in the words of C22: the same statements as
`pushdownJoin` with the two advisory recursive calls on the children (`pushDeduced`)
removed. -/
def pushdownJoinNoAdvisory (h : Helpers) (separateNonEquiConds : Bool)
    (rec : Nodes → Nat → List Expr → Pushed) (nodes : Nodes) (nodeID : Nat) (node : Node)
    (filters : List Expr) : Pushed := do
  let c0 ← getChild node 0
  let leftTags := h.enumerateTags nodes c0
  let c1 ← getChild node 1
  let rightTags := h.enumerateTags nodes c1
  let markTag ← getMarkTag node
  let st ← classifyJoinFilters h separateNonEquiConds leftTags rightTags markTag node filters
  let nodes1 ← modifyNode nodes nodeID (fun n =>
    { n with joinType := st.joinType, bindingTags := st.bindingTags, onList := st.onList })
  let nodes3 ← pushToChild rec nodes1 nodeID 0 st.leftPushdown
  let nodes4 ← pushToChild rec nodes3 nodeID 1 st.rightPushdown
  return (nodes4, nodeID, st.cantPushdown)

/-- The procedure `pushdownFilters` in the words of C22, without the advisory calls: the
same `switch node.NodeType`, with `pushdownJoinNoAdvisory` for the `JOIN` case. -/
def pushdownFiltersNoAdvisory (h : Helpers) (separateNonEquiConds : Bool) :
    Nat → Nodes → Nat → List Expr → Pushed
  | 0, _, _, _ => .error .fuel
  | fuel + 1, nodes, nodeID, filters => do
    let node ← getNode nodes nodeID
    match node.nodeType with
    | .AGG =>
      pushdownAgg h (pushdownFiltersNoAdvisory h separateNonEquiConds fuel) nodes nodeID node
        filters
    | .FILTER =>
      pushdownFilter h (pushdownFiltersNoAdvisory h separateNonEquiConds fuel) nodes nodeID node
        filters
    | .JOIN =>
      pushdownJoinNoAdvisory h separateNonEquiConds
        (pushdownFiltersNoAdvisory h separateNonEquiConds fuel) nodes nodeID node filters
    | .UNION | .UNION_ALL | .MINUS | .MINUS_ALL | .INTERSECT | .INTERSECT_ALL =>
      pushdownSetOp h (pushdownFiltersNoAdvisory h separateNonEquiConds fuel) nodes nodeID node
        filters
    | .PROJECT =>
      pushdownProject h (pushdownFiltersNoAdvisory h separateNonEquiConds fuel) nodes nodeID
        node filters
    | .TABLE_SCAN | .EXTERNAL_SCAN => pushdownScan nodes nodeID filters
    | .FUNCTION_SCAN =>
      pushdownFunctionScan (pushdownFiltersNoAdvisory h separateNonEquiConds fuel) nodes nodeID
        node filters
    | _ =>
      pushdownDefault (pushdownFiltersNoAdvisory h separateNonEquiConds fuel) nodes nodeID node
        filters

/-- The plan `planN` after the procedure without the advisory calls, from the root with
`separateNonEquiConds`: the join of `l` and `r` has returned its on-condition `l.v < r.v`,
which sits in a new `FILTER` (node 5) above it. -/
def planN_wrapped : Nodes :=
  [ { nodeType := .TABLE_SCAN, bindingTags := [1] },
    { nodeType := .TABLE_SCAN, bindingTags := [2] },
    { nodeType := .TABLE_SCAN, bindingTags := [3] },
    { nodeType := .JOIN, children := [0, 1], joinType := .INNER },
    { nodeType := .JOIN, children := [5, 2], joinType := .INNER, onList := [condLC] },
    { nodeType := .FILTER, children := [3], filterList := [predLT] } ]

/-- The plan of `(SELECT * FROM l WHERE l.a > 1) INNER JOIN r ON l.k = r.k`: the scan of `l`
(tag 1), the `FILTER` over it, the scan of `r` (tag 2) and the root join (node 3). -/
def planJ : Nodes :=
  [ { nodeType := .TABLE_SCAN, bindingTags := [1] },
    { nodeType := .FILTER, children := [0], filterList := [predA] },
    { nodeType := .TABLE_SCAN, bindingTags := [2] },
    { nodeType := .JOIN, children := [1, 2], joinType := .INNER, onList := [condLR] } ]

/-- The plan `planJ` after `pushdownFilters` from the root: the scan of `l` holds `l.a > 1`
twice. -/
def planJ_done : Nodes :=
  [ { nodeType := .TABLE_SCAN, bindingTags := [1], filterList := [predA, predA] },
    { nodeType := .FILTER, children := [0], filterList := [predA] },
    { nodeType := .TABLE_SCAN, bindingTags := [2] },
    { nodeType := .JOIN, children := [0, 2], joinType := .INNER, onList := [condLR] } ]

/-- The plan `planJ` after the procedure without the advisory calls, from the root: the scan
of `l` holds `l.a > 1` once. -/
def planJ_once : Nodes :=
  [ { nodeType := .TABLE_SCAN, bindingTags := [1], filterList := [predA] },
    { nodeType := .FILTER, children := [0], filterList := [predA] },
    { nodeType := .TABLE_SCAN, bindingTags := [2] },
    { nodeType := .JOIN, children := [0, 2], joinType := .INNER, onList := [condLR] } ]

/-! ## The `JOIN` case of a call, taken apart -/

/-- The set `S` of node ids is closed in the arena: it holds every id beyond the arena and,
with a node, the ids in its child slots. -/
def Within (S : Nat → Prop) (nodes : Nodes) : Prop :=
  (∀ (j : Nat) (n : Node), S j → nodes[j]? = some n → ∀ c ∈ n.children, S c) ∧
    ∀ j, nodes.length ≤ j → S j

/-- The arena `nodes1` differs from `nodes` inside the set `S` only, and `S` is closed in
`nodes1`. -/
def Frame (S : Nat → Prop) (nodes nodes1 : Nodes) : Prop :=
  Within S nodes1 ∧ ∀ j, ¬ S j → nodes1[j]? = nodes[j]?

/-- The placement loop leads from the state `a` to the state `b`: `b` is what the loop
returns from `a` over some list of classified filters. -/
def LoopFrom (h : Helpers) (sep : Bool) (lt rt : List Int) (mt : Int) (a b : JoinState) :
    Prop :=
  ∃ l : List (Expr × JoinSide), placeFilters h sep lt rt mt a l = .ok b

/-- The predicate `l.v IS NULL`. -/
def predLNull : Expr := .f {} "isnull" [.col {} 1 1]

/-- The plan `planB` after `pushdownFilters` on the join with the filters `l.v IS NULL` and
`r.v IS NULL`: the scan of `l` holds `l.v IS NULL`. -/
def planB_left : Nodes :=
  [ { nodeType := .TABLE_SCAN, bindingTags := [1], filterList := [predLNull] },
    { nodeType := .TABLE_SCAN, bindingTags := [2] },
    { nodeType := .JOIN, children := [0, 1], joinType := .LEFT, onList := [condLR] } ]

/-- The classification of the filters `l.v IS NULL` and `r.v IS NULL` at the join of
`planB`. -/
def planB_placed : JoinState :=
  { joinType := .LEFT, bindingTags := [], onList := [condLR], leftPushdown := [predLNull],
    cantPushdown := [predRNull] }

/-- The boolean constant `true`. -/
def predTrue : Expr := .c {} (.bval true)

/-- The boolean constant `false`. -/
def predFalse : Expr := .c {} (.bval false)

/-- The plan `planB` after `pushdownFilters` on the join with the filters `true` and `false`:
the scan of `l` holds `false`. -/
def planB_none : Nodes :=
  [ { nodeType := .TABLE_SCAN, bindingTags := [1], filterList := [predFalse] },
    { nodeType := .TABLE_SCAN, bindingTags := [2] },
    { nodeType := .JOIN, children := [0, 1], joinType := .LEFT, onList := [condLR] } ]

/-- The classification of the filters `true` and `false` at the join of `planB`. -/
def planB_nonePlaced : JoinState :=
  { joinType := .LEFT, bindingTags := [], onList := [condLR], leftPushdown := [predFalse] }

/-- The classification of the filter `l.v < r.v` at the inner join of `planB_inner` with
`separateNonEquiConds`: the two equalities of the on-list are back in the on-list and the
filter is unplaced. -/
def planB_bothPlaced : JoinState :=
  { joinType := .INNER, bindingTags := [], onList := [predLR, condLR],
    cantPushdown := [predLT] }

/-- A rank for the plans of two scans under a join (node 2). -/
def rankJoin (j : Nat) : Nat := if j = 2 then 1 else 0

/-- The classification of the filter `m` at the mark join of `planM`: the join is a SEMI join
without binding tags and no filter is pushed or unplaced. -/
def planM_semiPlaced : JoinState := { joinType := .SEMI, bindingTags := [], onList := [] }

/-- An inner join of `l` and `r` that carries the binding tag 0 and whose on-list is the bare
column of tag 0. -/
def planI : Nodes :=
  [ { nodeType := .TABLE_SCAN, bindingTags := [1] },
    { nodeType := .TABLE_SCAN, bindingTags := [2] },
    { nodeType := .JOIN, children := [0, 1], joinType := .INNER, bindingTags := [0],
      onList := [.col {} 0 0] } ]

/-- The plan `planI` after `pushdownFilters` on the join without incoming filters: the join
is a SEMI join without binding tags and with an empty on-list. -/
def planI_semi : Nodes :=
  [ { nodeType := .TABLE_SCAN, bindingTags := [1] },
    { nodeType := .TABLE_SCAN, bindingTags := [2] },
    { nodeType := .JOIN, children := [0, 1], joinType := .SEMI } ]

/-- The classification of the filter `r.v = 10` at the LEFT join of `planB`: the join is
strength-reduced to an inner join, its on-condition is back in the on-list and the filter is
in the list for the right child. -/
def planB_innerPlaced : JoinState :=
  { joinType := .INNER, bindingTags := [], onList := [condLR], rightPushdown := [predRV] }

/-- The plan of `l FULL OUTER JOIN r ON l.k = r.k`: the scans of `l` (tag 1) and `r` (tag 2)
and the join. -/
def planO : Nodes :=
  [ { nodeType := .TABLE_SCAN, bindingTags := [1] },
    { nodeType := .TABLE_SCAN, bindingTags := [2] },
    { nodeType := .JOIN, children := [0, 1], joinType := .OUTER, onList := [condLR] } ]

/-- The classification of the filter `r.v IS NULL` at the outer join of `planO`: the join
keeps its type and its on-list and the filter is unplaced. -/
def planO_placed : JoinState :=
  { joinType := .OUTER, bindingTags := [], onList := [condLR], cantPushdown := [predRNull] }

/-! ## Example plans for the loss of predicates and for a second run -/

/-- Sample `enumerateTags`, to depth `fuel`: the binding tags of the node, followed for a
join and for a node without binding tags by the tags of its children. -/
def exSightTags (nodes : Nodes) : Nat → Nat → List Int
  | 0, _ => []
  | fuel + 1, nodeID =>
    match nodes[nodeID]? with
    | none => []
    | some node =>
      if node.bindingTags.isEmpty || decide (node.nodeType = .JOIN) then
        node.bindingTags ++ node.children.flatMap (exSightTags nodes fuel)
      else node.bindingTags

/-- The sample helpers `exJoinHelpers`, with `exSightTags` as `enumerateTags`. -/
def exSightHelpers : Helpers :=
  { exJoinHelpers with
    enumerateTags := fun nodes nodeID => exSightTags nodes nodes.length nodeID }

/-- The sample helpers `exSightHelpers`, with `exSplitAnd` as `splitPlanConjunction`. -/
def exSightSplitHelpers : Helpers := { exSightHelpers with splitPlanConjunction := exSplitAnd }

/-- The predicate `r.k IS NULL`. -/
def predRKNull : Expr := .f {} "isnull" [.col {} 2 0]

/-- A `FILTER` holding `(r.v IS NULL and r.k IS NULL) and l.v IS NULL` over the plan of
`l LEFT JOIN r ON l.k = r.k`. -/
def planR : Nodes :=
  [ { nodeType := .TABLE_SCAN, bindingTags := [1] },
    { nodeType := .TABLE_SCAN, bindingTags := [2] },
    { nodeType := .JOIN, children := [0, 1], joinType := .LEFT, onList := [condLR] },
    { nodeType := .FILTER, children := [2],
      filterList := [.f {} "and" [.f {} "and" [predRNull, predRKNull], predLNull]] } ]

/-- The condition `m = r.k` between the mark column (tag 9) and `r`. -/
def condMR : Expr := .f {} "=" [.col {} 9 0, .col {} 2 0]

/-- The plan of an inner join, on `m` and `m = r.k`, of the mark join of `l` and `s` (tags 1
and 5, mark tag 9) with `r` (tag 2). -/
def planV : Nodes :=
  [ { nodeType := .TABLE_SCAN, bindingTags := [1] },
    { nodeType := .TABLE_SCAN, bindingTags := [5] },
    { nodeType := .TABLE_SCAN, bindingTags := [2] },
    { nodeType := .JOIN, children := [0, 1], joinType := .MARK, bindingTags := [9] },
    { nodeType := .JOIN, children := [3, 2], joinType := .INNER,
      onList := [predMark, condMR] } ]

/-- Sample `predsDeduction`: an inner join on `a = b` admits no row in which `a` is NULL, so
`a IS NOT NULL` is deduced for every equality of the on-list, whatever the filters. -/
def exDeduceNotNull : List Expr → List Expr → List Expr
  | _, [] => []
  | filters, .f _ "=" (a :: _) :: rest =>
    .f {} "isnotnull" [a] :: exDeduceNotNull filters rest
  | filters, _ :: rest => exDeduceNotNull filters rest

/-- The sample helpers `exSightHelpers`, with `exDeduceNotNull` as `predsDeduction`. -/
def exDeduceHelpers : Helpers := { exSightHelpers with predsDeduction := exDeduceNotNull }

/-- The plan of `l INNER JOIN r ON l.k = r.k`. -/
def planE : Nodes :=
  [ { nodeType := .TABLE_SCAN, bindingTags := [1] },
    { nodeType := .TABLE_SCAN, bindingTags := [2] },
    { nodeType := .JOIN, children := [0, 1], joinType := .INNER, onList := [condLR] } ]

/-- The plan `planR` after one run of `pushdownFilters`: the `FILTER` holds the conjunct
`r.v IS NULL and r.k IS NULL`, which the left join returns unplaced. -/
def planR_once : Nodes :=
  [ { nodeType := .TABLE_SCAN, bindingTags := [1], filterList := [predLNull] },
    { nodeType := .TABLE_SCAN, bindingTags := [2] },
    { nodeType := .JOIN, children := [0, 1], joinType := .LEFT, onList := [condLR] },
    { nodeType := .FILTER, children := [2],
      filterList := [.f {} "and" [predRNull, predRKNull]] } ]

/-- The plan `planR` after two runs of `pushdownFilters`: the `FILTER` holds the two conjuncts
of its former entry. -/
def planR_twice : Nodes :=
  [ { nodeType := .TABLE_SCAN, bindingTags := [1], filterList := [predLNull] },
    { nodeType := .TABLE_SCAN, bindingTags := [2] },
    { nodeType := .JOIN, children := [0, 1], joinType := .LEFT, onList := [condLR] },
    { nodeType := .FILTER, children := [2], filterList := [predRNull, predRKNull] } ]

/-- The plan `planV` after one run of `pushdownFilters`: the mark join is a semi join without
binding tag, and the inner join keeps `m = r.k`. -/
def planV_once : Nodes :=
  [ { nodeType := .TABLE_SCAN, bindingTags := [1] },
    { nodeType := .TABLE_SCAN, bindingTags := [5] },
    { nodeType := .TABLE_SCAN, bindingTags := [2] },
    { nodeType := .JOIN, children := [0, 1], joinType := .SEMI },
    { nodeType := .JOIN, children := [3, 2], joinType := .INNER, onList := [condMR] } ]

/-- The plan `planV` after two runs of `pushdownFilters`: the on-condition `m = r.k` has moved
to the scan of `r`. -/
def planV_twice : Nodes :=
  [ { nodeType := .TABLE_SCAN, bindingTags := [1] },
    { nodeType := .TABLE_SCAN, bindingTags := [5] },
    { nodeType := .TABLE_SCAN, bindingTags := [2], filterList := [condMR] },
    { nodeType := .JOIN, children := [0, 1], joinType := .SEMI },
    { nodeType := .JOIN, children := [3, 2], joinType := .INNER } ]

/-- The predicate `l.k IS NOT NULL`. -/
def predLKNotNull : Expr := .f {} "isnotnull" [.col {} 1 0]

/-- The plan `planE` after one run of `pushdownFilters` with `exDeduceHelpers`: each scan
holds the deduced predicate. -/
def planE_once : Nodes :=
  [ { nodeType := .TABLE_SCAN, bindingTags := [1], filterList := [predLKNotNull] },
    { nodeType := .TABLE_SCAN, bindingTags := [2], filterList := [predLKNotNull] },
    { nodeType := .JOIN, children := [0, 1], joinType := .INNER, onList := [condLR] } ]

/-- The plan `planE` after two runs of `pushdownFilters` with `exDeduceHelpers`: each scan
holds the deduced predicate twice. -/
def planE_twice : Nodes :=
  [ { nodeType := .TABLE_SCAN, bindingTags := [1],
      filterList := [predLKNotNull, predLKNotNull] },
    { nodeType := .TABLE_SCAN, bindingTags := [2],
      filterList := [predLKNotNull, predLKNotNull] },
    { nodeType := .JOIN, children := [0, 1], joinType := .INNER, onList := [condLR] } ]

/-- The fields and lists with which the placement loop of the root join of `planV` ends: the
mark column goes to the left, `m = r.k` stays on the on-list. -/
def planV_placed : JoinState :=
  { joinType := .INNER, bindingTags := [], onList := [condMR], leftPushdown := [predMark] }

/-- The plan `planV` when the root join has written its fields back and made its two advisory
calls. -/
def planV_mid : Nodes :=
  [ { nodeType := .TABLE_SCAN, bindingTags := [1] },
    { nodeType := .TABLE_SCAN, bindingTags := [5] },
    { nodeType := .TABLE_SCAN, bindingTags := [2] },
    { nodeType := .JOIN, children := [0, 1], joinType := .MARK, bindingTags := [9] },
    { nodeType := .JOIN, children := [3, 2], joinType := .INNER, onList := [condMR] } ]

/-- The sample helpers `exSightHelpers`, with a `splitPlanConjunctions` that replaces each call
of `and` of the list by its arguments. -/
def exListHelpers : Helpers :=
  { exSightHelpers with splitPlanConjunctions := fun l => l.flatMap exSplitAnd }

/-- The plan of `l LEFT JOIN r ON ((l.k = r.k and l.v < r.v) and l.v = r.v)`. -/
def planT : Nodes :=
  [ { nodeType := .TABLE_SCAN, bindingTags := [1] },
    { nodeType := .TABLE_SCAN, bindingTags := [2] },
    { nodeType := .JOIN, children := [0, 1], joinType := .LEFT,
      onList := [.f {} "and" [.f {} "and" [condLR, predLT], predLR]] } ]

/-- The plan `planT` after one run of `pushdownFilters` with `exListHelpers`: the on-list
holds the two arguments of its former entry. -/
def planT_once : Nodes :=
  [ { nodeType := .TABLE_SCAN, bindingTags := [1] },
    { nodeType := .TABLE_SCAN, bindingTags := [2] },
    { nodeType := .JOIN, children := [0, 1], joinType := .LEFT,
      onList := [.f {} "and" [condLR, predLT], predLR] } ]

/-- The plan `planT` after two runs of `pushdownFilters` with `exListHelpers`: the on-list
holds three conjuncts. -/
def planT_twice : Nodes :=
  [ { nodeType := .TABLE_SCAN, bindingTags := [1] },
    { nodeType := .TABLE_SCAN, bindingTags := [2] },
    { nodeType := .JOIN, children := [0, 1], joinType := .LEFT,
      onList := [condLR, predLT, predLR] } ]

/-- The plan `planG_filter` after a second run of `pushdownFilters` from the `FILTER` with
`separateNonEquiConds`: the scan of `u` holds `l.v < r.v`. -/
def planG_twice : Nodes :=
  [ { nodeType := .TABLE_SCAN, bindingTags := [3], filterList := [predLT] },
    { nodeType := .TABLE_SCAN, bindingTags := [1] },
    { nodeType := .TABLE_SCAN, bindingTags := [2] },
    { nodeType := .JOIN, children := [1, 2], joinType := .INNER },
    { nodeType := .FUNCTION_SCAN, children := [3], bindingTags := [4], filterList := [predG] },
    { nodeType := .FILTER, children := [0], filterList := [predLT] } ]

/-- A `SORT` over a `FILTER` holding `r.v IS NULL and l.v IS NULL` over the plan of
`l LEFT JOIN r ON l.k = r.k`. -/
def planU : Nodes :=
  [ { nodeType := .TABLE_SCAN, bindingTags := [1] },
    { nodeType := .TABLE_SCAN, bindingTags := [2] },
    { nodeType := .JOIN, children := [0, 1], joinType := .LEFT, onList := [condLR] },
    { nodeType := .FILTER, children := [2],
      filterList := [.f {} "and" [predRNull, predLNull]] },
    { nodeType := .SORT, children := [3] } ]

/-- The shape of the plan `planU`. -/
def planU_shape : Shape := .unary 4 (.filter 3 (.join 2 (.scan 0) (.scan 1)))

/-- The plan `planU` after `pushdownFilters` from the `SORT`: the scan of `l` holds
`l.v IS NULL`, and the `FILTER` holds `r.v IS NULL`, which the left join returns unplaced. -/
def planU_done : Nodes :=
  [ { nodeType := .TABLE_SCAN, bindingTags := [1], filterList := [predLNull] },
    { nodeType := .TABLE_SCAN, bindingTags := [2] },
    { nodeType := .JOIN, children := [0, 1], joinType := .LEFT, onList := [condLR] },
    { nodeType := .FILTER, children := [2], filterList := [predRNull] },
    { nodeType := .SORT, children := [3] } ]

/-! ## Lemmas on expressions and substitution maps -/

theorem DeepCopyExpr_eq (e : Expr) : DeepCopyExpr e = e :=
  @Expr.rec (fun e => DeepCopyExpr e = e) (fun l => DeepCopyExprList l = l)
    (fun _ _ _ => rfl) (fun _ _ => rfl)
    (fun t n args ih => by simp [DeepCopyExpr, ih]) rfl
    (fun a as iha ihas => by simp [DeepCopyExprList, iha, ihas]) e

theorem removeProjectionsForArgs_eq_map (args : List Expr) (projMap : ProjMap) :
    removeProjectionsForArgs args projMap =
      args.map (fun arg => removeProjectionsForExpr arg projMap) := by
  induction args with
  | nil => rfl
  | cons a as ih => simp [removeProjectionsForArgs, ih]

theorem removeProjectionsForExprList_eq_map (exprList : List Expr) (projMap : ProjMap) :
    removeProjectionsForExprList exprList projMap =
      exprList.map (fun expr => removeProjectionsForExpr expr projMap) := by
  induction exprList with
  | nil => rfl
  | cons a as ih => simp [removeProjectionsForExprList, ih]

theorem removeProjectionsForOrderBy_eq_map (orderBy : List OrderBySpec) (projMap : ProjMap) :
    removeProjectionsForOrderBy orderBy projMap =
      orderBy.map (fun o => { o with expr := removeProjectionsForExpr o.expr projMap }) := by
  induction orderBy with
  | nil => rfl
  | cons a as ih => simp [removeProjectionsForOrderBy, ih]

theorem removeProjectionsForExpr_nil (e : Expr) : removeProjectionsForExpr e [] = e :=
  @Expr.rec (fun e => removeProjectionsForExpr e [] = e)
    (fun l => removeProjectionsForArgs l [] = l)
    (fun t r p => by simp [removeProjectionsForExpr, ProjMap.get?]) (fun _ _ => rfl)
    (fun t n args ih => by simp [removeProjectionsForExpr, ih]) rfl
    (fun a as iha ihas => by simp [removeProjectionsForArgs, iha, ihas]) e

theorem ProjMap.get?_filter_ne (m : ProjMap) (k k2 : Int × Int) (hne : k ≠ k2) :
    ProjMap.get? (m.filter (fun p => !decide (p.1 = k2))) k = ProjMap.get? m k := by
  induction m with
  | nil => rfl
  | cons p rest ih =>
    obtain ⟨k3, v⟩ := p
    by_cases h3 : k3 = k2
    · subst h3
      simp [List.filter, ProjMap.get?, hne, ih]
    · simp [List.filter, h3, ProjMap.get?, ih]

theorem ProjMap.get?_set (m : ProjMap) (k k2 : Int × Int) (v : Expr) :
    ProjMap.get? (m.set k2 v) k = if k = k2 then some v else ProjMap.get? m k := by
  by_cases h : k = k2
  · simp [ProjMap.set, ProjMap.get?, h]
  · simp [ProjMap.set, ProjMap.get?, h, ProjMap.get?_filter_ne m k k2 h]

theorem ProjMap.get?_merge (projMap childProjMap : ProjMap) (k : Int × Int) :
    ProjMap.get? (projMap.merge childProjMap) k =
      (ProjMap.get? childProjMap k).orElse (fun _ => ProjMap.get? projMap k) := by
  induction childProjMap with
  | nil => simp [ProjMap.merge, ProjMap.get?]
  | cons p rest ih =>
    obtain ⟨k2, v⟩ := p
    rw [ProjMap.merge, ProjMap.get?_set]
    by_cases h : k = k2
    · simp [ProjMap.get?, h]
    · simp [ProjMap.get?, h, ih]

theorem ProjMap.merge_nil (projMap : ProjMap) : ProjMap.merge projMap [] = projMap := rfl

/-! ## Lemmas on well-formed plans -/

theorem WellFormed.node {rank : Nat → Nat} {nodes : Nodes} (hwf : WellFormed rank nodes)
    {id : Nat} {node : Node} (hn : nodes[id]? = some node) :
    (∀ c ∈ node.children, c < nodes.length ∧ rank c < rank id) ∧
      (node.nodeType = .PROJECT → node.children ≠ [] ∧ node.bindingTags ≠ []) :=
  hwf (id, node) (List.mk_mem_enum_iff_getElem?.mpr hn)

theorem WellFormed.wf_set {rank : Nat → Nat} {nodes : Nodes} (hwf : WellFormed rank nodes)
    {id : Nat} {node2 : Node}
    (hc : ∀ c ∈ node2.children, c < nodes.length ∧ rank c < rank id)
    (hp : node2.nodeType = .PROJECT → node2.children ≠ [] ∧ node2.bindingTags ≠ []) :
    WellFormed rank (nodes.set id node2) := by
  intro p hp2
  obtain ⟨j, x⟩ := p
  rw [List.mk_mem_enum_iff_getElem?, List.getElem?_set] at hp2
  rw [List.length_set]
  by_cases hij : id = j
  · subst hij
    by_cases hlt : id < nodes.length
    · simp [hlt] at hp2
      subst hp2
      exact ⟨hc, hp⟩
    · simp [hlt] at hp2
  · simp [hij] at hp2
    exact hwf.node hp2

theorem getElem?_lt {α : Type} {nodes : List α} {id : Nat} {node : α}
    (hn : nodes[id]? = some node) : id < nodes.length := by
  by_contra hlt
  rw [List.getElem?_eq_none (by omega)] at hn
  cases hn

theorem getNode_eq {nodes : Nodes} {id : Nat} {node : Node} (hn : nodes[id]? = some node) :
    getNode nodes id = .ok node := by
  simp [getNode, hn]

theorem setChild_eq {nodes : Nodes} {id i c : Nat} {node : Node} (hn : nodes[id]? = some node)
    (hi : i < node.children.length) :
    setChild nodes id i c = .ok (nodes.set id { node with children := node.children.set i c }) := by
  simp [setChild, hn, hi]

theorem getChild_eq {node : Node} {i : Nat} (hi : i < node.children.length) :
    getChild node i = .ok node.children[i] := by
  simp [getChild, List.getElem?_eq_getElem hi]

/-- The loop over the children of a node of a well-formed plan returns, keeps the plan well
formed, and changes no node of higher rank and nothing but the child slots of the node. -/
theorem removeChildProjections_total (rank : Nat → Nat)
    (rec : Nodes → Nat → NodeType → Except Err (Nodes × Nat × ProjMap)) (fuel : Nat)
    (hrec : ∀ nodes c pt, WellFormed rank nodes → c < nodes.length → rank c < fuel →
      ∃ nodes1 id1 m, rec nodes c pt = .ok (nodes1, id1, m) ∧ WellFormed rank nodes1 ∧
        nodes1.length = nodes.length ∧ (∀ j, rank c < rank j → nodes1[j]? = nodes[j]?) ∧
        id1 < nodes.length ∧ rank id1 ≤ rank c)
    (nodeID : Nat) (hfuel : rank nodeID ≤ fuel) :
    ∀ (k i : Nat) (nodes : Nodes) (m0 : ProjMap) (node : Node), WellFormed rank nodes →
      nodes[nodeID]? = some node → i + k = node.children.length →
      ∃ nodes1 m1 children1,
        removeChildProjections rec nodeID k i nodes m0 = .ok (nodes1, m1) ∧
        WellFormed rank nodes1 ∧ nodes1.length = nodes.length ∧
        (∀ j, rank nodeID < rank j → nodes1[j]? = nodes[j]?) ∧
        nodes1[nodeID]? = some { node with children := children1 } ∧
        children1.length = node.children.length := by
  intro k
  induction k with
  | zero =>
    intro i nodes m0 node hwf hn _
    exact ⟨nodes, m0, node.children, rfl, hwf, rfl, fun _ _ => rfl, hn, rfl⟩
  | succ k ih =>
    intro i nodes m0 node hwf hn hik
    have hi : i < node.children.length := by omega
    have hcm : node.children[i] ∈ node.children := List.getElem_mem hi
    obtain ⟨hclt, hcr⟩ := (hwf.node hn).1 _ hcm
    obtain ⟨nodesC, newC, mC, hcall, hwfC, hlenC, hframeC, hnewlt, hnewr⟩ :=
      hrec nodes node.children[i] node.nodeType hwf hclt (by omega)
    have hnC : nodesC[nodeID]? = some node := by rw [hframeC nodeID hcr]; exact hn
    have hwf2 : WellFormed rank
        (nodesC.set nodeID { node with children := node.children.set i newC }) := by
      apply hwfC.wf_set
      · intro c hc
        rcases List.mem_or_eq_of_mem_set hc with hc | hc
        · rw [hlenC]; exact (hwf.node hn).1 c hc
        · subst hc; rw [hlenC]; exact ⟨hnewlt, by omega⟩
      · intro hp
        have := (hwf.node hn).2 hp
        refine ⟨?_, this.2⟩
        intro he
        have hl := congrArg List.length he
        simp at hl
        exact this.1 hl
    have hn2 : (nodesC.set nodeID { node with children := node.children.set i newC })[nodeID]? =
        some { node with children := node.children.set i newC } := by
      rw [List.getElem?_set_self]
      rw [hlenC]; exact getElem?_lt hn
    obtain ⟨nodes1, m1, children1, hloop, hwf1, hlen1, hframe1, hn1, hcl1⟩ :=
      ih (i + 1) _ (m0.merge mC) _ hwf2 hn2 (by simp; omega)
    refine ⟨nodes1, m1, children1, ?_, hwf1, ?_, ?_, hn1, ?_⟩
    · simp only [removeChildProjections, getNode_eq hn, getChild_eq hi, bind, Except.bind,
        hcall, setChild_eq hnC hi]
      exact hloop
    · rw [hlen1, List.length_set, hlenC]
    · intro j hj
      rw [hframe1 j hj, List.getElem?_set_ne (by rintro rfl; omega), hframeC j (by omega)]
    · simpa using hcl1
theorem canRemoveProject_ok {rank : Nat → Nat} {nodes : Nodes} (hwf : WellFormed rank nodes)
    {id : Nat} {node : Node} (hn : nodes[id]? = some node) (parentType : NodeType) :
    ∃ b, canRemoveProject nodes parentType node = .ok b := by
  by_cases hk : node.nodeType = .PROJECT
  · obtain ⟨hne, _⟩ := (hwf.node hn).2 hk
    obtain ⟨c, rest, hcs⟩ := List.exists_cons_of_ne_nil hne
    have hc0 : node.children[0]? = some c := by simp [hcs]
    have hclt := ((hwf.node hn).1 c (by simp [hcs])).1
    have hch : nodes[c]? = some nodes[c] := List.getElem?_eq_getElem hclt
    unfold canRemoveProject getChild getNode
    simp only [hc0, hch, bind, Except.bind]
    split_ifs <;> exact ⟨_, rfl⟩
  · exact ⟨false, by simp [canRemoveProject, hk]⟩

theorem canRemoveProject_true_project {nodes : Nodes} {parentType : NodeType} {node : Node}
    (h : canRemoveProject nodes parentType node = .ok true) : node.nodeType = .PROJECT := by
  by_contra hk
  simp [canRemoveProject, hk] at h

theorem Node.removeProjections_children (node : Node) (m : ProjMap) :
    (node.removeProjections m).children = node.children := rfl

theorem Node.removeProjections_nodeType (node : Node) (m : ProjMap) :
    (node.removeProjections m).nodeType = node.nodeType := rfl

theorem Node.removeProjections_bindingTags (node : Node) (m : ProjMap) :
    (node.removeProjections m).bindingTags = node.bindingTags := rfl

theorem WellFormed.wf_removeProjections {rank : Nat → Nat} {nodes1 : Nodes}
    (hwf : WellFormed rank nodes1) {nodeID : Nat} {node1 : Node}
    (hn : nodes1[nodeID]? = some node1) (m1 : ProjMap) :
    WellFormed rank (nodes1.set nodeID (node1.removeProjections m1)) :=
  hwf.wf_set (hwf.node hn).1 (hwf.node hn).2

/-- The tail of `removeSimpleProjections` on a well-formed plan: either the node is elided
(it is eligible and trivial), or it is kept with the children's map. -/
theorem removeProjectionsAt_cases {rank : Nat → Nat} {nodes1 : Nodes}
    (hwf : WellFormed rank nodes1) {nodeID : Nat} {node1 : Node}
    (hn : nodes1[nodeID]? = some node1) (parentType : NodeType) (m1 : ProjMap) :
    (canRemoveProject (nodes1.set nodeID (node1.removeProjections m1)) parentType
          (node1.removeProjections m1) = .ok true ∧
        allColRef (node1.removeProjections m1).projectList = true ∧
        ∃ tag c, node1.bindingTags[0]? = some tag ∧ node1.children[0]? = some c ∧
          removeProjectionsAt nodes1 nodeID parentType m1 =
            .ok (nodes1.set nodeID (node1.removeProjections m1), c,
              recordProjections tag (node1.removeProjections m1).projectList 0 m1)) ∨
      ((canRemoveProject (nodes1.set nodeID (node1.removeProjections m1)) parentType
            (node1.removeProjections m1) = .ok false ∨
          allColRef (node1.removeProjections m1).projectList = false) ∧
        removeProjectionsAt nodes1 nodeID parentType m1 =
          .ok (nodes1.set nodeID (node1.removeProjections m1), nodeID, m1)) := by
  have hwf2 := hwf.wf_removeProjections hn m1
  have hn2 : (nodes1.set nodeID (node1.removeProjections m1))[nodeID]? =
      some (node1.removeProjections m1) := List.getElem?_set_self (getElem?_lt hn)
  obtain ⟨b, hb⟩ := canRemoveProject_ok hwf2 hn2 parentType
  cases b with
  | false =>
    right
    refine ⟨Or.inl hb, ?_⟩
    simp [removeProjectionsAt, getNode_eq hn, bind, Except.bind, hb, pure, Except.pure]
  | true =>
    cases hall : allColRef (node1.removeProjections m1).projectList with
    | false =>
      right
      refine ⟨Or.inr rfl, ?_⟩
      simp [removeProjectionsAt, getNode_eq hn, bind, Except.bind, hb, hall, pure, Except.pure]
    | true =>
      left
      refine ⟨hb, rfl, ?_⟩
      have hk := canRemoveProject_true_project hb
      obtain ⟨hne, hbt⟩ := (hwf.node hn).2 hk
      obtain ⟨c, rest, hcs⟩ := List.exists_cons_of_ne_nil hne
      obtain ⟨tag, rest2, hts⟩ := List.exists_cons_of_ne_nil hbt
      refine ⟨tag, c, by simp [hts], by simp [hcs], ?_⟩
      simp [removeProjectionsAt, getNode_eq hn, bind, Except.bind, hb, hall, pure, Except.pure,
        getTag, getChild, Node.removeProjections_children, Node.removeProjections_bindingTags,
        hts, hcs]

/-- On a well-formed plan `removeSimpleProjections` returns once the fuel exceeds the rank of
the node; the plan stays well formed, keeps its size, no node of higher rank changes, and
the returned id is an index of the arena of rank at most that of the node. -/
theorem removeSimpleProjections_total (rank : Nat → Nat) :
    ∀ (fuel : Nat) (nodes : Nodes) (nodeID : Nat) (parentType : NodeType),
      WellFormed rank nodes → nodeID < nodes.length → rank nodeID < fuel →
      ∃ nodes1 id1 m, removeSimpleProjections fuel nodes nodeID parentType = .ok (nodes1, id1, m) ∧
        WellFormed rank nodes1 ∧ nodes1.length = nodes.length ∧
        (∀ j, rank nodeID < rank j → nodes1[j]? = nodes[j]?) ∧
        id1 < nodes.length ∧ rank id1 ≤ rank nodeID := by
  intro fuel
  induction fuel with
  | zero => intro _ _ _ _ _ h; omega
  | succ fuel ih =>
    intro nodes nodeID parentType hwf hlt hfuel
    have hn : nodes[nodeID]? = some nodes[nodeID] := List.getElem?_eq_getElem hlt
    obtain ⟨nodes1, m1, children1, hloop, hwf1, hlen1, hframe1, hn1, hcl1⟩ :=
      removeChildProjections_total rank (removeSimpleProjections fuel) fuel ih nodeID (by omega)
        nodes[nodeID].children.length 0 nodes [] nodes[nodeID] hwf hn (by simp)
    have hunf : removeSimpleProjections (fuel + 1) nodes nodeID parentType =
        removeProjectionsAt nodes1 nodeID parentType m1 := by
      simp only [removeSimpleProjections, getNode_eq hn, bind, Except.bind, hloop]
    have hframe2 : ∀ j, rank nodeID < rank j →
        (nodes1.set nodeID (Node.removeProjections
          { nodes[nodeID] with children := children1 } m1))[j]? = nodes[j]? := by
      intro j hj
      rw [List.getElem?_set_ne (by rintro rfl; omega), hframe1 j hj]
    rcases removeProjectionsAt_cases hwf1 hn1 parentType m1 with
      ⟨_, _, tag, c, _, hc, hres⟩ | ⟨_, hres⟩
    · refine ⟨_, _, _, hunf.trans hres, hwf1.wf_removeProjections hn1 m1, ?_, hframe2, ?_⟩
      · rw [List.length_set, hlen1]
      · have hcm : c ∈ children1 := by
          have := List.getElem?_mem hc
          simpa using this
        have := (hwf1.node hn1).1 c hcm
        rw [hlen1] at this
        exact ⟨this.1, by omega⟩
    · refine ⟨_, _, _, hunf.trans hres, hwf1.wf_removeProjections hn1 m1, ?_, hframe2, hlt, le_refl _⟩
      rw [List.length_set, hlen1]
theorem allColRef_iff (l : List Expr) :
    allColRef l = true ↔ ∀ e ∈ l, e.isCol = true ∨ e.isC = true := by
  induction l with
  | nil => simp [allColRef]
  | cons a as ih =>
    cases ha : a.isCol <;> cases hb : a.isC <;> simp [allColRef, ha, hb, ih]

theorem int32_of_lt {i : Nat} (h : i < 2147483648) : int32 i = (i : Int) := by
  unfold int32
  omega

theorem recordProjections_get?_other (tag : Int) (k : Int × Int) :
    ∀ (l : List Expr) (i0 : Nat) (m : ProjMap),
      (∀ j, j < l.length → k ≠ (tag, int32 (i0 + j))) →
      ProjMap.get? (recordProjections tag l i0 m) k = ProjMap.get? m k := by
  intro l
  induction l with
  | nil => intro i0 m _; rfl
  | cons p rest ih =>
    intro i0 m hk
    rw [recordProjections, ih (i0 + 1) _ (fun j hj => by
      have := hk (j + 1) (by simpa using hj)
      rwa [show i0 + (j + 1) = i0 + 1 + j by omega] at this)]
    rw [ProjMap.get?_set, if_neg]
    simpa using hk 0 (by simp)

theorem recordProjections_get? (tag : Int) :
    ∀ (l : List Expr) (i0 : Nat) (m : ProjMap), i0 + l.length ≤ 2147483648 →
      ∀ (j : Nat) (hj : j < l.length),
        ProjMap.get? (recordProjections tag l i0 m) (tag, ((i0 + j : Nat) : Int)) = some l[j] := by
  intro l
  induction l with
  | nil => intro _ _ _ j hj; simp at hj
  | cons p rest ih =>
    intro i0 m hlen j hj
    simp only [List.length_cons] at hlen hj
    rw [recordProjections]
    cases j with
    | zero =>
      rw [recordProjections_get?_other]
      · rw [ProjMap.get?_set, int32_of_lt (by omega)]
        simp
      · intro j hj2
        rw [int32_of_lt (by omega)]
        intro he
        have := congrArg Prod.snd he
        simp at this
        omega
    | succ j =>
      have := ih (i0 + 1) (m.set (tag, int32 i0) p) (by omega) j (by omega)
      rw [show i0 + (j + 1) = i0 + 1 + j by omega]
      simpa using this
/-- One call of `removeSimpleProjections` on a node of a well-formed plan: the loop over the
children returns, leaves the node as it was but for its child slots, and the call is the
tail `removeProjectionsAt` run on the loop's arena and map. -/
theorem removeSimpleProjections_node (rank : Nat → Nat) (fuel : Nat) (nodes : Nodes)
    (nodeID : Nat) (parentType : NodeType) (node : Node) (hwf : WellFormed rank nodes)
    (hn : nodes[nodeID]? = some node) (hfuel : rank nodeID ≤ fuel) :
    ∃ nodes1 m1 children1,
      removeChildProjections (removeSimpleProjections fuel) nodeID node.children.length 0
        nodes [] = .ok (nodes1, m1) ∧
      WellFormed rank nodes1 ∧
      nodes1[nodeID]? = some { node with children := children1 } ∧
      removeSimpleProjections (fuel + 1) nodes nodeID parentType =
        removeProjectionsAt nodes1 nodeID parentType m1 := by
  obtain ⟨nodes1, m1, children1, hloop, hwf1, _, _, hn1, _⟩ :=
    removeChildProjections_total rank (removeSimpleProjections fuel) fuel
      (removeSimpleProjections_total rank fuel) nodeID hfuel
      node.children.length 0 nodes [] node hwf hn (by simp)
  refine ⟨nodes1, m1, children1, hloop, hwf1, hn1, ?_⟩
  simp only [removeSimpleProjections, getNode_eq hn, bind, Except.bind, hloop]

/-- The loop over the children of a node with the single child `c`. -/
theorem removeChildProjections_single (rank : Nat → Nat) (fuel : Nat) (nodes : Nodes)
    (nodeID c : Nat) (node : Node) (hwf : WellFormed rank nodes)
    (hn : nodes[nodeID]? = some node) (hc : node.children = [c]) (hfuel : rank nodeID ≤ fuel) :
    ∃ nodesC newC mC,
      removeSimpleProjections fuel nodes c node.nodeType = .ok (nodesC, newC, mC) ∧
      removeChildProjections (removeSimpleProjections fuel) nodeID node.children.length 0
        nodes [] =
        .ok (nodesC.set nodeID { node with children := [newC] }, ProjMap.merge [] mC) := by
  obtain ⟨hclt, hcr⟩ := (hwf.node hn).1 c (by simp [hc])
  obtain ⟨nodesC, newC, mC, hcall, _, _, hframeC, _, _⟩ :=
    removeSimpleProjections_total rank fuel nodes c node.nodeType hwf hclt (by omega)
  have hnC : nodesC[nodeID]? = some node := by rw [hframeC nodeID hcr]; exact hn
  refine ⟨nodesC, newC, mC, hcall, ?_⟩
  have hlen : node.children.length = 1 := by simp [hc]
  have hi : 0 < node.children.length := by omega
  have hc0 : node.children[0] = c := by simp [hc]
  rw [hlen]
  simp only [removeChildProjections, getNode_eq hn, getChild_eq hi, bind, Except.bind, hc0,
    hcall, setChild_eq hnC hi]
  simp [hc]

/-- A call of `removeSimpleProjections` that returns another id than its input has elided
the node: in the returned arena the node is eligible and its projectList is trivial. -/
theorem removeProjectionsAt_elided {nodes1 nodes3 : Nodes} {nodeID id3 : Nat}
    {parentType : NodeType} {m1 m3 : ProjMap}
    (h : removeProjectionsAt nodes1 nodeID parentType m1 = .ok (nodes3, id3, m3))
    (hne : id3 ≠ nodeID) :
    ∃ node3, nodes3[nodeID]? = some node3 ∧
      canRemoveProject nodes3 parentType node3 = .ok true ∧
      allColRef node3.projectList = true := by
  unfold removeProjectionsAt getNode at h
  cases hn1 : nodes1[nodeID]? with
  | none => simp [hn1, bind, Except.bind] at h
  | some node1 =>
    simp only [hn1, bind, Except.bind] at h
    cases hb : canRemoveProject (nodes1.set nodeID (node1.removeProjections m1)) parentType
        (node1.removeProjections m1) with
    | error e => simp [hb] at h
    | ok b =>
      cases b with
      | false =>
        simp [hb, pure, Except.pure] at h
        exact absurd h.2.1.symm hne
      | true =>
        cases hall : allColRef (node1.removeProjections m1).projectList with
        | false =>
          simp [hb, hall, pure, Except.pure] at h
          exact absurd h.2.1.symm hne
        | true =>
          simp only [hb, hall, if_true] at h
          cases ht : getTag (node1.removeProjections m1) 0 with
          | error e => simp [ht] at h
          | ok tag =>
            cases hch : getChild (node1.removeProjections m1) 0 with
            | error e => simp [ht, hch] at h
            | ok c =>
              simp [ht, hch, pure, Except.pure] at h
              obtain ⟨h1, -, -⟩ := h
              subst h1
              exact ⟨_, List.getElem?_set_self (getElem?_lt hn1), hb, hall⟩

theorem removeSimpleProjections_elided {fuel : Nat} {nodes nodes3 : Nodes} {nodeID id3 : Nat}
    {parentType : NodeType} {m3 : ProjMap}
    (h : removeSimpleProjections fuel nodes nodeID parentType = .ok (nodes3, id3, m3))
    (hne : id3 ≠ nodeID) :
    ∃ node3, nodes3[nodeID]? = some node3 ∧
      canRemoveProject nodes3 parentType node3 = .ok true ∧
      allColRef node3.projectList = true := by
  cases fuel with
  | zero => simp [removeSimpleProjections] at h
  | succ fuel =>
    unfold removeSimpleProjections at h
    cases hn : getNode nodes nodeID with
    | error e => simp [hn, bind, Except.bind] at h
    | ok node =>
      simp only [hn, bind, Except.bind] at h
      cases hloop : removeChildProjections (removeSimpleProjections fuel) nodeID
          node.children.length 0 nodes [] with
      | error e => simp [hloop] at h
      | ok r =>
        obtain ⟨nodes1, m1⟩ := r
        simp only [hloop] at h
        exact removeProjectionsAt_elided h hne

theorem canRemoveProject_unknown (nodes : Nodes) (node : Node) :
    canRemoveProject nodes .UNKNOWN node ≠ .ok true := by
  unfold canRemoveProject
  split
  · simp
  · simp

/-! ## Lemmas on filter pushdown -/

theorem modifyNode_eq {nodes : Nodes} {id : Nat} {node : Node} (hn : nodes[id]? = some node)
    (g : Node → Node) : modifyNode nodes id g = .ok (nodes.set id (g node)) := by
  simp [modifyNode, hn]

theorem bind_eq_ok {α β : Type} {x : Except Err α} {f : α → Except Err β} {b : β}
    (h : x >>= f = .ok b) : ∃ a, x = .ok a ∧ f a = .ok b := by
  cases x with
  | error e => simp [bind, Except.bind] at h
  | ok a => exact ⟨a, rfl, h⟩

theorem getNode_ok {nodes : Nodes} {id : Nat} {node : Node} (h : getNode nodes id = .ok node) :
    nodes[id]? = some node := by
  unfold getNode at h
  split at h
  · injection h with h; subst h; assumption
  · cases h

theorem getChild_ok {node : Node} {i c : Nat} (h : getChild node i = .ok c) :
    node.children[i]? = some c := by
  unfold getChild at h
  split at h
  · injection h with h; subst h; assumption
  · cases h

theorem Extends.ext_refl (nodes : Nodes) : Extends nodes nodes :=
  fun _ node hn => ⟨node, hn, rfl, rfl⟩

theorem Extends.ext_trans {a b c : Nodes} (hab : Extends a b) (hbc : Extends b c) : Extends a c := by
  intro j node hn
  obtain ⟨node1, hn1, ht1, hc1⟩ := hab j node hn
  obtain ⟨node2, hn2, ht2, hc2⟩ := hbc j node1 hn1
  exact ⟨node2, hn2, ht2.trans ht1, hc2.trans hc1⟩

theorem Extends.ext_set {nodes : Nodes} {id : Nat} {node node2 : Node}
    (hn : nodes[id]? = some node) (ht : node2.nodeType = node.nodeType)
    (hc : node2.children.length = node.children.length) : Extends nodes (nodes.set id node2) := by
  intro j x hx
  by_cases hij : id = j
  · subst hij
    rw [hn] at hx
    injection hx with hx
    subst hx
    exact ⟨node2, List.getElem?_set_self (getElem?_lt hn), ht, hc⟩
  · exact ⟨x, by rw [List.getElem?_set_ne hij]; exact hx, rfl, rfl⟩

theorem Extends.ext_append (nodes : Nodes) (node : Node) : Extends nodes (nodes ++ [node]) := by
  intro j x hx
  exact ⟨x, by rw [List.getElem?_append_left (getElem?_lt hx)]; exact hx, rfl, rfl⟩

theorem Extends.ext_setChild {nodes nodes1 : Nodes} {id i c : Nat}
    (h : setChild nodes id i c = .ok nodes1) : Extends nodes nodes1 := by
  unfold Plan.setChild at h
  split at h
  · rename_i node hn
    split at h
    · injection h with h
      subst h
      exact Extends.ext_set hn rfl (by simp)
    · cases h
  · cases h

theorem Extends.ext_modifyNode {nodes nodes1 : Nodes} {id : Nat} {g : Node → Node}
    (h : modifyNode nodes id g = .ok nodes1)
    (hg : ∀ n, (g n).nodeType = n.nodeType ∧ (g n).children.length = n.children.length) :
    Extends nodes nodes1 := by
  unfold Plan.modifyNode at h
  split at h
  · rename_i node hn
    injection h with h
    subst h
    exact Extends.ext_set hn (hg node).1 (hg node).2
  · cases h

theorem Extends.ext_pushToChild {rec : Nodes → Nat → List Expr → Pushed}
    (hrec : ∀ nodes c fs r, rec nodes c fs = .ok r → Extends nodes r.1)
    {nodes nodes1 : Nodes} {id i : Nat} {fs : List Expr}
    (h : pushToChild rec nodes id i fs = .ok nodes1) : Extends nodes nodes1 := by
  unfold Plan.pushToChild at h
  obtain ⟨node, _, h⟩ := bind_eq_ok h
  obtain ⟨c, _, h⟩ := bind_eq_ok h
  obtain ⟨⟨nodesC, childID, residue⟩, hcall, h⟩ := bind_eq_ok h
  have hC := hrec _ _ _ _ hcall
  simp only at h
  split at h
  · obtain ⟨node1, _, h⟩ := bind_eq_ok h
    obtain ⟨c1, _, h⟩ := bind_eq_ok h
    exact hC.ext_trans ((Extends.ext_append _ _).ext_trans (Extends.ext_setChild h))
  · exact hC.ext_trans (Extends.ext_setChild h)

theorem Extends.ext_pushDeduced {hh : Helpers} {rec : Nodes → Nat → List Expr → Pushed}
    (hrec : ∀ nodes c fs r, rec nodes c fs = .ok r → Extends nodes r.1)
    {nodes nodes1 : Nodes} {id : Nat} {l r : List Expr}
    (h : pushDeduced hh rec nodes id l r = .ok nodes1) : Extends nodes nodes1 := by
  unfold Plan.pushDeduced at h
  obtain ⟨node, _, h⟩ := bind_eq_ok h
  split at h
  · obtain ⟨c0, _, h⟩ := bind_eq_ok h
    obtain ⟨⟨nodesA, _, _⟩, hcallA, h⟩ := bind_eq_ok h
    obtain ⟨node1, _, h⟩ := bind_eq_ok h
    obtain ⟨c1, _, h⟩ := bind_eq_ok h
    obtain ⟨⟨nodesB, _, _⟩, hcallB, h⟩ := bind_eq_ok h
    simp only [pure, Except.pure] at h
    injection h with h
    subst h
    exact (hrec _ _ _ _ hcallA).ext_trans (hrec _ _ _ _ hcallB)
  · simp only [pure, Except.pure] at h
    injection h with h
    subst h
    exact Extends.ext_refl _

/-- A call of `pushdownFilters` that returns leaves every node of the arena in place, with its
kind and the number of its child slots. -/
theorem pushdownFilters_extends (h : Helpers) (separateNonEquiConds : Bool) :
    ∀ (fuel : Nat) (nodes : Nodes) (nodeID : Nat) (filters : List Expr)
      (r : Nodes × Nat × List Expr),
      pushdownFilters h separateNonEquiConds fuel nodes nodeID filters = .ok r →
      Extends nodes r.1 := by
  intro fuel
  induction fuel with
  | zero => intro _ _ _ _ hr; simp [pushdownFilters] at hr
  | succ fuel ih =>
    intro nodes nodeID filters r hr
    unfold pushdownFilters at hr
    obtain ⟨node, hnode, hr⟩ := bind_eq_ok hr
    have hset : ∀ r, pushdownSetOp h (pushdownFilters h separateNonEquiConds fuel) nodes nodeID
        node filters = .ok r → Extends nodes r.1 := by
      intro r hr
      unfold pushdownSetOp at hr
      obtain ⟨c0, _, hr⟩ := bind_eq_ok hr
      obtain ⟨leftChild, _, hr⟩ := bind_eq_ok hr
      obtain ⟨c1, _, hr⟩ := bind_eq_ok hr
      obtain ⟨rightChild, _, hr⟩ := bind_eq_ok hr
      obtain ⟨nodes1, h1, hr⟩ := bind_eq_ok hr
      obtain ⟨nodes2, h2, hr⟩ := bind_eq_ok hr
      simp only [pure, Except.pure] at hr
      injection hr with hr
      subst hr
      exact (Extends.ext_pushToChild ih h1).ext_trans (Extends.ext_pushToChild ih h2)
    have hscan : ∀ r, pushdownScan nodes nodeID filters = .ok r → Extends nodes r.1 := by
      intro r hr
      unfold pushdownScan at hr
      obtain ⟨nodes1, h1, hr⟩ := bind_eq_ok hr
      simp only [pure, Except.pure] at hr
      injection hr with hr
      subst hr
      exact Extends.ext_modifyNode h1 (fun _ => ⟨rfl, rfl⟩)
    have hdef : ∀ r, pushdownDefault (pushdownFilters h separateNonEquiConds fuel) nodes nodeID
        node filters = .ok r → Extends nodes r.1 := by
      intro r hr
      unfold pushdownDefault at hr
      split at hr
      · obtain ⟨nodes1, h1, hr⟩ := bind_eq_ok hr
        simp only [pure, Except.pure] at hr
        injection hr with hr
        subst hr
        exact Extends.ext_pushToChild ih h1
      · simp only [pure, Except.pure] at hr
        injection hr with hr
        subst hr
        exact Extends.ext_refl _
    cases hk : node.nodeType <;> simp only [hk] at hr
    case AGG =>
      unfold pushdownAgg at hr
      obtain ⟨groupTag, _, hr⟩ := bind_eq_ok hr
      obtain ⟨aggregateTag, _, hr⟩ := bind_eq_ok hr
      obtain ⟨nodes1, h1, hr⟩ := bind_eq_ok hr
      simp only [pure, Except.pure] at hr
      injection hr with hr
      subst hr
      exact Extends.ext_pushToChild ih h1
    case FILTER =>
      unfold pushdownFilter at hr
      obtain ⟨c, _, hr⟩ := bind_eq_ok hr
      obtain ⟨⟨nodes1, childID, residue⟩, hcall, hr⟩ := bind_eq_ok hr
      have hC := ih _ _ _ _ hcall
      simp only at hr
      split at hr
      · obtain ⟨nodes2, h2, hr⟩ := bind_eq_ok hr
        obtain ⟨nodes3, h3, hr⟩ := bind_eq_ok hr
        simp only [pure, Except.pure] at hr
        injection hr with hr
        subst hr
        exact hC.ext_trans ((Extends.ext_setChild h2).ext_trans (Extends.ext_modifyNode h3 (fun _ => ⟨rfl, rfl⟩)))
      · simp only [pure, Except.pure] at hr
        injection hr with hr
        subst hr
        exact hC
    case JOIN =>
      unfold pushdownJoin at hr
      obtain ⟨c0, _, hr⟩ := bind_eq_ok hr
      obtain ⟨c1, _, hr⟩ := bind_eq_ok hr
      obtain ⟨markTag, _, hr⟩ := bind_eq_ok hr
      obtain ⟨st, _, hr⟩ := bind_eq_ok hr
      obtain ⟨nodes1, h1, hr⟩ := bind_eq_ok hr
      obtain ⟨nodes2, h2, hr⟩ := bind_eq_ok hr
      obtain ⟨nodes3, h3, hr⟩ := bind_eq_ok hr
      obtain ⟨nodes4, h4, hr⟩ := bind_eq_ok hr
      simp only [pure, Except.pure] at hr
      injection hr with hr
      subst hr
      exact (Extends.ext_modifyNode h1 (fun _ => ⟨rfl, rfl⟩)).ext_trans
        ((Extends.ext_pushDeduced ih h2).ext_trans
          ((Extends.ext_pushToChild ih h3).ext_trans (Extends.ext_pushToChild ih h4)))
    case PROJECT =>
      unfold pushdownProject at hr
      obtain ⟨c0, _, hr⟩ := bind_eq_ok hr
      obtain ⟨child, _, hr⟩ := bind_eq_ok hr
      split at hr
      · simp only [pure, Except.pure] at hr
        injection hr with hr
        subst hr
        exact Extends.ext_refl _
      · obtain ⟨projectTag, _, hr⟩ := bind_eq_ok hr
        obtain ⟨nodes1, h1, hr⟩ := bind_eq_ok hr
        simp only [pure, Except.pure] at hr
        injection hr with hr
        subst hr
        exact Extends.ext_pushToChild ih h1
    case FUNCTION_SCAN =>
      unfold pushdownFunctionScan at hr
      obtain ⟨nodes1, h1, hr⟩ := bind_eq_ok hr
      obtain ⟨childId, _, hr⟩ := bind_eq_ok hr
      obtain ⟨⟨nodes2, childId2, err⟩, hcall, hr⟩ := bind_eq_ok hr
      have hC := (Extends.ext_modifyNode h1 (fun _ => ⟨rfl, rfl⟩)).ext_trans (ih _ _ _ _ hcall)
      simp only at hr
      split at hr
      · simp only [pure, Except.pure] at hr
        injection hr with hr
        subst hr
        exact hC
      · obtain ⟨nodes3, h3, hr⟩ := bind_eq_ok hr
        simp only [pure, Except.pure] at hr
        injection hr with hr
        subst hr
        exact hC.ext_trans (Extends.ext_setChild h3)
    case TABLE_SCAN => exact hscan r hr
    case EXTERNAL_SCAN => exact hscan r hr
    case UNION => exact hset r hr
    case UNION_ALL => exact hset r hr
    case MINUS => exact hset r hr
    case MINUS_ALL => exact hset r hr
    case INTERSECT => exact hset r hr
    case INTERSECT_ALL => exact hset r hr
    all_goals exact hdef r hr

theorem appendConjuncts_eq (h : Helpers) (out l : List Expr) :
    appendConjuncts h out l =
      out ++ l.flatMap (fun cond => h.splitPlanConjunction (h.applyDistributivity cond)) := by
  induction l generalizing out with
  | nil => simp [appendConjuncts]
  | cons a as ih => simp [appendConjuncts, ih, List.flatMap_cons]

theorem splitAggFilters_eq (h : Helpers) (groupTag aggregateTag : Int) (groupBy : List Expr)
    (filters canPushdown cantPushdown : List Expr) :
    splitAggFilters h groupTag aggregateTag groupBy filters canPushdown cantPushdown =
      (canPushdown ++ (filters.filter (fun f => !h.containsTag f aggregateTag)).map
          (fun f => h.replaceColRefs f groupTag groupBy),
        cantPushdown ++ filters.filter (fun f => h.containsTag f aggregateTag)) := by
  induction filters generalizing canPushdown cantPushdown with
  | nil => simp [splitAggFilters]
  | cons a as ih =>
    cases hc : h.containsTag a aggregateTag <;> simp [splitAggFilters, hc, ih]

/-- The block `pushToChild` returns whenever the recursive call on the child does. -/
theorem pushToChild_ok {rec : Nodes → Nat → List Expr → Pushed}
    (hrec : ∀ nodes c fs r, rec nodes c fs = .ok r → Extends nodes r.1)
    {nodes nodes1 : Nodes} {id i c childID : Nat} {node : Node} {fs residue : List Expr}
    (hn : nodes[id]? = some node) (hc : node.children[i]? = some c)
    (hcall : rec nodes c fs = .ok (nodes1, childID, residue)) :
    ∃ nodes2, pushToChild rec nodes id i fs = .ok nodes2 := by
  obtain ⟨node1, hn1, _, hlen⟩ := hrec _ _ _ _ hcall id node hn
  have hn1 : nodes1[id]? = some node1 := hn1
  have hi : i < node.children.length := getElem?_lt hc
  have hi1 : i < node1.children.length := by omega
  have hn2 : ∀ x : Node, (nodes1 ++ [x])[id]? = some node1 := fun x => by
    rw [List.getElem?_append_left (getElem?_lt hn1)]; exact hn1
  unfold pushToChild getChild
  simp only [getNode_eq hn, hc, bind, Except.bind, hcall]
  split
  · simp only [getNode_eq hn1, List.getElem?_eq_getElem hi1, appendNode,
      setChild_eq (hn2 _) hi1]
    exact ⟨_, rfl⟩
  · simp only [setChild_eq hn1 hi1]
    exact ⟨_, rfl⟩

theorem filter_not_length_add {α : Type} (p : α → Bool) (l : List α) :
    (l.filter (fun x => !p x)).length + (l.filter (fun x => p x)).length = l.length := by
  induction l with
  | nil => rfl
  | cons a as ih =>
    cases hp : p a <;> simp [List.filter, hp] <;> omega

theorem placeFilter_left_eq (h : Helpers) (sep : Bool) (lt rt : List Int) (mt : Int)
    (st : JoinState) (filter : Expr) :
    placeFilter h sep lt rt mt st filter JoinSideLeft =
      .ok (if st.joinType ≠ .OUTER ∧ st.joinType ≠ .RIGHT then
        { st with leftPushdown := st.leftPushdown ++ [filter] } else st.keep filter) := by
  unfold placeFilter
  rw [if_neg (by decide), if_pos rfl]
  split <;> rfl

theorem placeFilter_right_eq (h : Helpers) (sep : Bool) (lt rt : List Int) (mt : Int)
    (st : JoinState) (filter : Expr) :
    placeFilter h sep lt rt mt st filter JoinSideRight =
      .ok (if st.joinType = .INNER ∨ st.joinType = .RIGHT then
        { st with rightPushdown := st.rightPushdown ++ [filter] } else st.keep filter) := by
  unfold placeFilter
  rw [if_neg (by decide), if_neg (by decide), if_pos rfl]
  split <;> rfl

theorem placeFilter_none_eq (h : Helpers) (sep : Bool) (lt rt : List Int) (mt : Int)
    (st : JoinState) (filter : Expr) :
    placeFilter h sep lt rt mt st filter JoinSideNone =
      .ok (if isTrueConst filter then st
        else if st.joinType = .INNER then
          { st with
            leftPushdown := st.leftPushdown ++ [filter]
            rightPushdown := st.rightPushdown ++ [filter] }
        else if st.joinType = .RIGHT ∨ st.joinType = .OUTER then st.keep filter
        else { st with leftPushdown := st.leftPushdown ++ [filter] }) := by
  unfold placeFilter
  rw [if_pos rfl]
  by_cases ht : isTrueConst filter = true
  · simp [ht]
  · simp only [ht, if_false, Bool.false_eq_true]
    cases hj : st.joinType <;> simp [DeepCopyExpr_eq]

theorem placeFilter_both_cases {h : Helpers} {sep : Bool} {lt rt : List Int} {mt : Int}
    {st st1 : JoinState} {filter : Expr}
    (hp : placeFilter h sep lt rt mt st filter JoinSideBoth = .ok st1) :
    (st.joinType = .INNER ∧ st1 = { st with onList := st.onList ++ [filter] }) ∨
      st1 = st.keep filter := by
  unfold placeFilter at hp
  rw [if_neg (by decide), if_neg (by decide), if_neg (by decide), if_pos rfl] at hp
  by_cases hj : st.joinType = .INNER
  · rw [if_pos hj] at hp
    cases sep with
    | false =>
      simp only [Bool.false_eq_true, if_false] at hp
      injection hp with hp
      exact Or.inl ⟨hj, hp.symm⟩
    | true =>
      simp only [if_true] at hp
      cases filter with
      | col t r p => injection hp with hp; exact Or.inr hp.symm
      | c t v => injection hp with hp; exact Or.inr hp.symm
      | f t n args =>
        simp only at hp
        split_ifs at hp with h1
        · cases h0 : args[0]? with
          | none => simp [h0] at hp
          | some a0 =>
            simp only [h0] at hp
            split_ifs at hp with h2
            · cases h1b : args[1]? with
              | none => simp [h1b] at hp
              | some a1 =>
                simp only [h1b] at hp
                split_ifs at hp with h3
                · injection hp with hp; exact Or.inl ⟨hj, hp.symm⟩
                · injection hp with hp; exact Or.inr hp.symm
            · injection hp with hp; exact Or.inr hp.symm
        · injection hp with hp; exact Or.inr hp.symm
  · rw [if_neg hj] at hp
    injection hp with hp
    exact Or.inr hp.symm

theorem placeFilter_mark_cases {h : Helpers} {sep : Bool} {lt rt : List Int} {mt : Int}
    {st st1 : JoinState} {filter : Expr}
    (hp : placeFilter h sep lt rt mt st filter JoinSideMark = .ok st1) :
    st1 = { st with joinType := .SEMI, bindingTags := [] } ∨
      st1 = { st with joinType := .ANTI, bindingTags := [] } ∨ st1 = st.keep filter := by
  unfold placeFilter at hp
  rw [if_neg (by decide), if_neg (by decide), if_neg (by decide), if_neg (by decide),
    if_pos rfl] at hp
  cases filter with
  | c t v => injection hp with hp; exact Or.inr (Or.inr hp.symm)
  | col t r p =>
    simp only at hp
    cases hb : st.bindingTags[0]? with
    | none => simp [hb] at hp
    | some tag =>
      simp only [hb] at hp
      split_ifs at hp
      · injection hp with hp; exact Or.inl hp.symm
      · injection hp with hp; exact Or.inr (Or.inr hp.symm)
  | f t n args =>
    simp only at hp
    split_ifs at hp
    · cases h0 : args[0]? with
      | none => simp [h0] at hp
      | some a0 =>
        simp only [h0] at hp
        cases a0 with
        | c t v => injection hp with hp; exact Or.inr (Or.inr hp.symm)
        | f t n args => injection hp with hp; exact Or.inr (Or.inr hp.symm)
        | col t r p =>
          simp only at hp
          cases hb : st.bindingTags[0]? with
          | none => simp [hb] at hp
          | some tag =>
            simp only [hb] at hp
            split_ifs at hp
            · injection hp with hp; exact Or.inr (Or.inl hp.symm)
            · injection hp with hp; exact Or.inr (Or.inr hp.symm)
    · injection hp with hp; exact Or.inr (Or.inr hp.symm)

theorem placeFilter_other_eq (h : Helpers) (sep : Bool) (lt rt : List Int) (mt : Int)
    (st : JoinState) (filter : Expr) (side : JoinSide) (hN : side ≠ JoinSideNone)
    (hL : side ≠ JoinSideLeft) (hR : side ≠ JoinSideRight) (hB : side ≠ JoinSideBoth)
    (hM : side ≠ JoinSideMark) :
    placeFilter h sep lt rt mt st filter side = .ok (st.keep filter) := by
  unfold placeFilter
  rw [if_neg hN, if_neg hL, if_neg hR, if_neg hB, if_neg hM]

/-- Every outcome of one iteration of the placement loop. -/
theorem placeFilter_cases {h : Helpers} {sep : Bool} {lt rt : List Int} {mt : Int}
    {st st1 : JoinState} {filter : Expr} {side : JoinSide}
    (hp : placeFilter h sep lt rt mt st filter side = .ok st1) :
    (side = JoinSideNone ∧ isTrueConst filter = true ∧ st1 = st) ∨
    (side = JoinSideNone ∧ st.joinType = .INNER ∧
      st1 = { st with
        leftPushdown := st.leftPushdown ++ [filter]
        rightPushdown := st.rightPushdown ++ [filter] }) ∨
    ((side = JoinSideNone ∨ side = JoinSideLeft) ∧
      st1 = { st with leftPushdown := st.leftPushdown ++ [filter] }) ∨
    (side = JoinSideRight ∧ st1 = { st with rightPushdown := st.rightPushdown ++ [filter] }) ∨
    (side = JoinSideBoth ∧ st.joinType = .INNER ∧
      st1 = { st with onList := st.onList ++ [filter] }) ∨
    st1 = st.keep filter ∨
    (side = JoinSideMark ∧
      (st1 = { st with joinType := .SEMI, bindingTags := [] } ∨
        st1 = { st with joinType := .ANTI, bindingTags := [] })) := by
  by_cases hN : side = JoinSideNone
  · subst hN
    rw [placeFilter_none_eq] at hp
    injection hp with hp
    split_ifs at hp with h1 h2 h3
    · exact Or.inl ⟨rfl, h1, hp.symm⟩
    · exact Or.inr (Or.inl ⟨rfl, h2, hp.symm⟩)
    · exact Or.inr (Or.inr (Or.inr (Or.inr (Or.inr (Or.inl hp.symm)))))
    · exact Or.inr (Or.inr (Or.inl ⟨Or.inl rfl, hp.symm⟩))
  by_cases hL : side = JoinSideLeft
  · subst hL
    rw [placeFilter_left_eq] at hp
    injection hp with hp
    split_ifs at hp
    · exact Or.inr (Or.inr (Or.inl ⟨Or.inr rfl, hp.symm⟩))
    · exact Or.inr (Or.inr (Or.inr (Or.inr (Or.inr (Or.inl hp.symm)))))
  by_cases hR : side = JoinSideRight
  · subst hR
    rw [placeFilter_right_eq] at hp
    injection hp with hp
    split_ifs at hp
    · exact Or.inr (Or.inr (Or.inr (Or.inl ⟨rfl, hp.symm⟩)))
    · exact Or.inr (Or.inr (Or.inr (Or.inr (Or.inr (Or.inl hp.symm)))))
  by_cases hB : side = JoinSideBoth
  · subst hB
    rcases placeFilter_both_cases hp with ⟨hj, hs⟩ | hs
    · exact Or.inr (Or.inr (Or.inr (Or.inr (Or.inl ⟨rfl, hj, hs⟩))))
    · exact Or.inr (Or.inr (Or.inr (Or.inr (Or.inr (Or.inl hs)))))
  by_cases hM : side = JoinSideMark
  · subst hM
    rcases placeFilter_mark_cases hp with hs | hs | hs
    · exact Or.inr (Or.inr (Or.inr (Or.inr (Or.inr (Or.inr ⟨rfl, Or.inl hs⟩)))))
    · exact Or.inr (Or.inr (Or.inr (Or.inr (Or.inr (Or.inr ⟨rfl, Or.inr hs⟩)))))
    · exact Or.inr (Or.inr (Or.inr (Or.inr (Or.inr (Or.inl hs)))))
  · rw [placeFilter_other_eq h sep lt rt mt st filter side hN hL hR hB hM] at hp
    injection hp with hp
    exact Or.inr (Or.inr (Or.inr (Or.inr (Or.inr (Or.inl hp.symm)))))

theorem map_DeepCopyExpr (l : List Expr) : l.map DeepCopyExpr = l := by
  induction l with
  | nil => rfl
  | cons a as ih => simp [DeepCopyExpr_eq, ih]

theorem zip_map_sides (g : Expr → JoinSide) (l : List Expr) :
    l.zip (l.map g) = l.map (fun f => (f, g f)) := by
  induction l with
  | nil => rfl
  | cons a as ih => simp [ih]

theorem splitOnConjuncts_eq (h : Helpers) (lt rt : List Int) (mt : Int)
    (l rightPushdown newOnList : List Expr) :
    splitOnConjuncts h lt rt mt l rightPushdown newOnList =
      (rightPushdown ++ l.filter (fun e => !(h.getJoinSide e lt rt mt).left),
        newOnList ++ l.filter (fun e => (h.getJoinSide e lt rt mt).left)) := by
  induction l generalizing rightPushdown newOnList with
  | nil => simp [splitOnConjuncts]
  | cons a as ih =>
    cases hs : (h.getJoinSide a lt rt mt).left <;> simp [splitOnConjuncts, hs, ih]

/-- An invariant of the placement loop: a property of the state that every iteration keeps
holds at the end. -/
theorem placeFilters_invariant {h : Helpers} {sep : Bool} {lt rt : List Int} {mt : Int}
    (P : JoinState → Prop) :
    ∀ (l : List (Expr × JoinSide)) (st st1 : JoinState),
      (∀ p ∈ l, ∀ s s1, P s → placeFilter h sep lt rt mt s p.1 p.2 = .ok s1 → P s1) →
      P st → placeFilters h sep lt rt mt st l = .ok st1 → P st1 := by
  intro l
  induction l with
  | nil =>
    intro st st1 _ hP hl
    simp only [placeFilters] at hl
    injection hl with hl
    subst hl
    exact hP
  | cons p rest ih =>
    intro st st1 hstep hP hl
    obtain ⟨f, s⟩ := p
    simp only [placeFilters] at hl
    obtain ⟨st2, h2, hl⟩ := bind_eq_ok hl
    exact ih st2 st1 (fun q hq => hstep q (List.mem_cons_of_mem _ hq))
      (hstep (f, s) (List.mem_cons_self _ _) st st2 hP h2) hl

/-- `classifyJoinFilters` is the placement loop run from `joinStart` over `joinFilters`, each
filter paired with its side. -/
theorem classifyJoinFilters_eq (h : Helpers) (sep : Bool) (lt rt : List Int) (mt : Int)
    (node : Node) (filters : List Expr) :
    classifyJoinFilters h sep lt rt mt node filters =
      placeFilters h sep lt rt mt (joinStart h lt rt mt node filters)
        ((joinFilters h sep lt rt mt node filters).map
          (fun f => (f, h.getJoinSide f lt rt mt))) := by
  unfold classifyJoinFilters joinStart joinFilters
  simp only [map_DeepCopyExpr]
  rw [← List.map_append, zip_map_sides]

theorem joinStart_rightPushdown (h : Helpers) (lt rt : List Int) (mt : Int) (node : Node)
    (filters : List Expr) :
    ∀ g ∈ (joinStart h lt rt mt node filters).rightPushdown,
      (h.getJoinSide g lt rt mt).left = false := by
  intro g hg
  unfold joinStart at hg
  simp only [] at hg
  split_ifs at hg
  all_goals try rw [splitOnConjuncts_eq] at hg
  all_goals simp at hg
  all_goals exact hg.2

theorem mem_joinFilters (h : Helpers) (sep : Bool) (lt rt : List Int) (mt : Int) (node : Node)
    (filters : List Expr) : ∀ f ∈ filters, f ∈ joinFilters h sep lt rt mt node filters := by
  intro f hf
  unfold joinFilters
  simp only [appendConjuncts_eq]
  split_ifs <;> simp [hf]

theorem placeFilters_lists_sides {h : Helpers} {sep : Bool} {lt rt : List Int} {mt : Int}
    (placed : List Expr) (st0 st1 : JoinState)
    (hl : ∀ g ∈ st0.leftPushdown, h.getJoinSide g lt rt mt ≠ JoinSideRight)
    (hr : ∀ g ∈ st0.rightPushdown, h.getJoinSide g lt rt mt ≠ JoinSideLeft)
    (hp : placeFilters h sep lt rt mt st0
      (placed.map (fun f => (f, h.getJoinSide f lt rt mt))) = .ok st1) :
    (∀ g ∈ st1.leftPushdown, h.getJoinSide g lt rt mt ≠ JoinSideRight) ∧
      (∀ g ∈ st1.rightPushdown, h.getJoinSide g lt rt mt ≠ JoinSideLeft) := by
  refine placeFilters_invariant
    (fun st => (∀ g ∈ st.leftPushdown, h.getJoinSide g lt rt mt ≠ JoinSideRight) ∧
      (∀ g ∈ st.rightPushdown, h.getJoinSide g lt rt mt ≠ JoinSideLeft)) _ st0 st1 ?_ ⟨hl, hr⟩ hp
  intro p hpm s s1 hs hstep
  obtain ⟨f, hf, rfl⟩ := List.mem_map.mp hpm
  obtain ⟨hsl, hsr⟩ := hs
  simp only at hstep
  rcases placeFilter_cases hstep with ⟨_, _, h1⟩ | ⟨hN, _, h1⟩ | ⟨hNL, h1⟩ | ⟨hR, h1⟩ |
    ⟨_, _, h1⟩ | h1 | ⟨_, h1 | h1⟩ <;> subst h1
  · exact ⟨hsl, hsr⟩
  · constructor
    · intro g hg
      rcases List.mem_append.mp hg with hg | hg
      · exact hsl g hg
      · rw [List.mem_singleton.mp hg, hN]; decide
    · intro g hg
      rcases List.mem_append.mp hg with hg | hg
      · exact hsr g hg
      · rw [List.mem_singleton.mp hg, hN]; decide
  · refine ⟨?_, hsr⟩
    intro g hg
    rcases List.mem_append.mp hg with hg | hg
    · exact hsl g hg
    · rw [List.mem_singleton.mp hg]
      rcases hNL with hx | hx <;> rw [hx] <;> decide
  · refine ⟨hsl, ?_⟩
    intro g hg
    rcases List.mem_append.mp hg with hg | hg
    · exact hsr g hg
    · rw [List.mem_singleton.mp hg, hR]; decide
  · exact ⟨hsl, hsr⟩
  · exact ⟨hsl, hsr⟩
  · exact ⟨hsl, hsr⟩
  · exact ⟨hsl, hsr⟩

theorem classifyJoinFilters_lists_sides {h : Helpers} {sep : Bool} {lt rt : List Int}
    {mt : Int} {node : Node} {filters : List Expr} {st1 : JoinState}
    (hc : classifyJoinFilters h sep lt rt mt node filters = .ok st1) :
    (∀ g ∈ st1.leftPushdown, h.getJoinSide g lt rt mt ≠ JoinSideRight) ∧
      (∀ g ∈ st1.rightPushdown, h.getJoinSide g lt rt mt ≠ JoinSideLeft) := by
  rw [classifyJoinFilters_eq] at hc
  refine placeFilters_lists_sides _ _ _ ?_ ?_ hc
  · intro g hg
    simp [joinStart] at hg
  · intro g hg he
    have := joinStart_rightPushdown h lt rt mt node filters g hg
    rw [he] at this
    cases this
theorem anyArgBoth_false {h : Helpers} {lt rt : List Int} {mt : Int} {args : List Expr}
    (hb : anyArgBoth h lt rt mt args = false) :
    ∀ a ∈ args, h.getJoinSide a lt rt mt ≠ JoinSideBoth := by
  induction args with
  | nil => intro a ha; cases ha
  | cons x xs ih =>
    unfold anyArgBoth at hb
    split_ifs at hb with hx
    intro a ha
    rcases List.mem_cons.mp ha with rfl | ha
    · exact hx
    · exact ih hb a ha

theorem canTurnInner_true {h : Helpers} {lt rt : List Int} {mt : Int} {f : Expr}
    (hc : canTurnInner h lt rt mt f = true) :
    h.rejectsNull f = true ∧
      ∀ t n args, f = .f t n args → ∀ a ∈ args, h.getJoinSide a lt rt mt ≠ JoinSideBoth := by
  unfold canTurnInner at hc
  rw [Bool.and_eq_true] at hc
  refine ⟨hc.2, ?_⟩
  intro t n args hf
  subst hf
  have h1 := hc.1
  simp only [Bool.not_eq_true'] at h1
  exact anyArgBoth_false h1

theorem turnsInner_true {h : Helpers} {jt : JoinType} {lt rt : List Int} {mt : Int}
    {l : List Expr} (ht : turnsInner h jt lt rt mt l = true) :
    ∃ f ∈ l, canTurnInner h lt rt mt f = true ∧
      leftOrRightJoin jt (h.getJoinSide f lt rt mt) = true := by
  induction l with
  | nil => simp [turnsInner] at ht
  | cons x xs ih =>
    unfold turnsInner at ht
    split_ifs at ht with hx
    · rw [Bool.and_eq_true] at hx
      exact ⟨x, List.mem_cons_self _ _, hx.1, hx.2⟩
    · obtain ⟨f, hf, hr⟩ := ih ht
      exact ⟨f, List.mem_cons_of_mem _ hf, hr⟩

theorem turnsInner_false_of_rejectsNull {h : Helpers} {jt : JoinType} {lt rt : List Int}
    {mt : Int} {l : List Expr} (hr : ∀ f ∈ l, h.rejectsNull f = false) :
    turnsInner h jt lt rt mt l = false := by
  cases ht : turnsInner h jt lt rt mt l with
  | false => rfl
  | true =>
    obtain ⟨f, hf, hc, _⟩ := turnsInner_true ht
    have := (canTurnInner_true hc).1
    rw [hr f hf] at this
    cases this

/-- The join type at the end of the placement is the one it started with, unless a filter
classified MARK has turned it into SEMI or ANTI. -/
theorem placeFilters_joinType {h : Helpers} {sep : Bool} {lt rt : List Int} {mt : Int}
    (placed : List Expr) (st0 st1 : JoinState)
    (hp : placeFilters h sep lt rt mt st0
      (placed.map (fun f => (f, h.getJoinSide f lt rt mt))) = .ok st1) :
    st1.joinType = st0.joinType ∨
      ((st1.joinType = .SEMI ∨ st1.joinType = .ANTI) ∧
        ∃ f ∈ placed, h.getJoinSide f lt rt mt = JoinSideMark) := by
  refine placeFilters_invariant
    (fun st => st.joinType = st0.joinType ∨
      ((st.joinType = .SEMI ∨ st.joinType = .ANTI) ∧
        ∃ f ∈ placed, h.getJoinSide f lt rt mt = JoinSideMark)) _ st0 st1 ?_ (Or.inl rfl) hp
  intro p hpm s s1 hs hstep
  obtain ⟨f, hf, rfl⟩ := List.mem_map.mp hpm
  simp only at hstep
  rcases placeFilter_cases hstep with ⟨_, _, h1⟩ | ⟨_, _, h1⟩ | ⟨_, h1⟩ | ⟨_, h1⟩ |
    ⟨_, _, h1⟩ | h1 | ⟨hM, h1 | h1⟩ <;> subst h1
  · exact hs
  · exact hs
  · exact hs
  · exact hs
  · exact hs
  · exact hs
  · exact Or.inr ⟨Or.inl rfl, f, hf, hM⟩
  · exact Or.inr ⟨Or.inr rfl, f, hf, hM⟩

theorem joinStart_joinType (h : Helpers) (lt rt : List Int) (mt : Int) (node : Node)
    (filters : List Expr) (hj : node.joinType ≠ .INNER) :
    (joinStart h lt rt mt node filters).joinType =
      if turnsInner h node.joinType lt rt mt filters then JoinType.INNER else node.joinType := by
  simp [joinStart, hj]

theorem pushdownFilters_scan_eq (h : Helpers) (sep : Bool) (fuel : Nat)
    (nodes : Nodes) (nodeID : Nat) (node : Node) (filters : List Expr)
    (hn : nodes[nodeID]? = some node)
    (hk : node.nodeType = .TABLE_SCAN ∨ node.nodeType = .EXTERNAL_SCAN) :
    pushdownFilters h sep (fuel + 1) nodes nodeID filters =
      .ok (nodes.set nodeID { node with filterList := node.filterList ++ filters },
        nodeID, []) := by
  rcases hk with hk | hk <;>
    simp [pushdownFilters, pushdownScan, getNode_eq hn, hk, bind, Except.bind,
      modifyNode_eq hn, pure, Except.pure]

theorem pushdownFilters_join_eq (h : Helpers) (sep : Bool) (fuel : Nat)
    (nodes : Nodes) (nodeID : Nat) (node : Node) (filters : List Expr)
    (hn : nodes[nodeID]? = some node) (hk : node.nodeType = .JOIN) :
    pushdownFilters h sep (fuel + 1) nodes nodeID filters =
      pushdownJoin h sep (pushdownFilters h sep fuel) nodes nodeID node filters := by
  simp [pushdownFilters, getNode_eq hn, hk, bind, Except.bind]

theorem pushdownFilters_filter_eq (h : Helpers) (sep : Bool) (fuel : Nat)
    (nodes : Nodes) (nodeID : Nat) (node : Node) (filters : List Expr)
    (hn : nodes[nodeID]? = some node) (hk : node.nodeType = .FILTER) :
    pushdownFilters h sep (fuel + 1) nodes nodeID filters =
      pushdownFilter h (pushdownFilters h sep fuel) nodes nodeID node filters := by
  simp [pushdownFilters, getNode_eq hn, hk, bind, Except.bind]

theorem placeFilter_both_inner_eq (h : Helpers) (sep : Bool) (lt rt : List Int) (mt : Int)
    (st : JoinState) (typ : Typ) (a0 a1 : Expr) (rest : List Expr)
    (hj : st.joinType = .INNER)
    (h0 : sep = true → h.getJoinSide a0 lt rt mt ≠ JoinSideBoth)
    (h1 : sep = true → h.getJoinSide a1 lt rt mt ≠ JoinSideBoth) :
    placeFilter h sep lt rt mt st (.f typ "=" (a0 :: a1 :: rest)) JoinSideBoth =
      .ok { st with onList := st.onList ++ [.f typ "=" (a0 :: a1 :: rest)] } := by
  unfold placeFilter
  rw [if_neg (by decide), if_neg (by decide), if_neg (by decide), if_pos rfl, if_pos hj]
  cases sep with
  | false => simp
  | true => simp [h0 rfl, h1 rfl]

theorem classify_scenarioB (h : Helpers) (sep : Bool) (lt rt : List Int)
    (h1 : h.splitPlanConjunctions [condLR] = [condLR])
    (h2 : h.splitPlanConjunction (h.applyDistributivity condLR) = [condLR])
    (h3 : h.rejectsNull predRV = true)
    (h4 : h.getJoinSide predRV lt rt 0 = JoinSideRight)
    (h5 : h.getJoinSide (.col {} 2 1) lt rt 0 ≠ JoinSideBoth)
    (h6 : h.getJoinSide (.c {} (.ival 10)) lt rt 0 ≠ JoinSideBoth)
    (h7 : h.getJoinSide condLR lt rt 0 = JoinSideBoth)
    (h8 : sep = true → h.getJoinSide (.col {} 1 0) lt rt 0 ≠ JoinSideBoth)
    (h9 : sep = true → h.getJoinSide (.col {} 2 0) lt rt 0 ≠ JoinSideBoth) :
    classifyJoinFilters h sep lt rt 0 planB_join [predRV] =
      .ok { joinType := .INNER, bindingTags := [], onList := [condLR],
            rightPushdown := [predRV] } := by
  have hp : predRV = .f {} "=" [.col {} 2 1, .c {} (.ival 10)] := rfl
  have hc : condLR = .f {} "=" [.col {} 1 0, .col {} 2 0] := rfl
  rw [hp] at h3 h4
  rw [hc] at h1 h2 h7
  rw [hp, hc]
  have ht : turnsInner h .LEFT lt rt 0 [.f {} "=" [.col {} 2 1, .c {} (.ival 10)]] = true := by
    simp [turnsInner, canTurnInner, anyArgBoth, h3, h4, h5, h6, leftOrRightJoin,
      JoinSideRight]
  simp [classifyJoinFilters, planB_join, h1, ht, appendConjuncts, h2, h4, h7, dnfExtras, condLR]
  simp [placeFilters, placeFilter_right_eq, bind, Except.bind]
  rw [placeFilter_both_inner_eq h sep lt rt 0 _ _ _ _ _ rfl h8 h9]
  rfl

theorem classify_scenarioC (h : Helpers) (sep : Bool) (lt rt : List Int)
    (h1 : h.splitPlanConjunctions [condLR] = [condLR])
    (h2 : h.splitPlanConjunction (h.applyDistributivity condLR) = [condLR])
    (h3 : h.rejectsNull predRNull = false)
    (h4 : h.getJoinSide predRNull lt rt 0 = JoinSideRight)
    (h7 : h.getJoinSide condLR lt rt 0 = JoinSideBoth) :
    classifyJoinFilters h sep lt rt 0 planB_join [predRNull] =
      .ok { joinType := .LEFT, bindingTags := [], onList := [condLR],
            cantPushdown := [predRNull] } := by
  have ht : turnsInner h .LEFT lt rt 0 [predRNull] = false :=
    turnsInner_false_of_rejectsNull (by simpa using h3)
  simp [classifyJoinFilters, planB_join, h1, ht, appendConjuncts, h2, h4, h7, dnfExtras,
    splitOnConjuncts, JoinSideBoth, JoinSideRight]
  simp [placeFilters, bind, Except.bind]
  have := placeFilter_right_eq h sep lt rt 0
    { joinType := .LEFT, bindingTags := [], onList := [condLR] } predRNull
  simp only [JoinSideRight] at this
  rw [this]
  rfl

theorem Shape.root_mem_ids (t : Shape) : t.root ∈ t.ids := by
  cases t <;> simp [Shape.root, Shape.ids]

theorem Shape.fits_scan {nodes : Nodes} {id : Nat} :
    (Shape.scan id).fits nodes = true ↔ ∃ n, nodes[id]? = some n ∧
      (n.nodeType = .TABLE_SCAN ∨ n.nodeType = .EXTERNAL_SCAN) := by
  rw [Shape.fits]
  cases nodes[id]? <;> simp

theorem Shape.fits_leaf {nodes : Nodes} {id : Nat} :
    (Shape.leaf id).fits nodes = true ↔ ∃ n, nodes[id]? = some n ∧
      n.nodeType.isOther = true ∧ n.children = [] := by
  rw [Shape.fits]
  cases nodes[id]? <;> simp

theorem Shape.fits_unary {nodes : Nodes} {id : Nat} {c : Shape} :
    (Shape.unary id c).fits nodes = true ↔
      (∃ n, nodes[id]? = some n ∧ n.nodeType.isUnary = true ∧ n.children = [c.root]) ∧
        c.fits nodes = true := by
  rw [Shape.fits]
  cases nodes[id]? <;> simp

theorem Shape.fits_setop {nodes : Nodes} {id : Nat} {l r : Shape} :
    (Shape.setop id l r).fits nodes = true ↔
      (∃ n, nodes[id]? = some n ∧ n.nodeType.isSetOp = true ∧
        n.children = [l.root, r.root]) ∧
        l.fits nodes = true ∧ r.fits nodes = true := by
  rw [Shape.fits]
  cases nodes[id]? <;> simp [and_assoc]

theorem Shape.fits_filter {nodes : Nodes} {id : Nat} {c : Shape} :
    (Shape.filter id c).fits nodes = true ↔
      (∃ n, nodes[id]? = some n ∧ n.nodeType = .FILTER ∧ n.children = [c.root]) ∧
        c.fits nodes = true := by
  rw [Shape.fits]
  cases nodes[id]? <;> simp

theorem Shape.fits_join {nodes : Nodes} {id : Nat} {l r : Shape} :
    (Shape.join id l r).fits nodes = true ↔
      (∃ n, nodes[id]? = some n ∧ n.nodeType = .JOIN ∧ n.children = [l.root, r.root] ∧
        (n.joinType = .MARK → n.bindingTags ≠ [])) ∧
        l.fits nodes = true ∧ r.fits nodes = true := by
  rw [Shape.fits]
  cases nodes[id]? <;> simp [and_assoc, imp_iff_not_or]

theorem Shape.fits_lt {nodes : Nodes} : ∀ {t : Shape}, t.fits nodes = true →
    ∀ i ∈ t.ids, i < nodes.length
  | .scan id, h, i, hi => by
    obtain ⟨n, hn, _⟩ := Shape.fits_scan.mp h
    simp [Shape.ids] at hi
    subst hi
    exact getElem?_lt hn
  | .leaf id, h, i, hi => by
    obtain ⟨n, hn, _⟩ := Shape.fits_leaf.mp h
    simp [Shape.ids] at hi
    subst hi
    exact getElem?_lt hn
  | .filter id c, h, i, hi => by
    obtain ⟨⟨n, hn, _⟩, hc⟩ := Shape.fits_filter.mp h
    simp [Shape.ids] at hi
    rcases hi with rfl | hi
    · exact getElem?_lt hn
    · exact Shape.fits_lt hc i hi
  | .unary id c, h, i, hi => by
    obtain ⟨⟨n, hn, _⟩, hc⟩ := Shape.fits_unary.mp h
    simp [Shape.ids] at hi
    rcases hi with rfl | hi
    · exact getElem?_lt hn
    · exact Shape.fits_lt hc i hi
  | .setop id l r, h, i, hi => by
    obtain ⟨⟨n, hn, _⟩, hl, hr⟩ := Shape.fits_setop.mp h
    simp [Shape.ids] at hi
    rcases hi with rfl | hi | hi
    · exact getElem?_lt hn
    · exact Shape.fits_lt hl i hi
    · exact Shape.fits_lt hr i hi
  | .join id l r, h, i, hi => by
    obtain ⟨⟨n, hn, _⟩, hl, hr⟩ := Shape.fits_join.mp h
    simp [Shape.ids] at hi
    rcases hi with rfl | hi | hi
    · exact getElem?_lt hn
    · exact Shape.fits_lt hl i hi
    · exact Shape.fits_lt hr i hi

theorem Shape.fits_congr {nodes nodes1 : Nodes} : ∀ {t : Shape},
    (∀ i ∈ t.ids, nodes1[i]? = nodes[i]?) → t.fits nodes1 = t.fits nodes
  | .scan id, h => by
    simp [Shape.fits, h id (by simp [Shape.ids])]
  | .leaf id, h => by
    simp [Shape.fits, h id (by simp [Shape.ids])]
  | .filter id c, h => by
    have hc : c.fits nodes1 = c.fits nodes :=
      Shape.fits_congr (fun i hi => h i (by simp [Shape.ids, hi]))
    simp [Shape.fits, h id (by simp [Shape.ids]), hc]
  | .unary id c, h => by
    have hc : c.fits nodes1 = c.fits nodes :=
      Shape.fits_congr (fun i hi => h i (by simp [Shape.ids, hi]))
    simp [Shape.fits, h id (by simp [Shape.ids]), hc]
  | .setop id l r, h => by
    have hl : l.fits nodes1 = l.fits nodes :=
      Shape.fits_congr (fun i hi => h i (by simp [Shape.ids, hi]))
    have hr : r.fits nodes1 = r.fits nodes :=
      Shape.fits_congr (fun i hi => h i (by simp [Shape.ids, hi]))
    simp [Shape.fits, h id (by simp [Shape.ids]), hl, hr]
  | .join id l r, h => by
    have hl : l.fits nodes1 = l.fits nodes :=
      Shape.fits_congr (fun i hi => h i (by simp [Shape.ids, hi]))
    have hr : r.fits nodes1 = r.fits nodes :=
      Shape.fits_congr (fun i hi => h i (by simp [Shape.ids, hi]))
    simp [Shape.fits, h id (by simp [Shape.ids]), hl, hr]

theorem Shape.mem_preds {nodes : Nodes} {t : Shape} {p : Expr} :
    p ∈ t.preds nodes ↔ ∃ i ∈ t.ids, p ∈ nodePreds nodes i := by
  simp [Shape.preds, List.mem_flatMap]

theorem nodePreds_congr {nodes nodes1 : Nodes} {i : Nat} (h : nodes1[i]? = nodes[i]?) :
    nodePreds nodes1 i = nodePreds nodes i := by
  simp [nodePreds, h]

theorem Shape.Good.congr {nodes nodes1 : Nodes} {t : Shape} (hg : t.Good nodes)
    (h : ∀ i ∈ t.ids, nodes1[i]? = nodes[i]?) : t.Good nodes1 :=
  ⟨by rw [Shape.fits_congr h]; exact hg.1, hg.2⟩

theorem Shape.mem_preds_congr {nodes nodes1 : Nodes} {t : Shape} {p : Expr}
    (h : ∀ i ∈ t.ids, nodes1[i]? = nodes[i]?) (hp : p ∈ t.preds nodes) : p ∈ t.preds nodes1 := by
  obtain ⟨i, hi, hpi⟩ := Shape.mem_preds.mp hp
  exact Shape.mem_preds.mpr ⟨i, hi, by rw [nodePreds_congr (h i hi)]; exact hpi⟩

theorem Shape.bound_le_slot (t : Shape) : t.bound ≤ t.slot := by
  unfold Shape.slot; omega

theorem Shape.bound_pos (t : Shape) : 0 < t.bound := by
  cases t <;> simp [Shape.bound]

theorem placeFilter_both_nosep (h : Helpers) (lt rt : List Int) (mt : Int)
    (st : JoinState) (filter : Expr) :
    placeFilter h false lt rt mt st filter JoinSideBoth =
      .ok (if st.joinType = .INNER then { st with onList := st.onList ++ [filter] }
        else st.keep filter) := by
  unfold placeFilter
  rw [if_neg (by decide), if_neg (by decide), if_neg (by decide), if_pos rfl]
  split <;> simp

/-- One step of the placement loop without `separateNonEquiConds`, for a side among NONE,
LEFT, RIGHT and BOTH: it returns, keeps the join type and the binding tags, only extends the
four lists, and puts the filter on one of them unless it is the literal `true`; on an inner
join, not on `cantPushdown`. -/
theorem placeFilter_plain (h : Helpers) (lt rt : List Int) (mt : Int) (st : JoinState)
    (f : Expr) (side : JoinSide)
    (hs : side = JoinSideNone ∨ side = JoinSideLeft ∨ side = JoinSideRight ∨
      side = JoinSideBoth) :
    ∃ st1, placeFilter h false lt rt mt st f side = .ok st1 ∧
      st1.joinType = st.joinType ∧ st1.bindingTags = st.bindingTags ∧
      (∀ p ∈ st.onList, p ∈ st1.onList) ∧ (∀ p ∈ st.leftPushdown, p ∈ st1.leftPushdown) ∧
      (∀ p ∈ st.rightPushdown, p ∈ st1.rightPushdown) ∧
      (∀ p ∈ st.cantPushdown, p ∈ st1.cantPushdown) ∧
      (isTrueConst f = false → f ∈ st1.onList ∨ f ∈ st1.leftPushdown ∨
        f ∈ st1.rightPushdown ∨ (f ∈ st1.cantPushdown ∧ st.joinType ≠ .INNER)) := by
  rcases hs with rfl | rfl | rfl | rfl
  · refine ⟨_, placeFilter_none_eq h false lt rt mt st f, ?_⟩
    by_cases ht : isTrueConst f = true
    · simp [ht]
    · by_cases hj : st.joinType = .INNER
      · simp +contextual [ht, hj]
      · by_cases hj2 : st.joinType = .RIGHT ∨ st.joinType = .OUTER
        · simp +contextual [ht, hj, hj2, JoinState.keep]
        · simp +contextual [ht, hj, hj2]
  · refine ⟨_, placeFilter_left_eq h false lt rt mt st f, ?_⟩
    by_cases hj : st.joinType ≠ .OUTER ∧ st.joinType ≠ .RIGHT
    · simp +contextual [hj]
    · rw [if_neg hj]
      have : st.joinType ≠ .INNER := by
        intro hi; apply hj; rw [hi]; exact ⟨by decide, by decide⟩
      simp +contextual [JoinState.keep, this]
  · refine ⟨_, placeFilter_right_eq h false lt rt mt st f, ?_⟩
    by_cases hj : st.joinType = .INNER ∨ st.joinType = .RIGHT
    · simp +contextual [hj]
    · rw [if_neg hj]
      have : st.joinType ≠ .INNER := fun hi => hj (Or.inl hi)
      simp +contextual [JoinState.keep, this]
  · refine ⟨_, placeFilter_both_nosep h lt rt mt st f, ?_⟩
    by_cases hj : st.joinType = .INNER
    · simp +contextual [hj]
    · simp +contextual [hj, JoinState.keep]

theorem turnsInner_eq_any (h : Helpers) (jt : JoinType) (lt rt : List Int) (mt : Int)
    (l : List Expr) :
    turnsInner h jt lt rt mt l =
      l.any (fun f => canTurnInner h lt rt mt f &&
        leftOrRightJoin jt (h.getJoinSide f lt rt mt)) := by
  induction l with
  | nil => rfl
  | cons x xs ih =>
    rw [turnsInner, List.any_cons, ih]
    cases canTurnInner h lt rt mt x && leftOrRightJoin jt (h.getJoinSide x lt rt mt) <;> simp

theorem turnsInner_subset {h : Helpers} {jt : JoinType} {lt rt : List Int} {mt : Int}
    {l l1 : List Expr} (ht : turnsInner h jt lt rt mt l = false) (hs : ∀ g ∈ l1, g ∈ l) :
    turnsInner h jt lt rt mt l1 = false := by
  rw [turnsInner_eq_any] at ht ⊢
  rw [List.any_eq_false] at ht ⊢
  exact fun g hg => ht g (hs g hg)

theorem turnsInner_other {h : Helpers} {jt : JoinType} {lt rt : List Int} {mt : Int}
    (l : List Expr) (hl : jt ≠ .LEFT) (hr : jt ≠ .RIGHT) :
    turnsInner h jt lt rt mt l = false := by
  rw [turnsInner_eq_any, List.any_eq_false]
  intro g _
  simp [leftOrRightJoin, hl, hr]

theorem set_self_of_getElem? {α : Type} {l : List α} {i : Nat} {a : α} (h : l[i]? = some a) :
    l.set i a = l := by
  apply List.ext_getElem?
  intro j
  by_cases hj : i = j
  · subst hj
    rw [List.getElem?_set_self (getElem?_lt h), h]
  · rw [List.getElem?_set_ne hj]

theorem Shape.tags_congr {nodes nodes1 : Nodes} : ∀ {t : Shape},
    (∀ i ∈ t.ids, nodes1[i]? = nodes[i]?) → t.tags nodes1 = t.tags nodes
  | .scan id, h => by
    simp [Shape.tags, h id (by simp [Shape.ids])]
  | .leaf id, h => by
    simp [Shape.tags, h id (by simp [Shape.ids])]
  | .filter id c, h => by
    simp only [Shape.tags]
    exact Shape.tags_congr (fun i hi => h i (by simp [Shape.ids, hi]))
  | .unary id c, h => by
    simp only [Shape.tags, ownTags]
    rw [Shape.tags_congr (t := c) (fun i hi => h i (by simp [Shape.ids, hi])),
      h id (by simp [Shape.ids])]
  | .setop id l r, h => by
    simp only [Shape.tags, ownTags]
    rw [Shape.tags_congr (t := l) (fun i hi => h i (by simp [Shape.ids, hi])),
      Shape.tags_congr (t := r) (fun i hi => h i (by simp [Shape.ids, hi])),
      h id (by simp [Shape.ids])]
  | .join id l r, h => by
    simp only [Shape.tags]
    rw [Shape.tags_congr (t := l) (fun i hi => h i (by simp [Shape.ids, hi])),
      Shape.tags_congr (t := r) (fun i hi => h i (by simp [Shape.ids, hi])),
      h id (by simp [Shape.ids])]

theorem classifyJoinFilters_congr (h : Helpers) (sep : Bool) (lt rt : List Int) (mt : Int)
    (n1 n2 : Node) (F : List Expr) (hj : n1.joinType = n2.joinType)
    (hb : n1.bindingTags = n2.bindingTags) (ho : n1.onList = n2.onList) :
    classifyJoinFilters h sep lt rt mt n1 F = classifyJoinFilters h sep lt rt mt n2 F := by
  unfold classifyJoinFilters
  rw [hj, hb, ho]

theorem getMarkTag_congr {n1 n2 : Node}
    (hj : n1.joinType = .MARK ↔ n2.joinType = .MARK)
    (hb : n1.bindingTags = n2.bindingTags) : getMarkTag n1 = getMarkTag n2 := by
  unfold getMarkTag getTag
  by_cases h1 : n1.joinType = .MARK
  · rw [if_pos h1, if_pos (hj.mp h1), hb]
  · rw [if_neg h1, if_neg (fun h2 => h1 (hj.mpr h2))]

theorem Shape.mem_preds_join {nodes : Nodes} {id : Nat} {l r : Shape} {p : Expr} :
    p ∈ (Shape.join id l r).preds nodes ↔
      p ∈ nodePreds nodes id ∨ p ∈ l.preds nodes ∨ p ∈ r.preds nodes := by
  simp [Shape.preds, Shape.ids]

theorem Shape.mem_preds_filter {nodes : Nodes} {id : Nat} {c : Shape} {p : Expr} :
    p ∈ (Shape.filter id c).preds nodes ↔ p ∈ nodePreds nodes id ∨ p ∈ c.preds nodes := by
  simp [Shape.preds, Shape.ids]

theorem getMarkTag_ok (n : Node) (hmark : n.joinType = .MARK → n.bindingTags ≠ []) :
    ∃ mt, getMarkTag n = .ok mt := by
  unfold getMarkTag
  by_cases hm : n.joinType = .MARK
  · rw [if_pos hm]
    unfold getTag
    cases hb : n.bindingTags with
    | nil => exact absurd hb (hmark hm)
    | cons a as => exact ⟨a, by simp⟩
  · rw [if_neg hm]
    exact ⟨0, rfl⟩

/-- Every node of a shape that the arena holds is reachable from the root of the shape. -/
theorem Shape.ids_reachable {nodes : Nodes} : ∀ {t : Shape}, t.fits nodes = true →
    ∀ i ∈ t.ids, ∃ k, i ∈ reachable nodes k t.root
  | .scan id, h, i, hi => by
    obtain ⟨n, hn, _⟩ := Shape.fits_scan.mp h
    simp only [Shape.ids, List.mem_singleton] at hi
    subst hi
    exact ⟨1, by simp [reachable, Shape.root, hn]⟩
  | .leaf id, h, i, hi => by
    obtain ⟨n, hn, _⟩ := Shape.fits_leaf.mp h
    simp only [Shape.ids, List.mem_singleton] at hi
    subst hi
    exact ⟨1, by simp [reachable, Shape.root, hn]⟩
  | .unary id c, h, i, hi => by
    obtain ⟨⟨n, hn, _, hch⟩, hc⟩ := Shape.fits_unary.mp h
    simp only [Shape.ids, List.mem_cons] at hi
    rcases hi with rfl | hi
    · exact ⟨1, by simp [reachable, Shape.root, hn]⟩
    · obtain ⟨k, hk⟩ := Shape.ids_reachable hc i hi
      refine ⟨k + 1, ?_⟩
      rw [reachable]
      simp only [Shape.root, hn, hch, List.flatMap_cons, List.flatMap_nil, List.append_nil,
        List.mem_cons]
      exact Or.inr hk
  | .setop id l r, h, i, hi => by
    obtain ⟨⟨n, hn, _, hch⟩, hl, hr⟩ := Shape.fits_setop.mp h
    simp only [Shape.ids, List.mem_cons, List.mem_append] at hi
    rcases hi with rfl | hi | hi
    · exact ⟨1, by simp [reachable, Shape.root, hn]⟩
    · obtain ⟨k, hk⟩ := Shape.ids_reachable hl i hi
      refine ⟨k + 1, ?_⟩
      rw [reachable]
      simp only [Shape.root, hn, hch, List.flatMap_cons, List.flatMap_nil, List.append_nil,
        List.mem_cons, List.mem_append]
      exact Or.inr (Or.inl hk)
    · obtain ⟨k, hk⟩ := Shape.ids_reachable hr i hi
      refine ⟨k + 1, ?_⟩
      rw [reachable]
      simp only [Shape.root, hn, hch, List.flatMap_cons, List.flatMap_nil, List.append_nil,
        List.mem_cons, List.mem_append]
      exact Or.inr (Or.inr hk)
  | .filter id c, h, i, hi => by
    obtain ⟨⟨n, hn, _, hch⟩, hc⟩ := Shape.fits_filter.mp h
    simp only [Shape.ids, List.mem_cons] at hi
    rcases hi with rfl | hi
    · exact ⟨1, by simp [reachable, Shape.root, hn]⟩
    · obtain ⟨k, hk⟩ := Shape.ids_reachable hc i hi
      refine ⟨k + 1, ?_⟩
      rw [reachable]
      simp only [Shape.root, hn, hch, List.flatMap_cons, List.flatMap_nil, List.append_nil,
        List.mem_cons]
      exact Or.inr hk
  | .join id l r, h, i, hi => by
    obtain ⟨⟨n, hn, _, hch, _⟩, hl, hr⟩ := Shape.fits_join.mp h
    simp only [Shape.ids, List.mem_cons, List.mem_append] at hi
    rcases hi with rfl | hi | hi
    · exact ⟨1, by simp [reachable, Shape.root, hn]⟩
    · obtain ⟨k, hk⟩ := Shape.ids_reachable hl i hi
      refine ⟨k + 1, ?_⟩
      rw [reachable]
      simp only [Shape.root, hn, hch, List.flatMap_cons, List.flatMap_nil, List.append_nil,
        List.mem_cons, List.mem_append]
      exact Or.inr (Or.inl hk)
    · obtain ⟨k, hk⟩ := Shape.ids_reachable hr i hi
      refine ⟨k + 1, ?_⟩
      rw [reachable]
      simp only [Shape.root, hn, hch, List.flatMap_cons, List.flatMap_nil, List.append_nil,
        List.mem_cons, List.mem_append]
      exact Or.inr (Or.inr hk)

theorem nodup_length_le {l : List Nat} {n : Nat} (hd : l.Nodup) (hl : ∀ i ∈ l, i < n) :
    l.length ≤ n := by
  have hsub : l.toFinset ⊆ Finset.range n := by
    intro i hi
    rw [List.mem_toFinset] at hi
    exact Finset.mem_range.mpr (hl i hi)
  have := Finset.card_le_card hsub
  rwa [List.toFinset_card_of_nodup hd, Finset.card_range] at this

theorem turnsInner_inner (h : Helpers) (lt rt : List Int) (mt : Int) (l : List Expr) :
    turnsInner h .INNER lt rt mt l = false :=
  turnsInner_other l (by decide) (by decide)

/-! ## Values of the substitution map -/

theorem ProjMap.simple_set {m : ProjMap} {k : Int × Int} {v : Expr} (hm : m.simple)
    (hv : v.isCol = true ∨ v.isC = true) : (m.set k v).simple := by
  intro kv hkv
  unfold ProjMap.set at hkv
  rcases List.mem_cons.mp hkv with rfl | hkv
  · exact hv
  · exact hm kv (List.mem_filter.mp hkv).1

theorem ProjMap.simple_merge {a : ProjMap} (ha : a.simple) :
    ∀ {b : ProjMap}, b.simple → (a.merge b).simple
  | [], _ => ha
  | (k, v) :: rest, hb => by
    rw [ProjMap.merge]
    exact ProjMap.simple_set
      (ProjMap.simple_merge ha (fun kv hkv => hb kv (List.mem_cons_of_mem _ hkv)))
      (hb (k, v) (List.mem_cons_self _ _))

theorem ProjMap.simple_get? {m : ProjMap} (hm : m.simple) {k : Int × Int} {v : Expr}
    (hg : m.get? k = some v) : v.isCol = true ∨ v.isC = true := by
  induction m with
  | nil => simp [ProjMap.get?] at hg
  | cons p rest ih =>
    obtain ⟨k2, v2⟩ := p
    rw [ProjMap.get?] at hg
    split_ifs at hg with hk
    · injection hg with hg
      rw [← hg]
      exact hm (k2, v2) (List.mem_cons_self _ _)
    · exact ih (fun kv hkv => hm kv (List.mem_cons_of_mem _ hkv)) hg

theorem recordProjections_simple (tag : Int) :
    ∀ (l : List Expr) (i : Nat) (m : ProjMap), m.simple →
      (∀ e ∈ l, e.isCol = true ∨ e.isC = true) → (recordProjections tag l i m).simple
  | [], _, _, hm, _ => hm
  | e :: rest, i, m, hm, hl => by
    rw [recordProjections]
    exact recordProjections_simple tag rest (i + 1) _
      (ProjMap.simple_set hm (hl e (List.mem_cons_self _ _)))
      (fun x hx => hl x (List.mem_cons_of_mem _ hx))

theorem removeChildProjections_simple
    {rec : Nodes → Nat → NodeType → Except Err (Nodes × Nat × ProjMap)}
    (hrec : ∀ nodes c pt r, rec nodes c pt = .ok r → r.2.2.simple) (nodeID : Nat) :
    ∀ (k i : Nat) (nodes : Nodes) (m : ProjMap) (r : Nodes × ProjMap), m.simple →
      removeChildProjections rec nodeID k i nodes m = .ok r → r.2.simple := by
  intro k
  induction k with
  | zero =>
    intro i nodes m r hm hr
    simp only [removeChildProjections] at hr
    injection hr with hr
    subst hr
    exact hm
  | succ k ih =>
    intro i nodes m r hm hr
    rw [removeChildProjections] at hr
    obtain ⟨node, _, hr⟩ := bind_eq_ok hr
    obtain ⟨childID, _, hr⟩ := bind_eq_ok hr
    obtain ⟨⟨nodes1, newChildID, childProjMap⟩, hcall, hr⟩ := bind_eq_ok hr
    obtain ⟨nodes2, _, hr⟩ := bind_eq_ok hr
    exact ih _ _ _ r (ProjMap.simple_merge hm (hrec _ _ _ _ hcall)) hr

theorem removeProjectionsAt_simple {nodes1 : Nodes} {nodeID : Nat} {parentType : NodeType}
    {m : ProjMap} {r : Nodes × Nat × ProjMap} (hm : m.simple)
    (hr : removeProjectionsAt nodes1 nodeID parentType m = .ok r) : r.2.2.simple := by
  unfold removeProjectionsAt at hr
  obtain ⟨node1, _, hr⟩ := bind_eq_ok hr
  obtain ⟨b, _, hr⟩ := bind_eq_ok hr
  cases b with
  | false =>
    simp only [Bool.false_eq_true, if_false, pure, Except.pure] at hr
    injection hr with hr
    subst hr
    exact hm
  | true =>
    simp only [if_true] at hr
    split at hr
    · rename_i hall
      obtain ⟨tag, _, hr⟩ := bind_eq_ok hr
      obtain ⟨childID, _, hr⟩ := bind_eq_ok hr
      simp only [pure, Except.pure] at hr
      injection hr with hr
      subst hr
      exact recordProjections_simple tag _ 0 m hm ((allColRef_iff _).mp hall)
    · simp only [pure, Except.pure] at hr
      injection hr with hr
      subst hr
      exact hm

/-- Every value of the map returned by `removeSimpleProjections` is a bare column or a
constant. -/
theorem removeSimpleProjections_simple :
    ∀ (fuel : Nat) (nodes : Nodes) (nodeID : Nat) (parentType : NodeType)
      (r : Nodes × Nat × ProjMap),
      removeSimpleProjections fuel nodes nodeID parentType = .ok r → r.2.2.simple := by
  intro fuel
  induction fuel with
  | zero => intro _ _ _ _ hr; simp [removeSimpleProjections] at hr
  | succ fuel ih =>
    intro nodes nodeID parentType r hr
    rw [removeSimpleProjections] at hr
    obtain ⟨node, _, hr⟩ := bind_eq_ok hr
    obtain ⟨⟨nodes1, m⟩, hch, hr⟩ := bind_eq_ok hr
    have hm : m.simple :=
      removeChildProjections_simple ih nodeID _ _ _ _ _ (fun _ hkv => by cases hkv) hch
    exact removeProjectionsAt_simple hm hr

theorem removeProjectionsForExpr_simple {m : ProjMap} (hm : m.simple) (e : Expr)
    (he : e.isCol = true ∨ e.isC = true) :
    (removeProjectionsForExpr e m).isCol = true ∨ (removeProjectionsForExpr e m).isC = true := by
  cases e with
  | col t r p =>
    rw [removeProjectionsForExpr]
    cases hg : m.get? (r, p) with
    | none => exact Or.inl rfl
    | some v =>
      simp only [DeepCopyExpr_eq]
      exact ProjMap.simple_get? hm hg
  | c t v => exact Or.inr rfl
  | f t n args => simp [Expr.isCol, Expr.isC] at he

theorem allColRef_removeProjections {m : ProjMap} (hm : m.simple) :
    ∀ l : List Expr, allColRef (removeProjectionsForExprList l m) = allColRef l
  | [] => rfl
  | e :: rest => by
    rw [removeProjectionsForExprList, allColRef, allColRef, allColRef_removeProjections hm rest]
    cases e with
    | col t r p =>
      have h1 := removeProjectionsForExpr_simple hm (.col t r p) (Or.inl rfl)
      generalize removeProjectionsForExpr (.col t r p) m = e1 at h1 ⊢
      have h2 : (Expr.col t r p).isCol = true := rfl
      rw [h2]
      rcases h1 with h1 | h1 <;> simp [h1]
    | c t v => rfl
    | f t n args => simp [removeProjectionsForExpr, Expr.isCol, Expr.isC]

/-! ## Growth of the arena under `pushdownFilters` -/

theorem JoinType.mayBecome_refl (a : JoinType) : a.mayBecome a := Or.inl rfl

theorem JoinType.mayBecome_trans {a b c : JoinType} (hab : a.mayBecome b)
    (hbc : b.mayBecome c) : a.mayBecome c := by
  rcases hbc with rfl | ⟨hb, hc⟩ | hc | hc
  · exact hab
  · rcases hab with rfl | ⟨_, hb2⟩ | hb2 | hb2
    · exact Or.inr (Or.inl ⟨hb, hc⟩)
    · rcases hb with hb | hb <;> rw [hb2] at hb <;> cases hb
    · rcases hb with hb | hb <;> rw [hb2] at hb <;> cases hb
    · rcases hb with hb | hb <;> rw [hb2] at hb <;> cases hb
  · exact Or.inr (Or.inr (Or.inl hc))
  · exact Or.inr (Or.inr (Or.inr hc))

theorem Grows.grows_refl (nodes : Nodes) : Grows nodes nodes :=
  ⟨fun _ n hn => ⟨n, hn, rfl, rfl, Or.inl rfl, fun _ => rfl, fun hw => hw⟩,
    fun j n1 hj hn => by have := getElem?_lt hn; omega⟩

theorem Grows.grows_len {a b : Nodes} (hab : Grows a b) : a.length ≤ b.length := by
  by_contra hlt
  have hpos : b.length < a.length := by omega
  obtain ⟨n1, hn1, _⟩ := hab.1 b.length a[b.length] (List.getElem?_eq_getElem hpos)
  have := getElem?_lt hn1
  omega

theorem Grows.grows_trans {a b c : Nodes} (hab : Grows a b) (hbc : Grows b c) : Grows a c := by
  refine ⟨?_, ?_⟩
  · intro j n hn
    obtain ⟨n1, hn1, ht1, hc1, hj1, hk1, hw1⟩ := hab.1 j n hn
    obtain ⟨n2, hn2, ht2, hc2, hj2, hk2, hw2⟩ := hbc.1 j n1 hn1
    exact ⟨n2, hn2, ht2.trans ht1, hc2.trans hc1, JoinType.mayBecome_trans hj1 hj2,
      fun hne => (hk2 (by rw [ht1]; exact hne)).trans (hk1 hne), fun hw => hw2 (hw1 hw)⟩
  · intro j n2 hj hn2
    by_cases hjb : j < b.length
    · obtain ⟨n1, hn1⟩ : ∃ n1, b[j]? = some n1 := ⟨b[j], List.getElem?_eq_getElem hjb⟩
      obtain ⟨n2x, hn2x, _, _, _, _, hw⟩ := hbc.1 j n1 hn1
      rw [hn2] at hn2x
      injection hn2x with hn2x
      subst hn2x
      exact hw (hab.2 j n1 hj hn1)
    · exact hbc.2 j n2 (by omega) hn2

theorem Grows.grows_set {nodes : Nodes} {id : Nat} {node node2 : Node}
    (hn : nodes[id]? = some node) (ht : node2.nodeType = node.nodeType)
    (hc : node2.children.length = node.children.length)
    (hj : node.joinType.mayBecome node2.joinType)
    (hk : node.nodeType ≠ .JOIN → node2.joinType = node.joinType)
    (hw : node.isWrapper → node2.isWrapper) : Grows nodes (nodes.set id node2) := by
  refine ⟨?_, ?_⟩
  · intro j x hx
    by_cases hij : id = j
    · subst hij
      rw [hn] at hx
      injection hx with hx
      subst hx
      exact ⟨node2, List.getElem?_set_self (getElem?_lt hn), ht, hc, hj, hk, hw⟩
    · exact ⟨x, by rw [List.getElem?_set_ne hij]; exact hx, rfl, rfl, Or.inl rfl,
        fun _ => rfl, fun h => h⟩
  · intro j n1 hj hn1
    have := getElem?_lt hn1
    simp at this
    omega

theorem Grows.grows_append (nodes : Nodes) (node : Node) (hw : node.isWrapper) :
    Grows nodes (nodes ++ [node]) := by
  refine ⟨?_, ?_⟩
  · intro j x hx
    exact ⟨x, by rw [List.getElem?_append_left (getElem?_lt hx)]; exact hx, rfl, rfl,
      Or.inl rfl, fun _ => rfl, fun h => h⟩
  · intro j n1 hj hn1
    have hlt := getElem?_lt hn1
    simp at hlt
    have hje : j = nodes.length := by omega
    subst hje
    simp at hn1
    subst hn1
    exact hw

theorem Grows.grows_setChild {nodes nodes1 : Nodes} {id i c : Nat}
    (h : setChild nodes id i c = .ok nodes1) : Grows nodes nodes1 := by
  unfold Plan.setChild at h
  split at h
  · rename_i node hn
    split at h
    · injection h with h
      subst h
      exact Grows.grows_set hn rfl (by simp) (Or.inl rfl) (fun _ => rfl)
        (fun hw => ⟨hw.1, by simpa using hw.2.1, hw.2.2⟩)
    · cases h
  · cases h

theorem Grows.grows_modifyNode {nodes nodes1 : Nodes} {id : Nat} {g : Node → Node}
    (h : modifyNode nodes id g = .ok nodes1)
    (hg : ∀ n, nodes[id]? = some n → (g n).nodeType = n.nodeType ∧
      (g n).children.length = n.children.length ∧ n.joinType.mayBecome (g n).joinType ∧
      (n.nodeType ≠ .JOIN → (g n).joinType = n.joinType) ∧ (n.isWrapper → (g n).isWrapper)) :
    Grows nodes nodes1 := by
  unfold Plan.modifyNode at h
  split at h
  · rename_i node hn
    injection h with h
    subst h
    obtain ⟨h1, h2, h3, h4, h5⟩ := hg node hn
    exact Grows.grows_set hn h1 h2 h3 h4 h5
  · cases h

theorem Grows.grows_pushToChild {rec : Nodes → Nat → List Expr → Pushed}
    (hrec : ∀ nodes c fs r, rec nodes c fs = .ok r → Grows nodes r.1)
    {nodes nodes1 : Nodes} {id i : Nat} {fs : List Expr}
    (h : pushToChild rec nodes id i fs = .ok nodes1) : Grows nodes nodes1 := by
  unfold Plan.pushToChild at h
  obtain ⟨node, _, h⟩ := bind_eq_ok h
  obtain ⟨c, _, h⟩ := bind_eq_ok h
  obtain ⟨⟨nodesC, childID, residue⟩, hcall, h⟩ := bind_eq_ok h
  have hC := hrec _ _ _ _ hcall
  simp only at h
  split at h
  · rename_i hpos
    obtain ⟨node1, _, h⟩ := bind_eq_ok h
    obtain ⟨c1, _, h⟩ := bind_eq_ok h
    have hw : Node.isWrapper
        { nodeType := .FILTER, children := [c1], filterList := residue } :=
      ⟨rfl, rfl, List.length_pos.mp hpos⟩
    exact hC.grows_trans ((Grows.grows_append _ _ hw).grows_trans (Grows.grows_setChild h))
  · exact hC.grows_trans (Grows.grows_setChild h)

theorem Grows.grows_pushDeduced {hh : Helpers} {rec : Nodes → Nat → List Expr → Pushed}
    (hrec : ∀ nodes c fs r, rec nodes c fs = .ok r → Grows nodes r.1)
    {nodes nodes1 : Nodes} {id : Nat} {l r : List Expr}
    (h : pushDeduced hh rec nodes id l r = .ok nodes1) : Grows nodes nodes1 := by
  unfold Plan.pushDeduced at h
  obtain ⟨node, _, h⟩ := bind_eq_ok h
  split at h
  · obtain ⟨c0, _, h⟩ := bind_eq_ok h
    obtain ⟨⟨nodesA, _, _⟩, hcallA, h⟩ := bind_eq_ok h
    obtain ⟨node1, _, h⟩ := bind_eq_ok h
    obtain ⟨c1, _, h⟩ := bind_eq_ok h
    obtain ⟨⟨nodesB, _, _⟩, hcallB, h⟩ := bind_eq_ok h
    simp only [pure, Except.pure] at h
    injection h with h
    subst h
    exact (hrec _ _ _ _ hcallA).grows_trans (hrec _ _ _ _ hcallB)
  · simp only [pure, Except.pure] at h
    injection h with h
    subst h
    exact Grows.grows_refl _

/-- The join type that the `JOIN` case computes is one that the join's type may become. -/
theorem classifyJoinFilters_mayBecome {h : Helpers} {sep : Bool} {lt rt : List Int} {mt : Int}
    {node : Node} {filters : List Expr} {st : JoinState}
    (hc : classifyJoinFilters h sep lt rt mt node filters = .ok st) :
    node.joinType.mayBecome st.joinType := by
  rw [classifyJoinFilters_eq] at hc
  rcases placeFilters_joinType _ _ _ hc with hj | ⟨hj, _⟩
  · rw [hj]
    by_cases hi : node.joinType = .INNER
    · have : (joinStart h lt rt mt node filters).joinType = .INNER := by
        unfold joinStart
        simp only [hi, if_true]
        split_ifs <;> rfl
      rw [this, hi]
      exact Or.inl rfl
    · rw [joinStart_joinType h lt rt mt node filters hi]
      by_cases hturn : turnsInner h node.joinType lt rt mt filters = true
      · rw [if_pos hturn]
        obtain ⟨f, _, _, hside⟩ := turnsInner_true hturn
        refine Or.inr (Or.inl ⟨?_, rfl⟩)
        unfold leftOrRightJoin at hside
        simp only [Bool.or_eq_true, Bool.and_eq_true, decide_eq_true_eq] at hside
        rcases hside with ⟨h1, _⟩ | ⟨h1, _⟩
        · exact Or.inl h1
        · exact Or.inr h1
      · rw [if_neg hturn]
        exact Or.inl rfl
  · rcases hj with hj | hj
    · exact Or.inr (Or.inr (Or.inl hj))
    · exact Or.inr (Or.inr (Or.inr hj))

theorem classifyJoinFilters_joinType {h : Helpers} {sep : Bool} {lt rt : List Int} {mt : Int}
    {node : Node} {filters : List Expr} {st : JoinState}
    (hc : classifyJoinFilters h sep lt rt mt node filters = .ok st) :
    st.joinType = node.joinType ∨
      ((node.joinType = .LEFT ∨ node.joinType = .RIGHT) ∧ st.joinType = .INNER) ∨
      ((st.joinType = .SEMI ∨ st.joinType = .ANTI) ∧
        ∃ f ∈ joinFilters h sep lt rt mt node filters,
          h.getJoinSide f lt rt mt = JoinSideMark) := by
  rw [classifyJoinFilters_eq] at hc
  rcases placeFilters_joinType _ _ _ hc with hj | hj
  · rw [hj]
    by_cases hi : node.joinType = .INNER
    · have : (joinStart h lt rt mt node filters).joinType = .INNER := by
        unfold joinStart
        simp only [hi, if_true]
        split_ifs <;> rfl
      rw [this, hi]
      exact Or.inl rfl
    · rw [joinStart_joinType h lt rt mt node filters hi]
      by_cases hturn : turnsInner h node.joinType lt rt mt filters = true
      · rw [if_pos hturn]
        obtain ⟨f, _, _, hside⟩ := turnsInner_true hturn
        refine Or.inr (Or.inl ⟨?_, rfl⟩)
        unfold leftOrRightJoin at hside
        simp only [Bool.or_eq_true, Bool.and_eq_true, decide_eq_true_eq] at hside
        rcases hside with ⟨h1, _⟩ | ⟨h1, _⟩
        · exact Or.inl h1
        · exact Or.inr h1
      · rw [if_neg hturn]
        exact Or.inl rfl
  · exact Or.inr (Or.inr hj)

theorem Grows.grows_appendFilters {nodes nodes1 : Nodes} {id : Nat} {filters : List Expr}
    (h : modifyNode nodes id (fun n => { n with filterList := n.filterList ++ filters }) =
      .ok nodes1) : Grows nodes nodes1 :=
  Grows.grows_modifyNode h (fun n _ => ⟨rfl, rfl, Or.inl rfl, fun _ => rfl,
    fun hw => ⟨hw.1, hw.2.1, by
      intro he
      exact hw.2.2 (List.append_eq_nil.mp he).1⟩⟩)

/-- A call of `pushdownFilters` that returns makes the arena grow: the nodes stay, with their
kind, the number of their child slots and a join type that the old one may become, and every
new node is a `FILTER` with one child and a non-empty filterList. -/
theorem pushdownFilters_grows (h : Helpers) (separateNonEquiConds : Bool) :
    ∀ (fuel : Nat) (nodes : Nodes) (nodeID : Nat) (filters : List Expr)
      (r : Nodes × Nat × List Expr),
      pushdownFilters h separateNonEquiConds fuel nodes nodeID filters = .ok r →
      Grows nodes r.1 := by
  intro fuel
  induction fuel with
  | zero => intro _ _ _ _ hr; simp [pushdownFilters] at hr
  | succ fuel ih =>
    intro nodes nodeID filters r hr
    unfold pushdownFilters at hr
    obtain ⟨node, hnode, hr⟩ := bind_eq_ok hr
    have hset : ∀ r, pushdownSetOp h (pushdownFilters h separateNonEquiConds fuel) nodes nodeID
        node filters = .ok r → Grows nodes r.1 := by
      intro r hr
      unfold pushdownSetOp at hr
      obtain ⟨c0, _, hr⟩ := bind_eq_ok hr
      obtain ⟨leftChild, _, hr⟩ := bind_eq_ok hr
      obtain ⟨c1, _, hr⟩ := bind_eq_ok hr
      obtain ⟨rightChild, _, hr⟩ := bind_eq_ok hr
      obtain ⟨nodes1, h1, hr⟩ := bind_eq_ok hr
      obtain ⟨nodes2, h2, hr⟩ := bind_eq_ok hr
      simp only [pure, Except.pure] at hr
      injection hr with hr
      subst hr
      exact (Grows.grows_pushToChild ih h1).grows_trans (Grows.grows_pushToChild ih h2)
    have hscan : ∀ r, pushdownScan nodes nodeID filters = .ok r → Grows nodes r.1 := by
      intro r hr
      unfold pushdownScan at hr
      obtain ⟨nodes1, h1, hr⟩ := bind_eq_ok hr
      simp only [pure, Except.pure] at hr
      injection hr with hr
      subst hr
      exact Grows.grows_appendFilters h1
    have hdef : ∀ r, pushdownDefault (pushdownFilters h separateNonEquiConds fuel) nodes nodeID
        node filters = .ok r → Grows nodes r.1 := by
      intro r hr
      unfold pushdownDefault at hr
      split at hr
      · obtain ⟨nodes1, h1, hr⟩ := bind_eq_ok hr
        simp only [pure, Except.pure] at hr
        injection hr with hr
        subst hr
        exact Grows.grows_pushToChild ih h1
      · simp only [pure, Except.pure] at hr
        injection hr with hr
        subst hr
        exact Grows.grows_refl _
    cases hk : node.nodeType <;> simp only [hk] at hr
    case AGG =>
      unfold pushdownAgg at hr
      obtain ⟨groupTag, _, hr⟩ := bind_eq_ok hr
      obtain ⟨aggregateTag, _, hr⟩ := bind_eq_ok hr
      obtain ⟨nodes1, h1, hr⟩ := bind_eq_ok hr
      simp only [pure, Except.pure] at hr
      injection hr with hr
      subst hr
      exact Grows.grows_pushToChild ih h1
    case FILTER =>
      unfold pushdownFilter at hr
      obtain ⟨c, _, hr⟩ := bind_eq_ok hr
      obtain ⟨⟨nodes1, childID, residue⟩, hcall, hr⟩ := bind_eq_ok hr
      have hC := ih _ _ _ _ hcall
      simp only at hr
      split at hr
      · rename_i hpos
        obtain ⟨nodes2, h2, hr⟩ := bind_eq_ok hr
        obtain ⟨nodes3, h3, hr⟩ := bind_eq_ok hr
        simp only [pure, Except.pure] at hr
        injection hr with hr
        subst hr
        exact hC.grows_trans ((Grows.grows_setChild h2).grows_trans
          (Grows.grows_modifyNode h3 (fun n _ => ⟨rfl, rfl, Or.inl rfl, fun _ => rfl,
            fun hw => ⟨hw.1, hw.2.1, List.length_pos.mp hpos⟩⟩)))
      · simp only [pure, Except.pure] at hr
        injection hr with hr
        subst hr
        exact hC
    case JOIN =>
      unfold pushdownJoin at hr
      obtain ⟨c0, _, hr⟩ := bind_eq_ok hr
      obtain ⟨c1, _, hr⟩ := bind_eq_ok hr
      obtain ⟨markTag, _, hr⟩ := bind_eq_ok hr
      obtain ⟨st, hst, hr⟩ := bind_eq_ok hr
      obtain ⟨nodes1, h1, hr⟩ := bind_eq_ok hr
      obtain ⟨nodes2, h2, hr⟩ := bind_eq_ok hr
      obtain ⟨nodes3, h3, hr⟩ := bind_eq_ok hr
      obtain ⟨nodes4, h4, hr⟩ := bind_eq_ok hr
      simp only [pure, Except.pure] at hr
      injection hr with hr
      subst hr
      have hm : Grows nodes nodes1 := by
        refine Grows.grows_modifyNode h1 ?_
        intro n hn
        have hnn : n = node := by
          have := getNode_ok hnode
          rw [hn] at this
          injection this
        subst hnn
        exact ⟨rfl, rfl, classifyJoinFilters_mayBecome hst, fun hne => absurd hk hne,
          fun hw => by have := hw.1; rw [hk] at this; cases this⟩
      exact hm.grows_trans ((Grows.grows_pushDeduced ih h2).grows_trans
        ((Grows.grows_pushToChild ih h3).grows_trans (Grows.grows_pushToChild ih h4)))
    case PROJECT =>
      unfold pushdownProject at hr
      obtain ⟨c0, _, hr⟩ := bind_eq_ok hr
      obtain ⟨child, _, hr⟩ := bind_eq_ok hr
      split at hr
      · simp only [pure, Except.pure] at hr
        injection hr with hr
        subst hr
        exact Grows.grows_refl _
      · obtain ⟨projectTag, _, hr⟩ := bind_eq_ok hr
        obtain ⟨nodes1, h1, hr⟩ := bind_eq_ok hr
        simp only [pure, Except.pure] at hr
        injection hr with hr
        subst hr
        exact Grows.grows_pushToChild ih h1
    case FUNCTION_SCAN =>
      unfold pushdownFunctionScan at hr
      obtain ⟨nodes1, h1, hr⟩ := bind_eq_ok hr
      obtain ⟨childId, _, hr⟩ := bind_eq_ok hr
      obtain ⟨⟨nodes2, childId2, err⟩, hcall, hr⟩ := bind_eq_ok hr
      have hC := (Grows.grows_appendFilters h1).grows_trans (ih _ _ _ _ hcall)
      simp only at hr
      split at hr
      · simp only [pure, Except.pure] at hr
        injection hr with hr
        subst hr
        exact hC
      · obtain ⟨nodes3, h3, hr⟩ := bind_eq_ok hr
        simp only [pure, Except.pure] at hr
        injection hr with hr
        subst hr
        exact hC.grows_trans (Grows.grows_setChild h3)
    case TABLE_SCAN => exact hscan r hr
    case EXTERNAL_SCAN => exact hscan r hr
    case UNION => exact hset r hr
    case UNION_ALL => exact hset r hr
    case MINUS => exact hset r hr
    case MINUS_ALL => exact hset r hr
    case INTERSECT => exact hset r hr
    case INTERSECT_ALL => exact hset r hr
    all_goals exact hdef r hr

/-! ## Node kinds under `removeSimpleProjections` -/

theorem kinds_set {nodes : Nodes} {id : Nat} {node : Node} (node2 : Node)
    (hn : nodes[id]? = some node) (ht : node2.nodeType = node.nodeType) :
    (nodes.set id node2).map (fun n => n.nodeType) = nodes.map (fun n => n.nodeType) := by
  rw [List.map_set, ht]
  exact set_self_of_getElem? (by rw [List.getElem?_map, hn]; rfl)

theorem kinds_setChild {nodes nodes1 : Nodes} {id i c : Nat}
    (h : setChild nodes id i c = .ok nodes1) :
    nodes1.map (fun n => n.nodeType) = nodes.map (fun n => n.nodeType) := by
  unfold Plan.setChild at h
  split at h
  · rename_i node hn
    split at h
    · injection h with h
      subst h
      exact kinds_set _ hn rfl
    · cases h
  · cases h

theorem removeChildProjections_kinds
    {rec : Nodes → Nat → NodeType → Except Err (Nodes × Nat × ProjMap)}
    (hrec : ∀ nodes c pt r, rec nodes c pt = .ok r →
      r.1.map (fun n => n.nodeType) = nodes.map (fun n => n.nodeType)) (nodeID : Nat) :
    ∀ (k i : Nat) (nodes : Nodes) (m : ProjMap) (r : Nodes × ProjMap),
      removeChildProjections rec nodeID k i nodes m = .ok r →
      r.1.map (fun n => n.nodeType) = nodes.map (fun n => n.nodeType) := by
  intro k
  induction k with
  | zero =>
    intro i nodes m r hr
    simp only [removeChildProjections] at hr
    injection hr with hr
    subst hr
    rfl
  | succ k ih =>
    intro i nodes m r hr
    rw [removeChildProjections] at hr
    obtain ⟨node, _, hr⟩ := bind_eq_ok hr
    obtain ⟨childID, _, hr⟩ := bind_eq_ok hr
    obtain ⟨⟨nodes1, newChildID, childProjMap⟩, hcall, hr⟩ := bind_eq_ok hr
    obtain ⟨nodes2, hset, hr⟩ := bind_eq_ok hr
    rw [ih _ _ _ r hr, kinds_setChild hset]
    exact hrec _ _ _ _ hcall

theorem removeProjectionsAt_kinds {nodes1 : Nodes} {nodeID : Nat} {parentType : NodeType}
    {m : ProjMap} {r : Nodes × Nat × ProjMap}
    (hr : removeProjectionsAt nodes1 nodeID parentType m = .ok r) :
    r.1.map (fun n => n.nodeType) = nodes1.map (fun n => n.nodeType) := by
  unfold removeProjectionsAt at hr
  obtain ⟨node1, hn1, hr⟩ := bind_eq_ok hr
  obtain ⟨b, _, hr⟩ := bind_eq_ok hr
  have hk := kinds_set (node1.removeProjections m) (getNode_ok hn1) rfl
  cases b with
  | false =>
    simp only [Bool.false_eq_true, if_false, pure, Except.pure] at hr
    injection hr with hr
    subst hr
    exact hk
  | true =>
    simp only [if_true] at hr
    split at hr
    · obtain ⟨tag, _, hr⟩ := bind_eq_ok hr
      obtain ⟨childID, _, hr⟩ := bind_eq_ok hr
      simp only [pure, Except.pure] at hr
      injection hr with hr
      subst hr
      exact hk
    · simp only [pure, Except.pure] at hr
      injection hr with hr
      subst hr
      exact hk

/-- A call of `removeSimpleProjections` that returns leaves the kinds of the nodes of the
arena, in order, as they were. -/
theorem removeSimpleProjections_kinds :
    ∀ (fuel : Nat) (nodes : Nodes) (nodeID : Nat) (parentType : NodeType)
      (r : Nodes × Nat × ProjMap),
      removeSimpleProjections fuel nodes nodeID parentType = .ok r →
      r.1.map (fun n => n.nodeType) = nodes.map (fun n => n.nodeType) := by
  intro fuel
  induction fuel with
  | zero => intro _ _ _ _ hr; simp [removeSimpleProjections] at hr
  | succ fuel ih =>
    intro nodes nodeID parentType r hr
    rw [removeSimpleProjections] at hr
    obtain ⟨node, _, hr⟩ := bind_eq_ok hr
    obtain ⟨⟨nodes1, m⟩, hch, hr⟩ := bind_eq_ok hr
    rw [removeProjectionsAt_kinds hr]
    exact removeChildProjections_kinds ih nodeID _ _ _ _ _ hch

/-! ## The frame of a call and the placement loop of the `JOIN` case -/

theorem Frame.frame_refl {S : Nat → Prop} {nodes : Nodes} (hw : Within S nodes) :
    Frame S nodes nodes := ⟨hw, fun _ _ => rfl⟩

theorem Frame.frame_trans {S : Nat → Prop} {a b c : Nodes} (hab : Frame S a b)
    (hbc : Frame S b c) : Frame S a c :=
  ⟨hbc.1, fun j hj => (hbc.2 j hj).trans (hab.2 j hj)⟩

theorem Frame.frame_set {S : Nat → Prop} {nodes : Nodes} {id : Nat} {node2 : Node}
    (hw : Within S nodes) (hid : S id) (hc : ∀ c ∈ node2.children, S c) :
    Frame S nodes (nodes.set id node2) := by
  refine ⟨⟨?_, ?_⟩, ?_⟩
  · intro j n hj hn
    by_cases hij : id = j
    · subst hij
      have hlt := getElem?_lt hn
      rw [List.getElem?_set_self (by simpa using hlt)] at hn
      injection hn with hn
      subst hn
      exact hc
    · rw [List.getElem?_set_ne hij] at hn
      exact hw.1 j n hj hn
  · intro j hj
    exact hw.2 j (by simpa using hj)
  · intro j hj
    have hij : id ≠ j := fun he => hj (he ▸ hid)
    rw [List.getElem?_set_ne hij]

theorem Frame.frame_append {S : Nat → Prop} {nodes : Nodes} {node : Node}
    (hw : Within S nodes) (hc : ∀ c ∈ node.children, S c) :
    Frame S nodes (nodes ++ [node]) := by
  refine ⟨⟨?_, ?_⟩, ?_⟩
  · intro j n hj hn
    by_cases hlt : j < nodes.length
    · rw [List.getElem?_append_left hlt] at hn
      exact hw.1 j n hj hn
    · have hlt2 := getElem?_lt hn
      simp at hlt2
      have hje : j = nodes.length := by omega
      subst hje
      simp at hn
      subst hn
      exact hc
  · intro j hj
    exact hw.2 j (by simp at hj; omega)
  · intro j hj
    have hlt : j < nodes.length := by
      by_contra hge
      exact hj (hw.2 j (by omega))
    rw [List.getElem?_append_left hlt]

theorem Frame.frame_setChild {S : Nat → Prop} {nodes nodes1 : Nodes} {id i c : Nat}
    (hw : Within S nodes) (hid : S id) (hc : S c)
    (h : setChild nodes id i c = .ok nodes1) : Frame S nodes nodes1 := by
  unfold Plan.setChild at h
  split at h
  · rename_i node hn
    split at h
    · injection h with h
      subst h
      refine Frame.frame_set hw hid ?_
      intro x hx
      rcases List.mem_or_eq_of_mem_set hx with hx | hx
      · exact hw.1 id node hid hn x hx
      · exact hx ▸ hc
    · cases h
  · cases h

theorem Frame.frame_modifyNode {S : Nat → Prop} {nodes nodes1 : Nodes} {id : Nat}
    {g : Node → Node} (hw : Within S nodes) (hid : S id)
    (h : modifyNode nodes id g = .ok nodes1)
    (hg : ∀ n, (g n).children = n.children) : Frame S nodes nodes1 := by
  unfold Plan.modifyNode at h
  split at h
  · rename_i node hn
    injection h with h
    subst h
    refine Frame.frame_set hw hid ?_
    rw [hg]
    exact hw.1 id node hid hn
  · cases h

theorem Frame.frame_pushToChild {S : Nat → Prop} {rec : Nodes → Nat → List Expr → Pushed}
    (hrec : ∀ nodes c fs r, Within S nodes → S c → rec nodes c fs = .ok r →
      Frame S nodes r.1 ∧ S r.2.1)
    {nodes nodes1 : Nodes} {id i : Nat} {fs : List Expr}
    (hw : Within S nodes) (hid : S id)
    (h : pushToChild rec nodes id i fs = .ok nodes1) : Frame S nodes nodes1 := by
  unfold Plan.pushToChild at h
  obtain ⟨node, hnode, h⟩ := bind_eq_ok h
  obtain ⟨c, hc, h⟩ := bind_eq_ok h
  obtain ⟨⟨nodesC, childID, residue⟩, hcall, h⟩ := bind_eq_ok h
  have hcS : S c := hw.1 id node hid (getNode_ok hnode) c (List.getElem?_mem (getChild_ok hc))
  obtain ⟨hC, hchild⟩ := hrec _ _ _ _ hw hcS hcall
  simp only at h
  split at h
  · obtain ⟨node1, hnode1, h⟩ := bind_eq_ok h
    obtain ⟨c1, hc1, h⟩ := bind_eq_ok h
    have hc1S : S c1 :=
      hC.1.1 id node1 hid (getNode_ok hnode1) c1 (List.getElem?_mem (getChild_ok hc1))
    have hA : Frame S nodesC
        (nodesC ++ [{ nodeType := .FILTER, children := [c1], filterList := residue }]) :=
      Frame.frame_append hC.1 (by
        intro x hx
        simp at hx
        exact hx ▸ hc1S)
    have hnew : S nodesC.length := hC.1.2 _ (le_refl _)
    exact hC.frame_trans (hA.frame_trans (Frame.frame_setChild hA.1 hid hnew h))
  · exact hC.frame_trans (Frame.frame_setChild hC.1 hid hchild h)

theorem Frame.frame_pushDeduced {S : Nat → Prop} {hh : Helpers}
    {rec : Nodes → Nat → List Expr → Pushed}
    (hrec : ∀ nodes c fs r, Within S nodes → S c → rec nodes c fs = .ok r →
      Frame S nodes r.1 ∧ S r.2.1)
    {nodes nodes1 : Nodes} {id : Nat} {l r : List Expr}
    (hw : Within S nodes)
    (hkids : ∀ nodes2 n, Frame S nodes nodes2 → nodes2[id]? = some n → ∀ c ∈ n.children, S c)
    (h : pushDeduced hh rec nodes id l r = .ok nodes1) : Frame S nodes nodes1 := by
  unfold Plan.pushDeduced at h
  obtain ⟨node, hnode, h⟩ := bind_eq_ok h
  split at h
  · obtain ⟨c0, hc0, h⟩ := bind_eq_ok h
    obtain ⟨⟨nodesA, _, _⟩, hcallA, h⟩ := bind_eq_ok h
    obtain ⟨node1, hnode1, h⟩ := bind_eq_ok h
    obtain ⟨c1, hc1, h⟩ := bind_eq_ok h
    obtain ⟨⟨nodesB, _, _⟩, hcallB, h⟩ := bind_eq_ok h
    simp only [pure, Except.pure] at h
    injection h with h
    subst h
    have hc0S : S c0 := hkids nodes node (Frame.frame_refl hw) (getNode_ok hnode) c0
      (List.getElem?_mem (getChild_ok hc0))
    obtain ⟨hA, _⟩ := hrec _ _ _ _ hw hc0S hcallA
    have hc1S : S c1 := hkids nodesA node1 hA (getNode_ok hnode1) c1
      (List.getElem?_mem (getChild_ok hc1))
    obtain ⟨hB, _⟩ := hrec _ _ _ _ hA.1 hc1S hcallB
    exact hA.frame_trans hB
  · simp only [pure, Except.pure] at h
    injection h with h
    subst h
    exact Frame.frame_refl hw

/-- A call of `pushdownFilters` on a node of a closed set `S` of ids that holds the id 0
changes the arena inside `S` only, keeps `S` closed and returns an id of `S`. -/
theorem pushdownFilters_frame (h : Helpers) (separateNonEquiConds : Bool) (S : Nat → Prop)
    (h0 : S 0) :
    ∀ (fuel : Nat) (nodes : Nodes) (nodeID : Nat) (filters : List Expr)
      (r : Nodes × Nat × List Expr),
      Within S nodes → S nodeID →
      pushdownFilters h separateNonEquiConds fuel nodes nodeID filters = .ok r →
      Frame S nodes r.1 ∧ S r.2.1 := by
  intro fuel
  induction fuel with
  | zero => intro _ _ _ _ _ _ hr; simp [pushdownFilters] at hr
  | succ fuel ih =>
    intro nodes nodeID filters r hw hid hr
    unfold pushdownFilters at hr
    obtain ⟨node, hnode, hr⟩ := bind_eq_ok hr
    have hkids : ∀ nodes2 n, Frame S nodes nodes2 → nodes2[nodeID]? = some n →
        ∀ c ∈ n.children, S c := fun nodes2 n hf hn => hf.1.1 nodeID n hid hn
    have hset : ∀ r, pushdownSetOp h (pushdownFilters h separateNonEquiConds fuel) nodes nodeID
        node filters = .ok r → Frame S nodes r.1 ∧ S r.2.1 := by
      intro r hr
      unfold pushdownSetOp at hr
      obtain ⟨c0, _, hr⟩ := bind_eq_ok hr
      obtain ⟨leftChild, _, hr⟩ := bind_eq_ok hr
      obtain ⟨c1, _, hr⟩ := bind_eq_ok hr
      obtain ⟨rightChild, _, hr⟩ := bind_eq_ok hr
      obtain ⟨nodes1, h1, hr⟩ := bind_eq_ok hr
      obtain ⟨nodes2, h2, hr⟩ := bind_eq_ok hr
      simp only [pure, Except.pure] at hr
      injection hr with hr
      subst hr
      have hA := Frame.frame_pushToChild ih hw hid h1
      exact ⟨hA.frame_trans (Frame.frame_pushToChild ih hA.1 hid h2), hid⟩
    have hscan : ∀ r, pushdownScan nodes nodeID filters = .ok r →
        Frame S nodes r.1 ∧ S r.2.1 := by
      intro r hr
      unfold pushdownScan at hr
      obtain ⟨nodes1, h1, hr⟩ := bind_eq_ok hr
      simp only [pure, Except.pure] at hr
      injection hr with hr
      subst hr
      exact ⟨Frame.frame_modifyNode hw hid h1 (fun _ => rfl), hid⟩
    have hdef : ∀ r, pushdownDefault (pushdownFilters h separateNonEquiConds fuel) nodes nodeID
        node filters = .ok r → Frame S nodes r.1 ∧ S r.2.1 := by
      intro r hr
      unfold pushdownDefault at hr
      split at hr
      · obtain ⟨nodes1, h1, hr⟩ := bind_eq_ok hr
        simp only [pure, Except.pure] at hr
        injection hr with hr
        subst hr
        exact ⟨Frame.frame_pushToChild ih hw hid h1, hid⟩
      · simp only [pure, Except.pure] at hr
        injection hr with hr
        subst hr
        exact ⟨Frame.frame_refl hw, hid⟩
    cases hk : node.nodeType <;> simp only [hk] at hr
    case AGG =>
      unfold pushdownAgg at hr
      obtain ⟨groupTag, _, hr⟩ := bind_eq_ok hr
      obtain ⟨aggregateTag, _, hr⟩ := bind_eq_ok hr
      obtain ⟨nodes1, h1, hr⟩ := bind_eq_ok hr
      simp only [pure, Except.pure] at hr
      injection hr with hr
      subst hr
      exact ⟨Frame.frame_pushToChild ih hw hid h1, hid⟩
    case FILTER =>
      unfold pushdownFilter at hr
      obtain ⟨c, hc, hr⟩ := bind_eq_ok hr
      obtain ⟨⟨nodes1, childID, residue⟩, hcall, hr⟩ := bind_eq_ok hr
      have hcS : S c := hw.1 nodeID node hid (getNode_ok hnode) c
        (List.getElem?_mem (getChild_ok hc))
      obtain ⟨hC, hchild⟩ := ih _ _ _ _ hw hcS hcall
      simp only at hr
      split at hr
      · obtain ⟨nodes2, h2, hr⟩ := bind_eq_ok hr
        obtain ⟨nodes3, h3, hr⟩ := bind_eq_ok hr
        simp only [pure, Except.pure] at hr
        injection hr with hr
        subst hr
        have hB := Frame.frame_setChild hC.1 hid hchild h2
        exact ⟨hC.frame_trans (hB.frame_trans
          (Frame.frame_modifyNode hB.1 hid h3 (fun _ => rfl))), hid⟩
      · simp only [pure, Except.pure] at hr
        injection hr with hr
        subst hr
        exact ⟨hC, hchild⟩
    case JOIN =>
      unfold pushdownJoin at hr
      obtain ⟨c0, _, hr⟩ := bind_eq_ok hr
      obtain ⟨c1, _, hr⟩ := bind_eq_ok hr
      obtain ⟨markTag, _, hr⟩ := bind_eq_ok hr
      obtain ⟨st, hst, hr⟩ := bind_eq_ok hr
      obtain ⟨nodes1, h1, hr⟩ := bind_eq_ok hr
      obtain ⟨nodes2, h2, hr⟩ := bind_eq_ok hr
      obtain ⟨nodes3, h3, hr⟩ := bind_eq_ok hr
      obtain ⟨nodes4, h4, hr⟩ := bind_eq_ok hr
      simp only [pure, Except.pure] at hr
      injection hr with hr
      subst hr
      have hA := Frame.frame_modifyNode hw hid h1 (fun _ => rfl)
      have hB := Frame.frame_pushDeduced ih hA.1
        (fun nodes2 n hf hn => hf.1.1 nodeID n hid hn) h2
      have hC := Frame.frame_pushToChild ih hB.1 hid h3
      have hD := Frame.frame_pushToChild ih hC.1 hid h4
      exact ⟨hA.frame_trans (hB.frame_trans (hC.frame_trans hD)), hid⟩
    case PROJECT =>
      unfold pushdownProject at hr
      obtain ⟨c0, _, hr⟩ := bind_eq_ok hr
      obtain ⟨child, _, hr⟩ := bind_eq_ok hr
      split at hr
      · simp only [pure, Except.pure] at hr
        injection hr with hr
        subst hr
        exact ⟨Frame.frame_refl hw, hid⟩
      · obtain ⟨projectTag, _, hr⟩ := bind_eq_ok hr
        obtain ⟨nodes1, h1, hr⟩ := bind_eq_ok hr
        simp only [pure, Except.pure] at hr
        injection hr with hr
        subst hr
        exact ⟨Frame.frame_pushToChild ih hw hid h1, hid⟩
    case FUNCTION_SCAN =>
      unfold pushdownFunctionScan at hr
      obtain ⟨nodes1, h1, hr⟩ := bind_eq_ok hr
      obtain ⟨childId, hc, hr⟩ := bind_eq_ok hr
      obtain ⟨⟨nodes2, childId2, err⟩, hcall, hr⟩ := bind_eq_ok hr
      have hA := Frame.frame_modifyNode hw hid h1 (fun _ => rfl)
      have hcS : S childId := hw.1 nodeID node hid (getNode_ok hnode) childId
        (List.getElem?_mem (getChild_ok hc))
      obtain ⟨hC, hchild⟩ := ih _ _ _ _ hA.1 hcS hcall
      simp only at hr
      split at hr
      · simp only [pure, Except.pure] at hr
        injection hr with hr
        subst hr
        exact ⟨hA.frame_trans hC, h0⟩
      · obtain ⟨nodes3, h3, hr⟩ := bind_eq_ok hr
        simp only [pure, Except.pure] at hr
        injection hr with hr
        subst hr
        exact ⟨hA.frame_trans (hC.frame_trans (Frame.frame_setChild hC.1 hid hchild h3)), hid⟩
    case TABLE_SCAN => exact hscan r hr
    case EXTERNAL_SCAN => exact hscan r hr
    case UNION => exact hset r hr
    case UNION_ALL => exact hset r hr
    case MINUS => exact hset r hr
    case MINUS_ALL => exact hset r hr
    case INTERSECT => exact hset r hr
    case INTERSECT_ALL => exact hset r hr
    all_goals exact hdef r hr

/-- The `JOIN` case as a chain: once the filters are classified, the node is written with the
join type, binding tags and on-list of the classification, the advisory calls run, the list
`leftPushdown` is pushed into the child slot 0, the list `rightPushdown` into the child
slot 1, and the call returns the node's own id with the list `cantPushdown`. -/
theorem pushdownFilters_join_chain (h : Helpers) (sep : Bool) (fuel : Nat)
    (nodes : Nodes) (nodeID c0 c1 : Nat) (mt : Int) (node : Node) (filters : List Expr)
    (st : JoinState)
    (hn : nodes[nodeID]? = some node) (hk : node.nodeType = .JOIN)
    (hc0 : node.children[0]? = some c0) (hc1 : node.children[1]? = some c1)
    (hm : getMarkTag node = .ok mt)
    (hst : classifyJoinFilters h sep (h.enumerateTags nodes c0) (h.enumerateTags nodes c1) mt
      node filters = .ok st) :
    pushdownFilters h sep (fuel + 1) nodes nodeID filters =
      (pushDeduced h (pushdownFilters h sep fuel)
        (nodes.set nodeID { node with
          joinType := st.joinType, bindingTags := st.bindingTags, onList := st.onList })
        nodeID st.leftPushdown st.rightPushdown).bind (fun nodes2 =>
        (pushToChild (pushdownFilters h sep fuel) nodes2 nodeID 0 st.leftPushdown).bind
          (fun nodes3 =>
            (pushToChild (pushdownFilters h sep fuel) nodes3 nodeID 1 st.rightPushdown).map
              (fun nodes4 => (nodes4, nodeID, st.cantPushdown)))) := by
  rw [pushdownFilters_join_eq h sep fuel nodes nodeID node filters hn hk]
  unfold pushdownJoin getChild
  simp only [hc0, hc1, hm, hst, bind, Except.bind, modifyNode_eq hn, pure, Except.pure,
    Except.map]

/-- A returning call on a `JOIN` node, taken apart: the reads, the classification and the
three blocks that follow it. -/
theorem pushdownFilters_join_run {h : Helpers} {sep : Bool} {fuel : Nat}
    {nodes : Nodes} {nodeID : Nat} {node : Node} {filters : List Expr}
    {out : Nodes × Nat × List Expr}
    (hn : nodes[nodeID]? = some node) (hk : node.nodeType = .JOIN)
    (hcall : pushdownFilters h sep (fuel + 1) nodes nodeID filters = .ok out) :
    ∃ (c0 c1 : Nat) (mt : Int) (st : JoinState) (nodes2 nodes3 : Nodes),
      node.children[0]? = some c0 ∧ node.children[1]? = some c1 ∧ getMarkTag node = .ok mt ∧
      classifyJoinFilters h sep (h.enumerateTags nodes c0) (h.enumerateTags nodes c1) mt
        node filters = .ok st ∧
      pushDeduced h (pushdownFilters h sep fuel)
        (nodes.set nodeID { node with
          joinType := st.joinType, bindingTags := st.bindingTags, onList := st.onList })
        nodeID st.leftPushdown st.rightPushdown = .ok nodes2 ∧
      pushToChild (pushdownFilters h sep fuel) nodes2 nodeID 0 st.leftPushdown = .ok nodes3 ∧
      pushToChild (pushdownFilters h sep fuel) nodes3 nodeID 1 st.rightPushdown = .ok out.1 ∧
      out.2 = (nodeID, st.cantPushdown) := by
  rw [pushdownFilters_join_eq h sep fuel nodes nodeID node filters hn hk] at hcall
  unfold pushdownJoin at hcall
  obtain ⟨c0, hc0, hcall⟩ := bind_eq_ok hcall
  obtain ⟨c1, hc1, hcall⟩ := bind_eq_ok hcall
  obtain ⟨mt, hm, hcall⟩ := bind_eq_ok hcall
  obtain ⟨st, hst, hcall⟩ := bind_eq_ok hcall
  obtain ⟨nodes1, h1, hcall⟩ := bind_eq_ok hcall
  obtain ⟨nodes2, h2, hcall⟩ := bind_eq_ok hcall
  obtain ⟨nodes3, h3, hcall⟩ := bind_eq_ok hcall
  obtain ⟨nodes4, h4, hcall⟩ := bind_eq_ok hcall
  simp only [pure, Except.pure] at hcall
  injection hcall with hcall
  subst hcall
  rw [modifyNode_eq hn] at h1
  injection h1 with h1
  subst h1
  exact ⟨c0, c1, mt, st, nodes2, nodes3, getChild_ok hc0, getChild_ok hc1, hm, hst, h2, h3,
    h4, rfl⟩

theorem Within.within_set {S : Nat → Prop} {nodes : Nodes} {id : Nat} (node2 : Node)
    (hw : Within S nodes) (hid : ¬ S id) : Within S (nodes.set id node2) := by
  refine ⟨?_, ?_⟩
  · intro j n hj hn
    have hij : id ≠ j := fun he => hid (he ▸ hj)
    rw [List.getElem?_set_ne hij] at hn
    exact hw.1 j n hj hn
  · intro j hj
    exact hw.2 j (by simpa using hj)

/-- The block `pushToChild` run on a node outside the closed set `S` whose child slots hold
ids of `S`: the arena changes inside `S` and at the child slot `i` of the node only. -/
theorem pushToChild_parent {S : Nat → Prop} {rec : Nodes → Nat → List Expr → Pushed}
    (hrec : ∀ nodes c fs r, Within S nodes → S c → rec nodes c fs = .ok r →
      Frame S nodes r.1 ∧ S r.2.1)
    {nodes nodes1 : Nodes} {id i : Nat} {fs : List Expr} {node : Node}
    (hw : Within S nodes) (hid : ¬ S id) (hn : nodes[id]? = some node)
    (hkids : ∀ c ∈ node.children, S c)
    (h : pushToChild rec nodes id i fs = .ok nodes1) :
    Within S nodes1 ∧ (∀ j, ¬ S j → j ≠ id → nodes1[j]? = nodes[j]?) ∧
      ∃ x, S x ∧ nodes1[id]? = some { node with children := node.children.set i x } := by
  unfold Plan.pushToChild at h
  obtain ⟨node0, hnode0, h⟩ := bind_eq_ok h
  have hn0 : node0 = node := by
    have := getNode_ok hnode0
    rw [hn] at this
    injection this with this
    exact this.symm
  subst hn0
  obtain ⟨c, hc, h⟩ := bind_eq_ok h
  obtain ⟨⟨nodesC, childID, residue⟩, hcall, h⟩ := bind_eq_ok h
  have hcS : S c := hkids c (List.getElem?_mem (getChild_ok hc))
  obtain ⟨hC, hchild⟩ := hrec _ _ _ _ hw hcS hcall
  have hnC : nodesC[id]? = some node0 := by rw [hC.2 id hid]; exact hn
  have hi : i < node0.children.length := getElem?_lt (getChild_ok hc)
  simp only at h
  split at h
  · obtain ⟨node1, hnode1, h⟩ := bind_eq_ok h
    obtain ⟨c1, hc1, hx⟩ := bind_eq_ok h
    have hn1 : node1 = node0 := by
      have := getNode_ok hnode1
      rw [hnC] at this
      injection this with this
      exact this.symm
    subst hn1
    have hc1S : S c1 := hkids c1 (List.getElem?_mem (getChild_ok hc1))
    have h2 : setChild
        (nodesC ++ [{ nodeType := .FILTER, children := [c1], filterList := residue }])
        id i nodesC.length = .ok nodes1 := hx
    have hA : Frame S nodesC
        (nodesC ++ [{ nodeType := .FILTER, children := [c1], filterList := residue }]) :=
      Frame.frame_append hC.1 (by
        intro x hx
        simp at hx
        exact hx ▸ hc1S)
    have hnA : (nodesC ++
        [{ nodeType := .FILTER, children := [c1], filterList := residue }])[id]? =
        some node1 := by
      rw [hA.2 id hid]; exact hnC
    rw [setChild_eq hnA hi] at h2
    injection h2 with h2
    subst h2
    refine ⟨Within.within_set _ hA.1 hid, ?_, nodesC.length, hC.1.2 _ (le_refl _), ?_⟩
    · intro j hj hji
      rw [List.getElem?_set_ne (fun he => hji he.symm), hA.2 j hj, hC.2 j hj]
    · exact List.getElem?_set_self (getElem?_lt hnA)
  · rw [setChild_eq hnC hi] at h
    injection h with h
    subst h
    refine ⟨Within.within_set _ hC.1 hid, ?_, childID, hchild, ?_⟩
    · intro j hj hji
      rw [List.getElem?_set_ne (fun he => hji he.symm), hC.2 j hj]
    · exact List.getElem?_set_self (getElem?_lt hnC)

/-- A returning call on a `JOIN` node outside a closed set `S` that holds its children and the
id 0: after the call the node has the join type, binding tags and on-list of the
classification and its old filterList, and the call returns the node's own id with the list
`cantPushdown`. -/
theorem pushdownFilters_join_node {h : Helpers} {sep : Bool} {fuel : Nat}
    {nodes : Nodes} {nodeID : Nat} {node : Node} {filters : List Expr}
    {out : Nodes × Nat × List Expr} {S : Nat → Prop}
    (h0 : S 0) (hw : Within S nodes) (hid : ¬ S nodeID) (hkids : ∀ c ∈ node.children, S c)
    (hn : nodes[nodeID]? = some node) (hk : node.nodeType = .JOIN)
    (hcall : pushdownFilters h sep (fuel + 1) nodes nodeID filters = .ok out) :
    ∃ (c0 c1 : Nat) (mt : Int) (st : JoinState) (n1 : Node),
      node.children[0]? = some c0 ∧ node.children[1]? = some c1 ∧ getMarkTag node = .ok mt ∧
      classifyJoinFilters h sep (h.enumerateTags nodes c0) (h.enumerateTags nodes c1) mt
        node filters = .ok st ∧
      out.2 = (nodeID, st.cantPushdown) ∧ out.1[nodeID]? = some n1 ∧
      n1.nodeType = .JOIN ∧ n1.joinType = st.joinType ∧ n1.bindingTags = st.bindingTags ∧
      n1.onList = st.onList ∧ n1.filterList = node.filterList := by
  obtain ⟨c0, c1, mt, st, nodes2, nodes3, hc0, hc1, hm, hst, h2, h3, h4, hres⟩ :=
    pushdownFilters_join_run hn hk hcall
  refine ⟨c0, c1, mt, st, ?_⟩
  have hrec := pushdownFilters_frame h sep S h0 fuel
  have hw1 := Within.within_set
    { node with joinType := st.joinType, bindingTags := st.bindingTags, onList := st.onList }
    hw hid
  have hn1 : (nodes.set nodeID { node with
      joinType := st.joinType, bindingTags := st.bindingTags, onList := st.onList })[nodeID]? =
      some { node with
        joinType := st.joinType, bindingTags := st.bindingTags, onList := st.onList } :=
    List.getElem?_set_self (getElem?_lt hn)
  have hF2 := Frame.frame_pushDeduced hrec hw1 (by
    intro nodesX n hf hnX
    rw [hf.2 nodeID hid, hn1] at hnX
    injection hnX with hnX
    subst hnX
    exact hkids) h2
  have hn2 := (hF2.2 nodeID hid).trans hn1
  obtain ⟨hw3, _, x, hx, hn3⟩ := pushToChild_parent hrec hF2.1 hid hn2 hkids h3
  obtain ⟨_, _, y, _, hn4⟩ := pushToChild_parent hrec hw3 hid hn3 (by
    intro c hc
    rcases List.mem_or_eq_of_mem_set hc with hc | hc
    · exact hkids c hc
    · exact hc ▸ hx) h4
  exact ⟨_, hc0, hc1, hm, hst, hres, hn4, hk, rfl, rfl, rfl, rfl⟩

/-- On a well-formed plan in which the node 0 ranks below the `JOIN` node (the id 0 is what
the `FUNCTION_SCAN` case may return), a returning call on the `JOIN` node leaves the node
with the join type, binding tags and on-list of the classification. -/
theorem pushdownFilters_join_final {h : Helpers} {sep : Bool} {fuel : Nat}
    {nodes : Nodes} {nodeID : Nat} {node : Node} {filters : List Expr}
    {out : Nodes × Nat × List Expr} {rank : Nat → Nat}
    (hwf : WellFormed rank nodes) (h0 : rank 0 < rank nodeID)
    (hn : nodes[nodeID]? = some node) (hk : node.nodeType = .JOIN)
    (hcall : pushdownFilters h sep (fuel + 1) nodes nodeID filters = .ok out) :
    ∃ (c0 c1 : Nat) (mt : Int) (st : JoinState) (n1 : Node),
      node.children[0]? = some c0 ∧ node.children[1]? = some c1 ∧ getMarkTag node = .ok mt ∧
      classifyJoinFilters h sep (h.enumerateTags nodes c0) (h.enumerateTags nodes c1) mt
        node filters = .ok st ∧
      out.2 = (nodeID, st.cantPushdown) ∧ out.1[nodeID]? = some n1 ∧
      n1.nodeType = .JOIN ∧ n1.joinType = st.joinType ∧ n1.bindingTags = st.bindingTags ∧
      n1.onList = st.onList ∧ n1.filterList = node.filterList := by
  refine pushdownFilters_join_node (S := fun j => rank j < rank nodeID ∨ nodes.length ≤ j)
    (Or.inl h0) ⟨?_, fun j hj => Or.inr hj⟩ ?_ ?_ hn hk hcall
  · intro j n hj hnj c hc
    have hlt := getElem?_lt hnj
    rcases hj with hj | hj
    · exact Or.inl (lt_trans ((hwf.node hnj).1 c hc).2 hj)
    · omega
  · intro hS
    have hlt := getElem?_lt hn
    rcases hS with hS | hS <;> omega
  · intro c hc
    exact Or.inl ((hwf.node hn).1 c hc).2

/-- One step of the placement loop on a filter classified MARK that returns: the filter is
kept unplaced, or it is the bare column of the join's first binding tag and the join becomes
a SEMI join, or it is a not-nullable call of `not` on that column and the join becomes an
ANTI join; in both conversions the binding tags are emptied. -/
theorem placeFilter_mark_ok {h : Helpers} {sep : Bool} {lt rt : List Int} {mt : Int}
    {st st1 : JoinState} {filter : Expr}
    (hp : placeFilter h sep lt rt mt st filter JoinSideMark = .ok st1) :
    st1 = st.keep filter ∨
    (∃ t p tag, filter = .col t tag p ∧ st.bindingTags[0]? = some tag ∧
      st1 = { st with joinType := .SEMI, bindingTags := [] }) ∨
    (∃ t t2 p rest tag, filter = .f t "not" (.col t2 tag p :: rest) ∧ t.notNullable = true ∧
      st.bindingTags[0]? = some tag ∧
      st1 = { st with joinType := .ANTI, bindingTags := [] }) := by
  unfold placeFilter at hp
  rw [if_neg (by decide), if_neg (by decide), if_neg (by decide), if_neg (by decide),
    if_pos rfl] at hp
  cases filter with
  | c t v =>
    simp only at hp
    injection hp with hp
    exact Or.inl hp.symm
  | col t r p =>
    simp only at hp
    cases htag : st.bindingTags[0]? with
    | none => simp [htag] at hp
    | some tag =>
      simp only [htag] at hp
      split at hp
      · rename_i hr
        injection hp with hp
        exact Or.inr (Or.inl ⟨t, p, tag, by rw [hr], rfl, hp.symm⟩)
      · injection hp with hp
        exact Or.inl hp.symm
  | f t n args =>
    simp only at hp
    split at hp
    · rename_i hg
      simp only [Bool.and_eq_true, decide_eq_true_eq] at hg
      obtain ⟨hnn, hname⟩ := hg
      subst hname
      cases args with
      | nil => simp at hp
      | cons a rest =>
        cases a with
        | c t2 v =>
          simp only [List.getElem?_cons_zero] at hp
          injection hp with hp
          exact Or.inl hp.symm
        | f t2 n2 args2 =>
          simp only [List.getElem?_cons_zero] at hp
          injection hp with hp
          exact Or.inl hp.symm
        | col t2 r p =>
          simp only [List.getElem?_cons_zero] at hp
          cases htag : st.bindingTags[0]? with
          | none => simp [htag] at hp
          | some tag =>
            simp only [htag] at hp
            split at hp
            · rename_i hr
              injection hp with hp
              exact Or.inr (Or.inr ⟨t, t2, p, rest, tag, by rw [hr], hnn, rfl, hp.symm⟩)
            · injection hp with hp
              exact Or.inl hp.symm
    · injection hp with hp
      exact Or.inl hp.symm

/-- One step of the placement loop only appends to the four lists; it keeps the join type
and the binding tags, or, on a filter classified MARK at a join with a binding tag, sets the
join type to SEMI or ANTI and empties the binding tags. -/
theorem placeFilter_mono {h : Helpers} {sep : Bool} {lt rt : List Int} {mt : Int}
    {st st1 : JoinState} {filter : Expr} {side : JoinSide}
    (hp : placeFilter h sep lt rt mt st filter side = .ok st1) :
    (st.leftPushdown ⊆ st1.leftPushdown ∧ st.rightPushdown ⊆ st1.rightPushdown ∧
      st.cantPushdown ⊆ st1.cantPushdown ∧ st.onList ⊆ st1.onList) ∧
    ((st1.joinType = st.joinType ∧ st1.bindingTags = st.bindingTags) ∨
      ((st1.joinType = .SEMI ∨ st1.joinType = .ANTI) ∧ st1.bindingTags = [] ∧
        side = JoinSideMark ∧ st.bindingTags ≠ [])) := by
  have hsub : ∀ (l : List Expr) (x : Expr), l ⊆ l ++ [x] :=
    fun l x => List.subset_append_left l [x]
  have hrefl : ∀ (l : List Expr), l ⊆ l := fun l => List.Subset.refl l
  have hne : ∀ {tag : Int}, st.bindingTags[0]? = some tag → st.bindingTags ≠ [] := by
    intro tag ht he
    rw [he] at ht
    cases ht
  rcases placeFilter_cases hp with ⟨_, _, h1⟩ | ⟨_, _, h1⟩ | ⟨_, h1⟩ | ⟨_, h1⟩ | ⟨_, _, h1⟩ |
    h1 | ⟨hs, _⟩
  · subst h1
    exact ⟨⟨hrefl _, hrefl _, hrefl _, hrefl _⟩, Or.inl ⟨rfl, rfl⟩⟩
  · subst h1
    exact ⟨⟨hsub _ _, hsub _ _, hrefl _, hrefl _⟩, Or.inl ⟨rfl, rfl⟩⟩
  · subst h1
    exact ⟨⟨hsub _ _, hrefl _, hrefl _, hrefl _⟩, Or.inl ⟨rfl, rfl⟩⟩
  · subst h1
    exact ⟨⟨hrefl _, hsub _ _, hrefl _, hrefl _⟩, Or.inl ⟨rfl, rfl⟩⟩
  · subst h1
    exact ⟨⟨hrefl _, hrefl _, hrefl _, hsub _ _⟩, Or.inl ⟨rfl, rfl⟩⟩
  · subst h1
    exact ⟨⟨hrefl _, hrefl _, hsub _ _, hrefl _⟩, Or.inl ⟨rfl, rfl⟩⟩
  · subst hs
    rcases placeFilter_mark_ok hp with h1 | ⟨_, _, tag, _, ht, h1⟩ | ⟨_, _, _, _, tag, _, _, ht, h1⟩
    · subst h1
      exact ⟨⟨hrefl _, hrefl _, hsub _ _, hrefl _⟩, Or.inl ⟨rfl, rfl⟩⟩
    · subst h1
      exact ⟨⟨hrefl _, hrefl _, hrefl _, hrefl _⟩, Or.inr ⟨Or.inl rfl, rfl, rfl, hne ht⟩⟩
    · subst h1
      exact ⟨⟨hrefl _, hrefl _, hrefl _, hrefl _⟩, Or.inr ⟨Or.inr rfl, rfl, rfl, hne ht⟩⟩

theorem LoopFrom.loop_refl {h : Helpers} {sep : Bool} {lt rt : List Int} {mt : Int}
    (a : JoinState) : LoopFrom h sep lt rt mt a a := ⟨[], rfl⟩

theorem LoopFrom.loop_step {h : Helpers} {sep : Bool} {lt rt : List Int} {mt : Int}
    {a b c : JoinState} {f : Expr} {side : JoinSide}
    (hs : placeFilter h sep lt rt mt a f side = .ok b) (hl : LoopFrom h sep lt rt mt b c) :
    LoopFrom h sep lt rt mt a c := by
  obtain ⟨l, hl⟩ := hl
  refine ⟨(f, side) :: l, ?_⟩
  simp only [placeFilters, hs, bind, Except.bind]
  exact hl

/-- Over the placement loop the four lists only grow; the join type and the binding tags
stay, or the join type is SEMI or ANTI and the binding tags are empty. -/
theorem LoopFrom.loop_mono {h : Helpers} {sep : Bool} {lt rt : List Int} {mt : Int}
    {a b : JoinState} (hl : LoopFrom h sep lt rt mt a b) :
    (a.leftPushdown ⊆ b.leftPushdown ∧ a.rightPushdown ⊆ b.rightPushdown ∧
      a.cantPushdown ⊆ b.cantPushdown ∧ a.onList ⊆ b.onList) ∧
    ((b.joinType = a.joinType ∧ b.bindingTags = a.bindingTags) ∨
      ((b.joinType = .SEMI ∨ b.joinType = .ANTI) ∧ b.bindingTags = [])) := by
  obtain ⟨l, hl⟩ := hl
  refine placeFilters_invariant
    (fun s => (a.leftPushdown ⊆ s.leftPushdown ∧ a.rightPushdown ⊆ s.rightPushdown ∧
      a.cantPushdown ⊆ s.cantPushdown ∧ a.onList ⊆ s.onList) ∧
      ((s.joinType = a.joinType ∧ s.bindingTags = a.bindingTags) ∨
        ((s.joinType = .SEMI ∨ s.joinType = .ANTI) ∧ s.bindingTags = []))) l a b ?_
    ⟨⟨List.Subset.refl _, List.Subset.refl _, List.Subset.refl _, List.Subset.refl _⟩,
      Or.inl ⟨rfl, rfl⟩⟩ hl
  intro p _ s s1 hP hstep
  obtain ⟨⟨m1, m2, m3, m4⟩, ht⟩ := placeFilter_mono hstep
  obtain ⟨⟨p1, p2, p3, p4⟩, hq⟩ := hP
  refine ⟨⟨p1.trans m1, p2.trans m2, p3.trans m3, p4.trans m4⟩, ?_⟩
  rcases ht with ⟨ht1, ht2⟩ | ⟨ht1, ht2, _, hne⟩
  · rcases hq with ⟨hq1, hq2⟩ | ⟨hq1, hq2⟩
    · exact Or.inl ⟨ht1.trans hq1, ht2.trans hq2⟩
    · exact Or.inr ⟨by rw [ht1]; exact hq1, ht2.trans hq2⟩
  · exact Or.inr ⟨ht1, ht2⟩

/-- Every classified filter of the placement loop is placed by one step, at a state the loop
reaches, and the loop goes on from the state after that step. -/
theorem placeFilters_split {h : Helpers} {sep : Bool} {lt rt : List Int} {mt : Int} :
    ∀ (l : List (Expr × JoinSide)) (st st1 : JoinState),
      placeFilters h sep lt rt mt st l = .ok st1 → ∀ p ∈ l,
      ∃ s s1, LoopFrom h sep lt rt mt st s ∧ placeFilter h sep lt rt mt s p.1 p.2 = .ok s1 ∧
        LoopFrom h sep lt rt mt s1 st1 := by
  intro l
  induction l with
  | nil => intro _ _ _ p hp; cases hp
  | cons q rest ih =>
    intro st st1 hl p hp
    obtain ⟨f, side⟩ := q
    simp only [placeFilters] at hl
    obtain ⟨st2, h2, hl⟩ := bind_eq_ok hl
    rcases List.mem_cons.mp hp with hp | hp
    · subst hp
      exact ⟨st, st2, LoopFrom.loop_refl st, h2, rest, hl⟩
    · obtain ⟨s, s1, hs, hstep, hs1⟩ := ih st2 st1 hl p hp
      exact ⟨s, s1, LoopFrom.loop_step h2 hs, hstep, hs1⟩

/-- An entry of one of the four lists after the placement loop was in the list when the loop
started, or was appended by the step of the loop on that very filter. -/
theorem placeFilters_origin {h : Helpers} {sep : Bool} {lt rt : List Int} {mt : Int}
    (proj : JoinState → List Expr)
    (hproj : ∀ s f side s1, placeFilter h sep lt rt mt s f side = .ok s1 →
      ∀ g ∈ proj s1, g ∈ proj s ∨ g = f) :
    ∀ (l : List (Expr × JoinSide)) (st st1 : JoinState),
      placeFilters h sep lt rt mt st l = .ok st1 → ∀ g ∈ proj st1,
      g ∈ proj st ∨ ∃ side s s1, (g, side) ∈ l ∧ LoopFrom h sep lt rt mt st s ∧
        placeFilter h sep lt rt mt s g side = .ok s1 ∧ LoopFrom h sep lt rt mt s1 st1 ∧
        g ∉ proj s ∧ g ∈ proj s1 := by
  intro l
  induction l with
  | nil =>
    intro st st1 hl g hg
    simp only [placeFilters] at hl
    injection hl with hl
    subst hl
    exact Or.inl hg
  | cons q rest ih =>
    intro st st1 hl g hg
    obtain ⟨f, side⟩ := q
    simp only [placeFilters] at hl
    obtain ⟨st2, h2, hl2⟩ := bind_eq_ok hl
    rcases ih st2 st1 hl2 g hg with h3 | ⟨side1, s, s1, hm, hs, hstep, hs1, hn, hy⟩
    · by_cases hin : g ∈ proj st
      · exact Or.inl hin
      · rcases hproj st f side st2 h2 g h3 with h4 | h4
        · exact absurd h4 hin
        · subst h4
          exact Or.inr ⟨side, st, st2, List.mem_cons_self _ _, LoopFrom.loop_refl st, h2,
            ⟨rest, hl2⟩, hin, h3⟩
    · exact Or.inr ⟨side1, s, s1, List.mem_cons_of_mem _ hm, LoopFrom.loop_step h2 hs, hstep,
        hs1, hn, hy⟩

theorem placeFilter_proj {h : Helpers} {sep : Bool} {lt rt : List Int} {mt : Int}
    {s s1 : JoinState} {f : Expr} {side : JoinSide}
    (hp : placeFilter h sep lt rt mt s f side = .ok s1) :
    (∀ g ∈ s1.leftPushdown, g ∈ s.leftPushdown ∨ g = f) ∧
    (∀ g ∈ s1.rightPushdown, g ∈ s.rightPushdown ∨ g = f) ∧
    (∀ g ∈ s1.cantPushdown, g ∈ s.cantPushdown ∨ g = f) ∧
    (∀ g ∈ s1.onList, g ∈ s.onList ∨ g = f) := by
  have hold : ∀ (l : List Expr) (g : Expr), g ∈ l → g ∈ l ∨ g = f := fun _ _ hg => Or.inl hg
  have hadd : ∀ (l : List Expr) (g : Expr), g ∈ l ++ [f] → g ∈ l ∨ g = f := by
    intro l g hg
    rcases List.mem_append.mp hg with hg | hg
    · exact Or.inl hg
    · exact Or.inr (List.mem_singleton.mp hg)
  rcases placeFilter_cases hp with ⟨_, _, h1⟩ | ⟨_, _, h1⟩ | ⟨_, h1⟩ | ⟨_, h1⟩ | ⟨_, _, h1⟩ |
    h1 | ⟨_, h1 | h1⟩ <;> subst h1
  · exact ⟨hold _, hold _, hold _, hold _⟩
  · exact ⟨hadd _, hadd _, hold _, hold _⟩
  · exact ⟨hadd _, hold _, hold _, hold _⟩
  · exact ⟨hold _, hadd _, hold _, hold _⟩
  · exact ⟨hold _, hold _, hold _, hadd _⟩
  · exact ⟨hold _, hold _, hadd _, hold _⟩
  · exact ⟨hold _, hold _, hold _, hold _⟩
  · exact ⟨hold _, hold _, hold _, hold _⟩

theorem joinStart_empty (h : Helpers) (lt rt : List Int) (mt : Int) (node : Node)
    (filters : List Expr) :
    (joinStart h lt rt mt node filters).leftPushdown = [] ∧
      (joinStart h lt rt mt node filters).cantPushdown = [] ∧
      (joinStart h lt rt mt node filters).bindingTags = node.bindingTags := ⟨rfl, rfl, rfl⟩

/-- Every filter that the placement loop of the `JOIN` case ranges over is placed by one step
of the loop with its own side, at a state the loop reaches from its start, and the loop goes
on from the state after that step to the final state. -/
theorem classifyJoinFilters_step {h : Helpers} {sep : Bool} {lt rt : List Int} {mt : Int}
    {node : Node} {filters : List Expr} {st : JoinState}
    (hc : classifyJoinFilters h sep lt rt mt node filters = .ok st) :
    ∀ f ∈ joinFilters h sep lt rt mt node filters,
      ∃ s s1, LoopFrom h sep lt rt mt (joinStart h lt rt mt node filters) s ∧
        placeFilter h sep lt rt mt s f (h.getJoinSide f lt rt mt) = .ok s1 ∧
        LoopFrom h sep lt rt mt s1 st := by
  intro f hf
  rw [classifyJoinFilters_eq] at hc
  exact placeFilters_split _ _ _ hc (f, h.getJoinSide f lt rt mt)
    (List.mem_map.mpr ⟨f, hf, rfl⟩)

/-- An entry of one of the four lists after the classification of the `JOIN` case was in the
list when the placement loop started, or is a filter of the loop that the step on it
appended. -/
theorem classifyJoinFilters_origin {h : Helpers} {sep : Bool} {lt rt : List Int} {mt : Int}
    {node : Node} {filters : List Expr} {st : JoinState}
    (proj : JoinState → List Expr)
    (hproj : ∀ s f side s1, placeFilter h sep lt rt mt s f side = .ok s1 →
      ∀ g ∈ proj s1, g ∈ proj s ∨ g = f)
    (hc : classifyJoinFilters h sep lt rt mt node filters = .ok st) :
    ∀ g ∈ proj st, g ∈ proj (joinStart h lt rt mt node filters) ∨
      ∃ s s1, g ∈ joinFilters h sep lt rt mt node filters ∧
        LoopFrom h sep lt rt mt (joinStart h lt rt mt node filters) s ∧
        placeFilter h sep lt rt mt s g (h.getJoinSide g lt rt mt) = .ok s1 ∧
        LoopFrom h sep lt rt mt s1 st ∧ g ∉ proj s ∧ g ∈ proj s1 := by
  intro g hg
  rw [classifyJoinFilters_eq] at hc
  rcases placeFilters_origin proj hproj _ _ _ hc g hg with h1 |
    ⟨side, s, s1, hm, hs, hstep, hs1, hn, hy⟩
  · exact Or.inl h1
  · obtain ⟨f, hf, hfe⟩ := List.mem_map.mp hm
    injection hfe with hf1 hf2
    subst hf1
    subst hf2
    exact Or.inr ⟨s, s1, hf, hs, hstep, hs1, hn, hy⟩

theorem classifyJoinFilters_origin_left {h : Helpers} {sep : Bool} {lt rt : List Int}
    {mt : Int} {node : Node} {filters : List Expr} {st : JoinState}
    (hc : classifyJoinFilters h sep lt rt mt node filters = .ok st) :
    ∀ g ∈ st.leftPushdown,
      ∃ s s1, g ∈ joinFilters h sep lt rt mt node filters ∧
        LoopFrom h sep lt rt mt (joinStart h lt rt mt node filters) s ∧
        placeFilter h sep lt rt mt s g (h.getJoinSide g lt rt mt) = .ok s1 ∧
        LoopFrom h sep lt rt mt s1 st ∧ g ∉ s.leftPushdown ∧ g ∈ s1.leftPushdown := by
  intro g hg
  rcases classifyJoinFilters_origin (fun s => s.leftPushdown)
    (fun _ _ _ _ hp => (placeFilter_proj hp).1) hc g hg with h1 | h1
  · cases h1
  · exact h1

theorem classifyJoinFilters_origin_cant {h : Helpers} {sep : Bool} {lt rt : List Int}
    {mt : Int} {node : Node} {filters : List Expr} {st : JoinState}
    (hc : classifyJoinFilters h sep lt rt mt node filters = .ok st) :
    ∀ g ∈ st.cantPushdown,
      ∃ s s1, g ∈ joinFilters h sep lt rt mt node filters ∧
        LoopFrom h sep lt rt mt (joinStart h lt rt mt node filters) s ∧
        placeFilter h sep lt rt mt s g (h.getJoinSide g lt rt mt) = .ok s1 ∧
        LoopFrom h sep lt rt mt s1 st ∧ g ∉ s.cantPushdown ∧ g ∈ s1.cantPushdown := by
  intro g hg
  rcases classifyJoinFilters_origin (fun s => s.cantPushdown)
    (fun _ _ _ _ hp => (placeFilter_proj hp).2.2.1) hc g hg with h1 | h1
  · cases h1
  · exact h1

theorem classifyJoinFilters_origin_right {h : Helpers} {sep : Bool} {lt rt : List Int}
    {mt : Int} {node : Node} {filters : List Expr} {st : JoinState}
    (hc : classifyJoinFilters h sep lt rt mt node filters = .ok st) :
    ∀ g ∈ st.rightPushdown,
      g ∈ (joinStart h lt rt mt node filters).rightPushdown ∨
      ∃ s s1, g ∈ joinFilters h sep lt rt mt node filters ∧
        LoopFrom h sep lt rt mt (joinStart h lt rt mt node filters) s ∧
        placeFilter h sep lt rt mt s g (h.getJoinSide g lt rt mt) = .ok s1 ∧
        LoopFrom h sep lt rt mt s1 st ∧ g ∉ s.rightPushdown ∧ g ∈ s1.rightPushdown :=
  classifyJoinFilters_origin (fun s => s.rightPushdown)
    (fun _ _ _ _ hp => (placeFilter_proj hp).2.1) hc

theorem classifyJoinFilters_origin_on {h : Helpers} {sep : Bool} {lt rt : List Int}
    {mt : Int} {node : Node} {filters : List Expr} {st : JoinState}
    (hc : classifyJoinFilters h sep lt rt mt node filters = .ok st) :
    ∀ g ∈ st.onList,
      g ∈ (joinStart h lt rt mt node filters).onList ∨
      ∃ s s1, g ∈ joinFilters h sep lt rt mt node filters ∧
        LoopFrom h sep lt rt mt (joinStart h lt rt mt node filters) s ∧
        placeFilter h sep lt rt mt s g (h.getJoinSide g lt rt mt) = .ok s1 ∧
        LoopFrom h sep lt rt mt s1 st ∧ g ∉ s.onList ∧ g ∈ s1.onList :=
  classifyJoinFilters_origin (fun s => s.onList)
    (fun _ _ _ _ hp => (placeFilter_proj hp).2.2.2) hc

/-- One step of the placement loop on a filter classified BOTH that returns: the filter joins
the on-list when the join type at that step is INNER and either `separateNonEquiConds` is
false or the filter is a call of `=` whose first two arguments are each not classified BOTH,
and is kept unplaced otherwise. -/
theorem placeFilter_both_ok {h : Helpers} {sep : Bool} {lt rt : List Int} {mt : Int}
    {st st1 : JoinState} {filter : Expr}
    (hp : placeFilter h sep lt rt mt st filter JoinSideBoth = .ok st1) :
    ((st.joinType = .INNER ∧ (sep = false ∨
        ∃ t a0 a1 rest, filter = .f t "=" (a0 :: a1 :: rest) ∧
          h.getJoinSide a0 lt rt mt ≠ JoinSideBoth ∧
          h.getJoinSide a1 lt rt mt ≠ JoinSideBoth)) ∧
      st1 = { st with onList := st.onList ++ [filter] }) ∨
    (¬ (st.joinType = .INNER ∧ (sep = false ∨
        ∃ t a0 a1 rest, filter = .f t "=" (a0 :: a1 :: rest) ∧
          h.getJoinSide a0 lt rt mt ≠ JoinSideBoth ∧
          h.getJoinSide a1 lt rt mt ≠ JoinSideBoth)) ∧
      st1 = st.keep filter) := by
  unfold placeFilter at hp
  rw [if_neg (by decide), if_neg (by decide), if_neg (by decide), if_pos rfl] at hp
  by_cases hj : st.joinType = .INNER
  · rw [if_pos hj] at hp
    cases sep with
    | false =>
      simp only [Bool.false_eq_true, if_false] at hp
      injection hp with hp
      exact Or.inl ⟨⟨hj, Or.inl rfl⟩, hp.symm⟩
    | true =>
      simp only [if_true] at hp
      cases filter with
      | col t r p =>
        simp only at hp
        injection hp with hp
        refine Or.inr ⟨?_, hp.symm⟩
        rintro ⟨_, h1 | ⟨_, _, _, _, he, _⟩⟩
        · cases h1
        · cases he
      | c t v =>
        simp only at hp
        injection hp with hp
        refine Or.inr ⟨?_, hp.symm⟩
        rintro ⟨_, h1 | ⟨_, _, _, _, he, _⟩⟩
        · cases h1
        · cases he
      | f t n args =>
        simp only at hp
        by_cases hn : n = "="
        · subst hn
          rw [if_pos rfl] at hp
          cases args with
          | nil => simp at hp
          | cons a0 rest0 =>
            simp only [List.getElem?_cons_zero] at hp
            by_cases h0 : h.getJoinSide a0 lt rt mt = JoinSideBoth
            · simp only [h0, ne_eq, not_true_eq_false, if_false] at hp
              injection hp with hp
              refine Or.inr ⟨?_, hp.symm⟩
              rintro ⟨_, h1 | ⟨_, b0, b1, rest, he, hb0, _⟩⟩
              · cases h1
              · injection he with _ _ he
                injection he with he _
                exact hb0 (he ▸ h0)
            · rw [if_pos h0] at hp
              cases rest0 with
              | nil => simp at hp
              | cons a1 rest =>
                simp only [List.getElem?_cons_succ, List.getElem?_cons_zero] at hp
                by_cases h1 : h.getJoinSide a1 lt rt mt = JoinSideBoth
                · simp only [h1, ne_eq, not_true_eq_false, if_false] at hp
                  injection hp with hp
                  refine Or.inr ⟨?_, hp.symm⟩
                  rintro ⟨_, h2 | ⟨_, b0, b1, rest2, he, _, hb1⟩⟩
                  · cases h2
                  · injection he with _ _ he
                    injection he with _ he
                    injection he with he _
                    exact hb1 (he ▸ h1)
                · rw [if_pos h1] at hp
                  injection hp with hp
                  exact Or.inl ⟨⟨hj, Or.inr ⟨t, a0, a1, rest, rfl, h0, h1⟩⟩, hp.symm⟩
        · rw [if_neg hn] at hp
          injection hp with hp
          refine Or.inr ⟨?_, hp.symm⟩
          rintro ⟨_, h1 | ⟨_, _, _, _, he, _⟩⟩
          · cases h1
          · injection he with _ he _
            exact hn he
  · rw [if_neg hj] at hp
    injection hp with hp
    exact Or.inr ⟨fun hc => hj hc.1, hp.symm⟩

/-- After the classification of the `JOIN` case on a join that is or has become an inner
join, every entry of the on-list is classified BOTH. -/
theorem classifyJoinFilters_on_both {h : Helpers} {sep : Bool} {lt rt : List Int} {mt : Int}
    {node : Node} {filters : List Expr} {st1 : JoinState}
    (hc : classifyJoinFilters h sep lt rt mt node filters = .ok st1)
    (hinner : node.joinType = .INNER ∨ st1.joinType = .INNER) :
    ∀ g ∈ st1.onList, h.getJoinSide g lt rt mt = JoinSideBoth := by
  rw [classifyJoinFilters_eq] at hc
  have hjt := placeFilters_joinType _ _ _ hc
  have hstart : (joinStart h lt rt mt node filters).onList = [] := by
    by_cases hi : node.joinType = .INNER
    · unfold joinStart
      simp only [hi, if_true]
      split_ifs <;> rfl
    · have hs1 : st1.joinType = .INNER := by
        rcases hinner with h1 | h1
        · exact absurd h1 hi
        · exact h1
      rw [joinStart_joinType h lt rt mt node filters hi] at hjt
      have hturn : turnsInner h node.joinType lt rt mt filters = true := by
        rcases hjt with hj | ⟨hj, _⟩
        · by_contra hturn
          rw [if_neg hturn] at hj
          exact hi (hj.symm.trans hs1)
        · rcases hj with hj | hj <;> rw [hs1] at hj <;> cases hj
      unfold joinStart
      simp only [hi, if_false, hturn, if_true]
  refine placeFilters_invariant
    (fun st => ∀ g ∈ st.onList, h.getJoinSide g lt rt mt = JoinSideBoth)
    _ _ st1 ?_ (by intro g hg; rw [hstart] at hg; cases hg) hc
  intro p hpm s s1 hs hstep
  obtain ⟨f, _, rfl⟩ := List.mem_map.mp hpm
  rcases placeFilter_cases hstep with ⟨_, _, e⟩ | ⟨_, _, e⟩ | ⟨_, e⟩ | ⟨_, e⟩ | ⟨hb, _, e⟩ |
    e | ⟨_, e | e⟩
  all_goals subst e
  all_goals try exact hs
  intro g hg
  rcases List.mem_append.mp hg with hg | hg
  · exact hs g hg
  · rw [List.mem_singleton] at hg
    subst hg
    exact hb

/-- One step of the placement loop on a bare column classified MARK that returns: the join
has a first binding tag, and the step converts the join to SEMI when the column has that
tag and keeps the filter unplaced otherwise. -/
theorem placeFilter_mark_col {h : Helpers} {sep : Bool} {lt rt : List Int} {mt : Int}
    {st st1 : JoinState} {t : Typ} {r p : Int}
    (hp : placeFilter h sep lt rt mt st (.col t r p) JoinSideMark = .ok st1) :
    ∃ tag, st.bindingTags[0]? = some tag ∧
      ((r = tag ∧ st1 = { st with joinType := .SEMI, bindingTags := [] }) ∨
        (r ≠ tag ∧ st1 = st.keep (.col t r p))) := by
  unfold placeFilter at hp
  rw [if_neg (by decide), if_neg (by decide), if_neg (by decide), if_neg (by decide),
    if_pos rfl] at hp
  simp only at hp
  cases htag : st.bindingTags[0]? with
  | none => simp [htag] at hp
  | some tag =>
    simp only [htag] at hp
    refine ⟨tag, rfl, ?_⟩
    split at hp
    · rename_i hr
      injection hp with hp
      exact Or.inl ⟨hr, hp.symm⟩
    · rename_i hr
      injection hp with hp
      exact Or.inr ⟨hr, hp.symm⟩

/-- One step of the placement loop on a not-nullable call of `not` on a bare column,
classified MARK, that returns: the join has a first binding tag, and the step converts the
join to ANTI when the column has that tag and keeps the filter unplaced otherwise. -/
theorem placeFilter_mark_not {h : Helpers} {sep : Bool} {lt rt : List Int} {mt : Int}
    {st st1 : JoinState} {t t2 : Typ} {r p : Int} {rest : List Expr}
    (hnn : t.notNullable = true)
    (hp : placeFilter h sep lt rt mt st (.f t "not" (.col t2 r p :: rest)) JoinSideMark =
      .ok st1) :
    ∃ tag, st.bindingTags[0]? = some tag ∧
      ((r = tag ∧ st1 = { st with joinType := .ANTI, bindingTags := [] }) ∨
        (r ≠ tag ∧ st1 = st.keep (.f t "not" (.col t2 r p :: rest)))) := by
  unfold placeFilter at hp
  rw [if_neg (by decide), if_neg (by decide), if_neg (by decide), if_neg (by decide),
    if_pos rfl] at hp
  simp only [hnn, decide_True, Bool.and_self, if_true, List.getElem?_cons_zero] at hp
  cases htag : st.bindingTags[0]? with
  | none => simp [htag] at hp
  | some tag =>
    simp only [htag] at hp
    refine ⟨tag, rfl, ?_⟩
    split at hp
    · rename_i hr
      injection hp with hp
      exact Or.inl ⟨hr, hp.symm⟩
    · rename_i hr
      injection hp with hp
      exact Or.inr ⟨hr, hp.symm⟩

/-- Once the binding tags are empty the placement loop changes neither them nor the join
type. -/
theorem LoopFrom.loop_tags_nil {h : Helpers} {sep : Bool} {lt rt : List Int} {mt : Int}
    {a b : JoinState} (hl : LoopFrom h sep lt rt mt a b) (ha : a.bindingTags = []) :
    b.joinType = a.joinType ∧ b.bindingTags = [] := by
  obtain ⟨l, hl⟩ := hl
  refine placeFilters_invariant
    (fun s => s.joinType = a.joinType ∧ s.bindingTags = []) l a b ?_ ⟨rfl, ha⟩ hl
  intro p _ s s1 hP hstep
  rcases (placeFilter_mono hstep).2 with ⟨ht1, ht2⟩ | ⟨_, _, _, hne⟩
  · exact ⟨ht1.trans hP.1, ht2.trans hP.2⟩
  · exact absurd hP.2 hne

/-- While the binding tags are not empty the placement loop has left them and the join type
as they were when it started. -/
theorem LoopFrom.loop_tags_same {h : Helpers} {sep : Bool} {lt rt : List Int} {mt : Int}
    {a b : JoinState} (hl : LoopFrom h sep lt rt mt a b) (hb : b.bindingTags ≠ []) :
    b.joinType = a.joinType ∧ b.bindingTags = a.bindingTags := by
  rcases hl.loop_mono.2 with h1 | ⟨_, h1⟩
  · exact h1
  · exact absurd h1 hb

/-- The join type after the classification of the `JOIN` case is the type after strength
reduction, or it is SEMI and one of the filters placed is a bare column classified MARK, or
it is ANTI and one of the filters placed is a not-nullable call of `not` on a bare column,
classified MARK. -/
theorem classifyJoinFilters_converted {h : Helpers} {sep : Bool} {lt rt : List Int}
    {mt : Int} {node : Node} {filters : List Expr} {st : JoinState}
    (hc : classifyJoinFilters h sep lt rt mt node filters = .ok st) :
    st.joinType = (joinStart h lt rt mt node filters).joinType ∨
      ∃ f ∈ joinFilters h sep lt rt mt node filters, h.getJoinSide f lt rt mt = JoinSideMark ∧
        ((st.joinType = .SEMI ∧ ∃ t r p, f = .col t r p) ∨
          (st.joinType = .ANTI ∧ ∃ t t2 r p rest, t.notNullable = true ∧
            f = .f t "not" (.col t2 r p :: rest))) := by
  rw [classifyJoinFilters_eq] at hc
  refine placeFilters_invariant
    (fun s => s.joinType = (joinStart h lt rt mt node filters).joinType ∨
      ∃ f ∈ joinFilters h sep lt rt mt node filters, h.getJoinSide f lt rt mt = JoinSideMark ∧
        ((s.joinType = .SEMI ∧ ∃ t r p, f = .col t r p) ∨
          (s.joinType = .ANTI ∧ ∃ t t2 r p rest, t.notNullable = true ∧
            f = .f t "not" (.col t2 r p :: rest)))) _ _ st ?_ (Or.inl rfl) hc
  intro p hpm s s1 hP hstep
  obtain ⟨f, hf, rfl⟩ := List.mem_map.mp hpm
  simp only at hstep
  rcases (placeFilter_mono hstep).2 with ⟨ht, _⟩ | ⟨_, _, hside, _⟩
  · rcases hP with hP | ⟨g, hg, hgs, hP⟩
    · exact Or.inl (ht.trans hP)
    · exact Or.inr ⟨g, hg, hgs, by rw [ht]; exact hP⟩
  · rw [hside] at hstep
    rcases placeFilter_mark_ok hstep with e | ⟨t, p, tag, hfe, _, e⟩ |
      ⟨t, t2, p, rest, tag, hfe, hnn, _, e⟩
    · rcases hP with hP | ⟨g, hg, hgs, hP⟩
      · exact Or.inl (by rw [e]; exact hP)
      · exact Or.inr ⟨g, hg, hgs, by rw [e]; exact hP⟩
    · exact Or.inr ⟨f, hf, hside, Or.inl ⟨by rw [e], t, tag, p, hfe⟩⟩
    · exact Or.inr ⟨f, hf, hside, Or.inr ⟨by rw [e], t, t2, tag, p, rest, hnn, hfe⟩⟩

/-- The join type after strength reduction is the join's type, or INNER for a LEFT or RIGHT
join. -/
theorem joinStart_joinType_cases (h : Helpers) (lt rt : List Int) (mt : Int) (node : Node)
    (filters : List Expr) :
    (joinStart h lt rt mt node filters).joinType = node.joinType ∨
      ((node.joinType = .LEFT ∨ node.joinType = .RIGHT) ∧
        (joinStart h lt rt mt node filters).joinType = .INNER) := by
  by_cases hi : node.joinType = .INNER
  · left
    have : (joinStart h lt rt mt node filters).joinType = .INNER := by
      unfold joinStart
      simp only [hi, if_true]
      split_ifs <;> rfl
    rw [this, hi]
  · rw [joinStart_joinType h lt rt mt node filters hi]
    by_cases hturn : turnsInner h node.joinType lt rt mt filters = true
    · rw [if_pos hturn]
      obtain ⟨f, _, _, hside⟩ := turnsInner_true hturn
      refine Or.inr ⟨?_, rfl⟩
      unfold leftOrRightJoin at hside
      simp only [Bool.or_eq_true, Bool.and_eq_true, decide_eq_true_eq] at hside
      rcases hside with ⟨h1, _⟩ | ⟨h1, _⟩
      · exact Or.inl h1
      · exact Or.inr h1
    · rw [if_neg hturn]
      exact Or.inl rfl

/-! ## Predicates followed through the classification of the `JOIN` case -/

theorem mem_appendConjuncts_own {h : Helpers} {p : Expr} (hown : h.ownConjunct p)
    {out l : List Expr} (hp : p ∈ out ∨ p ∈ l) : p ∈ appendConjuncts h out l := by
  rw [appendConjuncts_eq]
  rcases hp with hp | hp
  · exact List.mem_append_left _ hp
  · exact List.mem_append_right _ (List.mem_flatMap.mpr ⟨p, hp, hown.1⟩)

theorem classifyJoinFilters_loop {h : Helpers} {sep : Bool} {lt rt : List Int} {mt : Int}
    {node : Node} {F : List Expr} {st : JoinState}
    (hst : classifyJoinFilters h sep lt rt mt node F = .ok st) :
    LoopFrom h sep lt rt mt (joinStart h lt rt mt node F) st :=
  ⟨_, by rw [← classifyJoinFilters_eq]; exact hst⟩

theorem joinStart_joinType_mark (h : Helpers) (lt rt : List Int) (mt : Int) (node : Node)
    (F : List Expr) :
    (joinStart h lt rt mt node F).joinType = .MARK ↔ node.joinType = .MARK := by
  rcases joinStart_joinType_cases h lt rt mt node F with h1 | ⟨h1, h2⟩
  · rw [h1]
  · rw [h2]
    rcases h1 with h1 | h1 <;> rw [h1] <;> decide

/-- The binding tags and the join type after the classification of the `JOIN` case: the tags
are those of the node or none; a join is a `MARK` join afterwards only if it was one and has
kept its tags; a join that keeps tags has the join type it had after strength reduction; and a
join without binding tags has none afterwards, with the join type after strength
reduction. -/
theorem classifyJoinFilters_tags {h : Helpers} {sep : Bool} {lt rt : List Int} {mt : Int}
    {node : Node} {F : List Expr} {st : JoinState}
    (hst : classifyJoinFilters h sep lt rt mt node F = .ok st) :
    (st.bindingTags = node.bindingTags ∨ st.bindingTags = []) ∧
    (st.joinType = .MARK → node.joinType = .MARK ∧ st.bindingTags = node.bindingTags) ∧
    (st.bindingTags ≠ [] → st.joinType = (joinStart h lt rt mt node F).joinType) ∧
    (node.bindingTags = [] →
      st.bindingTags = [] ∧ st.joinType = (joinStart h lt rt mt node F).joinType) := by
  have hl := classifyJoinFilters_loop hst
  have hb : (joinStart h lt rt mt node F).bindingTags = node.bindingTags := rfl
  refine ⟨?_, ?_, ?_, ?_⟩
  · rcases hl.loop_mono.2 with ⟨_, h2⟩ | ⟨_, h2⟩
    · exact Or.inl (h2.trans hb)
    · exact Or.inr h2
  · intro hm
    rcases hl.loop_mono.2 with ⟨h1, h2⟩ | ⟨h1, _⟩
    · rw [h1] at hm
      exact ⟨(joinStart_joinType_mark h lt rt mt node F).mp hm, h2.trans hb⟩
    · rw [hm] at h1
      rcases h1 with h1 | h1 <;> cases h1
  · intro hne
    exact (hl.loop_tags_same hne).1
  · intro hnil
    obtain ⟨h1, h2⟩ := hl.loop_tags_nil (hb.trans hnil)
    exact ⟨h2, h1⟩

/-- Without `separateNonEquiConds`, at a join that carries binding tags only if it is a `MARK`
join, the classification of the `JOIN` case loses no tracked predicate: a conjunct of the
on-list is on the new on-list or on a pushdown list, and an incoming filter is on one of the
four lists. -/
theorem classifyJoinFilters_keeps (h : Helpers) (lt rt : List Int) (mt : Int) (node : Node)
    (F : List Expr) (st : JoinState)
    (hst : classifyJoinFilters h false lt rt mt node F = .ok st)
    (hplain : node.joinType ≠ .MARK → node.bindingTags = [])
    (p : Expr) (hown : h.ownConjunct p) (hs : h.sidedAt p mt) (ht : isTrueConst p = false) :
    (p ∈ node.onList → p ∈ st.onList ∨ p ∈ st.leftPushdown ∨ p ∈ st.rightPushdown) ∧
    (p ∈ F → p ∈ st.onList ∨ p ∈ st.leftPushdown ∨ p ∈ st.rightPushdown ∨
      p ∈ st.cantPushdown) := by
  have hloop := classifyJoinFilters_loop hst
  have key : p ∈ joinFilters h false lt rt mt node F →
      ∃ s, LoopFrom h false lt rt mt (joinStart h lt rt mt node F) s ∧
        (p ∈ st.onList ∨ p ∈ st.leftPushdown ∨ p ∈ st.rightPushdown ∨
          (p ∈ st.cantPushdown ∧ s.joinType ≠ .INNER)) := by
    intro hmem
    obtain ⟨s, s1, hs0, hstep, hs1⟩ := classifyJoinFilters_step hst p hmem
    obtain ⟨s2, hs2, _, _, _, _, _, _, hplace⟩ :=
      placeFilter_plain h lt rt mt s p (h.getJoinSide p lt rt mt) (hs lt rt)
    rw [hstep] at hs2
    injection hs2 with hs2
    subst hs2
    obtain ⟨m1, m2, m3, m4⟩ := hs1.loop_mono.1
    refine ⟨s, hs0, ?_⟩
    rcases hplace ht with h1 | h1 | h1 | ⟨h1, h2⟩
    · exact Or.inl (m4 h1)
    · exact Or.inr (Or.inl (m1 h1))
    · exact Or.inr (Or.inr (Or.inl (m2 h1)))
    · exact Or.inr (Or.inr (Or.inr ⟨m3 h1, h2⟩))
  have inner : p ∈ joinFilters h false lt rt mt node F →
      (joinStart h lt rt mt node F).joinType = .INNER → node.joinType ≠ .MARK →
      p ∈ st.onList ∨ p ∈ st.leftPushdown ∨ p ∈ st.rightPushdown := by
    intro hmem hjs hnm
    obtain ⟨s, hs0, hp⟩ := key hmem
    have hsj : s.joinType = .INNER := (hs0.loop_tags_nil (hplain hnm)).1.trans hjs
    rcases hp with h1 | h1 | h1 | ⟨_, h2⟩
    · exact Or.inl h1
    · exact Or.inr (Or.inl h1)
    · exact Or.inr (Or.inr h1)
    · exact absurd hsj h2
  refine ⟨?_, ?_⟩
  · intro hp
    have hp0 : p ∈ h.splitPlanConjunctions node.onList := hown.2 _ hp
    by_cases hin : node.joinType = .INNER
    · have hmem : p ∈ joinFilters h false lt rt mt node F := by
        unfold joinFilters
        simp only [hin, if_true]
        apply List.mem_append_left
        split_ifs
        · exact mem_appendConjuncts_own hown
            (Or.inl (mem_appendConjuncts_own hown (Or.inr hp0)))
        · exact mem_appendConjuncts_own hown (Or.inr hp0)
      have hjs : (joinStart h lt rt mt node F).joinType = .INNER := by
        unfold joinStart
        simp only [hin, if_true]
        split_ifs <;> rfl
      exact inner hmem hjs (by rw [hin]; decide)
    · by_cases hturn : turnsInner h node.joinType lt rt mt F = true
      · have hmem : p ∈ joinFilters h false lt rt mt node F := by
          unfold joinFilters
          simp only [hin, if_false, hturn, if_true]
          apply List.mem_append_left
          exact mem_appendConjuncts_own hown (Or.inr hp0)
        have hjs : (joinStart h lt rt mt node F).joinType = .INNER := by
          rw [joinStart_joinType h lt rt mt node F hin, if_pos hturn]
        have hnm : node.joinType ≠ .MARK := by
          intro hm
          rw [turnsInner_other F (by rw [hm]; decide) (by rw [hm]; decide)] at hturn
          cases hturn
        exact inner hmem hjs hnm
      · have hstart : p ∈ (joinStart h lt rt mt node F).onList ∨
            p ∈ (joinStart h lt rt mt node F).rightPushdown := by
          unfold joinStart
          simp only [hin, if_false, hturn]
          by_cases hleft : node.joinType = .LEFT
          · simp only [hleft, if_true, splitOnConjuncts_eq, List.nil_append, List.mem_filter]
            have hc : p ∈ appendConjuncts h [] (h.splitPlanConjunctions node.onList) :=
              mem_appendConjuncts_own hown (Or.inr hp0)
            cases hside : (h.getJoinSide p lt rt mt).left <;> simp [hc, hside]
          · simp [hleft, hp0]
        obtain ⟨_, m2, _, m4⟩ := hloop.loop_mono.1
        rcases hstart with h1 | h1
        · exact Or.inl (m4 h1)
        · exact Or.inr (Or.inr (m2 h1))
  · intro hp
    obtain ⟨_, _, h1⟩ := key (mem_joinFilters h false lt rt mt node F p hp)
    rcases h1 with h1 | h1 | h1 | ⟨h1, _⟩
    · exact Or.inl h1
    · exact Or.inr (Or.inl h1)
    · exact Or.inr (Or.inr (Or.inl h1))
    · exact Or.inr (Or.inr (Or.inr h1))

theorem getMarkTag_cases {n : Node} {mt : Int} (hm : getMarkTag n = .ok mt) :
    (n.joinType ≠ .MARK ∧ mt = 0) ∨ (n.joinType = .MARK ∧ n.bindingTags[0]? = some mt) := by
  unfold getMarkTag at hm
  by_cases hj : n.joinType = .MARK
  · rw [if_pos hj] at hm
    unfold getTag at hm
    cases hb : n.bindingTags[0]? with
    | none => simp [hb] at hm
    | some t =>
      simp only [hb] at hm
      injection hm with hm
      exact Or.inr ⟨hj, by rw [hm]⟩
  · rw [if_neg hj] at hm
    injection hm with hm
    exact Or.inl ⟨hj, hm.symm⟩

/-- One step of the placement loop looks at the join type and the binding tags of the state
only, and only appends to its lists: it is the step on the blank state of the same join type
and binding tags, with the lists of the state in front. -/
theorem placeFilter_delta (h : Helpers) (sep : Bool) (lt rt : List Int) (mt : Int)
    (s : JoinState) (f : Expr) (side : JoinSide) :
    placeFilter h sep lt rt mt s f side =
      (placeFilter h sep lt rt mt (JoinState.blank s.joinType s.bindingTags) f side).map
        s.plus := by
  by_cases hN : side = JoinSideNone
  · subst hN
    rw [placeFilter_none_eq, placeFilter_none_eq]
    simp only [JoinState.blank, JoinState.plus, JoinState.keep, Except.map]
    split_ifs <;> simp
  by_cases hL : side = JoinSideLeft
  · subst hL
    rw [placeFilter_left_eq, placeFilter_left_eq]
    simp only [JoinState.blank, JoinState.plus, JoinState.keep, Except.map]
    split_ifs <;> simp
  by_cases hR : side = JoinSideRight
  · subst hR
    rw [placeFilter_right_eq, placeFilter_right_eq]
    simp only [JoinState.blank, JoinState.plus, JoinState.keep, Except.map]
    split_ifs <;> simp
  by_cases hB : side = JoinSideBoth
  · subst hB
    have e1 : (JoinSideBoth = JoinSideNone) = False := eq_false (by decide)
    have e2 : (JoinSideBoth = JoinSideLeft) = False := eq_false (by decide)
    have e3 : (JoinSideBoth = JoinSideRight) = False := eq_false (by decide)
    unfold placeFilter
    simp only [e1, e2, e3, if_false, if_true, JoinState.blank, JoinState.plus, JoinState.keep]
    by_cases hj : s.joinType = .INNER
    · simp only [hj, if_true]
      cases sep with
      | false => simp [Except.map, JoinState.plus]
      | true =>
        simp only [if_true]
        cases f with
        | col t r p => simp [Except.map, JoinState.plus]
        | c t v => simp [Except.map, JoinState.plus]
        | f t n args =>
          simp only
          split_ifs with h1
          · cases h0 : args[0]? with
            | none => simp [Except.map, JoinState.plus]
            | some a0 =>
              simp only
              split_ifs with h2
              · cases h1b : args[1]? with
                | none => simp [Except.map, JoinState.plus]
                | some a1 =>
                  simp only
                  split_ifs <;> simp [Except.map, JoinState.plus]
              · simp [Except.map, JoinState.plus]
          · simp [Except.map, JoinState.plus]
    · simp [hj, Except.map, JoinState.plus]
  by_cases hM : side = JoinSideMark
  · subst hM
    have e1 : (JoinSideMark = JoinSideNone) = False := eq_false (by decide)
    have e2 : (JoinSideMark = JoinSideLeft) = False := eq_false (by decide)
    have e3 : (JoinSideMark = JoinSideRight) = False := eq_false (by decide)
    have e4 : (JoinSideMark = JoinSideBoth) = False := eq_false (by decide)
    unfold placeFilter
    simp only [e1, e2, e3, e4, if_false, if_true, JoinState.blank, JoinState.plus,
      JoinState.keep]
    cases f with
    | c t v => simp [Except.map, JoinState.plus]
    | col t r p =>
      simp only
      cases hb : s.bindingTags[0]? with
      | none => simp [Except.map, JoinState.plus]
      | some tag =>
        simp only
        split_ifs <;> simp [Except.map, JoinState.plus]
    | f t n args =>
      simp only
      split_ifs
      · cases h0 : args[0]? with
        | none => simp [Except.map, JoinState.plus]
        | some a0 =>
          cases a0 with
          | c t v => simp [Except.map, JoinState.plus]
          | f t n args => simp [Except.map, JoinState.plus]
          | col t r p =>
            simp only
            cases hb : s.bindingTags[0]? with
            | none => simp [Except.map, JoinState.plus]
            | some tag =>
              simp only
              split_ifs <;> simp [Except.map, JoinState.plus]
      · simp [Except.map, JoinState.plus]
  · rw [placeFilter_other_eq h sep lt rt mt s f side hN hL hR hB hM,
      placeFilter_other_eq h sep lt rt mt _ f side hN hL hR hB hM]
    simp [JoinState.blank, JoinState.plus, JoinState.keep, Except.map]

theorem flatMap_singleton_of {α : Type} (g : α → List α) :
    ∀ (l : List α), (∀ q ∈ l, g q = [q]) → l.flatMap g = l
  | [], _ => rfl
  | a :: as, hl => by
    rw [List.flatMap_cons, hl a (List.mem_cons_self _ _),
      flatMap_singleton_of g as (fun q hq => hl q (List.mem_cons_of_mem _ hq))]
    rfl

theorem appendConjuncts_calm {h : Helpers} (out l : List Expr) (hl : ∀ q ∈ l, h.calm q) :
    appendConjuncts h out l = out ++ l := by
  rw [appendConjuncts_eq, flatMap_singleton_of _ l (fun q hq => (hl q hq).1)]

theorem dnfExtras_nil_of {h : Helpers} :
    ∀ (lp : List (Expr × JoinSide)),
      (∀ p ∈ lp, p.2 = JoinSideBoth → walkKeys h p.1 (h.checkDNF p.1) = []) →
      dnfExtras h lp = []
  | [], _ => rfl
  | (f, s) :: rest, hl => by
    have ih := dnfExtras_nil_of rest (fun p hp => hl p (List.mem_cons_of_mem _ hp))
    have h0 := hl (f, s) (List.mem_cons_self _ _)
    unfold dnfExtras
    by_cases hs : s = JoinSideBoth
    · have hw : walkKeys h f (h.checkDNF f) = [] := h0 hs
      cases f <;> simp [hs, ih, hw]
    · simp [hs, ih]

theorem placeFilters_append {h : Helpers} {sep : Bool} {lt rt : List Int} {mt : Int} :
    ∀ (a b : List (Expr × JoinSide)) (s : JoinState),
      placeFilters h sep lt rt mt s (a ++ b) =
        (placeFilters h sep lt rt mt s a).bind (fun s1 => placeFilters h sep lt rt mt s1 b)
  | [], b, s => rfl
  | (f, side) :: a, b, s => by
    simp only [List.cons_append, placeFilters, bind]
    cases placeFilter h sep lt rt mt s f side with
    | error e => rfl
    | ok s1 => exact placeFilters_append a b s1

/-- A step of the placement loop that appends its filter to `cantPushdown` does so from every
state with the same join type and binding tags. -/
theorem placeFilter_keeps_again {h : Helpers} {sep : Bool} {lt rt : List Int} {mt : Int}
    {s s1 : JoinState} {f : Expr} {side : JoinSide}
    (hstep : placeFilter h sep lt rt mt s f side = .ok s1)
    (hin : f ∈ s1.cantPushdown) (hout : f ∉ s.cantPushdown)
    (s2 : JoinState) (hj : s2.joinType = s.joinType) (hb : s2.bindingTags = s.bindingTags) :
    placeFilter h sep lt rt mt s2 f side = .ok (s2.keep f) := by
  rw [placeFilter_delta] at hstep
  rw [placeFilter_delta, hj, hb]
  cases hd : placeFilter h sep lt rt mt (JoinState.blank s.joinType s.bindingTags) f side with
  | error e => rw [hd] at hstep; cases hstep
  | ok d =>
    rw [hd] at hstep
    simp only [Except.map] at hstep ⊢
    injection hstep with hstep
    subst hstep
    have hfd : f ∈ d.cantPushdown := by
      rcases List.mem_append.mp hin with h1 | h1
      · exact absurd h1 hout
      · exact h1
    have hdk : d = (JoinState.blank s.joinType s.bindingTags).keep f := by
      rcases placeFilter_cases hd with ⟨_, _, h1⟩ | ⟨_, _, h1⟩ | ⟨_, h1⟩ | ⟨_, h1⟩ | ⟨_, _, h1⟩ |
        h1 | ⟨_, h1 | h1⟩
      all_goals first
        | exact h1
        | (subst h1; simp [JoinState.blank] at hfd)
    subst hdk
    simp [JoinState.plus, JoinState.keep, JoinState.blank, hj, hb]

/-- A step of the placement loop that appends its filter to the on-list does so from every
state with the same join type and binding tags. -/
theorem placeFilter_on_again {h : Helpers} {sep : Bool} {lt rt : List Int} {mt : Int}
    {s s1 : JoinState} {f : Expr} {side : JoinSide}
    (hstep : placeFilter h sep lt rt mt s f side = .ok s1)
    (hin : f ∈ s1.onList) (hout : f ∉ s.onList)
    (s2 : JoinState) (hj : s2.joinType = s.joinType) (hb : s2.bindingTags = s.bindingTags) :
    placeFilter h sep lt rt mt s2 f side = .ok { s2 with onList := s2.onList ++ [f] } := by
  rw [placeFilter_delta] at hstep
  rw [placeFilter_delta, hj, hb]
  cases hd : placeFilter h sep lt rt mt (JoinState.blank s.joinType s.bindingTags) f side with
  | error e => rw [hd] at hstep; cases hstep
  | ok d =>
    rw [hd] at hstep
    simp only [Except.map] at hstep ⊢
    injection hstep with hstep
    subst hstep
    have hfd : f ∈ d.onList := by
      rcases List.mem_append.mp hin with h1 | h1
      · exact absurd h1 hout
      · exact h1
    have hdk : d = { JoinState.blank s.joinType s.bindingTags with onList := [f] } := by
      rcases placeFilter_cases hd with ⟨_, _, h1⟩ | ⟨_, _, h1⟩ | ⟨_, h1⟩ | ⟨_, h1⟩ | ⟨_, _, h1⟩ |
        h1 | ⟨_, h1 | h1⟩
      all_goals first
        | exact h1
        | (subst h1; simp [JoinState.blank, JoinState.keep] at hfd)
    subst hdk
    simp [JoinState.plus, JoinState.blank, hj, hb]

theorem placeFilters_keep_all {h : Helpers} {sep : Bool} {lt rt : List Int} {mt : Int}
    (T : JoinType) (B : List Int) :
    ∀ (l : List Expr) (s : JoinState), s.joinType = T → s.bindingTags = B →
      (∀ f ∈ l, ∀ s2 : JoinState, s2.joinType = T → s2.bindingTags = B →
        placeFilter h sep lt rt mt s2 f (h.getJoinSide f lt rt mt) = .ok (s2.keep f)) →
      placeFilters h sep lt rt mt s (l.map (fun f => (f, h.getJoinSide f lt rt mt))) =
        .ok { s with cantPushdown := s.cantPushdown ++ l }
  | [], s, _, _, _ => by simp [placeFilters]
  | f :: l, s, hj, hb, hl => by
    simp only [List.map_cons, placeFilters, hl f (List.mem_cons_self _ _) s hj hb, bind,
      Except.bind]
    rw [placeFilters_keep_all T B l (s.keep f) hj hb
      (fun g hg => hl g (List.mem_cons_of_mem _ hg))]
    simp [JoinState.keep]

theorem placeFilters_on_all {h : Helpers} {sep : Bool} {lt rt : List Int} {mt : Int}
    (T : JoinType) (B : List Int) :
    ∀ (l : List Expr) (s : JoinState), s.joinType = T → s.bindingTags = B →
      (∀ f ∈ l, ∀ s2 : JoinState, s2.joinType = T → s2.bindingTags = B →
        placeFilter h sep lt rt mt s2 f (h.getJoinSide f lt rt mt) =
          .ok { s2 with onList := s2.onList ++ [f] }) →
      placeFilters h sep lt rt mt s (l.map (fun f => (f, h.getJoinSide f lt rt mt))) =
        .ok { s with onList := s.onList ++ l }
  | [], s, _, _, _ => by simp [placeFilters]
  | f :: l, s, hj, hb, hl => by
    simp only [List.map_cons, placeFilters, hl f (List.mem_cons_self _ _) s hj hb, bind,
      Except.bind]
    rw [placeFilters_on_all T B l { s with onList := s.onList ++ [f] } hj hb
      (fun g hg => hl g (List.mem_cons_of_mem _ hg))]
    simp

/-- When the join type after strength reduction is INNER, the placement loop starts with an
empty on-list and an empty `rightPushdown`. -/
theorem joinStart_inner (h : Helpers) (lt rt : List Int) (mt : Int) (node : Node)
    (F : List Expr) (hj : (joinStart h lt rt mt node F).joinType = .INNER) :
    (joinStart h lt rt mt node F).onList = [] ∧
      (joinStart h lt rt mt node F).rightPushdown = [] := by
  by_cases hin : node.joinType = .INNER
  · by_cases hturn : turnsInner h JoinType.INNER lt rt mt
        (appendConjuncts h F (h.splitPlanConjunctions node.onList)) = true <;>
      simp [joinStart, hin, hturn]
  · rw [joinStart_joinType h lt rt mt node F hin] at hj
    by_cases hturn : turnsInner h node.joinType lt rt mt F = true
    · unfold joinStart
      simp [hin, hturn]
    · rw [if_neg hturn] at hj
      exact absurd hj hin

/-- At a join whose type is not INNER, the placement loop that ends with the binding tags it
started with leaves the on-list as it is. -/
theorem LoopFrom.loop_on_same {h : Helpers} {sep : Bool} {lt rt : List Int} {mt : Int}
    {a b : JoinState} (hl : LoopFrom h sep lt rt mt a b) (ha : b.bindingTags = a.bindingTags)
    (hj : a.joinType ≠ .INNER) : b.onList = a.onList := by
  obtain ⟨l, hl⟩ := hl
  have := placeFilters_invariant
    (fun s => (s.onList = a.onList ∧ s.joinType = a.joinType ∧
        s.bindingTags = a.bindingTags) ∨ (s.bindingTags = [] ∧ a.bindingTags ≠ [])) l a b ?_
    (Or.inl ⟨rfl, rfl, rfl⟩) hl
  · rcases this with h1 | ⟨h1, h2⟩
    · exact h1.1
    · rw [ha] at h1
      exact absurd h1 h2
  intro p _ s s1 hP hstep
  rcases hP with ⟨h1, h2, h3⟩ | ⟨h1, h2⟩
  · have hs : s.joinType ≠ .INNER := by rw [h2]; exact hj
    rcases (placeFilter_mono hstep).2 with htt | ⟨_, hnil, _, hne⟩
    · left
      refine ⟨?_, htt.1.trans h2, htt.2.trans h3⟩
      rcases placeFilter_cases hstep with ⟨_, _, e⟩ | ⟨_, _, e⟩ | ⟨_, e⟩ | ⟨_, e⟩ |
        ⟨_, hi, _⟩ | e | ⟨_, e | e⟩
      · rw [e]; exact h1
      · rw [e]; exact h1
      · rw [e]; exact h1
      · rw [e]; exact h1
      · exact absurd hi hs
      · rw [e]; exact h1
      · rw [e]; exact h1
      · rw [e]; exact h1
    · right
      exact ⟨hnil, by rw [← h3]; exact hne⟩
  · right
    rcases (placeFilter_mono hstep).2 with htt | ⟨_, hnil, _, _⟩
    · exact ⟨htt.2.trans h1, h2⟩
    · exact ⟨hnil, h2⟩

/-- In a placement loop that ends with the binding tags it started with, every state has the
join type and the binding tags of the last. -/
theorem LoopFrom.loop_steady {h : Helpers} {sep : Bool} {lt rt : List Int} {mt : Int}
    {a s b : JoinState} (has : LoopFrom h sep lt rt mt a s) (hsb : LoopFrom h sep lt rt mt s b)
    (hb : b.bindingTags = a.bindingTags) :
    s.joinType = b.joinType ∧ s.bindingTags = b.bindingTags := by
  by_cases hnil : a.bindingTags = []
  · obtain ⟨h1, h2⟩ := has.loop_tags_nil hnil
    obtain ⟨h3, h4⟩ := hsb.loop_tags_nil h2
    exact ⟨h3.symm, h2.trans h4.symm⟩
  · have hne : b.bindingTags ≠ [] := by rw [hb]; exact hnil
    obtain ⟨h1, h2⟩ := hsb.loop_tags_same hne
    exact ⟨h1.symm, h2.symm⟩

/-- The classification of the `JOIN` case reaches a fixed point at a join that keeps its
binding tags: when `splitPlanConjunctions` returns the new on-list as it is and a second run
derives nothing from the entries of the new on-list and of `cantPushdown`, the classification
of the filters returned unplaced at the join with its new fields gives these fields again,
pushes nothing, and returns the same filters unplaced. -/
theorem classifyJoinFilters_fixed (h : Helpers) (sep : Bool) (lt rt : List Int) (mt : Int)
    (node : Node) (F : List Expr) (st : JoinState)
    (hst : classifyJoinFilters h sep lt rt mt node F = .ok st)
    (hb : st.bindingTags = node.bindingTags)
    (hsplit : h.splitPlanConjunctions st.onList = st.onList)
    (hon : ∀ q ∈ st.onList, h.calm q) (hcant : ∀ q ∈ st.cantPushdown, h.calm q) :
    classifyJoinFilters h sep lt rt mt
        { node with joinType := st.joinType, bindingTags := st.bindingTags,
                    onList := st.onList } st.cantPushdown =
      .ok { joinType := st.joinType, bindingTags := st.bindingTags, onList := st.onList,
            cantPushdown := st.cantPushdown } := by
  have hloop := classifyJoinFilters_loop hst
  have hsb : st.bindingTags = (joinStart h lt rt mt node F).bindingTags := hb
  have hstj : st.joinType = (joinStart h lt rt mt node F).joinType :=
    (LoopFrom.loop_steady (LoopFrom.loop_refl _) hloop hsb).1.symm
  -- every state of the first run has the final join type and binding tags
  have hstate : ∀ s s1 f side, LoopFrom h sep lt rt mt (joinStart h lt rt mt node F) s →
      placeFilter h sep lt rt mt s f side = .ok s1 → LoopFrom h sep lt rt mt s1 st →
      s.joinType = st.joinType ∧ s.bindingTags = st.bindingTags := by
    intro s s1 f side hs hstep hs1
    exact LoopFrom.loop_steady hs (LoopFrom.loop_step hstep hs1) hsb
  -- the filters returned unplaced are kept again
  have hA : ∀ f ∈ st.cantPushdown, ∀ s2 : JoinState, s2.joinType = st.joinType →
      s2.bindingTags = st.bindingTags →
      placeFilter h sep lt rt mt s2 f (h.getJoinSide f lt rt mt) = .ok (s2.keep f) := by
    intro f hf s2 hj2 hb2
    obtain ⟨s, s1, _, hs, hstep, hs1, hn, hy⟩ := classifyJoinFilters_origin_cant hst f hf
    obtain ⟨e1, e2⟩ := hstate s s1 _ _ hs hstep hs1
    exact placeFilter_keeps_again hstep hy hn s2 (hj2.trans e1.symm) (hb2.trans e2.symm)
  -- no conjunct is extracted in the second run
  have hdnf : ∀ (l : List Expr), (∀ q ∈ l, h.calm q) →
      dnfExtras h (l.zip (l.map (fun f => h.getJoinSide f lt rt mt))) = [] := by
    intro l hl
    apply dnfExtras_nil_of
    intro p hp _
    have : p.1 ∈ l := (List.of_mem_zip hp).1
    exact (hl p.1 this).2
  rw [classifyJoinFilters_eq]
  by_cases hT : st.joinType = .INNER
  · -- an inner join: the on-list is folded in and placed on the on-list again
    have hstart := joinStart_inner h lt rt mt node F (hstj.symm.trans hT)
    have hB : ∀ q ∈ st.onList, ∀ s2 : JoinState, s2.joinType = st.joinType →
        s2.bindingTags = st.bindingTags →
        placeFilter h sep lt rt mt s2 q (h.getJoinSide q lt rt mt) =
          .ok { s2 with onList := s2.onList ++ [q] } := by
      intro q hq s2 hj2 hb2
      rcases classifyJoinFilters_origin_on hst q hq with
        h1 | ⟨s, s1, _, hs, hstep, hs1, hn, hy⟩
      · rw [hstart.1] at h1
        cases h1
      · obtain ⟨e1, e2⟩ := hstate s s1 _ _ hs hstep hs1
        exact placeFilter_on_again hstep hy hn s2 (hj2.trans e1.symm) (hb2.trans e2.symm)
    have hfil : joinFilters h sep lt rt mt
        { node with joinType := st.joinType, bindingTags := st.bindingTags,
                    onList := st.onList } st.cantPushdown = st.cantPushdown ++ st.onList := by
      unfold joinFilters
      simp only [hT, if_true, hsplit, appendConjuncts_calm _ _ hon,
        turnsInner_other _ (show JoinType.INNER ≠ .LEFT by decide)
          (show JoinType.INNER ≠ .RIGHT by decide), Bool.false_eq_true, if_false]
      rw [hdnf _ (fun q hq => by
        rcases List.mem_append.mp hq with h1 | h1
        · exact hcant q h1
        · exact hon q h1)]
      split_ifs <;> simp
    have hsta : joinStart h lt rt mt
        { node with joinType := st.joinType, bindingTags := st.bindingTags,
                    onList := st.onList } st.cantPushdown =
        JoinState.blank st.joinType st.bindingTags := by
      unfold joinStart JoinState.blank
      simp only [hT, if_true,
        turnsInner_other _ (show JoinType.INNER ≠ .LEFT by decide)
          (show JoinType.INNER ≠ .RIGHT by decide), Bool.false_eq_true, if_false]
      simp
    have k1 := placeFilters_keep_all st.joinType st.bindingTags st.cantPushdown
      (JoinState.blank st.joinType st.bindingTags) rfl rfl hA
    have k2 := placeFilters_on_all st.joinType st.bindingTags st.onList
      { JoinState.blank st.joinType st.bindingTags with
        cantPushdown := (JoinState.blank st.joinType st.bindingTags).cantPushdown ++
          st.cantPushdown } rfl rfl hB
    rw [hfil, hsta, List.map_append, placeFilters_append, k1]
    simp only [Except.bind]
    rw [k2]
    simp [JoinState.blank]
  · -- another join: the on-list stays, the incoming filters are kept
    have hsT : (joinStart h lt rt mt node F).joinType ≠ .INNER := by rw [← hstj]; exact hT
    have hnode : node.joinType = st.joinType ∧
        turnsInner h node.joinType lt rt mt F = false := by
      have hni : node.joinType ≠ .INNER := by
        intro hi
        apply hsT
        unfold joinStart
        simp only [hi, if_true]
        split_ifs <;> rfl
      have := joinStart_joinType h lt rt mt node F hni
      by_cases hturn : turnsInner h node.joinType lt rt mt F = true
      · rw [if_pos hturn] at this
        exact absurd this hsT
      · rw [if_neg hturn] at this
        exact ⟨(hstj.trans this).symm, by simpa using hturn⟩
    obtain ⟨hnj, hnturn⟩ := hnode
    have hni : node.joinType ≠ .INNER := by rw [hnj]; exact hT
    have hons : st.onList = (joinStart h lt rt mt node F).onList :=
      hloop.loop_on_same hsb hsT
    -- no conjunct was extracted in the first run: a disjunction classified BOTH is unplaced
    have hboth : ∀ f ∈ F, h.getJoinSide f lt rt mt = JoinSideBoth → f ∈ st.cantPushdown := by
      intro f hf hside
      obtain ⟨s, s1, hs, hstep, hs1⟩ :=
        classifyJoinFilters_step hst f (mem_joinFilters h sep lt rt mt node F f hf)
      rw [hside] at hstep
      have hsj : s.joinType ≠ .INNER := by rw [(hstate s s1 _ _ hs hstep hs1).1]; exact hT
      rcases placeFilter_both_cases hstep with ⟨hi, _⟩ | e
      · exact absurd hi hsj
      · apply hs1.loop_mono.1.2.2.1
        rw [e]
        simp [JoinState.keep]
    have hextra : dnfExtras h (F.zip (F.map (fun f => h.getJoinSide f lt rt mt))) = [] := by
      apply dnfExtras_nil_of
      intro p hp hside
      rw [zip_map_sides] at hp
      obtain ⟨f, hf, rfl⟩ := List.mem_map.mp hp
      exact (hcant f (hboth f hf hside)).2
    have hjf : joinFilters h sep lt rt mt node F = F := by
      unfold joinFilters
      simp only [hni, if_false, hnturn, Bool.false_eq_true]
      rw [hextra]
      split_ifs <;> simp
    have hturn2 : turnsInner h st.joinType lt rt mt st.cantPushdown = false := by
      rw [hnj] at hnturn
      refine turnsInner_subset hnturn (fun g hg => ?_)
      obtain ⟨_, _, hgm, _⟩ := classifyJoinFilters_origin_cant hst g hg
      rw [hjf] at hgm
      exact hgm
    have hleft : st.joinType = .LEFT → ∀ q ∈ st.onList,
        (h.getJoinSide q lt rt mt).left = true := by
      intro hl q hq
      have hnl : node.joinType = .LEFT := hnj.trans hl
      have hnt : turnsInner h JoinType.LEFT lt rt mt F = false := by rw [← hnl]; exact hnturn
      have e0 : (JoinType.LEFT = JoinType.INNER) = False := eq_false (by decide)
      rw [hons] at hq
      unfold joinStart at hq
      simp only [hnl, e0, if_false, hnt, Bool.false_eq_true, if_true,
        splitOnConjuncts_eq, List.nil_append, List.mem_filter] at hq
      exact hq.2
    have hfil : joinFilters h sep lt rt mt
        { node with joinType := st.joinType, bindingTags := st.bindingTags,
                    onList := st.onList } st.cantPushdown = st.cantPushdown := by
      unfold joinFilters
      simp only [hT, if_false, hturn2, Bool.false_eq_true]
      rw [hdnf _ hcant]
      split_ifs <;> simp
    have hsta : joinStart h lt rt mt
        { node with joinType := st.joinType, bindingTags := st.bindingTags,
                    onList := st.onList } st.cantPushdown =
        { joinType := st.joinType, bindingTags := st.bindingTags, onList := st.onList } := by
      unfold joinStart
      simp only [hT, if_false, hturn2, Bool.false_eq_true, hsplit]
      by_cases hl : st.joinType = .LEFT
      · have e1 : st.onList.filter (fun e => (h.getJoinSide e lt rt mt).left) = st.onList :=
          List.filter_eq_self.mpr (hleft hl)
        have e2 : st.onList.filter (fun e => !(h.getJoinSide e lt rt mt).left) = [] := by
          rw [List.filter_eq_nil_iff]
          intro q hq
          simp [hleft hl q hq]
        simp only [hl, if_true, splitOnConjuncts_eq, appendConjuncts_calm _ _ hon,
          List.nil_append, e1, e2]
      · simp only [hl, if_false]
    have k1 := placeFilters_keep_all st.joinType st.bindingTags st.cantPushdown
      { joinType := st.joinType, bindingTags := st.bindingTags, onList := st.onList } rfl rfl hA
    rw [hfil, hsta, k1]
    simp

/-! ## Shapes and the arena -/

theorem nodeConjuncts_congr {h : Helpers} {nodes nodes1 : Nodes} {i : Nat}
    (e : nodes1[i]? = nodes[i]?) : nodeConjuncts h nodes1 i = nodeConjuncts h nodes i := by
  simp [nodeConjuncts, e]

theorem Shape.mem_conjuncts {h : Helpers} {nodes : Nodes} {t : Shape} {p : Expr} :
    p ∈ t.conjuncts h nodes ↔ ∃ i ∈ t.ids, p ∈ nodeConjuncts h nodes i := by
  simp [Shape.conjuncts, List.mem_flatMap]

theorem Shape.mem_conjuncts_congr {h : Helpers} {nodes nodes1 : Nodes} {t : Shape} {p : Expr}
    (hf : ∀ i ∈ t.ids, nodes1[i]? = nodes[i]?) (hp : p ∈ t.conjuncts h nodes) :
    p ∈ t.conjuncts h nodes1 := by
  obtain ⟨i, hi, hpi⟩ := Shape.mem_conjuncts.mp hp
  exact Shape.mem_conjuncts.mpr ⟨i, hi, by rw [nodeConjuncts_congr (hf i hi)]; exact hpi⟩

theorem Shape.mem_conjuncts_join {h : Helpers} {nodes : Nodes} {id : Nat} {l r : Shape}
    {p : Expr} :
    p ∈ (Shape.join id l r).conjuncts h nodes ↔
      p ∈ nodeConjuncts h nodes id ∨ p ∈ l.conjuncts h nodes ∨ p ∈ r.conjuncts h nodes := by
  simp [Shape.conjuncts, Shape.ids]

theorem Shape.mem_conjuncts_filter {h : Helpers} {nodes : Nodes} {id : Nat} {c : Shape}
    {p : Expr} :
    p ∈ (Shape.filter id c).conjuncts h nodes ↔
      p ∈ nodeConjuncts h nodes id ∨ p ∈ c.conjuncts h nodes := by
  simp [Shape.conjuncts, Shape.ids]

theorem nodePreds_sub_conjuncts {h : Helpers} {p : Expr} (hown : h.ownConjunct p)
    {nodes : Nodes} {i : Nat} (hp : p ∈ nodePreds nodes i) : p ∈ nodeConjuncts h nodes i := by
  unfold nodePreds at hp
  unfold nodeConjuncts
  cases hn : nodes[i]? with
  | none => simp [hn] at hp
  | some n =>
    simp only [hn] at hp ⊢
    by_cases hk : n.nodeType = .FILTER
    · rw [if_pos hk]
      have hj : n.nodeType ≠ .JOIN := by rw [hk]; decide
      simp only [hj, if_false, List.append_nil] at hp
      exact mem_appendConjuncts_own hown (Or.inr hp)
    · rw [if_neg hk]
      exact hp

theorem Shape.preds_sub_conjuncts {h : Helpers} {p : Expr} (hown : h.ownConjunct p)
    {nodes : Nodes} {t : Shape} (hp : p ∈ t.preds nodes) : p ∈ t.conjuncts h nodes := by
  obtain ⟨i, hi, hpi⟩ := Shape.mem_preds.mp hp
  exact Shape.mem_conjuncts.mpr ⟨i, hi, nodePreds_sub_conjuncts hown hpi⟩

theorem Helpers.tracks_mono {h : Helpers} {M1 M2 : List Int} {p : Expr}
    (hm : ∀ m ∈ M2, m ∈ M1) (ht : h.tracks M1 p) : h.tracks M2 p :=
  ⟨ht.1, fun mt hmt => ht.2.1 mt (hmt.imp id (hm mt)), ht.2.2⟩

theorem Shape.marks_congr {nodes nodes1 : Nodes} : ∀ {t : Shape},
    (∀ i ∈ t.ids, nodes1[i]? = nodes[i]?) → t.marks nodes1 = t.marks nodes
  | .scan id, _ => rfl
  | .leaf id, _ => rfl
  | .filter id c, h => by
    simp only [Shape.marks]
    exact Shape.marks_congr (fun i hi => h i (by simp [Shape.ids, hi]))
  | .unary id c, h => by
    simp only [Shape.marks]
    exact Shape.marks_congr (fun i hi => h i (by simp [Shape.ids, hi]))
  | .setop id l r, h => by
    simp only [Shape.marks]
    rw [Shape.marks_congr (t := l) (fun i hi => h i (by simp [Shape.ids, hi])),
      Shape.marks_congr (t := r) (fun i hi => h i (by simp [Shape.ids, hi]))]
  | .join id l r, h => by
    simp only [Shape.marks]
    rw [Shape.marks_congr (t := l) (fun i hi => h i (by simp [Shape.ids, hi])),
      Shape.marks_congr (t := r) (fun i hi => h i (by simp [Shape.ids, hi])),
      h id (by simp [Shape.ids])]

theorem Shape.plain_congr {nodes nodes1 : Nodes} : ∀ {t : Shape},
    (∀ i ∈ t.ids, nodes1[i]? = nodes[i]?) → t.plain nodes1 = t.plain nodes
  | .scan id, _ => rfl
  | .leaf id, _ => rfl
  | .unary id c, _ => rfl
  | .setop id l r, _ => rfl
  | .filter id c, h => by
    simp only [Shape.plain]
    exact Shape.plain_congr (fun i hi => h i (by simp [Shape.ids, hi]))
  | .join id l r, h => by
    simp only [Shape.plain]
    rw [Shape.plain_congr (t := l) (fun i hi => h i (by simp [Shape.ids, hi])),
      Shape.plain_congr (t := r) (fun i hi => h i (by simp [Shape.ids, hi])),
      h id (by simp [Shape.ids])]

theorem Shape.bare_congr {nodes nodes1 : Nodes} : ∀ {t : Shape},
    (∀ i ∈ t.ids, nodes1[i]? = nodes[i]?) → t.bare nodes1 = t.bare nodes
  | .scan id, h => by
    simp only [Shape.bare]
    rw [h id (by simp [Shape.ids])]
  | .leaf id, _ => rfl
  | .unary id c, h => by
    simp only [Shape.bare]
    exact Shape.bare_congr (fun i hi => h i (by simp [Shape.ids, hi]))
  | .setop id l r, h => by
    simp only [Shape.bare]
    rw [Shape.bare_congr (t := l) (fun i hi => h i (by simp [Shape.ids, hi])),
      Shape.bare_congr (t := r) (fun i hi => h i (by simp [Shape.ids, hi]))]
  | .filter id c, h => by
    simp only [Shape.bare]
    rw [Shape.bare_congr (t := c) (fun i hi => h i (by simp [Shape.ids, hi])),
      h id (by simp [Shape.ids])]
  | .join id l r, h => by
    simp only [Shape.bare]
    rw [Shape.bare_congr (t := l) (fun i hi => h i (by simp [Shape.ids, hi])),
      Shape.bare_congr (t := r) (fun i hi => h i (by simp [Shape.ids, hi]))]

theorem Shape.calm_congr {h : Helpers} {nodes nodes1 : Nodes} {t : Shape}
    (hf : ∀ i ∈ t.ids, nodes1[i]? = nodes[i]?) (hc : t.calm h nodes) : t.calm h nodes1 := by
  intro i hi n hn
  rw [hf i hi] at hn
  exact hc i hi n hn

theorem Shape.plain_join {nodes : Nodes} {id : Nat} {l r : Shape} {n : Node}
    (hn : nodes[id]? = some n) :
    (Shape.join id l r).plain nodes = true ↔
      (n.joinType = .MARK ∨ n.bindingTags = []) ∧ l.plain nodes = true ∧
        r.plain nodes = true := by
  simp [Shape.plain, hn, and_assoc]

theorem Shape.bare_join {nodes : Nodes} {id : Nat} {l r : Shape} :
    (Shape.join id l r).bare nodes = true ↔ l.bare nodes = true ∧ r.bare nodes = true := by
  simp [Shape.bare]

theorem Shape.tags_join {nodes : Nodes} {id : Nat} {l r : Shape} {n : Node}
    (hn : nodes[id]? = some n) :
    (Shape.join id l r).tags nodes = n.bindingTags ++ (l.tags nodes ++ r.tags nodes) := by
  simp [Shape.tags, hn]

theorem Sheds.sheds_refl (nodes : Nodes) : Sheds nodes nodes :=
  ⟨le_refl _, fun i n n1 hn hn1 => by rw [hn] at hn1; injection hn1 with e; rw [e]; exact Or.inl rfl,
    fun i n1 hi hn1 => absurd (getElem?_lt hn1) (by omega)⟩

theorem Sheds.sheds_trans {a b c : Nodes} (hab : Sheds a b) (hbc : Sheds b c) : Sheds a c := by
  obtain ⟨l1, m1, w1⟩ := hab
  obtain ⟨l2, m2, w2⟩ := hbc
  refine ⟨le_trans l1 l2, ?_, ?_⟩
  · intro i n n2 hn hn2
    have hi : i < b.length := lt_of_lt_of_le (getElem?_lt hn) l1
    have hb : b[i]? = some b[i] := List.getElem?_eq_getElem hi
    rcases m2 i _ n2 hb hn2 with e2 | e2
    · rcases m1 i n _ hn hb with e1 | e1
      · exact Or.inl (e2.trans e1)
      · exact Or.inr (e2.trans e1)
    · exact Or.inr e2
  · intro i n2 hi hn2
    by_cases hib : i < b.length
    · have hb : b[i]? = some b[i] := List.getElem?_eq_getElem hib
      rcases m2 i _ n2 hb hn2 with e2 | e2
      · exact e2.trans (w1 i _ hi hb)
      · exact e2
    · exact w2 i n2 (by omega) hn2

/-- A write that keeps the binding tags of the node, or clears them, sheds. -/
theorem Sheds.sheds_set {nodes : Nodes} {id : Nat} {n n2 : Node} (hn : nodes[id]? = some n)
    (ht : n2.bindingTags = n.bindingTags ∨ n2.bindingTags = []) :
    Sheds nodes (nodes.set id n2) := by
  refine ⟨by simp, ?_, ?_⟩
  · intro i m m1 hm hm1
    by_cases hi : id = i
    · subst hi
      rw [List.getElem?_set_self (getElem?_lt hn)] at hm1
      injection hm1 with e
      rw [hn] at hm
      injection hm with e0
      rw [← e, ← e0]
      exact ht
    · rw [List.getElem?_set_ne hi] at hm1
      rw [hm] at hm1
      injection hm1 with e
      rw [e]
      exact Or.inl rfl
  · intro i n1 hi hn1
    have := getElem?_lt hn1
    simp at this
    omega

/-- The arena with a new node without binding tags sheds. -/
theorem Sheds.sheds_append (nodes : Nodes) {x : Node} (hx : x.bindingTags = []) :
    Sheds nodes (nodes ++ [x]) := by
  refine ⟨by simp, ?_, ?_⟩
  · intro i m m1 hm hm1
    rw [List.getElem?_append_left (getElem?_lt hm), hm] at hm1
    injection hm1 with e
    rw [e]
    exact Or.inl rfl
  · intro i n1 hi hn1
    have hlt := getElem?_lt hn1
    simp at hlt
    have : i = nodes.length := by omega
    subst this
    simp at hn1
    rw [← hn1]
    exact hx

/-- When a chain of two arenas that shed ends with the binding tags it started with, so does
each link. -/
theorem Steady.split {a b w : Nodes} (hab : Sheds a b) (hbc : Sheds b w) (hs : Steady a w) :
    Steady a b ∧ Steady b w := by
  obtain ⟨l1, m1, w1⟩ := hab
  obtain ⟨l2, m2, w2⟩ := hbc
  have key : ∀ (i : Nat) (n nb nc : Node), a[i]? = some n → b[i]? = some nb →
      w[i]? = some nc →
      nb.bindingTags = n.bindingTags ∧ nc.bindingTags = nb.bindingTags := by
    intro i n nb nc hn hnb hnc
    have e := hs i n nc hn hnc
    rcases m1 i n nb hn hnb with e1 | e1
    · exact ⟨e1, e.trans e1.symm⟩
    · rcases m2 i nb nc hnb hnc with e2 | e2
      · have : n.bindingTags = [] := by rw [← e, e2, e1]
        exact ⟨e1.trans this.symm, e2⟩
      · have : n.bindingTags = [] := by rw [← e, e2]
        exact ⟨e1.trans this.symm, e2.trans e1.symm⟩
  refine ⟨?_, ?_⟩
  · intro i n nb hn hnb
    have hi : i < w.length := lt_of_lt_of_le (getElem?_lt hnb) l2
    exact (key i n nb w[i] hn hnb (List.getElem?_eq_getElem hi)).1
  · intro i nb nc hnb hnc
    by_cases hia : i < a.length
    · exact (key i a[i] nb nc (List.getElem?_eq_getElem hia) hnb hnc).2
    · have e1 := w1 i nb (by omega) hnb
      rcases m2 i nb nc hnb hnc with e2 | e2
      · exact e2
      · exact e2.trans e1.symm

theorem Steady.steady_refl (nodes : Nodes) : Steady nodes nodes := by
  intro i n n1 hn hn1
  rw [hn] at hn1
  injection hn1 with e
  rw [e]

theorem Shape.bare_filter {nodes : Nodes} {id : Nat} {c : Shape} {n : Node}
    (hn : nodes[id]? = some n) :
    (Shape.filter id c).bare nodes = true ↔ n.bindingTags = [] ∧ c.bare nodes = true := by
  simp [Shape.bare, hn]

theorem Shape.bare_scan {nodes : Nodes} {id : Nat} {n : Node} (hn : nodes[id]? = some n) :
    (Shape.scan id).bare nodes = true ↔ n.children = [] := by
  simp [Shape.bare, hn]

theorem Shape.marks_join {nodes : Nodes} {id : Nat} {l r : Shape} {n : Node}
    (hn : nodes[id]? = some n) :
    (Shape.join id l r).marks nodes =
      (if n.joinType = .MARK then n.bindingTags.take 1 else []) ++
        (l.marks nodes ++ r.marks nodes) := by
  simp [Shape.marks, hn]

theorem Shape.bare_setop {nodes : Nodes} {id : Nat} {l r : Shape} :
    (Shape.setop id l r).bare nodes = true ↔ l.bare nodes = true ∧ r.bare nodes = true := by
  simp [Shape.bare]

theorem Shape.Good.of_join {nodes : Nodes} {id : Nat} {l r : Shape}
    (hg : (Shape.join id l r).Good nodes) :
    l.Good nodes ∧ r.Good nodes ∧ id ∉ l.ids ∧ id ∉ r.ids ∧ ∀ j ∈ l.ids, j ∉ r.ids := by
  obtain ⟨hfit, hnodup⟩ := hg
  obtain ⟨_, hfl, hfr⟩ := Shape.fits_join.mp hfit
  simp only [Shape.ids, List.nodup_cons, List.mem_append, not_or, List.nodup_append] at hnodup
  obtain ⟨⟨hidl, hidr⟩, hndl, hndr, hdisj⟩ := hnodup
  exact ⟨⟨hfl, hndl⟩, ⟨hfr, hndr⟩, hidl, hidr, fun j hj hjr => hdisj hj hjr⟩

theorem Shape.Good.of_filter {nodes : Nodes} {id : Nat} {c : Shape}
    (hg : (Shape.filter id c).Good nodes) : c.Good nodes ∧ id ∉ c.ids := by
  obtain ⟨hfit, hnodup⟩ := hg
  obtain ⟨_, hfc⟩ := Shape.fits_filter.mp hfit
  simp only [Shape.ids, List.nodup_cons] at hnodup
  exact ⟨⟨hfc, hnodup.2⟩, hnodup.1⟩

theorem Shape.Good.of_unary {nodes : Nodes} {id : Nat} {c : Shape}
    (hg : (Shape.unary id c).Good nodes) : c.Good nodes ∧ id ∉ c.ids := by
  obtain ⟨hfit, hnodup⟩ := hg
  obtain ⟨_, hfc⟩ := Shape.fits_unary.mp hfit
  simp only [Shape.ids, List.nodup_cons] at hnodup
  exact ⟨⟨hfc, hnodup.2⟩, hnodup.1⟩

theorem Shape.Good.of_setop {nodes : Nodes} {id : Nat} {l r : Shape}
    (hg : (Shape.setop id l r).Good nodes) :
    l.Good nodes ∧ r.Good nodes ∧ id ∉ l.ids ∧ id ∉ r.ids ∧ ∀ j ∈ l.ids, j ∉ r.ids := by
  obtain ⟨hfit, hnodup⟩ := hg
  obtain ⟨_, hfl, hfr⟩ := Shape.fits_setop.mp hfit
  simp only [Shape.ids, List.nodup_cons, List.mem_append, not_or, List.nodup_append] at hnodup
  obtain ⟨⟨hidl, hidr⟩, hndl, hndr, hdisj⟩ := hnodup
  exact ⟨⟨hfl, hndl⟩, ⟨hfr, hndr⟩, hidl, hidr, fun j hj hjr => hdisj hj hjr⟩

/-- A settled plan stays settled when the arena changes outside it, for helpers whose
`enumerateTags` depends only on the binding tags in sight. -/
theorem Shape.settled_congr {h : Helpers} {sep : Bool} {nodes nodes1 : Nodes}
    (hT : h.stableTags) : ∀ {t : Shape} {F : List Expr}, t.Good nodes → t.bare nodes = true →
    (∀ i ∈ t.ids, nodes1[i]? = nodes[i]?) → t.settled h sep nodes F → t.settled h sep nodes1 F
  | .scan id, F, _, _, _, hs => hs
  | .leaf id, F, _, _, _, hs => hs
  | .unary id c, F, hg, hb, hf, hs => by
    obtain ⟨n, hn, hu⟩ := hs
    have hcr : nodes1[c.root]? = nodes[c.root]? :=
      hf c.root (by simp [Shape.ids, Shape.root_mem_ids])
    refine ⟨n, by rw [hf id (by simp [Shape.ids])]; exact hn, ?_⟩
    rcases hu with ⟨hk, child, hch, hst⟩ | ⟨hu, hc⟩
    · exact Or.inl ⟨hk, child, by rw [hcr]; exact hch, hst⟩
    · exact Or.inr ⟨hu, Shape.settled_congr hT hg.of_unary.1 hb
        (fun i hi => hf i (by simp [Shape.ids, hi])) hc⟩
  | .setop id l r, F, hg, hb, hf, hs => by
    obtain ⟨hF, hl, hr⟩ := hs
    obtain ⟨hgl, hgr, _, _, _⟩ := hg.of_setop
    obtain ⟨hbl, hbr⟩ := Shape.bare_setop.mp hb
    exact ⟨hF, Shape.settled_congr hT hgl hbl (fun i hi => hf i (by simp [Shape.ids, hi])) hl,
      Shape.settled_congr hT hgr hbr (fun i hi => hf i (by simp [Shape.ids, hi])) hr⟩
  | .filter id c, F, hg, hb, hf, hs => by
    obtain ⟨hF, n, hn, hne, hap, hc⟩ := hs
    have hbc : c.bare nodes = true := ((Shape.bare_filter hn).mp hb).2
    refine ⟨hF, n, ?_, hne, hap, ?_⟩
    · rw [hf id (by simp [Shape.ids])]; exact hn
    · exact Shape.settled_congr hT hg.of_filter.1 hbc
        (fun i hi => hf i (by simp [Shape.ids, hi])) hc
  | .join id l r, F, hg, hb, hf, hs => by
    obtain ⟨⟨n, mt, hn, hmt, hc, hd⟩, hl, hr⟩ := hs
    obtain ⟨hgl, hgr, _, _, _⟩ := hg.of_join
    obtain ⟨hbl, hbr⟩ := Shape.bare_join.mp hb
    have hfl : ∀ i ∈ l.ids, nodes1[i]? = nodes[i]? :=
      fun i hi => hf i (by simp [Shape.ids, hi])
    have hfr : ∀ i ∈ r.ids, nodes1[i]? = nodes[i]? :=
      fun i hi => hf i (by simp [Shape.ids, hi])
    have el : h.enumerateTags nodes1 l.root = h.enumerateTags nodes l.root :=
      hT nodes nodes1 l l hgl (hgl.congr hfl) hbl (by rw [Shape.bare_congr hfl]; exact hbl)
        (Shape.tags_congr hfl)
    have er : h.enumerateTags nodes1 r.root = h.enumerateTags nodes r.root :=
      hT nodes nodes1 r r hgr (hgr.congr hfr) hbr (by rw [Shape.bare_congr hfr]; exact hbr)
        (Shape.tags_congr hfr)
    refine ⟨⟨n, mt, ?_, hmt, ?_, hd⟩, Shape.settled_congr hT hgl hbl hfl hl,
      Shape.settled_congr hT hgr hbr hfr hr⟩
    · rw [hf id (by simp [Shape.ids])]; exact hn
    · rw [el, er]; exact hc

theorem Conserves.stays {h : Helpers} {sep : Bool} {nodes : Nodes} {t : Shape}
    {F : List Expr} {out : Nodes × Nat × List Expr} {t1 t2 : Shape}
    (C : Conserves h sep nodes t F out t1 t2) : Stays h sep nodes t out.1 t2 :=
  ⟨C.good2, C.root2, C.ids2, C.bound2, C.slot2, C.tags2, C.marks2, C.plain2, C.bare2, C.kept2,
    C.sheds⟩

theorem Stays.stays_refl {h : Helpers} {sep : Bool} {nodes : Nodes} {t : Shape}
    (hg : t.Good nodes) : Stays h sep nodes t nodes t :=
  ⟨hg, rfl, fun _ hi => Or.inl hi, le_refl _, le_refl _, fun _ => rfl, fun _ hm => hm, id, id,
    fun _ _ _ _ hp => hp, Sheds.sheds_refl _⟩

/-- The shape stays when the arena changes afterwards outside it. -/
theorem Stays.stays_post {h : Helpers} {sep : Bool} {nodes nodesA nodesB : Nodes}
    {t t2 : Shape} (S : Stays h sep nodes t nodesA t2) (hsh : Sheds nodesA nodesB)
    (hf : ∀ j ∈ t2.ids, nodesB[j]? = nodesA[j]?) : Stays h sep nodes t nodesB t2 :=
  ⟨S.good.congr hf, S.root, S.ids, S.bound, S.slot,
    fun hst => (Shape.tags_congr hf).trans (S.tags (Steady.split S.sheds hsh hst).1),
    fun m hm => S.marks m (by rw [← Shape.marks_congr hf]; exact hm),
    fun hp => by rw [Shape.plain_congr hf]; exact S.plain hp,
    fun hp => by rw [Shape.bare_congr hf]; exact S.bare hp,
    fun hs hp p ht hpc => Shape.mem_conjuncts_congr hf (S.kept hs hp p ht hpc),
    S.sheds.sheds_trans hsh⟩

/-- The shape stays when the arena had changed before outside it. -/
theorem Stays.stays_pre {h : Helpers} {sep : Bool} {nodes nodesA nodesB : Nodes}
    {t t2 : Shape} (S : Stays h sep nodesA t nodesB t2) (hsh : Sheds nodes nodesA)
    (hf : ∀ j ∈ t.ids, nodesA[j]? = nodes[j]?) (hlen : nodes.length ≤ nodesA.length) :
    Stays h sep nodes t nodesB t2 :=
  ⟨S.good, S.root,
    fun i hi => (S.ids i hi).imp id (fun hl => le_trans hlen hl),
    S.bound, S.slot,
    fun hst => (S.tags (Steady.split hsh S.sheds hst).2).trans (Shape.tags_congr hf),
    fun m hm => by rw [← Shape.marks_congr hf]; exact S.marks m hm,
    fun hp => S.plain (by rw [Shape.plain_congr hf]; exact hp),
    fun hp => S.bare (by rw [Shape.bare_congr hf]; exact hp),
    fun hs hp p ht hpc => S.kept hs (by rw [Shape.plain_congr hf]; exact hp) p
      (by rw [Shape.marks_congr hf]; exact ht) (Shape.mem_conjuncts_congr hf hpc),
    hsh.sheds_trans S.sheds⟩

/-- The child slot stays as it is when the arena changes afterwards outside its shape. -/
theorem Hangs.hangs_post {h : Helpers} {sep : Bool} {nodes nodesA nodesB : Nodes}
    {s s1 : Shape} {F : List Expr} (H : Hangs h sep nodes s F nodesA s1)
    (hsh : Sheds nodesA nodesB)
    (hf : ∀ j ∈ s1.ids, nodesB[j]? = nodesA[j]?) : Hangs h sep nodes s F nodesB s1 :=
  ⟨H.good.congr hf, H.ids, H.slot,
    fun hst => (Shape.tags_congr hf).trans (H.tags (Steady.split H.sheds hsh hst).1),
    fun m hm => H.marks m (by rw [← Shape.marks_congr hf]; exact hm),
    fun hp => by rw [Shape.plain_congr hf]; exact H.plain hp,
    fun hp => by rw [Shape.bare_congr hf]; exact H.bare hp,
    fun hs hp p ht hpc => Shape.mem_preds_congr hf (H.kept hs hp p ht hpc),
    fun hT hb hst hc => Shape.settled_congr hT H.good (H.bare hb) hf
      (H.settled hT hb (Steady.split H.sheds hsh hst).1
        (Shape.calm_congr (fun j hj => (hf j hj).symm) hc)),
    H.sheds.sheds_trans hsh⟩

/-- The block `pushToChild` after calls that left the shape `t2` below the old root of `t`. -/
theorem Hangs.after_stays {h : Helpers} {sep : Bool} {nodes nodesD nodesL : Nodes}
    {t t2 s1 : Shape} {F : List Expr} (S : Stays h sep nodes t nodesD t2)
    (H : Hangs h sep nodesD t2 F nodesL s1) (hlen : nodes.length ≤ nodesD.length) :
    Hangs h sep nodes t F nodesL s1 :=
  ⟨H.good,
    fun i hi => by
      rcases H.ids i hi with h1 | h1
      · exact S.ids i h1
      · exact Or.inr (le_trans hlen h1),
    le_trans H.slot S.slot,
    fun hst => (H.tags (Steady.split S.sheds H.sheds hst).2).trans
      (S.tags (Steady.split S.sheds H.sheds hst).1),
    fun m hm => S.marks m (H.marks m hm),
    fun hp => H.plain (S.plain hp),
    fun hp => H.bare (S.bare hp),
    fun hs hp p ht hpF => H.kept hs (S.plain hp) p (Helpers.tracks_mono S.marks ht)
      (hpF.imp id (S.kept hs hp p ht)),
    fun hT hb hst hc => H.settled hT (S.bare hb) (Steady.split S.sheds H.sheds hst).2 hc,
    S.sheds.sheds_trans H.sheds⟩

/-- The block `pushToChild` on the child slot `i` of the node `id`, when the slot holds the
root of the shape `s` and the recursive call conserves: the block panics, or it returns, the
slot then holds the root of a shape `s1` as `Hangs` describes, and no node outside `s` other
than `id` has changed. -/
theorem pushToChild_conserves {rec : Nodes → Nat → List Expr → Pushed} {fuel : Nat}
    (h : Helpers) (sep : Bool)
    (hrec : ∀ nodes s F, Shape.Good nodes s → s.bound ≤ fuel →
      rec nodes s.root F = .error .panic ∨
      ∃ out s1 s2, rec nodes s.root F = .ok out ∧ Conserves h sep nodes s F out s1 s2)
    {nodes : Nodes} {id i : Nat} {n : Node} {s : Shape} {F : List Expr}
    (hn : nodes[id]? = some n) (hc : n.children[i]? = some s.root) (hid : id ∉ s.ids)
    (hg : s.Good nodes) (hb : s.bound ≤ fuel) :
    pushToChild rec nodes id i F = .error .panic ∨
    ∃ (nodes1 : Nodes) (s1 : Shape), pushToChild rec nodes id i F = .ok nodes1 ∧
      nodes.length ≤ nodes1.length ∧
      (∀ j, j ∉ s.ids → j ≠ id → j < nodes.length → nodes1[j]? = nodes[j]?) ∧
      nodes1[id]? = some { n with children := n.children.set i s1.root } ∧
      Hangs h sep nodes s F nodes1 s1 := by
  rcases hrec nodes s F hg hb with hpanic | ⟨⟨nodesR, idR, res⟩, t1, t2, hcall, C⟩
  · left
    unfold pushToChild
    simp only [getNode_eq hn, getChild, hc, bind, Except.bind, hpanic]
  right
  have hidlt : id < nodes.length := getElem?_lt hn
  have hnR : nodesR[id]? = some n := by rw [C.frame id hid hidlt]; exact hn
  have hi : i < n.children.length := getElem?_lt hc
  have hlen : nodes.length ≤ nodesR.length := C.len
  have hne : ∀ j ∈ t1.ids, j ≠ id := by
    intro j hj
    rcases C.ids1 j hj with h1 | h1
    · rintro rfl; exact hid h1
    · omega
  have hlt1 : ∀ j ∈ t1.ids, j < nodesR.length := Shape.fits_lt C.good1.1
  have hroot : t1.root = idR := C.root1
  unfold pushToChild
  simp only [getNode_eq hn, getChild, hc, bind, Except.bind, hcall]
  by_cases hres : res = []
  · subst hres
    simp only [List.length_nil, gt_iff_lt, lt_self_iff_false, if_false]
    rw [setChild_eq hnR hi]
    have hfr : ∀ j ∈ t1.ids,
        (nodesR.set id { n with children := n.children.set i idR })[j]? = nodesR[j]? :=
      fun j hj => List.getElem?_set_ne (Ne.symm (hne j hj))
    refine ⟨_, t1, rfl, by simpa using hlen, ?_, ?_, ?_⟩
    · intro j hj1 hj2 hj3
      rw [List.getElem?_set_ne (Ne.symm hj2)]
      exact C.frame j hj1 hj3
    · rw [List.getElem?_set_self (getElem?_lt hnR), hroot]
    · have H0 : Hangs h sep nodes s F nodesR t1 :=
        ⟨C.good1, C.ids1, C.slot1, C.tags1, C.marks1, C.plain1, C.bare1,
          fun hs hp p ht hpF => by
            rcases C.kept1 hs hp p ht hpF with h1 | h1
            · cases h1
            · exact h1,
          fun hT hb hst hc => C.settled1 hT hb hst hc (fun q hq => by cases hq), C.sheds⟩
      exact H0.hangs_post (Sheds.sheds_set hnR (Or.inl rfl)) hfr
  · have hpos : res.length > 0 := List.length_pos.mpr hres
    obtain ⟨hidR, hjoin⟩ := C.residue hres
    simp only [hpos, if_true, getNode_eq hnR, hc, appendNode]
    have hnA : ∀ x : Node, (nodesR ++ [x])[id]? = some n := fun x => by
      rw [List.getElem?_append_left (getElem?_lt hnR)]; exact hnR
    rw [setChild_eq (hnA _) hi]
    have hfr : ∀ (x y : Node), ∀ j ∈ t1.ids,
        ((nodesR ++ [x]).set id y)[j]? = nodesR[j]? := fun x y j hj => by
      rw [List.getElem?_set_ne (Ne.symm (hne j hj)), List.getElem?_append_left (hlt1 j hj)]
    have hw : ∀ (x y : Node), ((nodesR ++ [x]).set id y)[nodesR.length]? = some x :=
      fun x y => by
        rw [List.getElem?_set_ne (by omega)]
        simp
    refine ⟨_, .filter nodesR.length t1, rfl, by simp; omega, ?_, ?_, ?_⟩
    · intro j hj1 hj2 hj3
      rw [List.getElem?_set_ne (Ne.symm hj2), List.getElem?_append_left (by omega)]
      exact C.frame j hj1 hj3
    · rw [List.getElem?_set_self (by simp; omega)]
      rfl
    · have hfr2 := hfr { nodeType := .FILTER, children := [s.root], filterList := res }
        { n with children := n.children.set i nodesR.length }
      have hw2 := hw { nodeType := .FILTER, children := [s.root], filterList := res }
        { n with children := n.children.set i nodesR.length }
      have hsh2 : ∀ (x y : Node), x.bindingTags = [] → y.bindingTags = n.bindingTags →
          Sheds nodesR ((nodesR ++ [x]).set id y) := fun x y hx hy =>
        (Sheds.sheds_append nodesR hx).sheds_trans (Sheds.sheds_set (hnA x) (Or.inl hy))
      have hsh3 := hsh2 { nodeType := .FILTER, children := [s.root], filterList := res }
        { n with children := n.children.set i nodesR.length } rfl rfl
      refine ⟨⟨?_, ?_⟩, ?_, ?_,
        fun hst => (Shape.tags_congr hfr2).trans
          (C.tags1 (Steady.split C.sheds hsh3 hst).1),
        ?_, ?_, ?_, ?_, ?_, C.sheds.sheds_trans hsh3⟩
      · rw [Shape.fits_filter]
        refine ⟨⟨_, hw2, rfl, ?_⟩, ?_⟩
        · have : idR = s.root := hidR
          rw [hroot, this]
        · rw [Shape.fits_congr hfr2]; exact C.good1.1
      · simp only [Shape.ids, List.nodup_cons]
        exact ⟨fun hm => Nat.lt_irrefl _ (hlt1 _ hm), C.good1.2⟩
      · intro j hj
        simp only [Shape.ids, List.mem_cons] at hj
        rcases hj with rfl | hj
        · exact Or.inr hlen
        · exact C.ids1 j hj
      · have := C.bound1
        simp only [Shape.slot, hjoin, if_true]
        simp [Shape.bound, Shape.mayKeep]
        exact this
      · intro m hm
        have hm2 : m ∈ t1.marks _ := hm
        rw [Shape.marks_congr hfr2] at hm2
        exact C.marks1 m hm2
      · intro hp
        show t1.plain _ = true
        rw [Shape.plain_congr hfr2]
        exact C.plain1 hp
      · intro hp
        rw [Shape.bare_filter hw2, Shape.bare_congr hfr2]
        exact ⟨rfl, C.bare1 hp⟩
      · intro hs hp p ht hpF
        rw [Shape.mem_preds]
        rcases C.kept1 hs hp p ht hpF with h1 | h1
        · refine ⟨nodesR.length, by simp [Shape.ids], ?_⟩
          simp only [nodePreds, hw2]
          exact List.mem_append_left _ h1
        · obtain ⟨j, hj, hpj⟩ := Shape.mem_preds.mp h1
          exact ⟨j, by simp [Shape.ids, hj], by rw [nodePreds_congr (hfr2 j hj)]; exact hpj⟩
      · intro hT hb hst hc
        have hcn := hc nodesR.length (by simp [Shape.ids]) _ hw2
        have hcr : ∀ q ∈ res, h.calm q := hcn.1 rfl
        have hc1 : t1.calm h nodesR :=
          Shape.calm_congr (fun j hj => (hfr2 j hj).symm)
            (fun j hj => hc j (by simp [Shape.ids, hj]))
        exact ⟨rfl, _, hw2, hres, by rw [appendConjuncts_calm _ _ hcr]; rfl,
          Shape.settled_congr hT C.good1 (C.bare1 hb) hfr2
            (C.settled1 hT hb (Steady.split C.sheds hsh3 hst).1 hc1 hcr)⟩

/-- The two advisory calls of the `JOIN` case, when the child slots of the join hold the roots
of the disjoint shapes `l` and `r` and the recursive call conserves: the calls panic, or they
return, the old roots are then the roots of shapes `l2` and `r2` as `Stays` describes, and no
node outside `l` and `r` has changed. -/
theorem pushDeduced_conserves {rec : Nodes → Nat → List Expr → Pushed} {fuel : Nat}
    (h : Helpers) (sep : Bool)
    (hrec : ∀ nodes s F, Shape.Good nodes s → s.bound ≤ fuel →
      rec nodes s.root F = .error .panic ∨
      ∃ out s1 s2, rec nodes s.root F = .ok out ∧ Conserves h sep nodes s F out s1 s2)
    {nodes : Nodes} {id : Nat} {n : Node} {l r : Shape} (LP RP : List Expr)
    (hn : nodes[id]? = some n) (hch : n.children = [l.root, r.root])
    (hidl : id ∉ l.ids) (hdis : ∀ j ∈ l.ids, j ∉ r.ids)
    (hgl : l.Good nodes) (hgr : r.Good nodes) (hbl : l.bound ≤ fuel) (hbr : r.bound ≤ fuel) :
    pushDeduced h rec nodes id LP RP = .error .panic ∨
    ∃ (nodes1 : Nodes) (l2 r2 : Shape), pushDeduced h rec nodes id LP RP = .ok nodes1 ∧
      nodes.length ≤ nodes1.length ∧
      (∀ j, j ∉ l.ids → j ∉ r.ids → j < nodes.length → nodes1[j]? = nodes[j]?) ∧
      Stays h sep nodes l nodes1 l2 ∧ Stays h sep nodes r nodes1 r2 ∧
      (∀ j ∈ l2.ids, j ∉ r2.ids) := by
  have hidlt : id < nodes.length := getElem?_lt hn
  by_cases hin : n.joinType = .INNER
  · rcases hrec nodes l (h.predsDeduction RP n.onList) hgl hbl with
      hpanic | ⟨⟨nodesA, idA, resA⟩, a1, l2, hcallA, CA⟩
    · left
      unfold pushDeduced
      simp only [getNode_eq hn, bind, Except.bind, hin, if_true, getChild, hch,
        List.getElem?_cons_zero, hpanic]
    have hnA : nodesA[id]? = some n := by rw [CA.frame id hidl hidlt]; exact hn
    have hlenA : nodes.length ≤ nodesA.length := CA.len
    have hrlt : ∀ j ∈ r.ids, j < nodes.length := Shape.fits_lt hgr.1
    have hfrA : ∀ j ∈ r.ids, nodesA[j]? = nodes[j]? :=
      fun j hj => CA.frame j (fun hjl => hdis j hjl hj) (hrlt j hj)
    have hgrA : r.Good nodesA := hgr.congr hfrA
    rcases hrec nodesA r (h.predsDeduction LP n.onList) hgrA hbr with
      hpanic | ⟨⟨nodesB, idB, resB⟩, b1, r2, hcallB, CB⟩
    · left
      unfold pushDeduced
      simp only [getNode_eq hn, bind, Except.bind, hin, if_true, getChild, hch,
        List.getElem?_cons_zero, hcallA, getNode_eq hnA, List.getElem?_cons_succ, hpanic]
    right
    have hlenB : nodesA.length ≤ nodesB.length := CB.len
    have hl2lt : ∀ j ∈ l2.ids, j < nodesA.length := Shape.fits_lt CA.good2.1
    have hl2r : ∀ j ∈ l2.ids, j ∉ r.ids := by
      intro j hj hjr
      rcases CA.ids2 j hj with h1 | h1
      · exact hdis j h1 hjr
      · have := hrlt j hjr; omega
    have hfrB : ∀ j ∈ l2.ids, nodesB[j]? = nodesA[j]? :=
      fun j hj => CB.frame j (hl2r j hj) (hl2lt j hj)
    refine ⟨nodesB, l2, r2, ?_, by show nodes.length ≤ nodesB.length; omega, ?_,
      CA.stays.stays_post CB.sheds hfrB, CB.stays.stays_pre CA.sheds hfrA hlenA, ?_⟩
    · unfold pushDeduced
      simp only [getNode_eq hn, bind, Except.bind, hin, if_true, getChild, hch,
        List.getElem?_cons_zero, hcallA, getNode_eq hnA, List.getElem?_cons_succ, hcallB, pure,
        Except.pure]
    · intro j hj1 hj2 hj3
      have e1 : nodesB[j]? = nodesA[j]? := CB.frame j hj2 (by omega)
      have e2 : nodesA[j]? = nodes[j]? := CA.frame j hj1 hj3
      exact e1.trans e2
    · intro j hj hjr
      rcases CB.ids2 j hjr with h1 | h1
      · exact hl2r j hj h1
      · have := hl2lt j hj; omega
  · right
    refine ⟨nodes, l, r, ?_, le_refl _, fun _ _ _ _ => rfl, Stays.stays_refl hgl,
      Stays.stays_refl hgr, hdis⟩
    unfold pushDeduced
    simp only [getNode_eq hn, bind, Except.bind, hin, if_false, pure, Except.pure]

/-- A step of the placement loop fails by a panic only. -/
theorem placeFilter_error {h : Helpers} {sep : Bool} {lt rt : List Int} {mt : Int}
    {s : JoinState} {f : Expr} {side : JoinSide} {e : Err}
    (hp : placeFilter h sep lt rt mt s f side = .error e) : e = .panic := by
  by_cases hN : side = JoinSideNone
  · subst hN
    rw [placeFilter_none_eq] at hp
    cases hp
  by_cases hL : side = JoinSideLeft
  · subst hL
    rw [placeFilter_left_eq] at hp
    cases hp
  by_cases hR : side = JoinSideRight
  · subst hR
    rw [placeFilter_right_eq] at hp
    cases hp
  by_cases hB : side = JoinSideBoth
  · subst hB
    have e1 : (JoinSideBoth = JoinSideNone) = False := eq_false (by decide)
    have e2 : (JoinSideBoth = JoinSideLeft) = False := eq_false (by decide)
    have e3 : (JoinSideBoth = JoinSideRight) = False := eq_false (by decide)
    unfold placeFilter at hp
    simp only [e1, e2, e3, if_false, if_true] at hp
    all_goals (try split_ifs at hp)
    all_goals (try split at hp)
    all_goals (try split_ifs at hp)
    all_goals (try split at hp)
    all_goals (try split_ifs at hp)
    all_goals (try split at hp)
    all_goals (try split_ifs at hp)
    all_goals first
      | (injection hp with hp; exact hp.symm)
      | cases hp
  by_cases hM : side = JoinSideMark
  · subst hM
    have e1 : (JoinSideMark = JoinSideNone) = False := eq_false (by decide)
    have e2 : (JoinSideMark = JoinSideLeft) = False := eq_false (by decide)
    have e3 : (JoinSideMark = JoinSideRight) = False := eq_false (by decide)
    have e4 : (JoinSideMark = JoinSideBoth) = False := eq_false (by decide)
    unfold placeFilter at hp
    simp only [e1, e2, e3, e4, if_false, if_true] at hp
    all_goals (try split at hp)
    all_goals (try split_ifs at hp)
    all_goals (try split at hp)
    all_goals (try split_ifs at hp)
    all_goals (try split at hp)
    all_goals (try split_ifs at hp)
    all_goals first
      | (injection hp with hp; exact hp.symm)
      | cases hp
  · rw [placeFilter_other_eq h sep lt rt mt s f side hN hL hR hB hM] at hp
    cases hp

theorem placeFilters_error {h : Helpers} {sep : Bool} {lt rt : List Int} {mt : Int} {e : Err} :
    ∀ (l : List (Expr × JoinSide)) (s : JoinState),
      placeFilters h sep lt rt mt s l = .error e → e = .panic
  | [], s, hp => by simp [placeFilters] at hp
  | (f, side) :: l, s, hp => by
    simp only [placeFilters, bind] at hp
    cases hs : placeFilter h sep lt rt mt s f side with
    | error e1 =>
      rw [hs] at hp
      simp only [Except.bind] at hp
      injection hp with hp
      subst hp
      exact placeFilter_error hs
    | ok s1 =>
      rw [hs] at hp
      exact placeFilters_error l s1 hp

/-- The classification of the `JOIN` case fails by a panic only. -/
theorem classifyJoinFilters_error {h : Helpers} {sep : Bool} {lt rt : List Int} {mt : Int}
    {node : Node} {F : List Expr} {e : Err}
    (hc : classifyJoinFilters h sep lt rt mt node F = .error e) : e = .panic := by
  rw [classifyJoinFilters_eq] at hc
  exact placeFilters_error _ _ hc

theorem mem_take_one {α : Type} {l : List α} {a : α} (h : l[0]? = some a) : a ∈ l.take 1 := by
  cases l with
  | nil => cases h
  | cons b bs =>
    simp only [List.getElem?_cons_zero, Option.some.injEq] at h
    subst h
    simp

/-- The `JOIN` case conserves when the recursive call does: it panics, or it returns the join
over the shapes that the two child slots then hold. -/
theorem pushdownJoin_conserves {rec : Nodes → Nat → List Expr → Pushed} {fuel : Nat}
    (h : Helpers) (sep : Bool)
    (hrec : ∀ nodes s F, Shape.Good nodes s → s.bound ≤ fuel →
      rec nodes s.root F = .error .panic ∨
      ∃ out s1 s2, rec nodes s.root F = .ok out ∧ Conserves h sep nodes s F out s1 s2)
    {nodes : Nodes} {id : Nat} {n : Node} {l r : Shape} (F : List Expr)
    (hn : nodes[id]? = some n) (hg : (Shape.join id l r).Good nodes)
    (hb : (Shape.join id l r).bound ≤ fuel + 1) :
    pushdownJoin h sep rec nodes id n F = .error .panic ∨
    ∃ out t1, pushdownJoin h sep rec nodes id n F = .ok out ∧
      Conserves h sep nodes (.join id l r) F out t1 t1 := by
  obtain ⟨hgl0, hgr0, hidl, hidr, hdis⟩ := hg.of_join
  obtain ⟨⟨n0, hn0, hk, hch, hmark⟩, hfl, hfr⟩ := Shape.fits_join.mp hg.1
  rw [hn] at hn0
  injection hn0 with hn0
  subst hn0
  have hidlt : id < nodes.length := getElem?_lt hn
  have hbl : l.bound ≤ fuel := by
    have := l.bound_le_slot
    simp only [Shape.bound] at hb
    unfold Shape.slot at this
    omega
  have hbr : r.bound ≤ fuel := by
    have := r.bound_le_slot
    simp only [Shape.bound] at hb
    unfold Shape.slot at this
    omega
  obtain ⟨mt, hmt⟩ := getMarkTag_ok n hmark
  have hgc0 : getChild n 0 = .ok l.root := by simp [getChild, hch]
  have hgc1 : getChild n 1 = .ok r.root := by simp [getChild, hch]
  unfold pushdownJoin
  simp only [hgc0, hgc1, bind, Except.bind, hmt]
  cases hst : classifyJoinFilters h sep (h.enumerateTags nodes l.root)
      (h.enumerateTags nodes r.root) mt n F with
  | error e =>
    left
    simp only [classifyJoinFilters_error hst]
  | ok st =>
  simp only [modifyNode_eq hn]
  obtain ⟨htag1, htag2, htag3, htag4⟩ := classifyJoinFilters_tags hst
  obtain ⟨nM, hnMdef⟩ : ∃ nM : Node, nM =
      { n with joinType := st.joinType, bindingTags := st.bindingTags, onList := st.onList } :=
    ⟨_, rfl⟩
  rw [← hnMdef]
  have hnM : (nodes.set id nM)[id]? = some nM := List.getElem?_set_self hidlt
  have hfrM : ∀ j, j ≠ id → (nodes.set id nM)[j]? = nodes[j]? :=
    fun j hj => List.getElem?_set_ne (Ne.symm hj)
  have hchM : nM.children = [l.root, r.root] := by rw [hnMdef]; exact hch
  generalize hnodesM : nodes.set id nM = nodesM at hnM hfrM ⊢
  have hlenM : nodesM.length = nodes.length := by rw [← hnodesM]; simp
  have hfrMl : ∀ j ∈ l.ids, nodesM[j]? = nodes[j]? :=
    fun j hj => hfrM j (by rintro rfl; exact hidl hj)
  have hfrMr : ∀ j ∈ r.ids, nodesM[j]? = nodes[j]? :=
    fun j hj => hfrM j (by rintro rfl; exact hidr hj)
  have hglM : l.Good nodesM := hgl0.congr hfrMl
  have hgrM : r.Good nodesM := hgr0.congr hfrMr
  have hshM : Sheds nodes nodesM := by
    rw [← hnodesM]
    refine Sheds.sheds_set hn ?_
    rw [hnMdef]
    exact htag1
  rcases pushDeduced_conserves h sep hrec st.leftPushdown st.rightPushdown hnM hchM hidl hdis
      hglM hgrM hbl hbr with hpanic | ⟨nodesD, l2, r2, hD, hlenD, hfrD, SlM, SrM, hdis2⟩
  · left
    simp only [hpanic]
  simp only [hD]
  have Sl : Stays h sep nodes l nodesD l2 := SlM.stays_pre hshM hfrMl (by omega)
  have Sr : Stays h sep nodes r nodesD r2 := SrM.stays_pre hshM hfrMr (by omega)
  have hnD : nodesD[id]? = some nM := by
    rw [hfrD id hidl hidr (by omega)]; exact hnM
  have hidl2 : id ∉ l2.ids := by
    intro hm
    rcases Sl.ids id hm with h1 | h1
    · exact hidl h1
    · omega
  have hidr2 : id ∉ r2.ids := by
    intro hm
    rcases Sr.ids id hm with h1 | h1
    · exact hidr h1
    · omega
  have hc0 : nM.children[0]? = some l2.root := by rw [hchM, Sl.root]; rfl
  rcases pushToChild_conserves h sep hrec (F := st.leftPushdown) hnD hc0 hidl2 Sl.good
      (le_trans Sl.bound hbl) with hpanic | ⟨nodesL, L, hL, hlenL, hfrL, hnL, HL0⟩
  · left
    simp only [hpanic]
  simp only [hL]
  have hr2lt : ∀ j ∈ r2.ids, j < nodesD.length := Shape.fits_lt Sr.good.1
  have hfrLr : ∀ j ∈ r2.ids, nodesL[j]? = nodesD[j]? := fun j hj =>
    hfrL j (fun hjl => hdis2 j hjl hj) (by rintro rfl; exact hidr2 hj) (hr2lt j hj)
  have Sr2 : Stays h sep nodes r nodesL r2 := Sr.stays_post HL0.sheds hfrLr
  have hc1 : ({ nM with children := nM.children.set 0 L.root } : Node).children[1]? =
      some r2.root := by
    simp only [hchM, Sr.root]; rfl
  rcases pushToChild_conserves h sep hrec (F := st.rightPushdown) hnL hc1 hidr2 Sr2.good
      (le_trans Sr.bound hbr) with hpanic | ⟨nodesR, R, hR, hlenR, hfrR, hnR, HR0⟩
  · left
    simp only [hpanic]
  simp only [hR, pure, Except.pure]
  right
  have hLlt : ∀ j ∈ L.ids, j < nodesL.length := Shape.fits_lt HL0.good.1
  have hRlt : ∀ j ∈ R.ids, j < nodesR.length := Shape.fits_lt HR0.good.1
  have hidL : id ∉ L.ids := by
    intro hm
    rcases HL0.ids id hm with h1 | h1
    · exact hidl2 h1
    · omega
  have hidR : id ∉ R.ids := by
    intro hm
    rcases HR0.ids id hm with h1 | h1
    · exact hidr2 h1
    · omega
  have hLr2 : ∀ j ∈ L.ids, j ∉ r2.ids := by
    intro j hj hjr
    rcases HL0.ids j hj with h1 | h1
    · exact hdis2 j h1 hjr
    · have := hr2lt j hjr; omega
  have hfrRL : ∀ j ∈ L.ids, nodesR[j]? = nodesL[j]? := fun j hj =>
    hfrR j (hLr2 j hj) (by rintro rfl; exact hidL hj) (hLlt j hj)
  have hLR : ∀ j ∈ L.ids, j ∉ R.ids := by
    intro j hj hjr
    rcases HR0.ids j hjr with h1 | h1
    · exact hLr2 j hj h1
    · have := hLlt j hj; omega
  have HL : Hangs h sep nodes l st.leftPushdown nodesR L :=
    (Hangs.after_stays Sl HL0 (by omega)).hangs_post HR0.sheds hfrRL
  have HR : Hangs h sep nodes r st.rightPushdown nodesR R :=
    Hangs.after_stays Sr2 HR0 (by omega)
  have hrootR : ({ ({ nM with children := nM.children.set 0 L.root } : Node) with
      children := ({ nM with children := nM.children.set 0 L.root } : Node).children.set 1
        R.root } : Node).children = [L.root, R.root] := by
    simp only [hchM]; rfl
  obtain ⟨nR, hnRdef⟩ : ∃ nR : Node, nR =
      { ({ nM with children := nM.children.set 0 L.root } : Node) with
        children := ({ nM with children := nM.children.set 0 L.root } : Node).children.set 1
          R.root } := ⟨_, rfl⟩
  rw [← hnRdef] at hnR hrootR
  have hRk : nR.nodeType = .JOIN := by rw [hnRdef, hnMdef]; exact hk
  have hRj : nR.joinType = st.joinType := by rw [hnRdef, hnMdef]
  have hRb : nR.bindingTags = st.bindingTags := by rw [hnRdef, hnMdef]
  have hRo : nR.onList = st.onList := by rw [hnRdef, hnMdef]
  have hRf : nR.filterList = n.filterList := by rw [hnRdef, hnMdef]
  have hgood : (Shape.join id L R).Good nodesR := by
    refine ⟨Shape.fits_join.mpr ⟨⟨_, hnR, hRk, hrootR, ?_⟩, HL.good.1, HR.good.1⟩, ?_⟩
    · intro hm
      rw [hRj] at hm
      rw [hRb, (htag2 hm).2]
      exact hmark (htag2 hm).1
    · simp only [Shape.ids, List.nodup_cons, List.mem_append, not_or, List.nodup_append]
      exact ⟨⟨hidL, hidR⟩, HL.good.2, HR.good.2, fun j hj hjr => hLR j hj hjr⟩
  have hids : ∀ j ∈ (Shape.join id L R).ids, j ∈ (Shape.join id l r).ids ∨ nodes.length ≤ j := by
    intro j hj
    simp only [Shape.ids, List.mem_cons, List.mem_append] at hj ⊢
    rcases hj with rfl | hj | hj
    · exact Or.inl (Or.inl rfl)
    · rcases HL.ids j hj with h1 | h1
      · exact Or.inl (Or.inr (Or.inl h1))
      · exact Or.inr h1
    · rcases HR.ids j hj with h1 | h1
      · exact Or.inl (Or.inr (Or.inr h1))
      · exact Or.inr h1
  have hbound : (Shape.join id L R).bound ≤ (Shape.join id l r).bound := by
    have h1 := HL.slot
    have h2 := HR.slot
    simp only [Shape.bound]
    unfold Shape.slot at h1 h2
    omega
  have hslot : (Shape.join id L R).slot ≤ (Shape.join id l r).slot := by
    simp only [Shape.slot, Shape.mayKeep, if_true]
    omega
  have hshR : Sheds nodes nodesR := HR.sheds
  have htags : Steady nodes nodesR →
      (Shape.join id L R).tags nodesR = (Shape.join id l r).tags nodes := by
    intro hst
    rw [Shape.tags_join hnR, Shape.tags_join hn, HL.tags hst, HR.tags hst, hst id n nR hn hnR]
  have hmarks : ∀ m ∈ (Shape.join id L R).marks nodesR, m ∈ (Shape.join id l r).marks nodes := by
    intro m hm
    rw [Shape.marks_join hnR] at hm
    rw [Shape.marks_join hn]
    rcases List.mem_append.mp hm with hm | hm
    · apply List.mem_append_left
      by_cases hj : nR.joinType = .MARK
      · rw [if_pos hj] at hm
        rw [hRj] at hj
        rw [if_pos (htag2 hj).1, ← (htag2 hj).2, ← hRb]
        exact hm
      · rw [if_neg hj] at hm
        cases hm
    · apply List.mem_append_right
      rcases List.mem_append.mp hm with hm | hm
      · exact List.mem_append_left _ (HL.marks m hm)
      · exact List.mem_append_right _ (HR.marks m hm)
  have hplain : (Shape.join id l r).plain nodes = true →
      (Shape.join id L R).plain nodesR = true := by
    intro hp
    obtain ⟨h1, h2, h3⟩ := (Shape.plain_join hn).mp hp
    refine (Shape.plain_join hnR).mpr ⟨?_, HL.plain h2, HR.plain h3⟩
    rw [hRj, hRb]
    by_cases hne : st.bindingTags = []
    · exact Or.inr hne
    · left
      rw [htag3 hne, joinStart_joinType_mark]
      rcases h1 with h1 | h1
      · exact h1
      · rcases htag1 with h4 | h4
        · rw [h4] at hne; exact absurd h1 hne
        · exact absurd h4 hne
  have hbare : (Shape.join id l r).bare nodes = true →
      (Shape.join id L R).bare nodesR = true := by
    intro hp
    obtain ⟨h2, h3⟩ := Shape.bare_join.mp hp
    exact Shape.bare_join.mpr ⟨HL.bare h2, HR.bare h3⟩
  have hpredsId : nodePreds nodesR id = n.filterList ++ st.onList := by
    simp [nodePreds, hnR, hRk, hRf, hRo]
  have hconjId0 : nodeConjuncts h nodes id = n.filterList ++ n.onList := by
    simp [nodeConjuncts, hn, hk]
  have hml : ∀ m ∈ l.marks nodes, m ∈ (Shape.join id l r).marks nodes := by
    intro m hm
    rw [Shape.marks_join hn]
    exact List.mem_append_right _ (List.mem_append_left _ hm)
  have hmr : ∀ m ∈ r.marks nodes, m ∈ (Shape.join id l r).marks nodes := by
    intro m hm
    rw [Shape.marks_join hn]
    exact List.mem_append_right _ (List.mem_append_right _ hm)
  have hmt0 : mt = 0 ∨ mt ∈ (Shape.join id l r).marks nodes := by
    rcases getMarkTag_cases hmt with ⟨_, h1⟩ | ⟨h1, h2⟩
    · exact Or.inl h1
    · right
      rw [Shape.marks_join hn, if_pos h1]
      exact List.mem_append_left _ (mem_take_one h2)
  have hk4 : sep = false → (Shape.join id l r).plain nodes = true → ∀ p,
      h.tracks ((Shape.join id l r).marks nodes) p →
      (p ∈ n.onList → p ∈ st.onList ∨ p ∈ st.leftPushdown ∨ p ∈ st.rightPushdown) ∧
      (p ∈ F → p ∈ st.onList ∨ p ∈ st.leftPushdown ∨ p ∈ st.rightPushdown ∨
        p ∈ st.cantPushdown) ∧
      (p ∈ st.leftPushdown ∨ p ∈ l.conjuncts h nodes → p ∈ L.preds nodesR) ∧
      (p ∈ st.rightPushdown ∨ p ∈ r.conjuncts h nodes → p ∈ R.preds nodesR) := by
    intro hs hp p ht
    subst hs
    obtain ⟨hp1, hp2, hp3⟩ := (Shape.plain_join hn).mp hp
    have hpl : n.joinType ≠ .MARK → n.bindingTags = [] := fun hnm => hp1.resolve_left hnm
    obtain ⟨kon, kF⟩ := classifyJoinFilters_keeps h _ _ mt n F st hst hpl p ht.1
      (ht.2.1 mt hmt0) ht.2.2
    exact ⟨kon, kF, HL.kept rfl hp2 p (Helpers.tracks_mono hml ht),
      HR.kept rfl hp3 p (Helpers.tracks_mono hmr ht)⟩
  have hkeep : sep = false → (Shape.join id l r).plain nodes = true → ∀ p,
      h.tracks ((Shape.join id l r).marks nodes) p →
      p ∈ (Shape.join id l r).conjuncts h nodes → p ∈ (Shape.join id L R).preds nodesR := by
    intro hs hp p ht hpc
    obtain ⟨kon, _, kL, kR⟩ := hk4 hs hp p ht
    rw [Shape.mem_conjuncts_join] at hpc
    rw [Shape.mem_preds_join]
    rcases hpc with hpc | hpc | hpc
    · rw [hconjId0] at hpc
      rw [hpredsId]
      rcases List.mem_append.mp hpc with h1 | h1
      · exact Or.inl (List.mem_append_left _ h1)
      · rcases kon h1 with h2 | h2 | h2
        · exact Or.inl (List.mem_append_right _ h2)
        · exact Or.inr (Or.inl (kL (Or.inl h2)))
        · exact Or.inr (Or.inr (kR (Or.inl h2)))
    · exact Or.inr (Or.inl (kL (Or.inr hpc)))
    · exact Or.inr (Or.inr (kR (Or.inr hpc)))
  have hsettled : h.stableTags → (Shape.join id l r).bare nodes = true →
      Steady nodes nodesR →
      (Shape.join id L R).calm h nodesR → (∀ q ∈ st.cantPushdown, h.calm q) →
      (Shape.join id L R).settled h sep nodesR st.cantPushdown := by
    intro hT hbj hsteady hc hcq
    obtain ⟨hb2, hb3⟩ := Shape.bare_join.mp hbj
    have hcn := (hc id (by simp [Shape.ids]) nR hnR).2 hRk
    rw [hRo, hRj] at hcn
    obtain ⟨hsplit, hon, hded⟩ := hcn
    have hb1 : st.bindingTags = n.bindingTags := by
      rw [← hRb]
      exact hsteady id n nR hn hnR
    have hmarkiff : nR.joinType = .MARK ↔ n.joinType = .MARK := by
      rw [hRj]
      constructor
      · intro hm
        exact (htag2 hm).1
      · intro hm
        have hne : st.bindingTags ≠ [] := by rw [hb1]; exact hmark hm
        rw [htag3 hne, joinStart_joinType_mark]
        exact hm
    have hmtR : getMarkTag nR = .ok mt := by
      rw [getMarkTag_congr hmarkiff (hRb.trans hb1)]
      exact hmt
    have el : h.enumerateTags nodesR L.root = h.enumerateTags nodes l.root :=
      hT nodes nodesR l L hgl0 HL.good hb2 (HL.bare hb2) (HL.tags hsteady)
    have er : h.enumerateTags nodesR R.root = h.enumerateTags nodes r.root :=
      hT nodes nodesR r R hgr0 HR.good hb3 (HR.bare hb3) (HR.tags hsteady)
    have hfix := classifyJoinFilters_fixed h sep _ _ mt n F st hst hb1 hsplit hon hcq
    refine ⟨⟨nR, mt, hnR, hmtR, ?_, ?_⟩,
      HL.settled hT hb2 hsteady (fun j hj => hc j (by simp [Shape.ids, hj])),
      HR.settled hT hb3 hsteady (fun j hj => hc j (by simp [Shape.ids, hj]))⟩
    · rw [el, er, classifyJoinFilters_congr h sep _ _ mt nR
        { n with joinType := st.joinType, bindingTags := st.bindingTags, onList := st.onList }
        st.cantPushdown hRj hRb hRo, hfix, hRj, hRb, hRo]
    · rw [hRj, hRo]
      exact hded
  refine ⟨_, .join id L R, rfl, ?_, ?_, hgood, rfl, hids, hbound, hslot, hgood, rfl, hids,
    hbound, hslot, fun _ => ⟨rfl, rfl⟩, htags, htags, hmarks, hmarks, hplain, hplain, hbare,
    hbare, ?_, ?_, hsettled, hshR⟩
  · show nodes.length ≤ nodesR.length
    omega
  · intro i hi hlt
    simp only [Shape.ids, List.mem_cons, List.mem_append, not_or] at hi
    obtain ⟨hi1, hi2, hi3⟩ := hi
    have hil : i ∉ l2.ids := by
      intro hm
      rcases Sl.ids i hm with h1 | h1
      · exact hi2 h1
      · omega
    have hir : i ∉ r2.ids := by
      intro hm
      rcases Sr.ids i hm with h1 | h1
      · exact hi3 h1
      · omega
    have e1 : nodesR[i]? = nodesL[i]? := hfrR i hir hi1 (by omega)
    have e2 : nodesL[i]? = nodesD[i]? := hfrL i hil hi1 (by omega)
    have e3 : nodesD[i]? = nodesM[i]? := hfrD i hi2 hi3 (by omega)
    show nodesR[i]? = nodes[i]?
    rw [e1, e2, e3, hfrM i hi1]
  · intro hs hp p ht hpF
    obtain ⟨_, kF, kL, kR⟩ := hk4 hs hp p ht
    rcases hpF with hpF | hpF
    · rcases kF hpF with h1 | h1 | h1 | h1
      · refine Or.inr (Shape.mem_preds_join.mpr (Or.inl ?_))
        rw [hpredsId]
        exact List.mem_append_right _ h1
      · exact Or.inr (Shape.mem_preds_join.mpr (Or.inr (Or.inl (kL (Or.inl h1)))))
      · exact Or.inr (Shape.mem_preds_join.mpr (Or.inr (Or.inr (kR (Or.inl h1)))))
      · exact Or.inl h1
    · exact Or.inr (hkeep hs hp p ht hpF)
  · intro hs hp p ht hpc
    exact Shape.preds_sub_conjuncts ht.1 (hkeep hs hp p ht hpc)

/-- The `FILTER` case conserves when the recursive call does: it panics, or it returns the
shape that the call on the child returns, or the `FILTER` over it when that call returns
residue. -/
theorem pushdownFilter_conserves {rec : Nodes → Nat → List Expr → Pushed} {fuel : Nat}
    (h : Helpers) (sep : Bool)
    (hrec : ∀ nodes s F, Shape.Good nodes s → s.bound ≤ fuel →
      rec nodes s.root F = .error .panic ∨
      ∃ out s1 s2, rec nodes s.root F = .ok out ∧ Conserves h sep nodes s F out s1 s2)
    {nodes : Nodes} {id : Nat} {n : Node} {c : Shape} (F : List Expr)
    (hn : nodes[id]? = some n) (hg : (Shape.filter id c).Good nodes)
    (hb : (Shape.filter id c).bound ≤ fuel + 1) :
    pushdownFilter h rec nodes id n F = .error .panic ∨
    ∃ out t1 t2, pushdownFilter h rec nodes id n F = .ok out ∧
      Conserves h sep nodes (.filter id c) F out t1 t2 := by
  obtain ⟨hgc, hidc⟩ := hg.of_filter
  obtain ⟨⟨n0, hn0, hk, hch⟩, hfc⟩ := Shape.fits_filter.mp hg.1
  rw [hn] at hn0
  injection hn0 with hn0
  subst hn0
  have hidlt : id < nodes.length := getElem?_lt hn
  have hbc : c.bound ≤ fuel := by
    simp only [Shape.bound] at hb
    omega
  have hgc0 : getChild n 0 = .ok c.root := by simp [getChild, hch]
  have hnj : n.nodeType ≠ .JOIN := by rw [hk]; decide
  have hconj0 : nodeConjuncts h nodes id = appendConjuncts h [] n.filterList := by
    simp [nodeConjuncts, hn, hk]
  have hin : ∀ p, (p ∈ F ∨ p ∈ (Shape.filter id c).conjuncts h nodes) →
      p ∈ appendConjuncts h F n.filterList ∨ p ∈ c.conjuncts h nodes := by
    intro p hp
    rcases hp with hp | hp
    · left
      rw [appendConjuncts_eq]
      exact List.mem_append_left _ hp
    · rcases Shape.mem_conjuncts_filter.mp hp with hp | hp
      · left
        rw [hconj0, appendConjuncts_eq, List.nil_append] at hp
        rw [appendConjuncts_eq]
        exact List.mem_append_right _ hp
      · exact Or.inr hp
  have hbare0 : (Shape.filter id c).bare nodes = true → n.bindingTags = [] ∧
      c.bare nodes = true := (Shape.bare_filter hn).mp
  rcases hrec nodes c (appendConjuncts h F n.filterList) hgc hbc with
    hpanic | ⟨⟨nodes1, childID, cant⟩, c1, c2, hcall, C⟩
  · left
    unfold pushdownFilter
    simp only [hgc0, bind, Except.bind, hpanic]
  right
  have hn1 : nodes1[id]? = some n := by rw [C.frame id hidc hidlt]; exact hn
  have hlen : nodes.length ≤ nodes1.length := C.len
  unfold pushdownFilter
  simp only [hgc0, bind, Except.bind, hcall]
  by_cases hres : cant = []
  · subst hres
    simp only [List.length_nil, gt_iff_lt, lt_self_iff_false, if_false, pure, Except.pure]
    have hidc2 : id ∉ c2.ids := by
      intro hm
      rcases C.ids2 id hm with h1 | h1
      · exact hidc h1
      · omega
    refine ⟨_, c1, .filter id c2, rfl, hlen, ?_, C.good1, C.root1, ?_, ?_, ?_, ⟨?_, ?_⟩, rfl,
      ?_, ?_, ?_, fun hne => absurd rfl hne, C.tags1, C.tags2, C.marks1, C.marks2, C.plain1,
      C.plain2, fun hp => C.bare1 (hbare0 hp).2, ?_, ?_, ?_, ?_, C.sheds⟩
    · intro i hi hlt
      simp only [Shape.ids, List.mem_cons, not_or] at hi
      exact C.frame i hi.2 hlt
    · intro j hj
      rcases C.ids1 j hj with h1 | h1
      · exact Or.inl (by simp [Shape.ids, h1])
      · exact Or.inr h1
    · have := C.bound1
      simp only [Shape.bound]
      omega
    · have := C.slot1
      simp only [Shape.slot, Shape.bound, Shape.mayKeep] at this ⊢
      split_ifs at this ⊢ <;> omega
    · exact Shape.fits_filter.mpr ⟨⟨n, hn1, hk, by rw [hch, C.root2]⟩, C.good2.1⟩
    · simp only [Shape.ids, List.nodup_cons]
      exact ⟨hidc2, C.good2.2⟩
    · intro j hj
      simp only [Shape.ids, List.mem_cons] at hj ⊢
      rcases hj with rfl | hj
      · exact Or.inl (Or.inl rfl)
      · rcases C.ids2 j hj with h1 | h1
        · exact Or.inl (Or.inr h1)
        · exact Or.inr h1
    · have := C.bound2
      simp only [Shape.bound]
      omega
    · have := C.bound2
      simp only [Shape.slot, Shape.bound, Shape.mayKeep]
      simp
      exact this
    · intro hp
      exact (Shape.bare_filter hn1).mpr ⟨(hbare0 hp).1, C.bare2 (hbare0 hp).2⟩
    · intro hs hp p ht hpF
      rcases C.kept1 hs hp p ht (hin p hpF) with h1 | h1
      · cases h1
      · exact Or.inr h1
    · intro hs hp p ht hpc
      rcases Shape.mem_conjuncts_filter.mp hpc with hpc | hpc
      · refine Shape.mem_conjuncts_filter.mpr (Or.inl ?_)
        have e : nodes1[id]? = nodes[id]? := hn1.trans hn.symm
        rw [nodeConjuncts_congr e]
        exact hpc
      · exact Shape.mem_conjuncts_filter.mpr (Or.inr (C.kept2 hs hp p ht hpc))
    · intro hT hp hst hc _
      exact C.settled1 hT (hbare0 hp).2 hst hc (fun q hq => by cases hq)
  · have hpos : cant.length > 0 := List.length_pos.mpr hres
    have hi0 : 0 < n.children.length := by rw [hch]; simp
    simp only [hpos, if_true, setChild_eq hn1 hi0, pure, Except.pure]
    have hn2 : (nodes1.set id { n with children := n.children.set 0 childID })[id]? =
        some { n with children := n.children.set 0 childID } :=
      List.getElem?_set_self (getElem?_lt hn1)
    simp only [modifyNode_eq hn2, List.set_set]
    have hidc1 : id ∉ c1.ids := by
      intro hm
      rcases C.ids1 id hm with h1 | h1
      · exact hidc h1
      · omega
    obtain ⟨n3, hn3def⟩ : ∃ n3 : Node, n3 =
        { ({ n with children := n.children.set 0 childID } : Node) with filterList := cant } :=
      ⟨_, rfl⟩
    rw [← hn3def]
    have hfr3 : ∀ j ∈ c1.ids, (nodes1.set id n3)[j]? = nodes1[j]? :=
      fun j hj => List.getElem?_set_ne (by rintro rfl; exact hidc1 hj)
    have hn3 : (nodes1.set id n3)[id]? = some n3 :=
      List.getElem?_set_self (getElem?_lt hn1)
    have h3k : n3.nodeType = .FILTER := by rw [hn3def]; exact hk
    have h3f : n3.filterList = cant := by rw [hn3def]
    have h3b : n3.bindingTags = n.bindingTags := by rw [hn3def]
    have h3c : n3.children = [c1.root] := by
      rw [hn3def]
      simp only [hch, C.root1]
      rfl
    have hsh3 : Sheds nodes1 (nodes1.set id n3) := Sheds.sheds_set hn1 (Or.inl h3b)
    generalize hnodes3 : nodes1.set id n3 = nodes3 at hfr3 hn3 hsh3 ⊢
    have hlen3 : nodes3.length = nodes1.length := by rw [← hnodes3]; simp
    have hgood : (Shape.filter id c1).Good nodes3 := by
      refine ⟨Shape.fits_filter.mpr ⟨⟨_, hn3, h3k, h3c⟩, ?_⟩, ?_⟩
      · rw [Shape.fits_congr hfr3]; exact C.good1.1
      · simp only [Shape.ids, List.nodup_cons]
        exact ⟨hidc1, C.good1.2⟩
    have hids : ∀ j ∈ (Shape.filter id c1).ids,
        j ∈ (Shape.filter id c).ids ∨ nodes.length ≤ j := by
      intro j hj
      simp only [Shape.ids, List.mem_cons] at hj ⊢
      rcases hj with rfl | hj
      · exact Or.inl (Or.inl rfl)
      · rcases C.ids1 j hj with h1 | h1
        · exact Or.inl (Or.inr h1)
        · exact Or.inr h1
    have hbound : (Shape.filter id c1).bound ≤ (Shape.filter id c).bound := by
      have := C.bound1
      simp only [Shape.bound]
      omega
    have hslot : (Shape.filter id c1).slot ≤ (Shape.filter id c).slot := by
      have := C.bound1
      simp only [Shape.slot, Shape.bound, Shape.mayKeep]
      simp
      exact this
    have hpreds3 : nodePreds nodes3 id = cant := by
      simp [nodePreds, hn3, h3k, h3f]
    have hkeep : sep = false → (Shape.filter id c).plain nodes = true → ∀ p,
        h.tracks ((Shape.filter id c).marks nodes) p →
        (p ∈ F ∨ p ∈ (Shape.filter id c).conjuncts h nodes) →
        p ∈ (Shape.filter id c1).preds nodes3 := by
      intro hs hp p ht hpF
      rw [Shape.mem_preds_filter]
      rcases C.kept1 hs hp p ht (hin p hpF) with h1 | h1
      · left
        rw [hpreds3]
        exact h1
      · exact Or.inr (Shape.mem_preds_congr hfr3 h1)
    have htags : Steady nodes nodes3 →
        (Shape.filter id c1).tags nodes3 = (Shape.filter id c).tags nodes :=
      fun hst => (Shape.tags_congr (t := c1) hfr3).trans
        (C.tags1 (Steady.split C.sheds hsh3 hst).1)
    have hmarks : ∀ m ∈ (Shape.filter id c1).marks nodes3,
        m ∈ (Shape.filter id c).marks nodes := by
      intro m hm
      have hm2 : m ∈ c1.marks nodes3 := hm
      rw [Shape.marks_congr hfr3] at hm2
      exact C.marks1 m hm2
    have hplain : (Shape.filter id c).plain nodes = true →
        (Shape.filter id c1).plain nodes3 = true := by
      intro hp
      show c1.plain nodes3 = true
      rw [Shape.plain_congr hfr3]
      exact C.plain1 hp
    have hbare : (Shape.filter id c).bare nodes = true →
        (Shape.filter id c1).bare nodes3 = true := by
      intro hp
      rw [Shape.bare_filter hn3, Shape.bare_congr hfr3, h3b]
      exact ⟨(hbare0 hp).1, C.bare1 (hbare0 hp).2⟩
    refine ⟨_, .filter id c1, .filter id c1, rfl, by rw [hlen3]; exact hlen, ?_, hgood, rfl,
      hids, hbound, hslot, hgood, rfl, hids, hbound, hslot, fun hne => absurd rfl hne,
      htags, htags, hmarks, hmarks, hplain, hplain, hbare, hbare,
      fun hs hp p ht hpF => Or.inr (hkeep hs hp p ht hpF),
      fun hs hp p ht hpc => Shape.preds_sub_conjuncts ht.1 (hkeep hs hp p ht (Or.inr hpc)),
      ?_, C.sheds.sheds_trans hsh3⟩
    · intro i hi hlt
      simp only [Shape.ids, List.mem_cons, not_or] at hi
      show nodes3[i]? = nodes[i]?
      rw [← hnodes3, List.getElem?_set_ne (Ne.symm hi.1)]
      exact C.frame i hi.2 hlt
    · intro hT hp hst hc _
      have hcn := (hc id (by simp [Shape.ids]) n3 hn3).1 h3k
      rw [h3f] at hcn
      have hc1 : c1.calm h nodes1 :=
        Shape.calm_congr (fun j hj => (hfr3 j hj).symm)
          (fun j hj => hc j (by simp [Shape.ids, hj]))
      refine ⟨rfl, n3, hn3, by rw [h3f]; exact hres, ?_, ?_⟩
      · rw [h3f, appendConjuncts_calm _ _ hcn]
        rfl
      · rw [h3f]
        exact Shape.settled_congr hT C.good1 (C.bare1 (hbare0 hp).2) hfr3
          (C.settled1 hT (hbare0 hp).2 (Steady.split C.sheds hsh3 hst).1 hc1 hcn)

/-- The `TABLE_SCAN`, `EXTERNAL_SCAN` case conserves. -/
theorem pushdownScan_conserves (h : Helpers) (sep : Bool) (fuel : Nat)
    {nodes : Nodes} {id : Nat} (F : List Expr) (hg : (Shape.scan id).Good nodes) :
    ∃ out, pushdownFilters h sep (fuel + 1) nodes id F = .ok out ∧
      Conserves h sep nodes (.scan id) F out (.scan id) (.scan id) := by
  obtain ⟨n, hn, hk⟩ := Shape.fits_scan.mp hg.1
  have hlt : id < nodes.length := getElem?_lt hn
  have hn1 : (nodes.set id { n with filterList := n.filterList ++ F })[id]? =
      some { n with filterList := n.filterList ++ F } := List.getElem?_set_self hlt
  have hgood : (Shape.scan id).Good (nodes.set id { n with filterList := n.filterList ++ F }) :=
    ⟨Shape.fits_scan.mpr ⟨_, hn1, hk⟩, hg.2⟩
  have hnf : n.nodeType ≠ .FILTER := by rcases hk with hk | hk <;> rw [hk] <;> decide
  have hnj : n.nodeType ≠ .JOIN := by rcases hk with hk | hk <;> rw [hk] <;> decide
  have hkeep : ∀ p, (p ∈ F ∨ p ∈ (Shape.scan id).conjuncts h nodes) →
      p ∈ (Shape.scan id).preds (nodes.set id { n with filterList := n.filterList ++ F }) := by
    intro p hp
    have e0 : nodeConjuncts h nodes id = n.filterList := by
      simp [nodeConjuncts, hn, hnf, hnj]
    have e1 : nodePreds (nodes.set id { n with filterList := n.filterList ++ F }) id =
        n.filterList ++ F := by
      unfold nodePreds
      rw [hn1]
      simp [hnj]
    rw [Shape.mem_preds]
    refine ⟨id, by simp [Shape.ids], ?_⟩
    rw [e1]
    rcases hp with hp | hp
    · exact List.mem_append_right _ hp
    · obtain ⟨j, hj, hpj⟩ := Shape.mem_conjuncts.mp hp
      simp only [Shape.ids, List.mem_singleton] at hj
      subst hj
      rw [e0] at hpj
      exact List.mem_append_left _ hpj
  have htags : Steady nodes (nodes.set id { n with filterList := n.filterList ++ F }) →
      (Shape.scan id).tags (nodes.set id { n with filterList := n.filterList ++ F }) =
      (Shape.scan id).tags nodes := by
    intro _
    simp only [Shape.tags, hn1, hn]
  have hbare : (Shape.scan id).bare nodes = true →
      (Shape.scan id).bare (nodes.set id { n with filterList := n.filterList ++ F }) = true := by
    intro hp
    rw [Shape.bare_scan hn1]
    exact (Shape.bare_scan hn).mp hp
  refine ⟨_, pushdownFilters_scan_eq h sep fuel nodes id n F hn hk, by simp, ?_,
    hgood, rfl, fun j hj => Or.inl hj, le_refl _, le_refl _, hgood, rfl, fun j hj => Or.inl hj,
    le_refl _, le_refl _, fun hne => absurd rfl hne, htags, htags, fun _ hm => hm,
    fun _ hm => hm, fun _ => rfl, fun _ => rfl, hbare, hbare,
    fun _ _ p ht hp => Or.inr (hkeep p hp),
    fun _ _ p ht hp => Shape.preds_sub_conjuncts ht.1 (hkeep p (Or.inr hp)),
    fun _ _ _ _ _ => rfl, Sheds.sheds_set hn (Or.inl rfl)⟩
  intro i hi _
  simp only [Shape.ids, List.mem_singleton] at hi
  exact List.getElem?_set_ne (Ne.symm hi)

/-- A call that returns its filters and changes nothing conserves. -/
theorem Conserves.conserves_same {h : Helpers} {sep : Bool} {nodes : Nodes} {t : Shape}
    {F : List Expr} (hg : t.Good nodes) (hk : t.mayKeep = true) (hp : t.plain nodes = false)
    (hs : t.settled h sep nodes F) : Conserves h sep nodes t F (nodes, t.root, F) t t :=
  ⟨le_refl _, fun _ _ _ => rfl, hg, rfl, fun _ hi => Or.inl hi, le_refl _, le_refl _, hg, rfl,
    fun _ hi => Or.inl hi, le_refl _, le_refl _, fun _ => ⟨rfl, hk⟩, fun _ => rfl, fun _ => rfl,
    fun _ hm => hm, fun _ hm => hm, id, id, id, id,
    fun _ hp1 => absurd (hp1.symm.trans hp) (by decide),
    fun _ hp1 => absurd (hp1.symm.trans hp) (by decide),
    fun _ _ _ _ _ => hs, Sheds.sheds_refl _⟩

/-- The parent of one child conserves when the block `pushToChild` on its child slot has left
the shape `s1` there and the parent returns the filters `R`, which it would return again. -/
theorem Conserves.conserves_unary {h : Helpers} {sep : Bool} {nodes nodes1 : Nodes} {id : Nat}
    {n : Node} {c s1 : Shape} {F F1 R : List Expr}
    (hn : nodes[id]? = some n) (hg : (Shape.unary id c).Good nodes)
    (hlen : nodes.length ≤ nodes1.length)
    (hfr : ∀ j, j ∉ c.ids → j ≠ id → j < nodes.length → nodes1[j]? = nodes[j]?)
    (hn1 : nodes1[id]? = some { n with children := n.children.set 0 s1.root })
    (H : Hangs h sep nodes c F1 nodes1 s1)
    (hkeep : unaryKeeps h n R) :
    Conserves h sep nodes (.unary id c) F (nodes1, id, R) (.unary id s1) (.unary id s1) := by
  obtain ⟨hgc, hidc⟩ := hg.of_unary
  obtain ⟨⟨n0, hn0, hk, hch⟩, _⟩ := Shape.fits_unary.mp hg.1
  rw [hn] at hn0
  injection hn0 with hn0
  subst hn0
  have hidlt : id < nodes.length := getElem?_lt hn
  have hids1 : id ∉ s1.ids := by
    intro hm
    rcases H.ids id hm with h1 | h1
    · exact hidc h1
    · omega
  have hch1 : ({ n with children := n.children.set 0 s1.root } : Node).children =
      [s1.root] := by
    simp only [hch]; rfl
  have hgood : (Shape.unary id s1).Good nodes1 := by
    refine ⟨Shape.fits_unary.mpr ⟨⟨_, hn1, hk, hch1⟩, H.good.1⟩, ?_⟩
    simp only [Shape.ids, List.nodup_cons]
    exact ⟨hids1, H.good.2⟩
  have hids : ∀ j ∈ (Shape.unary id s1).ids, j ∈ (Shape.unary id c).ids ∨ nodes.length ≤ j := by
    intro j hj
    simp only [Shape.ids, List.mem_cons] at hj ⊢
    rcases hj with rfl | hj
    · exact Or.inl (Or.inl rfl)
    · rcases H.ids j hj with h1 | h1
      · exact Or.inl (Or.inr h1)
      · exact Or.inr h1
  have hbound : (Shape.unary id s1).bound ≤ (Shape.unary id c).bound := by
    have h1 := H.slot
    simp only [Shape.bound]
    unfold Shape.slot at h1
    omega
  have hslot : (Shape.unary id s1).slot ≤ (Shape.unary id c).slot := by
    simp only [Shape.slot, Shape.mayKeep, if_true]
    omega
  have htags : Steady nodes nodes1 →
      (Shape.unary id s1).tags nodes1 = (Shape.unary id c).tags nodes := by
    intro hst
    simp only [Shape.tags, ownTags, hn1, hn, H.tags hst]
  have hmarks : ∀ m ∈ (Shape.unary id s1).marks nodes1, m ∈ (Shape.unary id c).marks nodes :=
    fun m hm => H.marks m hm
  have hplain : (Shape.unary id c).plain nodes = true →
      (Shape.unary id s1).plain nodes1 = true := fun hp => hp
  have hbare : (Shape.unary id c).bare nodes = true →
      (Shape.unary id s1).bare nodes1 = true := fun hp => H.bare hp
  refine ⟨hlen, ?_, hgood, rfl, hids, hbound, hslot, hgood, rfl, hids, hbound, hslot,
    fun _ => ⟨rfl, rfl⟩, htags, htags, hmarks, hmarks, hplain, hplain, hbare, hbare,
    fun _ hp => Bool.noConfusion hp, fun _ hp => Bool.noConfusion hp, ?_, H.sheds⟩
  · intro i hi hlt
    simp only [Shape.ids, List.mem_cons, not_or] at hi
    exact hfr i hi.2 hi.1 hlt
  · intro hT hb hst hc _
    refine ⟨_, hn1, Or.inr ⟨hkeep,
      H.settled hT hb hst (fun j hj => hc j (by simp [Shape.ids, hj]))⟩⟩

theorem getTag_error {n : Node} {i : Nat} {e : Err} (he : getTag n i = .error e) :
    e = .panic := by
  unfold getTag at he
  split at he
  · cases he
  · injection he with he
    exact he.symm

/-- The filters that the loop of the `AGG` case keeps are kept again. -/
theorem splitAggFilters_again (h : Helpers) (g a : Int) (groupBy F : List Expr) :
    splitAggFilters h g a groupBy (splitAggFilters h g a groupBy F [] []).2 [] [] =
      ([], (splitAggFilters h g a groupBy F [] []).2) := by
  simp only [splitAggFilters_eq, List.nil_append, List.filter_filter]
  have e1 : F.filter (fun f => (!h.containsTag f a) && h.containsTag f a) = [] := by
    rw [List.filter_eq_nil_iff]
    intro f _
    cases h.containsTag f a <;> simp
  have e2 : F.filter (fun f => h.containsTag f a && h.containsTag f a) =
      F.filter (fun f => h.containsTag f a) := by
    congr 1
    funext f
    cases h.containsTag f a <;> rfl
  rw [e1, e2]
  rfl

/-- The `AGG` case conserves when the recursive call does. -/
theorem pushdownAgg_conserves {rec : Nodes → Nat → List Expr → Pushed} {fuel : Nat}
    (h : Helpers) (sep : Bool)
    (hrec : ∀ nodes s F, Shape.Good nodes s → s.bound ≤ fuel →
      rec nodes s.root F = .error .panic ∨
      ∃ out s1 s2, rec nodes s.root F = .ok out ∧ Conserves h sep nodes s F out s1 s2)
    {nodes : Nodes} {id : Nat} {n : Node} {c : Shape} (F : List Expr)
    (hn : nodes[id]? = some n) (hk : n.nodeType = .AGG) (hg : (Shape.unary id c).Good nodes)
    (hb : (Shape.unary id c).bound ≤ fuel + 1) :
    pushdownAgg h rec nodes id n F = .error .panic ∨
    ∃ out t1, pushdownAgg h rec nodes id n F = .ok out ∧
      Conserves h sep nodes (.unary id c) F out t1 t1 := by
  obtain ⟨hgc, hidc⟩ := hg.of_unary
  obtain ⟨⟨n0, hn0, _, hch⟩, _⟩ := Shape.fits_unary.mp hg.1
  rw [hn] at hn0
  injection hn0 with hn0
  subst hn0
  have hbc : c.bound ≤ fuel := by
    simp only [Shape.bound] at hb
    omega
  have hc0 : n.children[0]? = some c.root := by rw [hch]; rfl
  unfold pushdownAgg
  cases hg0 : getTag n 0 with
  | error e =>
    left
    simp only [bind, Except.bind, getTag_error hg0]
  | ok g =>
  cases hg1 : getTag n 1 with
  | error e =>
    left
    simp only [bind, Except.bind, getTag_error hg1]
  | ok a =>
  simp only [bind, Except.bind]
  rcases pushToChild_conserves h sep hrec
      (F := (splitAggFilters h g a n.groupBy F [] []).1) hn hc0 hidc hgc hbc with
    hpanic | ⟨nodes1, s1, hpush, hlen, hfr, hn1, H⟩
  · left
    simp only [hpanic]
  right
  simp only [hpush, pure, Except.pure]
  refine ⟨_, .unary id s1, rfl, Conserves.conserves_unary hn hg hlen hfr hn1 H ⟨?_, ?_, ?_⟩⟩
  · intro _
    exact ⟨g, a, hg0, hg1, splitAggFilters_again h g a n.groupBy F⟩
  · intro hp
    rw [hk] at hp
    cases hp
  · intro hp
    rw [hk] at hp
    cases hp

/-- The `PROJECT` case conserves when the recursive call does. -/
theorem pushdownProject_conserves {rec : Nodes → Nat → List Expr → Pushed} {fuel : Nat}
    (h : Helpers) (sep : Bool)
    (hrec : ∀ nodes s F, Shape.Good nodes s → s.bound ≤ fuel →
      rec nodes s.root F = .error .panic ∨
      ∃ out s1 s2, rec nodes s.root F = .ok out ∧ Conserves h sep nodes s F out s1 s2)
    {nodes : Nodes} {id : Nat} {n : Node} {c : Shape} (F : List Expr)
    (hn : nodes[id]? = some n) (hk : n.nodeType = .PROJECT)
    (hg : (Shape.unary id c).Good nodes) (hb : (Shape.unary id c).bound ≤ fuel + 1) :
    pushdownProject h rec nodes id n F = .error .panic ∨
    ∃ out t1, pushdownProject h rec nodes id n F = .ok out ∧
      Conserves h sep nodes (.unary id c) F out t1 t1 := by
  obtain ⟨hgc, hidc⟩ := hg.of_unary
  obtain ⟨⟨n0, hn0, _, hch⟩, hfc⟩ := Shape.fits_unary.mp hg.1
  rw [hn] at hn0
  injection hn0 with hn0
  subst hn0
  have hbc : c.bound ≤ fuel := by
    simp only [Shape.bound] at hb
    omega
  have hc0 : n.children[0]? = some c.root := by rw [hch]; rfl
  have hgc0 : getChild n 0 = .ok c.root := by simp [getChild, hch]
  have hclt : c.root < nodes.length := Shape.fits_lt hfc c.root c.root_mem_ids
  obtain ⟨child, hchild⟩ : ∃ child, nodes[c.root]? = some child :=
    ⟨nodes[c.root], List.getElem?_eq_getElem hclt⟩
  unfold pushdownProject
  simp only [hgc0, bind, Except.bind, getNode_eq hchild]
  by_cases hstop : (child.nodeType = .VALUE_SCAN ∨ child.nodeType = .EXTERNAL_SCAN) ∧
      child.rowsetData = none
  · right
    rw [if_pos hstop]
    exact ⟨_, .unary id c, rfl, Conserves.conserves_same hg rfl rfl
      ⟨n, hn, Or.inl ⟨hk, child, hchild, hstop⟩⟩⟩
  · rw [if_neg hstop]
    cases hg0 : getTag n 0 with
    | error e =>
      left
      simp only [getTag_error hg0]
    | ok g =>
    simp only []
    rcases pushToChild_conserves h sep hrec
        (F := F.map (fun filter => h.replaceColRefs filter g n.projectList)) hn hc0 hidc hgc
        hbc with
      hpanic | ⟨nodes1, s1, hpush, hlen, hfr, hn1, H⟩
    · left
      simp only [hpanic]
    right
    simp only [hpush, pure, Except.pure]
    refine ⟨_, .unary id s1, rfl, Conserves.conserves_unary hn hg hlen hfr hn1 H ⟨?_, ?_, ?_⟩⟩
    · intro hp
      rw [hk] at hp
      cases hp
    · intro _
      exact ⟨rfl, g, hg0⟩
    · intro _
      rfl

/-- The `default` case conserves when the recursive call does: on a node with one child. -/
theorem pushdownDefault_conserves {rec : Nodes → Nat → List Expr → Pushed} {fuel : Nat}
    (h : Helpers) (sep : Bool)
    (hrec : ∀ nodes s F, Shape.Good nodes s → s.bound ≤ fuel →
      rec nodes s.root F = .error .panic ∨
      ∃ out s1 s2, rec nodes s.root F = .ok out ∧ Conserves h sep nodes s F out s1 s2)
    {nodes : Nodes} {id : Nat} {n : Node} {c : Shape} (F : List Expr)
    (hn : nodes[id]? = some n) (hk : n.nodeType.isOther = true)
    (hg : (Shape.unary id c).Good nodes) (hb : (Shape.unary id c).bound ≤ fuel + 1) :
    pushdownDefault rec nodes id n F = .error .panic ∨
    ∃ out t1, pushdownDefault rec nodes id n F = .ok out ∧
      Conserves h sep nodes (.unary id c) F out t1 t1 := by
  obtain ⟨hgc, hidc⟩ := hg.of_unary
  obtain ⟨⟨n0, hn0, _, hch⟩, hfc⟩ := Shape.fits_unary.mp hg.1
  rw [hn] at hn0
  injection hn0 with hn0
  subst hn0
  have hbc : c.bound ≤ fuel := by
    simp only [Shape.bound] at hb
    omega
  have hc0 : n.children[0]? = some c.root := by rw [hch]; rfl
  have hlen0 : n.children.length > 0 := by rw [hch]; simp
  unfold pushdownDefault
  simp only [hlen0, if_true, bind, Except.bind]
  rcases pushToChild_conserves h sep hrec (F := F) hn hc0 hidc hgc hbc with
    hpanic | ⟨nodes1, s1, hpush, hlen, hfr, hn1, H⟩
  · left
    simp only [hpanic]
  right
  simp only [hpush, pure, Except.pure]
  refine ⟨_, .unary id s1, rfl, Conserves.conserves_unary hn hg hlen hfr hn1 H ⟨?_, ?_, ?_⟩⟩
  · intro hp
    rw [hp] at hk
    cases hk
  · intro hp
    rw [hp] at hk
    cases hk
  · intro _
    rfl

/-- The `default` case conserves on a node without children. -/
theorem pushdownLeaf_conserves (h : Helpers) (sep : Bool)
    (rec : Nodes → Nat → List Expr → Pushed)
    {nodes : Nodes} {id : Nat} {n : Node} (F : List Expr)
    (hn : nodes[id]? = some n) (hg : (Shape.leaf id).Good nodes) :
    ∃ out, pushdownDefault rec nodes id n F = .ok out ∧
      Conserves h sep nodes (.leaf id) F out (.leaf id) (.leaf id) := by
  obtain ⟨n0, hn0, _, hch⟩ := Shape.fits_leaf.mp hg.1
  rw [hn] at hn0
  injection hn0 with hn0
  subst hn0
  unfold pushdownDefault
  simp only [hch, List.length_nil, gt_iff_lt, lt_self_iff_false, if_false, pure, Except.pure]
  exact ⟨_, rfl, Conserves.conserves_same hg rfl rfl trivial⟩

/-- The case of the set operations conserves when the recursive call does. -/
theorem pushdownSetOp_conserves {rec : Nodes → Nat → List Expr → Pushed} {fuel : Nat}
    (h : Helpers) (sep : Bool)
    (hrec : ∀ nodes s F, Shape.Good nodes s → s.bound ≤ fuel →
      rec nodes s.root F = .error .panic ∨
      ∃ out s1 s2, rec nodes s.root F = .ok out ∧ Conserves h sep nodes s F out s1 s2)
    {nodes : Nodes} {id : Nat} {n : Node} {l r : Shape} (F : List Expr)
    (hn : nodes[id]? = some n) (hg : (Shape.setop id l r).Good nodes)
    (hb : (Shape.setop id l r).bound ≤ fuel + 1) :
    pushdownSetOp h rec nodes id n F = .error .panic ∨
    ∃ out t1, pushdownSetOp h rec nodes id n F = .ok out ∧
      Conserves h sep nodes (.setop id l r) F out t1 t1 := by
  obtain ⟨hgl, hgr, hidl, hidr, hdis⟩ := hg.of_setop
  obtain ⟨⟨n0, hn0, hk, hch⟩, hfl, hfr⟩ := Shape.fits_setop.mp hg.1
  rw [hn] at hn0
  injection hn0 with hn0
  subst hn0
  have hidlt : id < nodes.length := getElem?_lt hn
  have hbl : l.bound ≤ fuel := by
    have := l.bound_le_slot
    simp only [Shape.bound] at hb
    unfold Shape.slot at this
    omega
  have hbr : r.bound ≤ fuel := by
    have := r.bound_le_slot
    simp only [Shape.bound] at hb
    unfold Shape.slot at this
    omega
  have hgc0 : getChild n 0 = .ok l.root := by simp [getChild, hch]
  have hgc1 : getChild n 1 = .ok r.root := by simp [getChild, hch]
  have hllt : ∀ j ∈ l.ids, j < nodes.length := Shape.fits_lt hfl
  have hrlt : ∀ j ∈ r.ids, j < nodes.length := Shape.fits_lt hfr
  have hl0 : l.root < nodes.length := hllt _ l.root_mem_ids
  have hr0 : r.root < nodes.length := hrlt _ r.root_mem_ids
  obtain ⟨nl, hnl⟩ : ∃ nl, nodes[l.root]? = some nl :=
    ⟨nodes[l.root], List.getElem?_eq_getElem hl0⟩
  obtain ⟨nr, hnr⟩ : ∃ nr, nodes[r.root]? = some nr :=
    ⟨nodes[r.root], List.getElem?_eq_getElem hr0⟩
  have hc0 : n.children[0]? = some l.root := by rw [hch]; rfl
  unfold pushdownSetOp
  simp only [hgc0, hgc1, bind, Except.bind, getNode_eq hnl, getNode_eq hnr]
  rcases pushToChild_conserves h sep hrec
      (F := F.map (fun filter => h.replaceColRefsForSet (DeepCopyExpr filter) nl.projectList))
      hn hc0 hidl hgl hbl with
    hpanic | ⟨nodesL, L, hL, hlenL, hfrL, hnL, HL0⟩
  · left
    simp only [hpanic]
  simp only [hL]
  have hfrLr : ∀ j ∈ r.ids, nodesL[j]? = nodes[j]? := fun j hj =>
    hfrL j (fun hjl => hdis j hjl hj) (by rintro rfl; exact hidr hj) (hrlt j hj)
  have Sr : Stays h sep nodes r nodesL r :=
    (Stays.stays_refl hgr).stays_post HL0.sheds hfrLr
  have hc1 : ({ n with children := n.children.set 0 L.root } : Node).children[1]? =
      some r.root := by
    simp only [hch]; rfl
  rcases pushToChild_conserves h sep hrec
      (F := F.map (fun filter => h.replaceColRefsForSet filter nr.projectList))
      hnL hc1 hidr Sr.good hbr with
    hpanic | ⟨nodesR, R, hR, hlenR, hfrR, hnR, HR0⟩
  · left
    simp only [hpanic]
  simp only [hR, pure, Except.pure]
  right
  have hLlt : ∀ j ∈ L.ids, j < nodesL.length := Shape.fits_lt HL0.good.1
  have hidL : id ∉ L.ids := by
    intro hm
    rcases HL0.ids id hm with h1 | h1
    · exact hidl h1
    · omega
  have hidR : id ∉ R.ids := by
    intro hm
    rcases HR0.ids id hm with h1 | h1
    · exact hidr h1
    · omega
  have hLr : ∀ j ∈ L.ids, j ∉ r.ids := by
    intro j hj hjr
    rcases HL0.ids j hj with h1 | h1
    · exact hdis j h1 hjr
    · have := hrlt j hjr; omega
  have hfrRL : ∀ j ∈ L.ids, nodesR[j]? = nodesL[j]? := fun j hj =>
    hfrR j (hLr j hj) (by rintro rfl; exact hidL hj) (hLlt j hj)
  have hLR : ∀ j ∈ L.ids, j ∉ R.ids := by
    intro j hj hjr
    rcases HR0.ids j hjr with h1 | h1
    · exact hLr j hj h1
    · have := hLlt j hj; omega
  have HL := HL0.hangs_post HR0.sheds hfrRL
  have HR := Hangs.after_stays Sr HR0 hlenL
  have hrootR : ({ ({ n with children := n.children.set 0 L.root } : Node) with
      children := ({ n with children := n.children.set 0 L.root } : Node).children.set 1
        R.root } : Node).children = [L.root, R.root] := by
    simp only [hch]; rfl
  obtain ⟨nR, hnRdef⟩ : ∃ nR : Node, nR =
      { ({ n with children := n.children.set 0 L.root } : Node) with
        children := ({ n with children := n.children.set 0 L.root } : Node).children.set 1
          R.root } := ⟨_, rfl⟩
  rw [← hnRdef] at hnR hrootR
  have hRk : nR.nodeType = n.nodeType := by rw [hnRdef]
  have hRb : nR.bindingTags = n.bindingTags := by rw [hnRdef]
  have hgood : (Shape.setop id L R).Good nodesR := by
    refine ⟨Shape.fits_setop.mpr ⟨⟨_, hnR, by rw [hRk]; exact hk, hrootR⟩, HL.good.1,
      HR.good.1⟩, ?_⟩
    simp only [Shape.ids, List.nodup_cons, List.mem_append, not_or, List.nodup_append]
    exact ⟨⟨hidL, hidR⟩, HL.good.2, HR.good.2, fun j hj hjr => hLR j hj hjr⟩
  have hids : ∀ j ∈ (Shape.setop id L R).ids,
      j ∈ (Shape.setop id l r).ids ∨ nodes.length ≤ j := by
    intro j hj
    simp only [Shape.ids, List.mem_cons, List.mem_append] at hj ⊢
    rcases hj with rfl | hj | hj
    · exact Or.inl (Or.inl rfl)
    · rcases HL.ids j hj with h1 | h1
      · exact Or.inl (Or.inr (Or.inl h1))
      · exact Or.inr h1
    · rcases HR.ids j hj with h1 | h1
      · exact Or.inl (Or.inr (Or.inr h1))
      · exact Or.inr h1
  have hbound : (Shape.setop id L R).bound ≤ (Shape.setop id l r).bound := by
    have h1 := HL.slot
    have h2 := HR.slot
    simp only [Shape.bound]
    unfold Shape.slot at h1 h2
    omega
  have hslot : (Shape.setop id L R).slot ≤ (Shape.setop id l r).slot := by
    simp only [Shape.slot, Shape.mayKeep]
    simpa using hbound
  have htags : Steady nodes nodesR →
      (Shape.setop id L R).tags nodesR = (Shape.setop id l r).tags nodes := by
    intro hst
    simp only [Shape.tags, ownTags, hnR, hn, HL.tags hst, HR.tags hst, hRb]
  have hmarks : ∀ m ∈ (Shape.setop id L R).marks nodesR,
      m ∈ (Shape.setop id l r).marks nodes := by
    intro m hm
    simp only [Shape.marks, List.mem_append] at hm ⊢
    exact hm.imp (HL.marks m) (HR.marks m)
  have hplain : (Shape.setop id l r).plain nodes = true →
      (Shape.setop id L R).plain nodesR = true := fun hp => hp
  have hbare : (Shape.setop id l r).bare nodes = true →
      (Shape.setop id L R).bare nodesR = true := by
    intro hp
    obtain ⟨h1, h2⟩ := Shape.bare_setop.mp hp
    exact Shape.bare_setop.mpr ⟨HL.bare h1, HR.bare h2⟩
  refine ⟨_, .setop id L R, rfl, by show nodes.length ≤ nodesR.length; omega, ?_, hgood, rfl,
    hids, hbound, hslot, hgood, rfl, hids, hbound, hslot, fun hne => absurd rfl hne, htags,
    htags, hmarks, hmarks, hplain, hplain, hbare, hbare, fun _ hp => Bool.noConfusion hp,
    fun _ hp => Bool.noConfusion hp, ?_, HR.sheds⟩
  · intro i hi hlt
    simp only [Shape.ids, List.mem_cons, List.mem_append, not_or] at hi
    obtain ⟨hi1, hi2, hi3⟩ := hi
    have e1 : nodesR[i]? = nodesL[i]? := hfrR i hi3 hi1 (by omega)
    have e2 : nodesL[i]? = nodes[i]? := hfrL i hi2 hi1 hlt
    show nodesR[i]? = nodes[i]?
    rw [e1, e2]
  · intro hT hbj hst hc _
    obtain ⟨hb2, hb3⟩ := Shape.bare_setop.mp hbj
    exact ⟨rfl, HL.settled hT hb2 hst (fun j hj => hc j (by simp [Shape.ids, hj])),
      HR.settled hT hb3 hst (fun j hj => hc j (by simp [Shape.ids, hj]))⟩

theorem pushdownFilters_agg_eq (h : Helpers) (sep : Bool) (fuel : Nat)
    (nodes : Nodes) (nodeID : Nat) (node : Node) (filters : List Expr)
    (hn : nodes[nodeID]? = some node) (hk : node.nodeType = .AGG) :
    pushdownFilters h sep (fuel + 1) nodes nodeID filters =
      pushdownAgg h (pushdownFilters h sep fuel) nodes nodeID node filters := by
  simp [pushdownFilters, getNode_eq hn, hk, bind, Except.bind]

theorem pushdownFilters_project_eq (h : Helpers) (sep : Bool) (fuel : Nat)
    (nodes : Nodes) (nodeID : Nat) (node : Node) (filters : List Expr)
    (hn : nodes[nodeID]? = some node) (hk : node.nodeType = .PROJECT) :
    pushdownFilters h sep (fuel + 1) nodes nodeID filters =
      pushdownProject h (pushdownFilters h sep fuel) nodes nodeID node filters := by
  simp [pushdownFilters, getNode_eq hn, hk, bind, Except.bind]

theorem pushdownFilters_setop_eq (h : Helpers) (sep : Bool) (fuel : Nat)
    (nodes : Nodes) (nodeID : Nat) (node : Node) (filters : List Expr)
    (hn : nodes[nodeID]? = some node) (hk : node.nodeType.isSetOp = true) :
    pushdownFilters h sep (fuel + 1) nodes nodeID filters =
      pushdownSetOp h (pushdownFilters h sep fuel) nodes nodeID node filters := by
  cases hk2 : node.nodeType <;> rw [hk2] at hk <;>
    first
    | exact Bool.noConfusion hk
    | simp [pushdownFilters, getNode_eq hn, hk2, bind, Except.bind]

theorem pushdownFilters_default_eq (h : Helpers) (sep : Bool) (fuel : Nat)
    (nodes : Nodes) (nodeID : Nat) (node : Node) (filters : List Expr)
    (hn : nodes[nodeID]? = some node) (hk : node.nodeType.isOther = true) :
    pushdownFilters h sep (fuel + 1) nodes nodeID filters =
      pushdownDefault (pushdownFilters h sep fuel) nodes nodeID node filters := by
  cases hk2 : node.nodeType <;> rw [hk2] at hk <;>
    first
    | exact Bool.noConfusion hk
    | simp [pushdownFilters, getNode_eq hn, hk2, bind, Except.bind]

theorem NodeType.isUnary_cases {k : NodeType} (hk : k.isUnary = true) :
    k = .AGG ∨ k = .PROJECT ∨ k.isOther = true := by
  simpa [NodeType.isUnary, or_assoc] using hk

/-- On every plan tree without `FUNCTION_SCAN` nodes, for every choice of the helper functions
and with fuel from the bound of the tree, `pushdownFilters` does not run out of fuel: it panics
or returns, and a call that returns conserves. -/
theorem pushdownFilters_conserves (h : Helpers) (sep : Bool) :
    ∀ (fuel : Nat) (nodes : Nodes) (t : Shape) (F : List Expr), t.Good nodes → t.bound ≤ fuel →
      pushdownFilters h sep fuel nodes t.root F = .error .panic ∨
      ∃ out t1 t2, pushdownFilters h sep fuel nodes t.root F = .ok out ∧
        Conserves h sep nodes t F out t1 t2 := by
  intro fuel
  induction fuel with
  | zero =>
    intro nodes t F _ hb
    have := t.bound_pos
    omega
  | succ fuel ih =>
    intro nodes t F hg hb
    cases t with
    | scan id =>
      obtain ⟨out, ho, C⟩ := pushdownScan_conserves h sep fuel F hg
      exact Or.inr ⟨out, _, _, ho, C⟩
    | filter id c =>
      obtain ⟨⟨n, hn, hk, _⟩, _⟩ := Shape.fits_filter.mp hg.1
      show pushdownFilters h sep (fuel + 1) nodes id F = _ ∨ ∃ out t1 t2,
        pushdownFilters h sep (fuel + 1) nodes id F = _ ∧ _
      rw [pushdownFilters_filter_eq h sep fuel nodes id n F hn hk]
      exact pushdownFilter_conserves h sep ih F hn hg hb
    | leaf id =>
      obtain ⟨n, hn, hk, _⟩ := Shape.fits_leaf.mp hg.1
      show pushdownFilters h sep (fuel + 1) nodes id F = _ ∨ ∃ out t1 t2,
        pushdownFilters h sep (fuel + 1) nodes id F = _ ∧ _
      rw [pushdownFilters_default_eq h sep fuel nodes id n F hn hk]
      obtain ⟨out, ho, C⟩ := pushdownLeaf_conserves h sep (pushdownFilters h sep fuel) F hn hg
      exact Or.inr ⟨out, _, _, ho, C⟩
    | unary id c =>
      obtain ⟨⟨n, hn, hk, _⟩, _⟩ := Shape.fits_unary.mp hg.1
      show pushdownFilters h sep (fuel + 1) nodes id F = _ ∨ ∃ out t1 t2,
        pushdownFilters h sep (fuel + 1) nodes id F = _ ∧ _
      rcases NodeType.isUnary_cases hk with hk | hk | hk
      · rw [pushdownFilters_agg_eq h sep fuel nodes id n F hn hk]
        rcases pushdownAgg_conserves h sep ih F hn hk hg hb with hp | ⟨out, t1, ho, C⟩
        · exact Or.inl hp
        · exact Or.inr ⟨out, t1, t1, ho, C⟩
      · rw [pushdownFilters_project_eq h sep fuel nodes id n F hn hk]
        rcases pushdownProject_conserves h sep ih F hn hk hg hb with hp | ⟨out, t1, ho, C⟩
        · exact Or.inl hp
        · exact Or.inr ⟨out, t1, t1, ho, C⟩
      · rw [pushdownFilters_default_eq h sep fuel nodes id n F hn hk]
        rcases pushdownDefault_conserves h sep ih F hn hk hg hb with hp | ⟨out, t1, ho, C⟩
        · exact Or.inl hp
        · exact Or.inr ⟨out, t1, t1, ho, C⟩
    | setop id l r =>
      obtain ⟨⟨n, hn, hk, _⟩, _⟩ := Shape.fits_setop.mp hg.1
      show pushdownFilters h sep (fuel + 1) nodes id F = _ ∨ ∃ out t1 t2,
        pushdownFilters h sep (fuel + 1) nodes id F = _ ∧ _
      rw [pushdownFilters_setop_eq h sep fuel nodes id n F hn hk]
      rcases pushdownSetOp_conserves h sep ih F hn hg hb with hp | ⟨out, t1, ho, C⟩
      · exact Or.inl hp
      · exact Or.inr ⟨out, t1, t1, ho, C⟩
    | join id l r =>
      obtain ⟨⟨n, hn, hk, _⟩, _⟩ := Shape.fits_join.mp hg.1
      show pushdownFilters h sep (fuel + 1) nodes id F = _ ∨ ∃ out t1 t2,
        pushdownFilters h sep (fuel + 1) nodes id F = _ ∧ _
      rw [pushdownFilters_join_eq h sep fuel nodes id n F hn hk]
      rcases pushdownJoin_conserves h sep ih F hn hg hb with hp | ⟨out, t1, ho, C⟩
      · exact Or.inl hp
      · exact Or.inr ⟨out, t1, t1, ho, C⟩

/-- The block `pushToChild` with no filter changes nothing when the recursive call on the
child changes nothing. -/
theorem pushToChild_same {rec : Nodes → Nat → List Expr → Pushed} {nodes : Nodes}
    {id i c : Nat} {n : Node} (hn : nodes[id]? = some n) (hc : n.children[i]? = some c)
    (hcall : rec nodes c [] = .ok (nodes, c, [])) :
    pushToChild rec nodes id i [] = .ok nodes := by
  have hi : i < n.children.length := getElem?_lt hc
  have hsame : ({ n with children := n.children.set i c } : Node) = n := by
    have : n.children.set i c = n.children := set_self_of_getElem? hc
    rw [this]
  unfold pushToChild
  simp only [getNode_eq hn, getChild, hc, bind, Except.bind, hcall, List.length_nil, gt_iff_lt,
    lt_self_iff_false, if_false, setChild_eq hn hi, hsame, set_self_of_getElem? hn]

/-- On a settled plan `pushdownFilters` changes nothing, for every choice of the helper
functions: it returns the arena as it is, the root it was called on, and the incoming filters
unplaced. -/
theorem pushdownFilters_settled (h : Helpers) (sep : Bool) :
    ∀ (t : Shape) (nodes : Nodes) (F : List Expr) (fuel : Nat), t.Good nodes →
      t.settled h sep nodes F → t.bound ≤ fuel →
      pushdownFilters h sep fuel nodes t.root F = .ok (nodes, t.root, F) := by
  intro t
  induction t with
  | scan id =>
    intro nodes F fuel hg hs hb
    obtain ⟨n, hn, hk⟩ := Shape.fits_scan.mp hg.1
    have hF : F = [] := hs
    subst hF
    obtain ⟨k, rfl⟩ : ∃ k, fuel = k + 1 := ⟨fuel - 1, by simp [Shape.bound] at hb; omega⟩
    rw [Shape.root, pushdownFilters_scan_eq h sep k nodes id n [] hn hk]
    simp only [List.append_nil]
    rw [set_self_of_getElem? hn]
  | leaf id =>
    intro nodes F fuel hg _ hb
    obtain ⟨n, hn, hk, hch⟩ := Shape.fits_leaf.mp hg.1
    obtain ⟨k, rfl⟩ : ∃ k, fuel = k + 1 := ⟨fuel - 1, by simp [Shape.bound] at hb; omega⟩
    rw [Shape.root, pushdownFilters_default_eq h sep k nodes id n F hn hk]
    unfold pushdownDefault
    simp only [hch, List.length_nil, gt_iff_lt, lt_self_iff_false, if_false, pure, Except.pure]
  | unary id c ih =>
    intro nodes F fuel hg hs hb
    obtain ⟨⟨n, hn, hk, hch⟩, hfc⟩ := Shape.fits_unary.mp hg.1
    obtain ⟨n1, hn1, hs⟩ := hs
    rw [hn] at hn1
    injection hn1 with hn1
    subst hn1
    obtain ⟨k, rfl⟩ : ∃ k, fuel = k + 1 := ⟨fuel - 1, by simp [Shape.bound] at hb; omega⟩
    have hbc : c.bound ≤ k := by simp only [Shape.bound] at hb; omega
    have hc0 : n.children[0]? = some c.root := by rw [hch]; rfl
    have hgc0 : getChild n 0 = .ok c.root := by simp [getChild, hch]
    have hpush : c.settled h sep nodes [] →
        pushToChild (pushdownFilters h sep k) nodes id 0 [] = .ok nodes :=
      fun hsc => pushToChild_same hn hc0 (ih nodes [] k hg.of_unary.1 hsc hbc)
    have hclt : c.root < nodes.length := Shape.fits_lt hfc c.root c.root_mem_ids
    obtain ⟨child, hchild⟩ : ∃ child, nodes[c.root]? = some child :=
      ⟨nodes[c.root], List.getElem?_eq_getElem hclt⟩
    rcases NodeType.isUnary_cases hk with hk | hk | hk
    · rcases hs with ⟨hp, _⟩ | ⟨hu, hsc⟩
      · rw [hk] at hp
        cases hp
      · obtain ⟨g, a, hg0, hg1, hsplit⟩ := hu.1 hk
        rw [Shape.root, pushdownFilters_agg_eq h sep k nodes id n F hn hk]
        unfold pushdownAgg
        simp only [hg0, hg1, bind, Except.bind, hsplit, hpush hsc, pure, Except.pure]
    · rw [Shape.root, pushdownFilters_project_eq h sep k nodes id n F hn hk]
      unfold pushdownProject
      simp only [hgc0, bind, Except.bind, getNode_eq hchild]
      rcases hs with ⟨_, child1, hchild1, hstop⟩ | ⟨hu, hsc⟩
      · rw [hchild] at hchild1
        injection hchild1 with hchild1
        subst hchild1
        have hstop2 : (child.nodeType = .VALUE_SCAN ∨ child.nodeType = .EXTERNAL_SCAN) ∧
            child.rowsetData = none := hstop
        rw [if_pos hstop2]
        rfl
      · obtain ⟨hF, g, hg0⟩ := hu.2.1 hk
        subst hF
        by_cases hstop : (child.nodeType = .VALUE_SCAN ∨ child.nodeType = .EXTERNAL_SCAN) ∧
            child.rowsetData = none
        · rw [if_pos hstop]
          rfl
        · rw [if_neg hstop]
          simp only [hg0, List.map_nil, hpush hsc, pure, Except.pure]
    · rcases hs with ⟨hp, _⟩ | ⟨hu, hsc⟩
      · rw [hp] at hk
        cases hk
      · have hF : F = [] := hu.2.2 hk
        subst hF
        have hlen0 : n.children.length > 0 := by rw [hch]; simp
        rw [Shape.root, pushdownFilters_default_eq h sep k nodes id n [] hn hk]
        unfold pushdownDefault
        simp only [hlen0, if_true, bind, Except.bind, hpush hsc, pure, Except.pure]
  | setop id l r ihl ihr =>
    intro nodes F fuel hg hs hb
    obtain ⟨⟨n, hn, hk, hch⟩, hfl, hfr⟩ := Shape.fits_setop.mp hg.1
    obtain ⟨hF, hsl, hsr⟩ := hs
    subst hF
    obtain ⟨hgl, hgr, _, _, _⟩ := hg.of_setop
    obtain ⟨k, rfl⟩ : ∃ k, fuel = k + 1 := ⟨fuel - 1, by simp [Shape.bound] at hb; omega⟩
    have hbl : l.bound ≤ k := by simp only [Shape.bound] at hb; omega
    have hbr : r.bound ≤ k := by simp only [Shape.bound] at hb; omega
    have hc0 : n.children[0]? = some l.root := by rw [hch]; rfl
    have hc1 : n.children[1]? = some r.root := by rw [hch]; rfl
    have hgc0 : getChild n 0 = .ok l.root := by simp [getChild, hch]
    have hgc1 : getChild n 1 = .ok r.root := by simp [getChild, hch]
    have hl0 : l.root < nodes.length := Shape.fits_lt hfl l.root l.root_mem_ids
    have hr0 : r.root < nodes.length := Shape.fits_lt hfr r.root r.root_mem_ids
    obtain ⟨nl, hnl⟩ : ∃ nl, nodes[l.root]? = some nl :=
      ⟨nodes[l.root], List.getElem?_eq_getElem hl0⟩
    obtain ⟨nr, hnr⟩ : ∃ nr, nodes[r.root]? = some nr :=
      ⟨nodes[r.root], List.getElem?_eq_getElem hr0⟩
    have hpush0 := pushToChild_same hn hc0 (ihl nodes [] k hgl hsl hbl)
    have hpush1 := pushToChild_same hn hc1 (ihr nodes [] k hgr hsr hbr)
    rw [Shape.root, pushdownFilters_setop_eq h sep k nodes id n [] hn hk]
    unfold pushdownSetOp
    simp only [hgc0, hgc1, bind, Except.bind, getNode_eq hnl, getNode_eq hnr, List.map_nil,
      hpush0, hpush1, pure, Except.pure]
  | filter id c ih =>
    intro nodes F fuel hg hs hb
    obtain ⟨⟨n, hn, hk, hch⟩, hfc⟩ := Shape.fits_filter.mp hg.1
    obtain ⟨hF, n1, hn1, hne, hap, hsc⟩ := hs
    rw [hn] at hn1
    injection hn1 with hn1
    subst hn1
    subst hF
    obtain ⟨k, rfl⟩ : ∃ k, fuel = k + 1 := ⟨fuel - 1, by simp [Shape.bound] at hb; omega⟩
    have hbc : c.bound ≤ k := by simp only [Shape.bound] at hb; omega
    have hcall := ih nodes n.filterList k hg.of_filter.1 hsc hbc
    have hpos : n.filterList.length > 0 := List.length_pos.mpr hne
    have hgc0 : getChild n 0 = .ok c.root := by simp [getChild, hch]
    have hi0 : 0 < n.children.length := by rw [hch]; simp
    have hsame : ({ n with children := n.children.set 0 c.root } : Node) = n := by
      have : n.children.set 0 c.root = n.children := by rw [hch]; rfl
      rw [this]
    rw [Shape.root, pushdownFilters_filter_eq h sep k nodes id n [] hn hk]
    unfold pushdownFilter
    simp only [hap, hgc0, bind, Except.bind, hcall, hpos, if_true, setChild_eq hn hi0, hsame,
      set_self_of_getElem? hn, modifyNode_eq hn, pure, Except.pure]
  | join id l r ihl ihr =>
    intro nodes F fuel hg hs hb
    obtain ⟨⟨n, hn, hk, hch, hmark⟩, hfl, hfr⟩ := Shape.fits_join.mp hg.1
    obtain ⟨⟨n1, mt, hn1, hmt, hcl, hd⟩, hsl, hsr⟩ := hs
    rw [hn] at hn1
    injection hn1 with hn1
    subst hn1
    obtain ⟨hgl, hgr, _, _, _⟩ := hg.of_join
    obtain ⟨k, rfl⟩ : ∃ k, fuel = k + 1 := ⟨fuel - 1, by simp [Shape.bound] at hb; omega⟩
    have hbl : l.bound ≤ k := by simp only [Shape.bound] at hb; omega
    have hbr : r.bound ≤ k := by simp only [Shape.bound] at hb; omega
    have hcl0 := ihl nodes [] k hgl hsl hbl
    have hcr0 := ihr nodes [] k hgr hsr hbr
    have hgc0 : getChild n 0 = .ok l.root := by simp [getChild, hch]
    have hgc1 : getChild n 1 = .ok r.root := by simp [getChild, hch]
    have hi0 : 0 < n.children.length := by rw [hch]; simp
    have hi1 : 1 < n.children.length := by rw [hch]; simp
    have hsame0 : ({ n with children := n.children.set 0 l.root } : Node) = n := by
      have : n.children.set 0 l.root = n.children := by rw [hch]; rfl
      rw [this]
    have hsame1 : ({ n with children := n.children.set 1 r.root } : Node) = n := by
      have : n.children.set 1 r.root = n.children := by rw [hch]; rfl
      rw [this]
    have hpush0 : pushToChild (pushdownFilters h sep k) nodes id 0 [] = .ok nodes := by
      unfold pushToChild
      simp only [getNode_eq hn, hgc0, bind, Except.bind, hcl0, List.length_nil, gt_iff_lt,
        lt_self_iff_false, if_false, setChild_eq hn hi0, hsame0, set_self_of_getElem? hn]
    have hpush1 : pushToChild (pushdownFilters h sep k) nodes id 1 [] = .ok nodes := by
      unfold pushToChild
      simp only [getNode_eq hn, hgc1, bind, Except.bind, hcr0, List.length_nil, gt_iff_lt,
        lt_self_iff_false, if_false, setChild_eq hn hi1, hsame1, set_self_of_getElem? hn]
    have hded : pushDeduced h (pushdownFilters h sep k) nodes id [] [] = .ok nodes := by
      unfold pushDeduced
      by_cases hin : n.joinType = .INNER
      · simp only [getNode_eq hn, bind, Except.bind, hin, if_true, hgc0, hgc1, hd hin, hcl0,
          hcr0, pure, Except.pure]
      · simp only [getNode_eq hn, bind, Except.bind, hin, if_false, pure, Except.pure]
    rw [Shape.root, pushdownFilters_join_eq h sep k nodes id n F hn hk]
    unfold pushdownJoin
    simp only [hgc0, hgc1, bind, Except.bind, hmt, hcl, modifyNode_eq hn,
      set_self_of_getElem? hn, hded, hpush0, hpush1, pure, Except.pure]

/-- A call on a `JOIN` node, put together from its steps: the classification and the three
blocks that follow it. -/
theorem pushdownFilters_join_steps (h : Helpers) (sep : Bool) (fuel : Nat)
    (nodes : Nodes) (nodeID c0 c1 : Nat) (mt : Int) (node : Node) (filters : List Expr)
    (st : JoinState) (nodes2 nodes3 nodes4 : Nodes)
    (hn : nodes[nodeID]? = some node) (hk : node.nodeType = .JOIN)
    (hc0 : node.children[0]? = some c0) (hc1 : node.children[1]? = some c1)
    (hm : getMarkTag node = .ok mt)
    (hst : classifyJoinFilters h sep (h.enumerateTags nodes c0) (h.enumerateTags nodes c1) mt
      node filters = .ok st)
    (h2 : pushDeduced h (pushdownFilters h sep fuel)
        (nodes.set nodeID { node with
          joinType := st.joinType, bindingTags := st.bindingTags, onList := st.onList })
        nodeID st.leftPushdown st.rightPushdown = .ok nodes2)
    (h3 : pushToChild (pushdownFilters h sep fuel) nodes2 nodeID 0 st.leftPushdown = .ok nodes3)
    (h4 : pushToChild (pushdownFilters h sep fuel) nodes3 nodeID 1 st.rightPushdown = .ok nodes4) :
    pushdownFilters h sep (fuel + 1) nodes nodeID filters = .ok (nodes4, nodeID, st.cantPushdown) := by
  rw [pushdownFilters_join_chain h sep fuel nodes nodeID c0 c1 mt node filters st hn hk hc0 hc1
    hm hst, h2]
  simp only [Except.bind, h3, h4, Except.map]

/-- The sample `enumerateTags` on a tree in which no `FILTER` carries a binding tag: the
binding tags in sight from the root. -/
theorem exSightTags_eq {nodes : Nodes} : ∀ (t : Shape) (k : Nat), t.fits nodes = true →
    t.bare nodes = true → t.ids.length ≤ k → exSightTags nodes k t.root = t.tags nodes
  | .scan id, k, hf, hb, hk => by
    obtain ⟨n, hn, hs⟩ := Shape.fits_scan.mp hf
    obtain ⟨k, rfl⟩ : ∃ j, k = j + 1 := ⟨k - 1, by simp [Shape.ids] at hk; omega⟩
    have hch : n.children = [] := by
      simpa [Shape.bare, hn] using hb
    have hj : n.nodeType ≠ .JOIN := by rcases hs with hs | hs <;> rw [hs] <;> decide
    cases hbt : n.bindingTags <;>
      simp [exSightTags, Shape.root, Shape.tags, hn, hch, hbt, hj]
  | .leaf id, k, hf, hb, hk => by
    obtain ⟨n, hn, hs, hch⟩ := Shape.fits_leaf.mp hf
    obtain ⟨k, rfl⟩ : ∃ j, k = j + 1 := ⟨k - 1, by simp [Shape.ids] at hk; omega⟩
    have hj : n.nodeType ≠ .JOIN := by
      intro hj
      rw [hj] at hs
      cases hs
    cases hbt : n.bindingTags <;>
      simp [exSightTags, Shape.root, Shape.tags, hn, hch, hbt, hj]
  | .filter id c, k, hf, hb, hk => by
    obtain ⟨⟨n, hn, hs, hch⟩, hc⟩ := Shape.fits_filter.mp hf
    obtain ⟨k, rfl⟩ : ∃ j, k = j + 1 := ⟨k - 1, by simp [Shape.ids] at hk; omega⟩
    have hb2 : n.bindingTags = [] ∧ c.bare nodes = true := by
      simpa [Shape.bare, hn] using hb
    have ih := exSightTags_eq c k hc hb2.2 (by simp [Shape.ids] at hk; omega)
    show exSightTags nodes (k + 1) id = c.tags nodes
    rw [exSightTags]
    simp [hn, hch, ih, hb2.1]
  | .unary id c, k, hf, hb, hk => by
    obtain ⟨⟨n, hn, hs, hch⟩, hc⟩ := Shape.fits_unary.mp hf
    obtain ⟨k, rfl⟩ : ∃ j, k = j + 1 := ⟨k - 1, by simp [Shape.ids] at hk; omega⟩
    have ih := exSightTags_eq c k hc hb (by simp [Shape.ids] at hk; omega)
    have hj : n.nodeType ≠ .JOIN := by
      intro hj
      rw [hj] at hs
      cases hs
    show exSightTags nodes (k + 1) id = ownTags nodes id (c.tags nodes)
    rw [exSightTags]
    cases hbt : n.bindingTags <;> simp [ownTags, hn, hch, ih, hbt, hj]
  | .join id l r, k, hf, hb, hk => by
    obtain ⟨⟨n, hn, hs, hch, _⟩, hl, hr⟩ := Shape.fits_join.mp hf
    obtain ⟨k, rfl⟩ : ∃ j, k = j + 1 := ⟨k - 1, by simp [Shape.ids] at hk; omega⟩
    obtain ⟨hbl, hbr⟩ := Shape.bare_join.mp hb
    have ihl := exSightTags_eq l k hl hbl (by simp [Shape.ids] at hk; omega)
    have ihr := exSightTags_eq r k hr hbr (by simp [Shape.ids] at hk; omega)
    rw [Shape.tags_join hn]
    show exSightTags nodes (k + 1) id = _
    rw [exSightTags]
    simp [hn, hch, ihl, ihr, hs]
  | .setop id l r, k, hf, hb, hk => by
    obtain ⟨⟨n, hn, hs, hch⟩, hl, hr⟩ := Shape.fits_setop.mp hf
    obtain ⟨k, rfl⟩ : ∃ j, k = j + 1 := ⟨k - 1, by simp [Shape.ids] at hk; omega⟩
    obtain ⟨hbl, hbr⟩ := Shape.bare_setop.mp hb
    have ihl := exSightTags_eq l k hl hbl (by simp [Shape.ids] at hk; omega)
    have ihr := exSightTags_eq r k hr hbr (by simp [Shape.ids] at hk; omega)
    have hj : n.nodeType ≠ .JOIN := by
      intro hj
      rw [hj] at hs
      cases hs
    show exSightTags nodes (k + 1) id = ownTags nodes id (l.tags nodes ++ r.tags nodes)
    rw [exSightTags]
    cases hbt : n.bindingTags <;> simp [ownTags, hn, hch, ihl, ihr, hbt, hj]

/-- The sample `enumerateTags` reports the same tags for two trees with the same binding tags
in sight. -/
theorem exSightHelpers_stableTags : exSightHelpers.stableTags := by
  intro nodes nodes1 t t1 hg hg1 hb hb1 ht
  show exSightTags nodes1 nodes1.length t1.root = exSightTags nodes nodes.length t.root
  rw [exSightTags_eq t1 nodes1.length hg1.1 hb1 (nodup_length_le hg1.2 (Shape.fits_lt hg1.1)),
    exSightTags_eq t nodes.length hg.1 hb (nodup_length_le hg.2 (Shape.fits_lt hg.1)), ht]

theorem exSightSplitHelpers_stableTags : exSightSplitHelpers.stableTags :=
  exSightHelpers_stableTags

theorem exListHelpers_stableTags : exListHelpers.stableTags := exSightHelpers_stableTags

theorem exDeduceHelpers_stableTags : exDeduceHelpers.stableTags := exSightHelpers_stableTags

/-- Every node of `planU_done` is calm. -/
theorem planU_done_calm (i k : Nat) (_ : i ∈ reachable planU_done k 4) :
    nodeCalm exSightSplitHelpers planU_done i := by
  intro n hn
  rcases i with _ | _ | _ | _ | _ | i
  · simp only [planU_done, List.getElem?_cons_zero, Option.some.injEq] at hn
    subst hn
    exact ⟨fun h => absurd h (by decide), fun h => absurd h (by decide)⟩
  · simp only [planU_done, List.getElem?_cons_succ, List.getElem?_cons_zero,
      Option.some.injEq] at hn
    subst hn
    exact ⟨fun h => absurd h (by decide), fun h => absurd h (by decide)⟩
  · simp only [planU_done, List.getElem?_cons_succ, List.getElem?_cons_zero,
      Option.some.injEq] at hn
    subst hn
    refine ⟨fun h => absurd h (by decide), fun _ => ⟨rfl, ?_, fun _ => rfl⟩⟩
    intro q hq
    obtain rfl : q = condLR := by simpa using hq
    exact ⟨by decide, by decide⟩
  · simp only [planU_done, List.getElem?_cons_succ, List.getElem?_cons_zero,
      Option.some.injEq] at hn
    subst hn
    refine ⟨fun _ => ?_, fun h => absurd h (by decide)⟩
    intro q hq
    obtain rfl : q = predRNull := by simpa using hq
    exact ⟨by decide, by decide⟩
  · simp only [planU_done, List.getElem?_cons_succ, List.getElem?_cons_zero,
      Option.some.injEq] at hn
    subst hn
    exact ⟨fun h => absurd h (by decide), fun h => absurd h (by decide)⟩
  · simp [planU_done] at hn

/-- The first run on `planU` clears no binding tag. -/
theorem planU_steady : Steady planU planU_done := by
  intro i n n1 hn hn1
  rcases i with _ | _ | _ | _ | _ | i
  · simp only [planU, planU_done, List.getElem?_cons_zero, Option.some.injEq] at hn hn1
    subst hn
    subst hn1
    rfl
  · simp only [planU, planU_done, List.getElem?_cons_succ, List.getElem?_cons_zero,
      Option.some.injEq] at hn hn1
    subst hn
    subst hn1
    rfl
  · simp only [planU, planU_done, List.getElem?_cons_succ, List.getElem?_cons_zero,
      Option.some.injEq] at hn hn1
    subst hn
    subst hn1
    rfl
  · simp only [planU, planU_done, List.getElem?_cons_succ, List.getElem?_cons_zero,
      Option.some.injEq] at hn hn1
    subst hn
    subst hn1
    rfl
  · simp only [planU, planU_done, List.getElem?_cons_succ, List.getElem?_cons_zero,
      Option.some.injEq] at hn hn1
    subst hn
    subst hn1
    rfl
  · simp [planU] at hn

/-- The first run of `pushdownFilters` on `planV`, step by step: the root join sends the mark
column to the mark join, which becomes a semi join and gives up its binding tag. -/
theorem planV_run :
    pushdownFilters exSightHelpers false 3 planV 4 [] = .ok (planV_once, 4, []) :=
  pushdownFilters_join_steps exSightHelpers false 2 planV 4 3 2 0
    { nodeType := .JOIN, children := [3, 2], joinType := .INNER, onList := [predMark, condMR] }
    [] planV_placed planV_mid planV_once planV_once (by decide) (by decide) (by decide)
    (by decide) (by decide) (by decide) (by decide) (by decide) (by decide)

/-! ## The claims -/

/-- C1: `canRemoveProject(parentType, node)` returns true if and only if the node's kind is
PROJECT, it has neither a limit nor an offset, the parent kind is none of DISTINCT, UNKNOWN,
UNION, UNION_ALL, MINUS, MINUS_ALL, INTERSECT, INTERSECT_ALL, FUNCTION_SCAN,
EXTERNAL_FUNCTION, and the node has a first child whose kind is none of VALUE_SCAN,
EXTERNAL_SCAN, FUNCTION_SCAN, EXTERNAL_FUNCTION. -/
theorem canRemoveProject_iff (nodes : Nodes) (parentType : NodeType) (node : Node) :
    canRemoveProject nodes parentType node = .ok true ↔
      (node.nodeType = .PROJECT ∧ node.limit = none ∧ node.offset = none ∧
        parentType ∉ [NodeType.DISTINCT, .UNKNOWN, .UNION, .UNION_ALL, .MINUS, .MINUS_ALL,
          .INTERSECT, .INTERSECT_ALL, .FUNCTION_SCAN, .EXTERNAL_FUNCTION] ∧
        ∃ c child, node.children[0]? = some c ∧ nodes[c]? = some child ∧
          child.nodeType ∉ [NodeType.VALUE_SCAN, .EXTERNAL_SCAN, .FUNCTION_SCAN,
            .EXTERNAL_FUNCTION]) := by
  unfold canRemoveProject getChild getNode
  by_cases hk : node.nodeType = .PROJECT
  swap
  · simp [hk]
  cases hl : node.limit
  swap
  · simp [hk, hl]
  cases ho : node.offset
  swap
  · simp [hk, hl, ho]
  cases parentType <;> simp [hk, hl, ho] <;>
  (cases hc : node.children[0]? with
   | none => simp [bind, Except.bind]
   | some c =>
     cases hch : nodes[c]? with
     | none => simp [bind, Except.bind, hch]
     | some child =>
       cases hct : child.nodeType <;> simp [bind, Except.bind, hch, hct])

/-- C4: `removeProjectionsForExpr(e, m)` is substitution.  A Column whose
(producerTag, position) is a key of `m` becomes `m`'s value for that key (a deep copy is
structurally equal to its original); a Column whose key is not in `m` and a Constant are
returned unchanged; a FunctionCall becomes the same function applied to the substituted
arguments, in order; with the empty map the result is `e` for every `e`. -/
theorem removeProjectionsForExpr_spec (m : ProjMap) (t : Typ) (r p : Int) (v : Const)
    (n : String) (args : List Expr) (e : Expr) :
    removeProjectionsForExpr (.col t r p) m =
        (match m.get? (r, p) with
          | some projExpr => projExpr
          | none => .col t r p) ∧
      removeProjectionsForExpr (.c t v) m = .c t v ∧
      removeProjectionsForExpr (.f t n args) m =
        .f t n (args.map (fun arg => removeProjectionsForExpr arg m)) ∧
      removeProjectionsForExpr e [] = e := by
  refine ⟨?_, rfl, ?_, removeProjectionsForExpr_nil e⟩
  · cases hm : m.get? (r, p) <;> simp [removeProjectionsForExpr, hm, DeepCopyExpr_eq]
  · simp [removeProjectionsForExpr, removeProjectionsForArgs_eq_map]

/-- C2: on a well-formed plan, take a node with the single child `c`.  The recursive call on
`c` returns an id `newC`.  If the node, after substitution, is eligible (`canRemoveProject`)
and every projectList entry is a bare Column or a Constant (fewer than 2^31 of them), the
call returns `newC` as result id and the returned map binds (bindingTags[0], i) to
projectList[i] for every position i.  Conversely, if the call returns an id other than the
input id, then the node is eligible and every projectList entry is a Column or a Constant. -/
theorem removeSimpleProjections_elides (rank : Nat → Nat) (fuel : Nat) (nodes : Nodes)
    (nodeID c : Nat) (parentType : NodeType) (node : Node) (hwf : WellFormed rank nodes)
    (hn : nodes[nodeID]? = some node) (hc : node.children = [c]) (hfuel : rank nodeID ≤ fuel) :
    ∃ nodesC newC mC,
      removeSimpleProjections fuel nodes c node.nodeType = .ok (nodesC, newC, mC) ∧
      (let node2 := Node.removeProjections { node with children := [newC] } (ProjMap.merge [] mC)
       let nodes2 := nodesC.set nodeID node2
       (canRemoveProject nodes2 parentType node2 = .ok true →
          (∀ e ∈ node2.projectList, e.isCol = true ∨ e.isC = true) →
          node2.projectList.length ≤ 2147483648 →
          ∃ tag m, node.bindingTags[0]? = some tag ∧
            removeSimpleProjections (fuel + 1) nodes nodeID parentType = .ok (nodes2, newC, m) ∧
            ∀ (i : Nat) (hi : i < node2.projectList.length),
              m.get? (tag, (i : Int)) = some node2.projectList[i]) ∧
       (∀ nodes3 id3 m3,
          removeSimpleProjections (fuel + 1) nodes nodeID parentType = .ok (nodes3, id3, m3) →
          id3 ≠ nodeID →
          canRemoveProject nodes2 parentType node2 = .ok true ∧
            ∀ e ∈ node2.projectList, e.isCol = true ∨ e.isC = true)) := by
  obtain ⟨nodesC, newC, mC, hcall, hloop⟩ :=
    removeChildProjections_single rank fuel nodes nodeID c node hwf hn hc hfuel
  obtain ⟨nodes1, m1, children1, hloop1, hwf1, hn1, hunf⟩ :=
    removeSimpleProjections_node rank fuel nodes nodeID parentType node hwf hn hfuel
  rw [hloop] at hloop1
  injection hloop1 with hinj
  injection hinj with hnodes hm
  subst hnodes
  subst hm
  have hlt : nodeID < nodesC.length := by
    have := getElem?_lt hn1
    simpa using this
  have hn1b : (nodesC.set nodeID { node with children := [newC] })[nodeID]? =
      some { node with children := [newC] } := List.getElem?_set_self hlt
  have hcases := removeProjectionsAt_cases hwf1 hn1b parentType (ProjMap.merge [] mC)
  rw [List.set_set] at hcases
  refine ⟨nodesC, newC, mC, hcall, ?_⟩
  intro node2 nodes2
  constructor
  · intro helig htriv hlen
    rcases hcases with ⟨_, _, tag, c2, htag, hc2, hres⟩ | ⟨hnot, _⟩
    · have hc2b : c2 = newC := by simpa using hc2.symm
      subst hc2b
      refine ⟨tag, _, htag, hunf.trans hres, ?_⟩
      intro i hi
      have := recordProjections_get? tag node2.projectList 0 (ProjMap.merge [] mC)
        (by simpa using hlen) i hi
      simpa using this
    · rcases hnot with hnot | hnot
      · rw [helig] at hnot
        cases hnot
      · rw [(allColRef_iff _).mpr htriv] at hnot
        cases hnot
  · intro nodes3 id3 m3 hret hne
    rw [hunf] at hret
    rcases hcases with ⟨helig, hall, _⟩ | ⟨_, hres⟩
    · exact ⟨helig, (allColRef_iff _).mp hall⟩
    · rw [hres] at hret
      injection hret with hinj
      injection hinj with _ hinj2
      injection hinj2 with hid _
      exact absurd hid.symm hne

/-- Witness of C2 on the inner `PROJECT` of `planA`, under a `FILTER` parent. -/
theorem removeSimpleProjections_elides_witness :
    WellFormed id planA ∧ planA[1]? = some planA_inner ∧ planA_inner.children = [0] ∧
    id 1 ≤ 1 ∧
    (∃ nodesC newC mC,
      removeSimpleProjections 1 planA 0 planA_inner.nodeType = .ok (nodesC, newC, mC) ∧
      (let node2 := Node.removeProjections { planA_inner with children := [newC] }
          (ProjMap.merge [] mC)
       let nodes2 := nodesC.set 1 node2
       (canRemoveProject nodes2 .FILTER node2 = .ok true →
          (∀ e ∈ node2.projectList, e.isCol = true ∨ e.isC = true) →
          node2.projectList.length ≤ 2147483648 →
          ∃ tag m, planA_inner.bindingTags[0]? = some tag ∧
            removeSimpleProjections (1 + 1) planA 1 .FILTER = .ok (nodes2, newC, m) ∧
            ∀ (i : Nat) (hi : i < node2.projectList.length),
              m.get? (tag, (i : Int)) = some node2.projectList[i]) ∧
       (∀ nodes3 id3 m3,
          removeSimpleProjections (1 + 1) planA 1 .FILTER = .ok (nodes3, id3, m3) →
          id3 ≠ 1 →
          canRemoveProject nodes2 .FILTER node2 = .ok true ∧
            ∀ e ∈ node2.projectList, e.isCol = true ∨ e.isC = true))) ∧
    removeSimpleProjections (1 + 1) planA 1 .FILTER =
      .ok (planA, 0, [((5, 1), .col {} 1 1), ((5, 0), .col {} 1 0)]) :=
  ⟨by decide, by decide, by decide, by decide,
    removeSimpleProjections_elides id 1 planA 1 0 .FILTER planA_inner (by decide) (by decide)
      (by decide) (by decide), by decide⟩

/-- C3, counterexample: on `planA` the `FILTER` node (under a `SORT` parent) is not eligible
and is not elided, the call returns its own id 2, yet the returned map is not empty: it
holds the two entries recorded by the elided `PROJECT` below. -/
theorem removeSimpleProjections_kept_map_nonempty :
    removeSimpleProjections 3 planA 2 .SORT =
        .ok (planA_filterDone, 2, [((5, 1), .col {} 1 1), ((5, 0), .col {} 1 0)]) ∧
      canRemoveProject planA_filterDone .SORT
        { nodeType := .FILTER, children := [0],
          filterList := [.f {} ">" [.col {} 1 0, .c {} (.ival 1)]] } = .ok false := by
  decide

/-- C3, amended: on a well-formed plan, for every node that is not elided (not eligible, or
with a projectList entry that is neither a Column nor a Constant), the call returns the
node's own id and the map merged from the maps its children's calls returned; that map is
empty when the node has no children. -/
theorem removeSimpleProjections_kept (rank : Nat → Nat) (fuel : Nat) (nodes : Nodes)
    (nodeID : Nat) (parentType : NodeType) (node : Node) (hwf : WellFormed rank nodes)
    (hn : nodes[nodeID]? = some node) (hfuel : rank nodeID ≤ fuel) :
    ∃ nodes1 m1 node1,
      removeChildProjections (removeSimpleProjections fuel) nodeID node.children.length 0
        nodes [] = .ok (nodes1, m1) ∧
      nodes1[nodeID]? = some node1 ∧
      (node.children = [] → m1 = []) ∧
      (let node2 := node1.removeProjections m1
       let nodes2 := nodes1.set nodeID node2
       (canRemoveProject nodes2 parentType node2 = .ok false ∨
          ¬ (∀ e ∈ node2.projectList, e.isCol = true ∨ e.isC = true)) →
        removeSimpleProjections (fuel + 1) nodes nodeID parentType =
          .ok (nodes2, nodeID, m1)) := by
  obtain ⟨nodes1, m1, children1, hloop, hwf1, hn1, hunf⟩ :=
    removeSimpleProjections_node rank fuel nodes nodeID parentType node hwf hn hfuel
  refine ⟨nodes1, m1, _, hloop, hn1, ?_, ?_⟩
  · intro hnil
    rw [hnil] at hloop
    simp [removeChildProjections] at hloop
    exact hloop.2
  · intro node2 nodes2 hnot
    rcases removeProjectionsAt_cases hwf1 hn1 parentType m1 with
      ⟨helig, hall, _⟩ | ⟨_, hres⟩
    · rcases hnot with hnot | hnot
      · rw [helig] at hnot
        cases hnot
      · exact absurd ((allColRef_iff _).mp hall) hnot
    · exact hunf.trans hres

/-- Witness of C3 (amended) on the `FILTER` node of `planA`. -/
theorem removeSimpleProjections_kept_witness :
    WellFormed id planA ∧ planA[2]? = some planA_filter ∧ id 2 ≤ 2 ∧
    ∃ nodes1 m1 node1,
      removeChildProjections (removeSimpleProjections 2) 2 planA_filter.children.length 0
        planA [] = .ok (nodes1, m1) ∧
      nodes1[2]? = some node1 ∧
      (planA_filter.children = [] → m1 = []) ∧
      (let node2 := node1.removeProjections m1
       let nodes2 := nodes1.set 2 node2
       (canRemoveProject nodes2 .SORT node2 = .ok false ∨
          ¬ (∀ e ∈ node2.projectList, e.isCol = true ∨ e.isC = true)) →
        removeSimpleProjections (2 + 1) planA 2 .SORT = .ok (nodes2, 2, m1)) :=
  ⟨by decide, by decide, by decide,
    removeSimpleProjections_kept id 2 planA 2 .SORT planA_filter (by decide) (by decide)
      (by decide)⟩

/-- C5: on a well-formed plan, after `removeSimpleProjections` visits a node, each of the
node's projectList, onList, filterList, groupBy, groupingSet and aggList, and the expression
of each orderBy entry, is the element-by-element substitution (`removeProjectionsForExpr`)
of its previous content by the map merged from the maps returned by the node's children;
every list keeps its length and order. -/
theorem removeSimpleProjections_substitutes (rank : Nat → Nat) (fuel : Nat) (nodes : Nodes)
    (nodeID : Nat) (parentType : NodeType) (node : Node) (hwf : WellFormed rank nodes)
    (hn : nodes[nodeID]? = some node) (hfuel : rank nodeID ≤ fuel) :
    ∃ nodes1 m1 nodes2 id2 m2 node2,
      removeChildProjections (removeSimpleProjections fuel) nodeID node.children.length 0
        nodes [] = .ok (nodes1, m1) ∧
      removeSimpleProjections (fuel + 1) nodes nodeID parentType = .ok (nodes2, id2, m2) ∧
      nodes2[nodeID]? = some node2 ∧
      node2.projectList = node.projectList.map (fun e => removeProjectionsForExpr e m1) ∧
      node2.onList = node.onList.map (fun e => removeProjectionsForExpr e m1) ∧
      node2.filterList = node.filterList.map (fun e => removeProjectionsForExpr e m1) ∧
      node2.groupBy = node.groupBy.map (fun e => removeProjectionsForExpr e m1) ∧
      node2.groupingSet = node.groupingSet.map (fun e => removeProjectionsForExpr e m1) ∧
      node2.aggList = node.aggList.map (fun e => removeProjectionsForExpr e m1) ∧
      node2.orderBy =
        node.orderBy.map (fun o => { o with expr := removeProjectionsForExpr o.expr m1 }) := by
  obtain ⟨nodes1, m1, children1, hloop, hwf1, hn1, hunf⟩ :=
    removeSimpleProjections_node rank fuel nodes nodeID parentType node hwf hn hfuel
  have hn2 : (nodes1.set nodeID
      (Node.removeProjections { node with children := children1 } m1))[nodeID]? =
      some (Node.removeProjections { node with children := children1 } m1) :=
    List.getElem?_set_self (getElem?_lt hn1)
  have hlists : ∀ id2 m2,
      removeSimpleProjections (fuel + 1) nodes nodeID parentType =
        .ok (nodes1.set nodeID (Node.removeProjections { node with children := children1 } m1),
          id2, m2) → _ := fun id2 m2 hres =>
    (⟨nodes1, m1, _, id2, m2, _, hloop, hres, hn2,
      removeProjectionsForExprList_eq_map _ _, removeProjectionsForExprList_eq_map _ _,
      removeProjectionsForExprList_eq_map _ _, removeProjectionsForExprList_eq_map _ _,
      removeProjectionsForExprList_eq_map _ _, removeProjectionsForExprList_eq_map _ _,
      removeProjectionsForOrderBy_eq_map _ _⟩ : ∃ nodes1 m1 nodes2 id2 m2 node2,
      removeChildProjections (removeSimpleProjections fuel) nodeID node.children.length 0
        nodes [] = .ok (nodes1, m1) ∧
      removeSimpleProjections (fuel + 1) nodes nodeID parentType = .ok (nodes2, id2, m2) ∧
      nodes2[nodeID]? = some node2 ∧
      node2.projectList = node.projectList.map (fun e => removeProjectionsForExpr e m1) ∧
      node2.onList = node.onList.map (fun e => removeProjectionsForExpr e m1) ∧
      node2.filterList = node.filterList.map (fun e => removeProjectionsForExpr e m1) ∧
      node2.groupBy = node.groupBy.map (fun e => removeProjectionsForExpr e m1) ∧
      node2.groupingSet = node.groupingSet.map (fun e => removeProjectionsForExpr e m1) ∧
      node2.aggList = node.aggList.map (fun e => removeProjectionsForExpr e m1) ∧
      node2.orderBy =
        node.orderBy.map (fun o => { o with expr := removeProjectionsForExpr o.expr m1 }))
  rcases removeProjectionsAt_cases hwf1 hn1 parentType m1 with
    ⟨_, _, tag, c, _, _, hres⟩ | ⟨_, hres⟩
  · exact hlists _ _ (hunf.trans hres)
  · exact hlists _ _ (hunf.trans hres)

/-- Witness of C5 on the `FILTER` node of `planA`, whose filter `s.a > 1` becomes `t.a > 1`. -/
theorem removeSimpleProjections_substitutes_witness :
    WellFormed id planA ∧ planA[2]? = some planA_filter ∧ id 2 ≤ 2 ∧
    (∃ nodes1 m1 nodes2 id2 m2 node2,
      removeChildProjections (removeSimpleProjections 2) 2 planA_filter.children.length 0
        planA [] = .ok (nodes1, m1) ∧
      removeSimpleProjections (2 + 1) planA 2 .SORT = .ok (nodes2, id2, m2) ∧
      nodes2[2]? = some node2 ∧
      node2.projectList =
        planA_filter.projectList.map (fun e => removeProjectionsForExpr e m1) ∧
      node2.onList = planA_filter.onList.map (fun e => removeProjectionsForExpr e m1) ∧
      node2.filterList = planA_filter.filterList.map (fun e => removeProjectionsForExpr e m1) ∧
      node2.groupBy = planA_filter.groupBy.map (fun e => removeProjectionsForExpr e m1) ∧
      node2.groupingSet =
        planA_filter.groupingSet.map (fun e => removeProjectionsForExpr e m1) ∧
      node2.aggList = planA_filter.aggList.map (fun e => removeProjectionsForExpr e m1) ∧
      node2.orderBy = planA_filter.orderBy.map
        (fun o => { o with expr := removeProjectionsForExpr o.expr m1 })) ∧
    removeSimpleProjections (2 + 1) planA 2 .SORT =
      .ok (planA_filterDone, 2, [((5, 1), .col {} 1 1), ((5, 0), .col {} 1 0)]) :=
  ⟨by decide, by decide, by decide,
    removeSimpleProjections_substitutes id 2 planA 2 .SORT planA_filter (by decide) (by decide)
      (by decide), by decide⟩

/-- C6: on a well-formed plan, `removeSimpleProjections` called on the root with parent kind
UNKNOWN returns the root's own id (the root is never elided), and the root's projectList
has the same number of entries after the pass as before. -/
theorem removeSimpleProjections_root (rank : Nat → Nat) (fuel : Nat) (nodes : Nodes)
    (root : Nat) (node : Node) (hwf : WellFormed rank nodes) (hn : nodes[root]? = some node)
    (hfuel : rank root < fuel) :
    ∃ nodes2 m2 node2,
      removeSimpleProjections fuel nodes root .UNKNOWN = .ok (nodes2, root, m2) ∧
      nodes2[root]? = some node2 ∧
      node2.projectList.length = node.projectList.length := by
  obtain ⟨fuel, rfl⟩ : ∃ f, fuel = f + 1 := ⟨fuel - 1, by omega⟩
  obtain ⟨nodes1, m1, children1, _, hwf1, hn1, hunf⟩ :=
    removeSimpleProjections_node rank fuel nodes root .UNKNOWN node hwf hn (by omega)
  rcases removeProjectionsAt_cases hwf1 hn1 .UNKNOWN m1 with ⟨helig, _⟩ | ⟨_, hres⟩
  · exact absurd helig (canRemoveProject_unknown _ _)
  · refine ⟨_, _, _, hunf.trans hres, List.getElem?_set_self (getElem?_lt hn1), ?_⟩
    simp [Node.removeProjections, removeProjectionsForExprList_eq_map]

/-- Witness of C6 on `planA`, whose root is node 3. -/
theorem removeSimpleProjections_root_witness :
    WellFormed id planA ∧ planA[3]? = some planA_root ∧ id 3 < 4 ∧
    ∃ nodes2 m2 node2,
      removeSimpleProjections 4 planA 3 .UNKNOWN = .ok (nodes2, 3, m2) ∧
      nodes2[3]? = some node2 ∧
      node2.projectList.length = planA_root.projectList.length :=
  ⟨by decide, by decide, by decide,
    removeSimpleProjections_root id 4 planA 3 planA_root (by decide) (by decide) (by decide)⟩

/-- C7: for every TABLE_SCAN or EXTERNAL_SCAN node and every list of filters,
`pushdownFilters` returns the node's own id and an empty unplaced list; the arena it leaves
is the old one with this node's filterList followed by the incoming filters, in order, and
nothing else changed. -/
theorem pushdownFilters_scan (h : Helpers) (separateNonEquiConds : Bool) (fuel : Nat)
    (nodes : Nodes) (nodeID : Nat) (node : Node) (filters : List Expr)
    (hn : nodes[nodeID]? = some node)
    (hk : node.nodeType = .TABLE_SCAN ∨ node.nodeType = .EXTERNAL_SCAN) :
    pushdownFilters h separateNonEquiConds (fuel + 1) nodes nodeID filters =
      .ok (nodes.set nodeID { node with filterList := node.filterList ++ filters },
        nodeID, []) := by
  rcases hk with hk | hk <;>
    simp [pushdownFilters, pushdownScan, getNode_eq hn, hk, bind, Except.bind,
      modifyNode_eq hn, pure, Except.pure]

/-- Witness of C7 on the table scan of `planP`. -/
theorem pushdownFilters_scan_witness :
    planP[0]? = some { nodeType := .TABLE_SCAN, bindingTags := [1] } ∧
    (({ nodeType := .TABLE_SCAN, bindingTags := [1] } : Node).nodeType = .TABLE_SCAN ∨
      ({ nodeType := .TABLE_SCAN, bindingTags := [1] } : Node).nodeType = .EXTERNAL_SCAN) ∧
    pushdownFilters exHelpers false (0 + 1) planP 0 [.c {} (.bval false)] =
      .ok (planP.set 0
        { ({ nodeType := .TABLE_SCAN, bindingTags := [1] } : Node) with
          filterList := ({ nodeType := .TABLE_SCAN, bindingTags := [1] } : Node).filterList ++
            [.c {} (.bval false)] }, 0, []) :=
  ⟨by decide, Or.inl rfl,
    pushdownFilters_scan exHelpers false 0 planP 0 { nodeType := .TABLE_SCAN, bindingTags := [1] }
      [.c {} (.bval false)] (by decide) (Or.inl rfl)⟩

/-- C8: a FILTER node passes to its child the incoming filters followed by the conjuncts of
each of its own filters (`splitPlanConjunction` of `applyDistributivity`), and returns an
empty unplaced list.  If the child's call returns no residue, the result id is the id the
child's call returned; otherwise the result id is the FILTER's own id, its first child slot
holds the id the child's call returned and its filterList is the child's residue. -/
theorem pushdownFilters_filter (h : Helpers) (separateNonEquiConds : Bool) (fuel : Nat)
    (nodes nodes1 : Nodes) (nodeID c childID : Nat) (node : Node)
    (filters residue : List Expr)
    (hn : nodes[nodeID]? = some node) (hk : node.nodeType = .FILTER)
    (hc : node.children[0]? = some c)
    (hcall : pushdownFilters h separateNonEquiConds fuel nodes c
      (filters ++ node.filterList.flatMap
        (fun filter => h.splitPlanConjunction (h.applyDistributivity filter))) =
      .ok (nodes1, childID, residue)) :
    (residue = [] →
      pushdownFilters h separateNonEquiConds (fuel + 1) nodes nodeID filters =
        .ok (nodes1, childID, [])) ∧
    (residue ≠ [] →
      ∃ node1, nodes1[nodeID]? = some node1 ∧
        pushdownFilters h separateNonEquiConds (fuel + 1) nodes nodeID filters =
          .ok (nodes1.set nodeID
            { node1 with children := node1.children.set 0 childID, filterList := residue },
            nodeID, [])) := by
  have hunf : pushdownFilters h separateNonEquiConds (fuel + 1) nodes nodeID filters =
      pushdownFilter h (pushdownFilters h separateNonEquiConds fuel) nodes nodeID node
        filters := by
    simp [pushdownFilters, getNode_eq hn, hk, bind, Except.bind]
  rw [hunf]
  unfold pushdownFilter getChild
  simp only [hc, bind, Except.bind, appendConjuncts_eq, hcall]
  constructor
  · intro hres
    simp [hres, pure, Except.pure]
  · intro hres
    obtain ⟨node1, hn1, _, hlen⟩ :=
      pushdownFilters_extends h separateNonEquiConds fuel _ _ _ _ hcall nodeID node hn
    have hi : 0 < node.children.length := getElem?_lt hc
    have hi1 : 0 < node1.children.length := by omega
    have hpos : residue.length > 0 := List.length_pos.mpr hres
    refine ⟨node1, hn1, ?_⟩
    have hn2 : (nodes1.set nodeID { node1 with children := node1.children.set 0 childID })[nodeID]? =
        some { node1 with children := node1.children.set 0 childID } :=
      List.getElem?_set_self (getElem?_lt hn1)
    simp [hpos, setChild_eq hn1 hi1, modifyNode_eq hn2, pure, Except.pure, List.set_set]

/-- Witness of C8 on `planF`: the scan absorbs `t.a > 1` and the FILTER is elided. -/
theorem pushdownFilters_filter_witness :
    planF[1]? = some planF_filter ∧ planF_filter.nodeType = .FILTER ∧
    planF_filter.children[0]? = some 0 ∧
    pushdownFilters exHelpers false 1 planF 0
      ([] ++ planF_filter.filterList.flatMap
        (fun filter => exHelpers.splitPlanConjunction (exHelpers.applyDistributivity filter))) =
      .ok (planF_pushed, 0, []) ∧
    (([] : List Expr) = [] →
      pushdownFilters exHelpers false (1 + 1) planF 1 [] = .ok (planF_pushed, 0, [])) ∧
    (([] : List Expr) ≠ [] →
      ∃ node1, planF_pushed[1]? = some node1 ∧
        pushdownFilters exHelpers false (1 + 1) planF 1 [] =
          .ok (planF_pushed.set 1
            { node1 with children := node1.children.set 0 0, filterList := [] }, 1, [])) :=
  ⟨by decide, by decide, by decide, by decide,
    pushdownFilters_filter exHelpers false 1 planF planF_pushed 1 0 0 planF_filter [] []
      (by decide) (by decide) (by decide) (by decide)⟩

/-- C9: for an AGG node with binding tags (groupTag, aggregateTag) and every list of filters,
the filters handed to the child are `replaceColRefs(f, groupTag, groupBy)` for the incoming
filters `f` that do not contain the aggregate tag, in order; once the child's call on them
returns, `pushdownFilters` returns the node's own id together with exactly the incoming
filters that contain the aggregate tag, in order.  Every incoming filter is on exactly one of
the two sides. -/
theorem pushdownFilters_agg (h : Helpers) (separateNonEquiConds : Bool) (fuel : Nat)
    (nodes nodes1 : Nodes) (nodeID c childID : Nat) (node : Node) (groupTag aggregateTag : Int)
    (filters residue : List Expr)
    (hn : nodes[nodeID]? = some node) (hk : node.nodeType = .AGG)
    (hg : node.bindingTags[0]? = some groupTag) (ha : node.bindingTags[1]? = some aggregateTag)
    (hc : node.children[0]? = some c)
    (hcall : pushdownFilters h separateNonEquiConds fuel nodes c
      ((filters.filter (fun f => !h.containsTag f aggregateTag)).map
        (fun f => h.replaceColRefs f groupTag node.groupBy)) = .ok (nodes1, childID, residue)) :
    (∃ nodes2, pushdownFilters h separateNonEquiConds (fuel + 1) nodes nodeID filters =
        .ok (nodes2, nodeID, filters.filter (fun f => h.containsTag f aggregateTag))) ∧
    pushdownFilters h separateNonEquiConds (fuel + 1) nodes nodeID filters =
      (pushToChild (pushdownFilters h separateNonEquiConds fuel) nodes nodeID 0
        ((filters.filter (fun f => !h.containsTag f aggregateTag)).map
          (fun f => h.replaceColRefs f groupTag node.groupBy))).map
        (fun nodes2 => (nodes2, nodeID, filters.filter (fun f => h.containsTag f aggregateTag))) ∧
    (filters.filter (fun f => !h.containsTag f aggregateTag)).length +
      (filters.filter (fun f => h.containsTag f aggregateTag)).length = filters.length := by
  have hunf : pushdownFilters h separateNonEquiConds (fuel + 1) nodes nodeID filters =
      (pushToChild (pushdownFilters h separateNonEquiConds fuel) nodes nodeID 0
        ((filters.filter (fun f => !h.containsTag f aggregateTag)).map
          (fun f => h.replaceColRefs f groupTag node.groupBy))).map
        (fun nodes2 =>
          (nodes2, nodeID, filters.filter (fun f => h.containsTag f aggregateTag))) := by
    simp only [pushdownFilters, getNode_eq hn, hk, bind, Except.bind, pushdownAgg, getTag, hg,
      ha, splitAggFilters_eq, List.nil_append, pure, Except.pure, Except.map]
  obtain ⟨nodes2, h2⟩ := pushToChild_ok (pushdownFilters_extends h separateNonEquiConds fuel)
    hn hc hcall
  refine ⟨⟨nodes2, ?_⟩, hunf, ?_⟩
  · rw [hunf, h2]
    rfl
  · exact filter_not_length_add (fun f => h.containsTag f aggregateTag) filters

/-- Witness of C9 on `planAgg`: `g.a > 1` is rewritten and pushed, `sum(b) > 5` is returned. -/
theorem pushdownFilters_agg_witness :
    planAgg[1]? = some planAgg_agg ∧ planAgg_agg.nodeType = .AGG ∧
    planAgg_agg.bindingTags[0]? = some 2 ∧ planAgg_agg.bindingTags[1]? = some 3 ∧
    planAgg_agg.children[0]? = some 0 ∧
    pushdownFilters exHelpers false 1 planAgg 0
      ((planAgg_filters.filter (fun f => !exHelpers.containsTag f 3)).map
        (fun f => exHelpers.replaceColRefs f 2 planAgg_agg.groupBy)) =
      .ok (planAgg_pushed, 0, []) ∧
    ((∃ nodes2, pushdownFilters exHelpers false (1 + 1) planAgg 1 planAgg_filters =
        .ok (nodes2, 1, planAgg_filters.filter (fun f => exHelpers.containsTag f 3))) ∧
    pushdownFilters exHelpers false (1 + 1) planAgg 1 planAgg_filters =
      (pushToChild (pushdownFilters exHelpers false 1) planAgg 1 0
        ((planAgg_filters.filter (fun f => !exHelpers.containsTag f 3)).map
          (fun f => exHelpers.replaceColRefs f 2 planAgg_agg.groupBy))).map
        (fun nodes2 => (nodes2, 1, planAgg_filters.filter (fun f => exHelpers.containsTag f 3))) ∧
    (planAgg_filters.filter (fun f => !exHelpers.containsTag f 3)).length +
      (planAgg_filters.filter (fun f => exHelpers.containsTag f 3)).length =
        planAgg_filters.length) ∧
    pushdownFilters exHelpers false (1 + 1) planAgg 1 planAgg_filters =
      .ok (planAgg_pushed, 1, [.f {} ">" [.col {} 3 0, .c {} (.ival 5)]]) :=
  ⟨by decide, by decide, by decide, by decide, by decide, by decide,
    pushdownFilters_agg exHelpers false 1 planAgg planAgg_pushed 1 0 0 planAgg_agg 2 3
      planAgg_filters [] (by decide) (by decide) (by decide) (by decide) (by decide) (by decide),
    by decide⟩

/-- C10: for a PROJECT node, if its child is a VALUE_SCAN or EXTERNAL_SCAN with no rowset
data, `pushdownFilters` returns the node's own id and all incoming filters unplaced, and the
arena is unchanged.  Otherwise the filters handed to the child are
`replaceColRefs(f, projectTag, projectList)` for each incoming filter `f`, in order, and
once the child's call on them returns, `pushdownFilters` returns the node's own id and an
empty unplaced list. -/
theorem pushdownFilters_project (h : Helpers) (separateNonEquiConds : Bool) (fuel : Nat)
    (nodes : Nodes) (nodeID c : Nat) (node child : Node) (filters : List Expr)
    (hn : nodes[nodeID]? = some node) (hk : node.nodeType = .PROJECT)
    (hc : node.children[0]? = some c) (hch : nodes[c]? = some child) :
    (((child.nodeType = .VALUE_SCAN ∨ child.nodeType = .EXTERNAL_SCAN) ∧
        child.rowsetData = none) →
      pushdownFilters h separateNonEquiConds (fuel + 1) nodes nodeID filters =
        .ok (nodes, nodeID, filters)) ∧
    (¬ ((child.nodeType = .VALUE_SCAN ∨ child.nodeType = .EXTERNAL_SCAN) ∧
        child.rowsetData = none) →
      ∀ (projectTag : Int) (nodes1 : Nodes) (childID : Nat) (residue : List Expr),
        node.bindingTags[0]? = some projectTag →
        pushdownFilters h separateNonEquiConds fuel nodes c
          (filters.map (fun f => h.replaceColRefs f projectTag node.projectList)) =
          .ok (nodes1, childID, residue) →
        (∃ nodes2, pushdownFilters h separateNonEquiConds (fuel + 1) nodes nodeID filters =
          .ok (nodes2, nodeID, [])) ∧
        pushdownFilters h separateNonEquiConds (fuel + 1) nodes nodeID filters =
          (pushToChild (pushdownFilters h separateNonEquiConds fuel) nodes nodeID 0
            (filters.map (fun f => h.replaceColRefs f projectTag node.projectList))).map
            (fun nodes2 => (nodes2, nodeID, []))) := by
  have hunf : pushdownFilters h separateNonEquiConds (fuel + 1) nodes nodeID filters =
      pushdownProject h (pushdownFilters h separateNonEquiConds fuel) nodes nodeID node
        filters := by
    simp [pushdownFilters, getNode_eq hn, hk, bind, Except.bind]
  rw [hunf]
  unfold pushdownProject getChild
  simp only [hc, getNode_eq hch, bind, Except.bind]
  constructor
  · intro hcond
    simp [hcond, pure, Except.pure]
  · intro hcond projectTag nodes1 childID residue htag hcall
    obtain ⟨nodes2, h2⟩ := pushToChild_ok
      (pushdownFilters_extends h separateNonEquiConds fuel) hn hc hcall
    simp only [hcond, if_false, getTag, htag, pure, Except.pure, Except.map]
    refine ⟨⟨nodes2, ?_⟩, trivial⟩
    rw [h2]

/-- Witness of C10 on `planP`, whose child is a table scan: `s.a > 1` is handed to the scan
as `t.a > 1`. -/
theorem pushdownFilters_project_witness :
    planP[1]? = some planP_project ∧ planP_project.nodeType = .PROJECT ∧
    planP_project.children[0]? = some 0 ∧
    planP[0]? = some { nodeType := .TABLE_SCAN, bindingTags := [1] } ∧
    ((((NodeType.TABLE_SCAN = .VALUE_SCAN ∨ NodeType.TABLE_SCAN = .EXTERNAL_SCAN) ∧
        (none : Option Unit) = none) →
      pushdownFilters exHelpers false (1 + 1) planP 1 [.f {} ">" [.col {} 5 0, .c {} (.ival 1)]] =
        .ok (planP, 1, [.f {} ">" [.col {} 5 0, .c {} (.ival 1)]])) ∧
    (¬ ((NodeType.TABLE_SCAN = .VALUE_SCAN ∨ NodeType.TABLE_SCAN = .EXTERNAL_SCAN) ∧
        (none : Option Unit) = none) →
      ∀ (projectTag : Int) (nodes1 : Nodes) (childID : Nat) (residue : List Expr),
        planP_project.bindingTags[0]? = some projectTag →
        pushdownFilters exHelpers false 1 planP 0
          ([Expr.f {} ">" [.col {} 5 0, .c {} (.ival 1)]].map
            (fun f => exHelpers.replaceColRefs f projectTag planP_project.projectList)) =
          .ok (nodes1, childID, residue) →
        (∃ nodes2, pushdownFilters exHelpers false (1 + 1) planP 1
            [.f {} ">" [.col {} 5 0, .c {} (.ival 1)]] = .ok (nodes2, 1, [])) ∧
        pushdownFilters exHelpers false (1 + 1) planP 1
            [.f {} ">" [.col {} 5 0, .c {} (.ival 1)]] =
          (pushToChild (pushdownFilters exHelpers false 1) planP 1 0
            ([Expr.f {} ">" [.col {} 5 0, .c {} (.ival 1)]].map
              (fun f => exHelpers.replaceColRefs f projectTag planP_project.projectList))).map
            (fun nodes2 => (nodes2, 1, [])))) ∧
    pushdownFilters exHelpers false (1 + 1) planP 1 [.f {} ">" [.col {} 5 0, .c {} (.ival 1)]] =
      .ok (planP_pushed, 1, []) :=
  ⟨by decide, by decide, by decide, by decide,
    pushdownFilters_project exHelpers false 1 planP 1 0 planP_project
      { nodeType := .TABLE_SCAN, bindingTags := [1] }
      [.f {} ">" [.col {} 5 0, .c {} (.ival 1)]] (by decide) (by decide) (by decide)
      (by decide), by decide⟩

/-- C11: a call of `pushdownFilters` on a JOIN node classifies the filters, hands the list
`leftPushdown` to the call on the left child and the list `rightPushdown` to the call on the
right child, and returns the list `cantPushdown`.  Of the filters the placement ranges over
(the incoming filters among them), one classified LEFT is in the list for the left child
when the join type after strength reduction is neither OUTER nor RIGHT, and is returned
unplaced, and not pushed, when the join type is OUTER or RIGHT; one classified RIGHT is in
the list for the right child when the join type is INNER or RIGHT, and is returned unplaced
when after strength reduction it is neither.  A filter classified LEFT is never in the list
for the right child and one classified RIGHT never in the list for the left child.  At each
step of the placement the filter goes to exactly one list, by the join type at that step. -/
theorem join_left_right_placement (h : Helpers) (separateNonEquiConds : Bool) (fuel : Nat)
    (nodes : Nodes) (nodeID c0 c1 : Nat) (node : Node) (leftTags rightTags : List Int)
    (markTag : Int) (filters : List Expr) (st : JoinState)
    (hn : nodes[nodeID]? = some node) (hk : node.nodeType = .JOIN)
    (hc0 : node.children[0]? = some c0) (hc1 : node.children[1]? = some c1)
    (hlt : leftTags = h.enumerateTags nodes c0) (hrt : rightTags = h.enumerateTags nodes c1)
    (hm : getMarkTag node = .ok markTag)
    (hst : classifyJoinFilters h separateNonEquiConds leftTags rightTags markTag node filters =
      .ok st) :
    pushdownFilters h separateNonEquiConds (fuel + 1) nodes nodeID filters =
      (pushDeduced h (pushdownFilters h separateNonEquiConds fuel)
        (nodes.set nodeID { node with
          joinType := st.joinType, bindingTags := st.bindingTags, onList := st.onList })
        nodeID st.leftPushdown st.rightPushdown).bind (fun nodes2 =>
        (pushToChild (pushdownFilters h separateNonEquiConds fuel) nodes2 nodeID 0
          st.leftPushdown).bind (fun nodes3 =>
            (pushToChild (pushdownFilters h separateNonEquiConds fuel) nodes3 nodeID 1
              st.rightPushdown).map (fun nodes4 => (nodes4, nodeID, st.cantPushdown)))) ∧
    (∀ f ∈ filters,
      f ∈ joinFilters h separateNonEquiConds leftTags rightTags markTag node filters) ∧
    (∀ f ∈ joinFilters h separateNonEquiConds leftTags rightTags markTag node filters,
      h.getJoinSide f leftTags rightTags markTag = JoinSideLeft →
      (f ∈ st.leftPushdown ∨ f ∈ st.cantPushdown) ∧ f ∉ st.rightPushdown ∧
      ((joinStart h leftTags rightTags markTag node filters).joinType ≠ .OUTER ∧
        (joinStart h leftTags rightTags markTag node filters).joinType ≠ .RIGHT →
        f ∈ st.leftPushdown ∧ f ∉ st.cantPushdown) ∧
      (st.joinType = .OUTER ∨ st.joinType = .RIGHT →
        f ∈ st.cantPushdown ∧ f ∉ st.leftPushdown)) ∧
    (∀ f ∈ joinFilters h separateNonEquiConds leftTags rightTags markTag node filters,
      h.getJoinSide f leftTags rightTags markTag = JoinSideRight →
      (f ∈ st.rightPushdown ∨ f ∈ st.cantPushdown) ∧ f ∉ st.leftPushdown ∧
      (st.joinType = .INNER ∨ st.joinType = .RIGHT →
        f ∈ st.rightPushdown ∧ f ∉ st.cantPushdown) ∧
      ((joinStart h leftTags rightTags markTag node filters).joinType ≠ .INNER ∧
        (joinStart h leftTags rightTags markTag node filters).joinType ≠ .RIGHT →
        f ∈ st.cantPushdown)) ∧
    (∀ (s : JoinState) (f : Expr),
      placeFilter h separateNonEquiConds leftTags rightTags markTag s f JoinSideLeft =
        .ok (if s.joinType ≠ .OUTER ∧ s.joinType ≠ .RIGHT then
          { s with leftPushdown := s.leftPushdown ++ [f] }
        else { s with cantPushdown := s.cantPushdown ++ [f] }) ∧
      placeFilter h separateNonEquiConds leftTags rightTags markTag s f JoinSideRight =
        .ok (if s.joinType = .INNER ∨ s.joinType = .RIGHT then
          { s with rightPushdown := s.rightPushdown ++ [f] }
        else { s with cantPushdown := s.cantPushdown ++ [f] })) := by
  have hsides := classifyJoinFilters_lists_sides hst
  refine ⟨by
      subst hlt hrt
      exact pushdownFilters_join_chain h separateNonEquiConds fuel nodes nodeID c0 c1 markTag
        node filters st hn hk hc0 hc1 hm hst, mem_joinFilters _ _ _ _ _ _ _, ?_, ?_,
    fun s f => ⟨placeFilter_left_eq _ _ _ _ _ s f, placeFilter_right_eq _ _ _ _ _ s f⟩⟩
  · intro f hf hside
    obtain ⟨s, s1, hs, hstep, hs1⟩ := classifyJoinFilters_step hst f hf
    rw [hside, placeFilter_left_eq] at hstep
    injection hstep with hstep
    obtain ⟨_, hty⟩ := hs.loop_mono
    obtain ⟨⟨m1, _, m3, _⟩, hty1⟩ := hs1.loop_mono
    have hty' : s.joinType = (joinStart h leftTags rightTags markTag node filters).joinType ∨
        s.joinType = .SEMI ∨ s.joinType = .ANTI := by
      rcases hty with ⟨a, _⟩ | ⟨a, _⟩
      · exact Or.inl a
      · exact Or.inr a
    have hs1t : s1.joinType = s.joinType := by
      rw [← hstep]; split <;> rfl
    have hfin : st.joinType = s.joinType ∨ st.joinType = .SEMI ∨ st.joinType = .ANTI := by
      rcases hty1 with ⟨a, _⟩ | ⟨a, _⟩
      · exact Or.inl (a.trans hs1t)
      · exact Or.inr a
    have hpos : s.joinType ≠ .OUTER ∧ s.joinType ≠ .RIGHT → f ∈ st.leftPushdown := by
      intro hc
      apply m1
      rw [← hstep, if_pos hc]
      simp
    have hneg : ¬ (s.joinType ≠ .OUTER ∧ s.joinType ≠ .RIGHT) → f ∈ st.cantPushdown := by
      intro hc
      apply m3
      rw [← hstep, if_neg hc]
      simp [JoinState.keep]
    refine ⟨?_, ?_, ?_, ?_⟩
    · by_cases hc : s.joinType ≠ .OUTER ∧ s.joinType ≠ .RIGHT
      · exact Or.inl (hpos hc)
      · exact Or.inr (hneg hc)
    · intro hr
      exact hsides.2 f hr hside
    · intro hT
      have hall : ∀ x : JoinState,
          (x.joinType = (joinStart h leftTags rightTags markTag node filters).joinType ∨
            x.joinType = .SEMI ∨ x.joinType = .ANTI) →
          x.joinType ≠ .OUTER ∧ x.joinType ≠ .RIGHT := by
        intro x hx
        rcases hx with hx | hx | hx <;> rw [hx]
        · exact hT
        · exact ⟨by decide, by decide⟩
        · exact ⟨by decide, by decide⟩
      refine ⟨hpos (hall s hty'), ?_⟩
      intro hin
      obtain ⟨x, x1, _, hx, hxstep, _, hn1, hy1⟩ := classifyJoinFilters_origin_cant hst f hin
      rw [hside, placeFilter_left_eq] at hxstep
      injection hxstep with hxstep
      have hxt : x.joinType = (joinStart h leftTags rightTags markTag node filters).joinType ∨
          x.joinType = .SEMI ∨ x.joinType = .ANTI := by
        rcases hx.loop_mono.2 with ⟨a, _⟩ | ⟨a, _⟩
        · exact Or.inl a
        · exact Or.inr a
      rw [← hxstep, if_pos (hall x hxt)] at hy1
      exact hn1 hy1
    · intro hT
      have hsT : ¬ (s.joinType ≠ .OUTER ∧ s.joinType ≠ .RIGHT) := by
        intro hc
        rcases hfin with a | a | a
        · rw [a] at hT
          rcases hT with hT | hT
          · exact hc.1 hT
          · exact hc.2 hT
        · rw [a] at hT; rcases hT with hT | hT <;> cases hT
        · rw [a] at hT; rcases hT with hT | hT <;> cases hT
      refine ⟨hneg hsT, ?_⟩
      intro hin
      obtain ⟨x, x1, _, _, hxstep, hx1, hn1, hy1⟩ := classifyJoinFilters_origin_left hst f hin
      rw [hside, placeFilter_left_eq] at hxstep
      injection hxstep with hxstep
      by_cases hc : x.joinType ≠ .OUTER ∧ x.joinType ≠ .RIGHT
      · have hx1t : x1.joinType = x.joinType := by
          rw [← hxstep]; split <;> rfl
        rcases hx1.loop_mono.2 with ⟨a, _⟩ | ⟨a, _⟩
        · rw [a, hx1t] at hT
          rcases hT with hT | hT
          · exact hc.1 hT
          · exact hc.2 hT
        · rcases a with a | a <;> rw [a] at hT <;> rcases hT with hT | hT <;> cases hT
      · rw [← hxstep, if_neg hc] at hy1
        exact hn1 hy1
  · intro f hf hside
    obtain ⟨s, s1, hs, hstep, hs1⟩ := classifyJoinFilters_step hst f hf
    rw [hside, placeFilter_right_eq] at hstep
    injection hstep with hstep
    obtain ⟨_, hty⟩ := hs.loop_mono
    obtain ⟨⟨_, m2, m3, _⟩, hty1⟩ := hs1.loop_mono
    have hty' : s.joinType = (joinStart h leftTags rightTags markTag node filters).joinType ∨
        s.joinType = .SEMI ∨ s.joinType = .ANTI := by
      rcases hty with ⟨a, _⟩ | ⟨a, _⟩
      · exact Or.inl a
      · exact Or.inr a
    have hs1t : s1.joinType = s.joinType := by
      rw [← hstep]; split <;> rfl
    have hfin : st.joinType = s.joinType ∨ st.joinType = .SEMI ∨ st.joinType = .ANTI := by
      rcases hty1 with ⟨a, _⟩ | ⟨a, _⟩
      · exact Or.inl (a.trans hs1t)
      · exact Or.inr a
    have hpos : s.joinType = .INNER ∨ s.joinType = .RIGHT → f ∈ st.rightPushdown := by
      intro hc
      apply m2
      rw [← hstep, if_pos hc]
      simp
    have hneg : ¬ (s.joinType = .INNER ∨ s.joinType = .RIGHT) → f ∈ st.cantPushdown := by
      intro hc
      apply m3
      rw [← hstep, if_neg hc]
      simp [JoinState.keep]
    refine ⟨?_, ?_, ?_, ?_⟩
    · by_cases hc : s.joinType = .INNER ∨ s.joinType = .RIGHT
      · exact Or.inl (hpos hc)
      · exact Or.inr (hneg hc)
    · intro hl
      exact hsides.1 f hl hside
    · intro hT
      have hkey : ∀ x x1 : JoinState, x1.joinType = x.joinType →
          LoopFrom h separateNonEquiConds leftTags rightTags markTag x1 st →
          x.joinType = .INNER ∨ x.joinType = .RIGHT := by
        intro x x1 hx1t hx1
        rcases hx1.loop_mono.2 with ⟨a, _⟩ | ⟨a, _⟩
        · rw [a, hx1t] at hT
          exact hT
        · rcases a with a | a <;> rw [a] at hT <;> rcases hT with hT | hT <;> cases hT
      refine ⟨hpos (hkey s s1 hs1t hs1), ?_⟩
      intro hin
      obtain ⟨x, x1, _, _, hxstep, hx1, hn1, hy1⟩ := classifyJoinFilters_origin_cant hst f hin
      rw [hside, placeFilter_right_eq] at hxstep
      injection hxstep with hxstep
      have hx1t : x1.joinType = x.joinType := by
        rw [← hxstep]; split <;> rfl
      rw [← hxstep, if_pos (hkey x x1 hx1t hx1)] at hy1
      exact hn1 hy1
    · intro hT
      apply hneg
      intro hc
      rcases hty' with a | a | a
      · rw [a] at hc
        rcases hc with hc | hc
        · exact hT.1 hc
        · exact hT.2 hc
      · rw [a] at hc; rcases hc with hc | hc <;> cases hc
      · rw [a] at hc; rcases hc with hc | hc <;> cases hc

/-- Witness of C11 on the LEFT join of `planB` with the filters `l.v IS NULL` (classified
LEFT) and `r.v IS NULL` (classified RIGHT): the first is in the list for the left child and
reaches the scan of `l`, the second is returned unplaced. -/
theorem join_left_right_placement_witness :
    pushdownFilters exJoinHelpers false 2 planB 2 [predLNull, predRNull] =
        .ok (planB_left, 2, [predRNull]) ∧
      classifyJoinFilters exJoinHelpers false [1] [2] 0 planB_join [predLNull, predRNull] =
        .ok planB_placed ∧
      exJoinHelpers.getJoinSide predLNull [1] [2] 0 = JoinSideLeft ∧
      exJoinHelpers.getJoinSide predRNull [1] [2] 0 = JoinSideRight ∧
      (predLNull ∈ planB_placed.leftPushdown ∧ predLNull ∉ planB_placed.cantPushdown) ∧
      predRNull ∈ planB_placed.cantPushdown := by
  have hw := join_left_right_placement exJoinHelpers false 1 planB 2 0 1 planB_join [1] [2] 0
    [predLNull, predRNull] planB_placed
    (by decide) (by decide) (by decide) (by decide) (by decide) (by decide) (by decide)
    (by decide)
  exact ⟨by decide, by decide, by decide, by decide,
    (hw.2.2.1 predLNull (by decide) (by decide)).2.2.1 ⟨by decide, by decide⟩,
    (hw.2.2.2.1 predRNull (by decide) (by decide)).2.2.2 ⟨by decide, by decide⟩⟩

/-- C12: a call of `pushdownFilters` on a JOIN node classifies the filters, hands the list
`leftPushdown` to the call on the left child and the list `rightPushdown` to the call on the
right child, and returns the list `cantPushdown`.  Of the filters the placement ranges over
(the incoming filters among them), one classified NONE that is the boolean constant true is
dropped: it is in neither the list for the left child nor the returned list, and it is in the
list for the right child or in the on-list only if it was there, as a conjunct of the
on-list, before the placement.  Any other filter classified NONE is in both lists for the
children when the join is INNER, in the list for the left child only when the join type
after strength reduction is LEFT, SEMI, ANTI, SINGLE or MARK, and is returned unplaced, and
pushed to no child, when the join type is RIGHT or OUTER.  Each step of the placement does
this by the join type at that step. -/
theorem join_none_placement (h : Helpers) (separateNonEquiConds : Bool) (fuel : Nat)
    (nodes : Nodes) (nodeID c0 c1 : Nat) (node : Node) (leftTags rightTags : List Int)
    (markTag : Int) (filters : List Expr) (st : JoinState)
    (hn : nodes[nodeID]? = some node) (hk : node.nodeType = .JOIN)
    (hc0 : node.children[0]? = some c0) (hc1 : node.children[1]? = some c1)
    (hlt : leftTags = h.enumerateTags nodes c0) (hrt : rightTags = h.enumerateTags nodes c1)
    (hm : getMarkTag node = .ok markTag)
    (hst : classifyJoinFilters h separateNonEquiConds leftTags rightTags markTag node filters =
      .ok st) :
    pushdownFilters h separateNonEquiConds (fuel + 1) nodes nodeID filters =
      (pushDeduced h (pushdownFilters h separateNonEquiConds fuel)
        (nodes.set nodeID { node with
          joinType := st.joinType, bindingTags := st.bindingTags, onList := st.onList })
        nodeID st.leftPushdown st.rightPushdown).bind (fun nodes2 =>
        (pushToChild (pushdownFilters h separateNonEquiConds fuel) nodes2 nodeID 0
          st.leftPushdown).bind (fun nodes3 =>
            (pushToChild (pushdownFilters h separateNonEquiConds fuel) nodes3 nodeID 1
              st.rightPushdown).map (fun nodes4 => (nodes4, nodeID, st.cantPushdown)))) ∧
    (∀ f ∈ filters,
      f ∈ joinFilters h separateNonEquiConds leftTags rightTags markTag node filters) ∧
    (∀ f ∈ joinFilters h separateNonEquiConds leftTags rightTags markTag node filters,
      h.getJoinSide f leftTags rightTags markTag = JoinSideNone →
      (isTrueConst f = true →
        f ∉ st.leftPushdown ∧ f ∉ st.cantPushdown ∧
        (f ∈ st.rightPushdown →
          f ∈ (joinStart h leftTags rightTags markTag node filters).rightPushdown) ∧
        (f ∈ st.onList → f ∈ (joinStart h leftTags rightTags markTag node filters).onList)) ∧
      (isTrueConst f = false →
        (st.joinType = .INNER →
          f ∈ st.leftPushdown ∧ f ∈ st.rightPushdown ∧ f ∉ st.cantPushdown) ∧
        ((joinStart h leftTags rightTags markTag node filters).joinType ∈
            [JoinType.LEFT, .SEMI, .ANTI, .SINGLE, .MARK] →
          f ∈ st.leftPushdown ∧ f ∉ st.cantPushdown ∧
          (f ∈ st.rightPushdown →
            f ∈ (joinStart h leftTags rightTags markTag node filters).rightPushdown)) ∧
        (st.joinType = .RIGHT ∨ st.joinType = .OUTER →
          f ∈ st.cantPushdown ∧ f ∉ st.leftPushdown ∧
          (f ∈ st.rightPushdown →
            f ∈ (joinStart h leftTags rightTags markTag node filters).rightPushdown)))) ∧
    (∀ (s : JoinState) (f : Expr) (t : Typ),
      placeFilter h separateNonEquiConds leftTags rightTags markTag s (.c t (.bval true))
          JoinSideNone = .ok s ∧
      (isTrueConst f = false →
        (s.joinType = .INNER →
          placeFilter h separateNonEquiConds leftTags rightTags markTag s f JoinSideNone =
            .ok { s with
              leftPushdown := s.leftPushdown ++ [f]
              rightPushdown := s.rightPushdown ++ [f] }) ∧
        (s.joinType ∈ [JoinType.LEFT, .SEMI, .ANTI, .SINGLE, .MARK] →
          placeFilter h separateNonEquiConds leftTags rightTags markTag s f JoinSideNone =
            .ok { s with leftPushdown := s.leftPushdown ++ [f] }) ∧
        (s.joinType ∉ [JoinType.INNER, .LEFT, .SEMI, .ANTI, .SINGLE, .MARK] →
          placeFilter h separateNonEquiConds leftTags rightTags markTag s f JoinSideNone =
            .ok { s with cantPushdown := s.cantPushdown ++ [f] }))) := by
  have hstepN : ∀ (s : JoinState) (f : Expr),
      placeFilter h separateNonEquiConds leftTags rightTags markTag s f JoinSideNone =
        .ok (if isTrueConst f then s
          else if s.joinType = .INNER then
            { s with
              leftPushdown := s.leftPushdown ++ [f]
              rightPushdown := s.rightPushdown ++ [f] }
          else if s.joinType = .RIGHT ∨ s.joinType = .OUTER then s.keep f
          else { s with leftPushdown := s.leftPushdown ++ [f] }) :=
    fun s f => placeFilter_none_eq _ _ _ _ _ s f
  refine ⟨by
      subst hlt hrt
      exact pushdownFilters_join_chain h separateNonEquiConds fuel nodes nodeID c0 c1 markTag
        node filters st hn hk hc0 hc1 hm hst, mem_joinFilters _ _ _ _ _ _ _, ?_, ?_⟩
  · intro f hf hside
    -- the type of a state reached from the start, and of the final state seen from a state
    have hfrom : ∀ x : JoinState,
        LoopFrom h separateNonEquiConds leftTags rightTags markTag
          (joinStart h leftTags rightTags markTag node filters) x →
        x.joinType = (joinStart h leftTags rightTags markTag node filters).joinType ∨
          x.joinType = .SEMI ∨ x.joinType = .ANTI := by
      intro x hx
      rcases hx.loop_mono.2 with ⟨a, _⟩ | ⟨a, _⟩
      · exact Or.inl a
      · exact Or.inr a
    have hto : ∀ x x1 : JoinState, x1.joinType = x.joinType →
        LoopFrom h separateNonEquiConds leftTags rightTags markTag x1 st →
        st.joinType = x.joinType ∨ st.joinType = .SEMI ∨ st.joinType = .ANTI := by
      intro x x1 hx1t hx1
      rcases hx1.loop_mono.2 with ⟨a, _⟩ | ⟨a, _⟩
      · exact Or.inl (a.trans hx1t)
      · exact Or.inr a
    have hkeep : ∀ x x1 : JoinState,
        placeFilter h separateNonEquiConds leftTags rightTags markTag x f
          (h.getJoinSide f leftTags rightTags markTag) = .ok x1 → x1.joinType = x.joinType := by
      intro x x1 hx
      rw [hside, hstepN] at hx
      injection hx with hx
      rw [← hx]
      split_ifs <;> rfl
    obtain ⟨s, s1, hs, hstep, hs1⟩ := classifyJoinFilters_step hst f hf
    have hs1t := hkeep s s1 hstep
    rw [hside, hstepN] at hstep
    injection hstep with hstep
    obtain ⟨⟨m1, m2, m3, _⟩, _⟩ := hs1.loop_mono
    refine ⟨?_, ?_⟩
    · intro htrue
      refine ⟨?_, ?_, ?_, ?_⟩
      · intro hin
        obtain ⟨x, x1, _, _, hxstep, _, hn1, hy1⟩ := classifyJoinFilters_origin_left hst f hin
        rw [hside, hstepN, if_pos htrue] at hxstep
        injection hxstep with hxstep
        exact hn1 (hxstep ▸ hy1)
      · intro hin
        obtain ⟨x, x1, _, _, hxstep, _, hn1, hy1⟩ := classifyJoinFilters_origin_cant hst f hin
        rw [hside, hstepN, if_pos htrue] at hxstep
        injection hxstep with hxstep
        exact hn1 (hxstep ▸ hy1)
      · intro hin
        rcases classifyJoinFilters_origin_right hst f hin with h1 |
          ⟨x, x1, _, _, hxstep, _, hn1, hy1⟩
        · exact h1
        · rw [hside, hstepN, if_pos htrue] at hxstep
          injection hxstep with hxstep
          exact absurd (hxstep ▸ hy1) hn1
      · intro hin
        rcases classifyJoinFilters_origin_on hst f hin with h1 |
          ⟨x, x1, _, _, hxstep, _, hn1, hy1⟩
        · exact h1
        · rw [hside, hstepN, if_pos htrue] at hxstep
          injection hxstep with hxstep
          exact absurd (hxstep ▸ hy1) hn1
    · intro hfalse
      have hnt : ¬ (isTrueConst f = true) := by rw [hfalse]; decide
      simp only [hfalse, Bool.false_eq_true, if_false] at hstep
      refine ⟨?_, ?_, ?_⟩
      · intro hT
        have hall : ∀ x x1 : JoinState, x1.joinType = x.joinType →
            LoopFrom h separateNonEquiConds leftTags rightTags markTag x1 st →
            x.joinType = .INNER := by
          intro x x1 hx1t hx1
          rcases hto x x1 hx1t hx1 with a | a | a
          · rw [← a]; exact hT
          · rw [a] at hT; cases hT
          · rw [a] at hT; cases hT
        have hsI := hall s s1 hs1t hs1
        rw [if_pos hsI] at hstep
        refine ⟨m1 (by rw [← hstep]; simp), m2 (by rw [← hstep]; simp), ?_⟩
        intro hin
        obtain ⟨x, x1, _, _, hxstep, hx1, hn1, hy1⟩ := classifyJoinFilters_origin_cant hst f hin
        have hxI := hall x x1 (hkeep x x1 hxstep) hx1
        rw [hside, hstepN, if_neg hnt, if_pos hxI] at hxstep
        injection hxstep with hxstep
        exact hn1 (by rw [← hxstep] at hy1; exact hy1)
      · intro hT
        have hall : ∀ x : JoinState,
            LoopFrom h separateNonEquiConds leftTags rightTags markTag
              (joinStart h leftTags rightTags markTag node filters) x →
            x.joinType ≠ .INNER ∧ ¬ (x.joinType = .RIGHT ∨ x.joinType = .OUTER) := by
          intro x hx
          simp only [List.mem_cons, List.mem_singleton, List.not_mem_nil, or_false] at hT
          rcases hfrom x hx with a | a | a
          · rw [a]
            rcases hT with b | b | b | b | b <;> rw [b] <;> decide
          · rw [a]; decide
          · rw [a]; decide
        have hsL := hall s hs
        rw [if_neg hsL.1, if_neg hsL.2] at hstep
        refine ⟨m1 (by rw [← hstep]; simp), ?_, ?_⟩
        · intro hin
          obtain ⟨x, x1, _, hx, hxstep, _, hn1, hy1⟩ :=
            classifyJoinFilters_origin_cant hst f hin
          have hxL := hall x hx
          rw [hside, hstepN, if_neg hnt, if_neg hxL.1, if_neg hxL.2] at hxstep
          injection hxstep with hxstep
          exact hn1 (by rw [← hxstep] at hy1; exact hy1)
        · intro hin
          rcases classifyJoinFilters_origin_right hst f hin with h1 |
            ⟨x, x1, _, hx, hxstep, _, hn1, hy1⟩
          · exact h1
          · have hxL := hall x hx
            rw [hside, hstepN, if_neg hnt, if_neg hxL.1, if_neg hxL.2] at hxstep
            injection hxstep with hxstep
            exact absurd (by rw [← hxstep] at hy1; exact hy1) hn1
      · intro hT
        have hall : ∀ x x1 : JoinState, x1.joinType = x.joinType →
            LoopFrom h separateNonEquiConds leftTags rightTags markTag x1 st →
            x.joinType ≠ .INNER ∧ (x.joinType = .RIGHT ∨ x.joinType = .OUTER) := by
          intro x x1 hx1t hx1
          rcases hto x x1 hx1t hx1 with a | a | a
          · rw [← a]
            rcases hT with b | b <;> rw [b] <;> decide
          · rw [a] at hT; rcases hT with b | b <;> cases b
          · rw [a] at hT; rcases hT with b | b <;> cases b
        have hsR := hall s s1 hs1t hs1
        rw [if_neg hsR.1, if_pos hsR.2] at hstep
        refine ⟨m3 (by rw [← hstep]; simp [JoinState.keep]), ?_, ?_⟩
        · intro hin
          obtain ⟨x, x1, _, _, hxstep, hx1, hn1, hy1⟩ :=
            classifyJoinFilters_origin_left hst f hin
          have hxR := hall x x1 (hkeep x x1 hxstep) hx1
          rw [hside, hstepN, if_neg hnt, if_neg hxR.1, if_pos hxR.2] at hxstep
          injection hxstep with hxstep
          exact hn1 (by rw [← hxstep] at hy1; exact hy1)
        · intro hin
          rcases classifyJoinFilters_origin_right hst f hin with h1 |
            ⟨x, x1, _, _, hxstep, hx1, hn1, hy1⟩
          · exact h1
          · have hxR := hall x x1 (hkeep x x1 hxstep) hx1
            rw [hside, hstepN, if_neg hnt, if_neg hxR.1, if_pos hxR.2] at hxstep
            injection hxstep with hxstep
            exact absurd (by rw [← hxstep] at hy1; exact hy1) hn1
  · intro s f t
    refine ⟨?_, ?_⟩
    · rw [placeFilter_none_eq]
      simp [isTrueConst]
    · intro hf
      rw [placeFilter_none_eq]
      simp only [hf, Bool.false_eq_true, if_false]
      cases hj : s.joinType <;> simp [JoinState.keep, hj]

/-- Witness of C12 on the LEFT join of `planB` with the filters `true` and `false`, both
classified NONE: `true` is dropped and `false` reaches the scan of `l` only. -/
theorem join_none_placement_witness :
    pushdownFilters exJoinHelpers false 2 planB 2 [predTrue, predFalse] =
        .ok (planB_none, 2, []) ∧
      classifyJoinFilters exJoinHelpers false [1] [2] 0 planB_join [predTrue, predFalse] =
        .ok planB_nonePlaced ∧
      exJoinHelpers.getJoinSide predTrue [1] [2] 0 = JoinSideNone ∧
      exJoinHelpers.getJoinSide predFalse [1] [2] 0 = JoinSideNone ∧
      (predTrue ∉ planB_nonePlaced.leftPushdown ∧ predTrue ∉ planB_nonePlaced.cantPushdown) ∧
      (predFalse ∈ planB_nonePlaced.leftPushdown ∧
        predFalse ∉ planB_nonePlaced.cantPushdown) := by
  have hw := join_none_placement exJoinHelpers false 1 planB 2 0 1 planB_join [1] [2] 0
    [predTrue, predFalse] planB_nonePlaced
    (by decide) (by decide) (by decide) (by decide) (by decide) (by decide) (by decide)
    (by decide)
  have h1 := (hw.2.2.1 predTrue (by decide) (by decide)).1 (by decide)
  have h2 := ((hw.2.2.1 predFalse (by decide) (by decide)).2 (by decide)).2.1 (by decide)
  exact ⟨by decide, by decide, by decide, by decide, ⟨h1.1, h1.2.1⟩, ⟨h2.1, h2.2.1⟩⟩

/-- C20, counterexample: at the mark join of `planM` (mark tag 9) the filter `not(m)` on the
mark column, whose type is nullable, does not turn the join into an ANTI join: the join
stays a MARK join with its binding tag and the filter is returned unplaced. -/
theorem nullable_not_mark_keeps_join :
    pushdownFilters exJoinHelpers false 2 planM 2 [predNotMark] =
        .ok (planM, 2, [predNotMark]) ∧
      exJoinHelpers.getJoinSide predNotMark (exJoinHelpers.enumerateTags planM 0)
        (exJoinHelpers.enumerateTags planM 1) 9 = JoinSideMark := by
  decide

/-- C20, amended: a call of `pushdownFilters` on a JOIN node whose first binding tag is `m`
classifies the filters, writes the join type and binding tags of the classification to the
node, hands the lists `leftPushdown` and `rightPushdown` to the calls on the children and
returns the list `cantPushdown`.  Of the filters the placement ranges over (the incoming
filters among them), when one classified MARK is the bare column with producer tag `m` the
join type of the classification is SEMI, and when one is a call of `not`, of a type marked not
nullable, on the bare column with producer tag `m` it is ANTI; in both cases the binding tags
are empty and the filter is consumed: it is in neither list for the children and is not
returned.  Every other filter classified MARK, a nullable `not(c)` included, is returned
unplaced, and the step that places it leaves the join type and the binding tags unchanged.
On a well-formed plan the node has, after a returning call, the join type and the binding
tags of the classification. -/
theorem join_mark_placement (h : Helpers) (separateNonEquiConds : Bool) (fuel : Nat)
    (nodes : Nodes) (nodeID c0 c1 : Nat) (node : Node) (leftTags rightTags : List Int)
    (markTag m : Int) (filters : List Expr) (st : JoinState)
    (hn : nodes[nodeID]? = some node) (hk : node.nodeType = .JOIN)
    (hc0 : node.children[0]? = some c0) (hc1 : node.children[1]? = some c1)
    (hlt : leftTags = h.enumerateTags nodes c0) (hrt : rightTags = h.enumerateTags nodes c1)
    (hm : getMarkTag node = .ok markTag) (hb : node.bindingTags[0]? = some m)
    (hst : classifyJoinFilters h separateNonEquiConds leftTags rightTags markTag node filters =
      .ok st) :
    pushdownFilters h separateNonEquiConds (fuel + 1) nodes nodeID filters =
      (pushDeduced h (pushdownFilters h separateNonEquiConds fuel)
        (nodes.set nodeID { node with
          joinType := st.joinType, bindingTags := st.bindingTags, onList := st.onList })
        nodeID st.leftPushdown st.rightPushdown).bind (fun nodes2 =>
        (pushToChild (pushdownFilters h separateNonEquiConds fuel) nodes2 nodeID 0
          st.leftPushdown).bind (fun nodes3 =>
            (pushToChild (pushdownFilters h separateNonEquiConds fuel) nodes3 nodeID 1
              st.rightPushdown).map (fun nodes4 => (nodes4, nodeID, st.cantPushdown)))) ∧
    (∀ f ∈ filters,
      f ∈ joinFilters h separateNonEquiConds leftTags rightTags markTag node filters) ∧
    (∀ f ∈ joinFilters h separateNonEquiConds leftTags rightTags markTag node filters,
      h.getJoinSide f leftTags rightTags markTag = JoinSideMark →
      ((∃ t p, f = .col t m p) →
        st.joinType = .SEMI ∧ st.bindingTags = [] ∧ f ∉ st.leftPushdown ∧
        f ∉ st.cantPushdown ∧
        (f ∈ st.rightPushdown →
          f ∈ (joinStart h leftTags rightTags markTag node filters).rightPushdown)) ∧
      ((∃ t t2 p rest, t.notNullable = true ∧ f = .f t "not" (.col t2 m p :: rest)) →
        st.joinType = .ANTI ∧ st.bindingTags = [] ∧ f ∉ st.leftPushdown ∧
        f ∉ st.cantPushdown ∧
        (f ∈ st.rightPushdown →
          f ∈ (joinStart h leftTags rightTags markTag node filters).rightPushdown)) ∧
      ((∀ t p, f ≠ .col t m p) →
        (∀ t t2 p rest, t.notNullable = true → f ≠ .f t "not" (.col t2 m p :: rest)) →
        f ∈ st.cantPushdown ∧ f ∉ st.leftPushdown)) ∧
    (∀ (s : JoinState), s.bindingTags[0]? = some m →
      (∀ t p, placeFilter h separateNonEquiConds leftTags rightTags markTag s (.col t m p)
          JoinSideMark = .ok { s with joinType := .SEMI, bindingTags := [] }) ∧
      (∀ t t2 p rest, t.notNullable = true →
        placeFilter h separateNonEquiConds leftTags rightTags markTag s
          (.f t "not" (.col t2 m p :: rest)) JoinSideMark =
          .ok { s with joinType := .ANTI, bindingTags := [] }) ∧
      (∀ f s1, (∀ t p, f ≠ .col t m p) →
        (∀ t t2 p rest, t.notNullable = true → f ≠ .f t "not" (.col t2 m p :: rest)) →
        placeFilter h separateNonEquiConds leftTags rightTags markTag s f JoinSideMark =
          .ok s1 →
        s1 = { s with cantPushdown := s.cantPushdown ++ [f] })) ∧
    (∀ (rank : Nat → Nat) (out : Nodes × Nat × List Expr),
      WellFormed rank nodes → rank 0 < rank nodeID →
      pushdownFilters h separateNonEquiConds (fuel + 1) nodes nodeID filters = .ok out →
      out.2 = (nodeID, st.cantPushdown) ∧
      ∃ n1, out.1[nodeID]? = some n1 ∧ n1.joinType = st.joinType ∧
        n1.bindingTags = st.bindingTags) := by
  have hstart : (joinStart h leftTags rightTags markTag node filters).bindingTags =
      node.bindingTags := rfl
  -- a state of the loop that still has a first binding tag has the tag `m`
  have htag : ∀ (x : JoinState) (tag : Int),
      LoopFrom h separateNonEquiConds leftTags rightTags markTag
        (joinStart h leftTags rightTags markTag node filters) x →
      x.bindingTags[0]? = some tag → tag = m := by
    intro x tag hx hxt
    have hne : x.bindingTags ≠ [] := by
      intro he
      rw [he] at hxt
      cases hxt
    rw [(hx.loop_tags_same hne).2, hstart, hb] at hxt
    injection hxt with hxt
    exact hxt.symm
  refine ⟨by
      subst hlt hrt
      exact pushdownFilters_join_chain h separateNonEquiConds fuel nodes nodeID c0 c1 markTag
        node filters st hn hk hc0 hc1 hm hst, mem_joinFilters _ _ _ _ _ _ _, ?_, ?_, ?_⟩
  · intro f hf hside
    obtain ⟨s, s1, hs, hstep, hs1⟩ := classifyJoinFilters_step hst f hf
    rw [hside] at hstep
    have hnoleft : f ∉ st.leftPushdown := by
      intro hin
      obtain ⟨x, x1, _, _, hxstep, _, hn1, hy1⟩ := classifyJoinFilters_origin_left hst f hin
      rw [hside] at hxstep
      rcases placeFilter_mark_ok hxstep with e | ⟨_, _, _, _, _, e⟩ | ⟨_, _, _, _, _, _, _, _, e⟩
      all_goals subst e
      all_goals exact hn1 hy1
    have hright : f ∈ st.rightPushdown →
        f ∈ (joinStart h leftTags rightTags markTag node filters).rightPushdown := by
      intro hin
      rcases classifyJoinFilters_origin_right hst f hin with h1 |
        ⟨x, x1, _, _, hxstep, _, hn1, hy1⟩
      · exact h1
      · rw [hside] at hxstep
        rcases placeFilter_mark_ok hxstep with e | ⟨_, _, _, _, _, e⟩ |
          ⟨_, _, _, _, _, _, _, _, e⟩
        all_goals subst e
        all_goals exact absurd hy1 hn1
    refine ⟨?_, ?_, ?_⟩
    · rintro ⟨t, p, rfl⟩
      obtain ⟨tag, hst0, hcase⟩ := placeFilter_mark_col hstep
      have htm := htag s tag hs hst0
      subst htm
      rcases hcase with ⟨_, e⟩ | ⟨hne, _⟩
      · have hfin := hs1.loop_tags_nil (by rw [e])
        rw [e] at hfin
        refine ⟨hfin.1, hfin.2, hnoleft, ?_, hright⟩
        intro hin
        obtain ⟨x, x1, _, hx, hxstep, _, hn1, hy1⟩ := classifyJoinFilters_origin_cant hst _ hin
        rw [hside] at hxstep
        obtain ⟨tag2, hx0, hcase2⟩ := placeFilter_mark_col hxstep
        have htm2 := htag x tag2 hx hx0
        subst htm2
        rcases hcase2 with ⟨_, e2⟩ | ⟨hne2, _⟩
        · subst e2
          exact hn1 hy1
        · exact hne2 rfl
      · exact absurd rfl hne
    · rintro ⟨t, t2, p, rest, hnn, rfl⟩
      obtain ⟨tag, hst0, hcase⟩ := placeFilter_mark_not hnn hstep
      have htm := htag s tag hs hst0
      subst htm
      rcases hcase with ⟨_, e⟩ | ⟨hne, _⟩
      · have hfin := hs1.loop_tags_nil (by rw [e])
        rw [e] at hfin
        refine ⟨hfin.1, hfin.2, hnoleft, ?_, hright⟩
        intro hin
        obtain ⟨x, x1, _, hx, hxstep, _, hn1, hy1⟩ := classifyJoinFilters_origin_cant hst _ hin
        rw [hside] at hxstep
        obtain ⟨tag2, hx0, hcase2⟩ := placeFilter_mark_not hnn hxstep
        have htm2 := htag x tag2 hx hx0
        subst htm2
        rcases hcase2 with ⟨_, e2⟩ | ⟨hne2, _⟩
        · subst e2
          exact hn1 hy1
        · exact hne2 rfl
      · exact absurd rfl hne
    · intro h1 h2
      refine ⟨?_, hnoleft⟩
      obtain ⟨⟨_, _, m3, _⟩, _⟩ := hs1.loop_mono
      rcases placeFilter_mark_ok hstep with e | ⟨t, p, tag, hfe, ht0, _⟩ |
        ⟨t, t2, p, rest, tag, hfe, hnn, ht0, _⟩
      · apply m3
        rw [e]
        simp [JoinState.keep]
      · have htm := htag s tag hs ht0
        subst htm
        exact absurd hfe (h1 t p)
      · have htm := htag s tag hs ht0
        subst htm
        exact absurd hfe (h2 t t2 p rest hnn)
  · intro s hs0
    refine ⟨?_, ?_, ?_⟩
    · intro t p
      unfold placeFilter
      rw [if_neg (by decide), if_neg (by decide), if_neg (by decide), if_neg (by decide),
        if_pos rfl]
      simp [hs0]
    · intro t t2 p rest ht
      unfold placeFilter
      rw [if_neg (by decide), if_neg (by decide), if_neg (by decide), if_neg (by decide),
        if_pos rfl]
      simp [hs0, ht]
    · intro f s1 h1 h2 hp
      rcases placeFilter_mark_ok hp with e | ⟨t, p, tag, hfe, ht0, _⟩ |
        ⟨t, t2, p, rest, tag, hfe, hnn, ht0, _⟩
      · exact e
      · rw [hs0] at ht0
        injection ht0 with ht0
        subst ht0
        exact absurd hfe (h1 t p)
      · rw [hs0] at ht0
        injection ht0 with ht0
        subst ht0
        exact absurd hfe (h2 t t2 p rest hnn)
  · intro rank out hwf h0 hcall
    obtain ⟨d0, d1, mt, st2, n1, hd0, hd1, hm2, hst2, hres, hn1, _, hj, htags, _, _⟩ :=
      pushdownFilters_join_final hwf h0 hn hk hcall
    rw [hc0] at hd0
    injection hd0 with hd0
    rw [hc1] at hd1
    injection hd1 with hd1
    rw [hm] at hm2
    injection hm2 with hm2
    subst hd0 hd1 hm2 hlt hrt
    rw [hst] at hst2
    injection hst2 with hst2
    subst hst2
    exact ⟨hres, n1, hn1, hj, htags⟩

/-- Witness of C20 (amended) at the mark join of `planM` with the filter `m`: the join
becomes a SEMI join without binding tags, and the filter is neither pushed nor returned. -/
theorem join_mark_placement_witness :
    pushdownFilters exJoinHelpers false 2 planM 2 [predMark] = .ok (planM_semi, 2, []) ∧
      classifyJoinFilters exJoinHelpers false [1] [2] 9 planM_join [predMark] =
        .ok planM_semiPlaced ∧
      exJoinHelpers.getJoinSide predMark [1] [2] 9 = JoinSideMark ∧
      (planM_semiPlaced.joinType = .SEMI ∧ planM_semiPlaced.bindingTags = [] ∧
        predMark ∉ planM_semiPlaced.leftPushdown ∧ predMark ∉ planM_semiPlaced.cantPushdown) ∧
      ((planM_semi, 2, []) : Nodes × Nat × List Expr).2 =
        (2, planM_semiPlaced.cantPushdown) ∧
      ∃ n1, planM_semi[2]? = some n1 ∧ n1.joinType = planM_semiPlaced.joinType ∧
        n1.bindingTags = planM_semiPlaced.bindingTags := by
  have hw := join_mark_placement exJoinHelpers false 1 planM 2 0 1 planM_join [1] [2] 9 9
    [predMark] planM_semiPlaced
    (by decide) (by decide) (by decide) (by decide) (by decide) (by decide) (by decide)
    (by decide) (by decide)
  have h1 := (hw.2.2.1 predMark (by decide) (by decide)).1 ⟨{}, 0, rfl⟩
  have h3 := hw.2.2.2.2 rankJoin (planM_semi, 2, []) (by decide) (by decide) (by decide)
  exact ⟨by decide, by decide, by decide, ⟨h1.1, h1.2.1, h1.2.2.1, h1.2.2.2.1⟩, h3.1, h3.2⟩

/-- C14 (Scenario B): on the plan `l LEFT JOIN r ON l.k = r.k` with the incoming filter
`r.v = 10`, when `rejectsNull` holds for the filter, `getJoinSide` classifies it RIGHT and
`l.k = r.k` BOTH (no argument of either being classified BOTH), and the normalisation
helpers leave `l.k = r.k` as its own single conjunct, `pushdownFilters` returns, with any
fuel of at least 2, the join's own id and no unplaced filter, and leaves the join with type
INNER and on-list `[l.k = r.k]`, and the scan of `r` with a filterList that ends with
`r.v = 10` (after the predicates deduced by `predsDeduction`). -/
theorem pushdownFilters_scenarioB (h : Helpers) (sep : Bool) (fuel : Nat)
    (h1 : h.splitPlanConjunctions [condLR] = [condLR])
    (h2 : h.splitPlanConjunction (h.applyDistributivity condLR) = [condLR])
    (h3 : h.rejectsNull predRV = true)
    (h4 : h.getJoinSide predRV (h.enumerateTags planB 0) (h.enumerateTags planB 1) 0 =
      JoinSideRight)
    (h5 : h.getJoinSide (.col {} 2 1) (h.enumerateTags planB 0) (h.enumerateTags planB 1) 0 ≠
      JoinSideBoth)
    (h6 : h.getJoinSide (.c {} (.ival 10)) (h.enumerateTags planB 0)
      (h.enumerateTags planB 1) 0 ≠ JoinSideBoth)
    (h7 : h.getJoinSide condLR (h.enumerateTags planB 0) (h.enumerateTags planB 1) 0 =
      JoinSideBoth)
    (h8 : sep = true → h.getJoinSide (.col {} 1 0) (h.enumerateTags planB 0)
      (h.enumerateTags planB 1) 0 ≠ JoinSideBoth)
    (h9 : sep = true → h.getJoinSide (.col {} 2 0) (h.enumerateTags planB 0)
      (h.enumerateTags planB 1) 0 ≠ JoinSideBoth) :
    pushdownFilters h sep (fuel + 2) planB 2 [predRV] =
      .ok (planB_done (h.predsDeduction [predRV] [condLR]) (h.predsDeduction [] [condLR]),
        2, []) := by
  have hc := classify_scenarioB h sep _ _ h1 h2 h3 h4 h5 h6 h7 h8 h9
  rw [pushdownFilters_join_eq h sep (fuel + 1) planB 2 planB_join [predRV] rfl rfl]
  simp only [pushdownJoin, getChild, planB_join, getMarkTag, bind, Except.bind]
  unfold planB_join at hc
  simp only [List.getElem?_cons_zero, List.getElem?_cons_succ, reduceCtorEq, if_false, hc]
  simp [modifyNode, planB, pushDeduced, getNode, getChild, pushToChild, pushdownFilters,
    pushdownScan, setChild, bind, Except.bind, pure, Except.pure, planB_done, appendNode]

/-- Witness of C14 with the sample helpers, with and without `separateNonEquiConds`. -/
theorem pushdownFilters_scenarioB_witness :
    pushdownFilters exJoinHelpers false 2 planB 2 [predRV] = .ok (planB_done [] [], 2, []) ∧
    pushdownFilters exJoinHelpers true 2 planB 2 [predRV] = .ok (planB_done [] [], 2, []) :=
  ⟨pushdownFilters_scenarioB exJoinHelpers false 0 rfl rfl rfl (by decide) (by decide)
      (by decide) (by decide) (fun _ => by decide) (fun _ => by decide),
    pushdownFilters_scenarioB exJoinHelpers true 0 rfl rfl rfl (by decide) (by decide)
      (by decide) (by decide) (fun _ => by decide) (fun _ => by decide)⟩

/-- C15 (Scenario C): on the plan `l LEFT JOIN r ON l.k = r.k` with the incoming filter
`r.v IS NULL`, when `rejectsNull` does not hold for the filter, `getJoinSide` classifies it
RIGHT and `l.k = r.k` BOTH, and the normalisation helpers leave `l.k = r.k` as its own single
conjunct, `pushdownFilters` returns, with any fuel of at least 2, the filter as unplaced and
the plan unchanged: the join type is still LEFT, the on-list is still `[l.k = r.k]` and no
scan has received a filter. -/
theorem pushdownFilters_scenarioC (h : Helpers) (sep : Bool) (fuel : Nat)
    (h1 : h.splitPlanConjunctions [condLR] = [condLR])
    (h2 : h.splitPlanConjunction (h.applyDistributivity condLR) = [condLR])
    (h3 : h.rejectsNull predRNull = false)
    (h4 : h.getJoinSide predRNull (h.enumerateTags planB 0) (h.enumerateTags planB 1) 0 =
      JoinSideRight)
    (h7 : h.getJoinSide condLR (h.enumerateTags planB 0) (h.enumerateTags planB 1) 0 =
      JoinSideBoth) :
    pushdownFilters h sep (fuel + 2) planB 2 [predRNull] = .ok (planB, 2, [predRNull]) := by
  have hc := classify_scenarioC h sep _ _ h1 h2 h3 h4 h7
  rw [pushdownFilters_join_eq h sep (fuel + 1) planB 2 planB_join [predRNull] rfl rfl]
  simp only [pushdownJoin, getChild, planB_join, getMarkTag, bind, Except.bind]
  unfold planB_join at hc
  simp only [List.getElem?_cons_zero, List.getElem?_cons_succ, reduceCtorEq, if_false, hc]
  simp [modifyNode, planB, pushDeduced, getNode, getChild, pushToChild, pushdownFilters,
    pushdownScan, setChild, bind, Except.bind, pure, Except.pure, appendNode]

/-- Witness of C15 with the sample helpers. -/
theorem pushdownFilters_scenarioC_witness :
    pushdownFilters exJoinHelpers false 2 planB 2 [predRNull] = .ok (planB, 2, [predRNull]) :=
  pushdownFilters_scenarioC exJoinHelpers false 0 rfl rfl rfl (by decide) (by decide)

/-- C16 (Scenario A): on the plan `PROJECT(a)` over `FILTER(s.a > 1)` over `PROJECT s(a, b)`
over `TABLE_SCAN t`, `removeSimpleProjections` from the root under an `UNKNOWN` parent returns
the root and the plan `planA_simplified`; then, when the normalisation helpers leave
`t.a > 1` as its own single conjunct, `pushdownFilters` from the root with no incoming filter
returns, with any fuel of at least 3, the root and no unplaced filter, in the plan
`planA_done`: only the root and the scan are reachable from the root, the root's child is
the scan, and the scan's filterList is `[t.a > 1]`. -/
theorem scenarioA (h : Helpers) (sep : Bool) (fuel : Nat)
    (h1 : h.splitPlanConjunction (h.applyDistributivity predA) = [predA]) :
    removeSimpleProjections 4 planA 3 .UNKNOWN =
        .ok (planA_simplified, 3, [((5, 1), .col {} 1 1), ((5, 0), .col {} 1 0)]) ∧
      pushdownFilters h sep (fuel + 3) planA_simplified 3 [] = .ok (planA_done, 3, []) ∧
      reachable planA_done planA_done.length 3 = [3, 0] ∧
      (planA_done[3]?.map (fun n => n.children)) = some [0] ∧
      (planA_done[0]?.map (fun n => (n.nodeType, n.filterList))) =
        some (.TABLE_SCAN, [predA]) := by
  refine ⟨by decide, ?_, by decide, by decide, by decide⟩
  simp [pushdownFilters, planA_simplified, pushdownProject, getNode, getChild, getTag,
    pushToChild, pushdownFilter, pushdownScan, appendConjuncts, h1, modifyNode, setChild,
    bind, Except.bind, pure, Except.pure, planA_done]

/-- Witness of C16 with the sample helpers. -/
theorem scenarioA_witness :
    removeSimpleProjections 4 planA 3 .UNKNOWN =
        .ok (planA_simplified, 3, [((5, 1), .col {} 1 1), ((5, 0), .col {} 1 0)]) ∧
      pushdownFilters exHelpers false 3 planA_simplified 3 [] = .ok (planA_done, 3, []) ∧
      reachable planA_done planA_done.length 3 = [3, 0] ∧
      (planA_done[3]?.map (fun n => n.children)) = some [0] ∧
      (planA_done[0]?.map (fun n => (n.nodeType, n.filterList))) =
        some (.TABLE_SCAN, [predA]) :=
  scenarioA exHelpers false 0 rfl

/-- C19, the code at a failing input: on `planG`, where the source of the table function
(node 4) is an inner join whose non-equi condition comes back as residue under
`separateNonEquiConds`, `pushdownFilters` on node 4 returns the id 0, which is neither node 4
nor a node of its subtree `[4, 3, 1, 2]`; and `pushdownFilters` on the `FILTER` above it
(node 5) leaves that `FILTER` with the child pointer 0, which is not its old child 4, nor a
descendant of it, nor a newly appended node (the arena still has 6 nodes). -/
theorem functionScan_residue_returns_zero :
    pushdownFilters exJoinHelpers true 3 planG 4 [] = .ok (planG_function, 0, [predLT]) ∧
      reachable planG planG.length 4 = [4, 3, 1, 2] ∧
      pushdownFilters exJoinHelpers true 4 planG 5 [] = .ok (planG_filter, 5, []) ∧
      (planG[5]?.map (fun n => n.children)) = some [4] ∧
      (planG_filter[5]?.map (fun n => n.children)) = some [0] ∧
      planG_filter.length = planG.length := by
  decide

/-- C18, counterexample, in six parts; in each a first run of `pushdownFilters` from the root
returns the root and no unplaced filter, and a second run on the resulting plan changes a node
reachable from that root, or returns another id.  On `planD` the conjunct `l.k = 1` common to
both disjuncts of the on-condition is extracted on each run and appended to the scan of `l`
each time.  On `planR`, with a `splitPlanConjunction` that splits one level of `and`, the
`FILTER` is left with the entry `r.v IS NULL and r.k IS NULL`, which the second run splits
again.  On `planT`, with a `splitPlanConjunctions` that splits one level of `and`, the same
happens to the on-list of the left join.  On `planE`, with a `predsDeduction` that deduces
`l.k IS NOT NULL` from the on-list of the inner join, each run appends the deduced predicate
to both scans.  On `planV` the first run turns the mark join into a semi join and clears its
binding tag, so that on the second run the mark tag is no longer among the tags below the
left child of the root join, and `m = r.k` moves from the on-list to the scan of `r`.  On `planG`, with
`separateNonEquiConds`, the first run leaves the `FILTER` above the table function with the
residue `l.v < r.v` and the child 0; the second run pushes that entry into node 0 and returns
the id 0 in place of the `FILTER`.  The `enumerateTags` of the helpers of all six parts
depends only on the binding tags in sight. -/
theorem pushdown_twice_differs :
    (pushdownFilters exSightHelpers false 2 planD 2 [] = .ok (planD_once, 2, []) ∧
      pushdownFilters exSightHelpers false 2 planD_once 2 [] = .ok (planD_twice, 2, []) ∧
      reachable planD_once planD_once.length 2 = [2, 0, 1] ∧
      (planD_once[0]?.map (fun n => n.filterList)) = some [predLK] ∧
      (planD_twice[0]?.map (fun n => n.filterList)) = some [predLK, predLK]) ∧
    (pushdownFilters exSightSplitHelpers false 3 planR 3 [] = .ok (planR_once, 3, []) ∧
      pushdownFilters exSightSplitHelpers false 3 planR_once 3 [] =
        .ok (planR_twice, 3, []) ∧
      (planR_once[3]?.map (fun n => n.filterList)) =
        some [.f {} "and" [predRNull, predRKNull]] ∧
      (planR_twice[3]?.map (fun n => n.filterList)) = some [predRNull, predRKNull]) ∧
    (pushdownFilters exListHelpers false 2 planT 2 [] = .ok (planT_once, 2, []) ∧
      pushdownFilters exListHelpers false 2 planT_once 2 [] = .ok (planT_twice, 2, []) ∧
      (planT_once[2]?.map (fun n => n.onList)) = some [.f {} "and" [condLR, predLT], predLR] ∧
      (planT_twice[2]?.map (fun n => n.onList)) = some [condLR, predLT, predLR]) ∧
    (pushdownFilters exDeduceHelpers false 2 planE 2 [] = .ok (planE_once, 2, []) ∧
      pushdownFilters exDeduceHelpers false 2 planE_once 2 [] = .ok (planE_twice, 2, []) ∧
      reachable planE_once planE_once.length 2 = [2, 0, 1] ∧
      (planE_once[0]?.map (fun n => n.filterList)) = some [predLKNotNull] ∧
      (planE_twice[0]?.map (fun n => n.filterList)) = some [predLKNotNull, predLKNotNull]) ∧
    (pushdownFilters exSightHelpers false 3 planV 4 [] = .ok (planV_once, 4, []) ∧
      pushdownFilters exSightHelpers false 3 planV_once 4 [] = .ok (planV_twice, 4, []) ∧
      (planV[3]?.map (fun n => n.bindingTags)) = some [9] ∧
      (planV_once[3]?.map (fun n => n.bindingTags)) = some [] ∧
      exSightHelpers.enumerateTags planV 3 = [9, 1, 5] ∧
      exSightHelpers.enumerateTags planV_once 3 = [1, 5] ∧
      (planV_once[4]?.map (fun n => n.onList)) = some [condMR] ∧
      (planV_twice[4]?.map (fun n => n.onList)) = some []) ∧
    (pushdownFilters exSightHelpers true 4 planG 5 [] = .ok (planG_filter, 5, []) ∧
      pushdownFilters exSightHelpers true 4 planG_filter 5 [] = .ok (planG_twice, 0, []) ∧
      (planG_filter[5]?.map (fun n => (n.children, n.filterList))) = some ([0], [predLT]) ∧
      (planG_filter[0]?.map (fun n => n.filterList)) = some [] ∧
      (planG_twice[0]?.map (fun n => n.filterList)) = some [predLT]) ∧
    (exSightHelpers.stableTags ∧ exSightSplitHelpers.stableTags ∧ exListHelpers.stableTags ∧
      exDeduceHelpers.stableTags) :=
  ⟨by decide, by decide, by decide, by decide,
    ⟨planV_run, by decide, by decide, by decide, by decide, by decide, by decide, by decide⟩,
    by decide,
    ⟨exSightHelpers_stableTags, exSightSplitHelpers_stableTags, exListHelpers_stableTags,
      exDeduceHelpers_stableTags⟩⟩

/-- C18 (amended): pushdown idempotence on a calm result, for every value of
`separateNonEquiConds` and every choice of the helper functions under which `enumerateTags`,
on a tree in which no `FILTER` carries a binding tag, depends only on the binding tags in
sight from the root.  Take a plan that is a tree without `FUNCTION_SCAN` nodes (a join or a
set operation with two children, a `FILTER`, an `AGG` or a `PROJECT` with one, a scan, a node
of another kind with at most one child) in which no `FILTER` carries a binding tag and the
scans have no children, and a call of `pushdownFilters` on its root with no incoming filter,
with fuel from the bound of the tree.  The call does not run out of fuel: it returns, or it
panics.  When it returns an id `r1` and no unplaced filter, has cleared no binding tag (every
node has in the resulting arena the binding tags it had), and every node reachable from `r1`
in the resulting arena is calm (every entry `q` of the filterList of a `FILTER` and of the
on-list of a join is its own single conjunct, and the keys that `checkDNF` finds in `q` yield
no extra filter; `splitPlanConjunctions` returns the on-list of a join as it is;
`predsDeduction` deduces nothing from no filter and the on-list of an inner join), then a
second call on `r1` in the resulting arena with no incoming filter returns `r1` and no
unplaced filter and leaves every node of the arena unchanged. -/
theorem pushdownFilters_idempotent (h : Helpers) (sep : Bool) (nodes : Nodes) (t : Shape)
    (fuel : Nat) (hg : t.Good nodes) (hbare : t.bare nodes = true) (hb : t.bound ≤ fuel)
    (hT : h.stableTags) :
    (pushdownFilters h sep fuel nodes t.root [] = .error .panic ∨
      ∃ out, pushdownFilters h sep fuel nodes t.root [] = .ok out) ∧
    ∀ nodes1 r1, pushdownFilters h sep fuel nodes t.root [] = .ok (nodes1, r1, []) →
      Steady nodes nodes1 →
      (∀ i k, i ∈ reachable nodes1 k r1 → nodeCalm h nodes1 i) →
      pushdownFilters h sep fuel nodes1 r1 [] = .ok (nodes1, r1, []) := by
  rcases pushdownFilters_conserves h sep fuel nodes t [] hg hb with
    hpanic | ⟨out, t1, t2, ho, C⟩
  · refine ⟨Or.inl hpanic, ?_⟩
    intro nodes1 r1 hr
    rw [hpanic] at hr
    cases hr
  · refine ⟨Or.inr ⟨out, ho⟩, ?_⟩
    intro nodes1 r1 hr hsteady hcalm
    rw [ho] at hr
    injection hr with hr
    subst hr
    have hroot : t1.root = r1 := C.root1
    have hc1 : t1.calm h nodes1 := by
      intro i hi
      obtain ⟨k, hk⟩ := Shape.ids_reachable C.good1.1 i hi
      rw [hroot] at hk
      exact hcalm i k hk
    have hset : t1.settled h sep nodes1 [] :=
      C.settled1 hT hbare hsteady hc1 (fun q hq => absurd hq (List.not_mem_nil q))
    have hfix := pushdownFilters_settled h sep t1 nodes1 [] fuel C.good1 hset
      (le_trans C.bound1 hb)
    rw [hroot] at hfix
    exact hfix

/-- Witness of C18 (amended) on `planU`, with a `splitPlanConjunction` that splits `and`: the
first run pushes the conjunct `l.v IS NULL` of the entry of the `FILTER` into the scan of `l`
and leaves the `FILTER`, below the `SORT`, with the conjunct `r.v IS NULL` that the left join
returns unplaced; the second run changes nothing. -/
theorem pushdownFilters_idempotent_witness :
    planU_shape.Good planU ∧ planU_shape.bare planU = true ∧ planU_shape.bound ≤ 4 ∧
      exSightSplitHelpers.stableTags ∧
      pushdownFilters exSightSplitHelpers false 4 planU planU_shape.root [] =
        .ok (planU_done, 4, []) ∧
      Steady planU planU_done ∧
      (∀ i k, i ∈ reachable planU_done k 4 → nodeCalm exSightSplitHelpers planU_done i) ∧
      pushdownFilters exSightSplitHelpers false 4 planU_done 4 [] = .ok (planU_done, 4, []) :=
  ⟨⟨by decide, by decide⟩, by decide, by decide, exSightSplitHelpers_stableTags, by decide,
    planU_steady, planU_done_calm,
    (pushdownFilters_idempotent exSightSplitHelpers false planU planU_shape 4
      ⟨by decide, by decide⟩ (by decide) (by decide) exSightSplitHelpers_stableTags).2
      planU_done 4 (by decide) planU_steady planU_done_calm⟩

/-- C21: neither pass deletes a node from the arena.  A call of `removeSimpleProjections` that
returns leaves the number of nodes of the arena and the kind of every node unchanged.  A call
of `pushdownFilters` that returns does not shrink the arena, leaves every node at its index
with its kind, and every node it has appended is a `FILTER` with exactly one child and a
non-empty filterList. -/
theorem arena_nodes_stay (h : Helpers) (separateNonEquiConds : Bool) :
    (∀ (fuel : Nat) (nodes : Nodes) (nodeID : Nat) (parentType : NodeType)
      (r : Nodes × Nat × ProjMap),
      removeSimpleProjections fuel nodes nodeID parentType = .ok r →
      r.1.length = nodes.length ∧
        r.1.map (fun n => n.nodeType) = nodes.map (fun n => n.nodeType)) ∧
    (∀ (fuel : Nat) (nodes : Nodes) (nodeID : Nat) (filters : List Expr)
      (r : Nodes × Nat × List Expr),
      pushdownFilters h separateNonEquiConds fuel nodes nodeID filters = .ok r →
      nodes.length ≤ r.1.length ∧
        (∀ (j : Nat) (n : Node), nodes[j]? = some n →
          ∃ n1 : Node, r.1[j]? = some n1 ∧ n1.nodeType = n.nodeType) ∧
        (∀ (j : Nat) (n1 : Node), nodes.length ≤ j → r.1[j]? = some n1 →
          n1.nodeType = .FILTER ∧ n1.children.length = 1 ∧ n1.filterList ≠ [])) := by
  refine ⟨?_, ?_⟩
  · intro fuel nodes nodeID parentType r hr
    have hk := removeSimpleProjections_kinds fuel nodes nodeID parentType r hr
    refine ⟨?_, hk⟩
    have := congrArg List.length hk
    simpa using this
  · intro fuel nodes nodeID filters r hr
    have hg := pushdownFilters_grows h separateNonEquiConds fuel nodes nodeID filters r hr
    refine ⟨hg.grows_len, ?_, hg.2⟩
    intro j n hn
    obtain ⟨n1, hn1, ht, _⟩ := hg.1 j n hn
    exact ⟨n1, hn1, ht⟩

/-- Witness of C21: on `planA` projection elimination keeps the four nodes and their kinds;
on `planS` filter pushdown keeps the four nodes and appends one `FILTER` with one child and
the filter `r.v IS NULL`. -/
theorem arena_nodes_stay_witness :
    (removeSimpleProjections 4 planA 3 .UNKNOWN =
        .ok (planA_simplified, 3, [((5, 1), .col {} 1 1), ((5, 0), .col {} 1 0)]) ∧
      pushdownFilters exJoinHelpers false 3 planS 3 [predRNull] = .ok (planS_done, 3, [])) ∧
      (planA_simplified.length = planA.length ∧
        planA_simplified.map (fun n => n.nodeType) = planA.map (fun n => n.nodeType)) ∧
      (planS.length ≤ planS_done.length ∧
        (∀ (j : Nat) (n : Node), planS[j]? = some n →
          ∃ n1 : Node, planS_done[j]? = some n1 ∧ n1.nodeType = n.nodeType) ∧
        (∀ (j : Nat) (n1 : Node), planS.length ≤ j → planS_done[j]? = some n1 →
          n1.nodeType = .FILTER ∧ n1.children.length = 1 ∧ n1.filterList ≠ [])) := by
  have h1 : removeSimpleProjections 4 planA 3 .UNKNOWN =
      .ok (planA_simplified, 3, [((5, 1), .col {} 1 1), ((5, 0), .col {} 1 0)]) := by decide
  have h2 : pushdownFilters exJoinHelpers false 3 planS 3 [predRNull] =
      .ok (planS_done, 3, []) := by decide
  exact ⟨⟨h1, h2⟩, (arena_nodes_stay exJoinHelpers false).1 _ _ _ _ _ h1,
    (arena_nodes_stay exJoinHelpers false).2 _ _ _ _ _ h2⟩

/-- C22, the code at a failing input: with a `predsDeduction` that always returns the empty
list, on `planN`, whose root (node 4) is an inner join, `pushdownFilters` with
`separateNonEquiConds` and no incoming filter returns the arena `planN_done` of five nodes, in
which the on-condition `l.v < r.v` of the lower join is gone, whereas the procedure without
the two advisory calls, and also the `JOIN` case without them over the unchanged recursive
procedure, returns the arena `planN_wrapped` of six nodes, in which `l.v < r.v` sits in a new
`FILTER` above the lower join.  Without `separateNonEquiConds`, on the inner join of `planJ`
over a `FILTER`, `pushdownFilters` leaves `l.a > 1` twice in the scan of `l` and the procedure
without the advisory calls leaves it once. -/
theorem advisory_calls_change_plan :
    (∀ (preds onList : List Expr), exJoinHelpers.predsDeduction preds onList = []) ∧
    ((planN[4]?.map (fun n => (n.nodeType, n.joinType))) = some (.JOIN, .INNER) ∧
      pushdownFilters exJoinHelpers true 3 planN 4 [] = .ok (planN_done, 4, []) ∧
      pushdownFiltersNoAdvisory exJoinHelpers true 3 planN 4 [] = .ok (planN_wrapped, 4, []) ∧
      pushdownJoinNoAdvisory exJoinHelpers true (pushdownFilters exJoinHelpers true 2) planN 4
          { nodeType := .JOIN, children := [3, 2], joinType := .INNER, onList := [condLC] } [] =
        .ok (planN_wrapped, 4, []) ∧
      planN_done.length = 5 ∧ planN_wrapped.length = 6 ∧
      (∀ n ∈ planN_done, predLT ∉ n.filterList ++ n.onList) ∧
      (planN_wrapped[5]?.map (fun n => (n.nodeType, n.children, n.filterList))) =
        some (.FILTER, [3], [predLT])) ∧
    ((planJ[3]?.map (fun n => (n.nodeType, n.joinType))) = some (.JOIN, .INNER) ∧
      pushdownFilters exJoinHelpers false 3 planJ 3 [] = .ok (planJ_done, 3, []) ∧
      pushdownFiltersNoAdvisory exJoinHelpers false 3 planJ 3 [] = .ok (planJ_once, 3, []) ∧
      (planJ_done[0]?.map (fun n => n.filterList)) = some [predA, predA] ∧
      (planJ_once[0]?.map (fun n => n.filterList)) = some [predA]) := by
  refine ⟨fun _ _ => rfl, ?_, ?_⟩ <;> decide

/-- C23: a call of `pushdownFilters` on a JOIN node classifies the filters, hands the list
`leftPushdown` to the call on the left child and the list `rightPushdown` to the call on the
right child, writes the on-list of the classification to the node and returns the list
`cantPushdown`.  Of the filters the placement ranges over (the incoming filters among them),
one classified BOTH is pushed to no child; it is in the on-list, and not returned, when the
join type is INNER and either `separateNonEquiConds` is false or the filter is a call of `=`
whose first and second arguments are each not classified BOTH; it is returned unplaced when
the join type after strength reduction is not INNER or that condition on the filter fails.
Each step of the placement does this by the join type at that step.  Consequently, on a
well-formed plan, after a returning call on a join that is or has become an inner join the
node has the on-list of the classification, the call has returned its unplaced list, and
every entry of the node's on-list is classified BOTH. -/
theorem join_both_placement (h : Helpers) (separateNonEquiConds : Bool) (fuel : Nat)
    (nodes : Nodes) (nodeID c0 c1 : Nat) (node : Node) (leftTags rightTags : List Int)
    (markTag : Int) (filters : List Expr) (st : JoinState)
    (hn : nodes[nodeID]? = some node) (hk : node.nodeType = .JOIN)
    (hc0 : node.children[0]? = some c0) (hc1 : node.children[1]? = some c1)
    (hlt : leftTags = h.enumerateTags nodes c0) (hrt : rightTags = h.enumerateTags nodes c1)
    (hm : getMarkTag node = .ok markTag)
    (hst : classifyJoinFilters h separateNonEquiConds leftTags rightTags markTag node filters =
      .ok st) :
    pushdownFilters h separateNonEquiConds (fuel + 1) nodes nodeID filters =
      (pushDeduced h (pushdownFilters h separateNonEquiConds fuel)
        (nodes.set nodeID { node with
          joinType := st.joinType, bindingTags := st.bindingTags, onList := st.onList })
        nodeID st.leftPushdown st.rightPushdown).bind (fun nodes2 =>
        (pushToChild (pushdownFilters h separateNonEquiConds fuel) nodes2 nodeID 0
          st.leftPushdown).bind (fun nodes3 =>
            (pushToChild (pushdownFilters h separateNonEquiConds fuel) nodes3 nodeID 1
              st.rightPushdown).map (fun nodes4 => (nodes4, nodeID, st.cantPushdown)))) ∧
    (∀ f ∈ filters,
      f ∈ joinFilters h separateNonEquiConds leftTags rightTags markTag node filters) ∧
    (∀ f ∈ joinFilters h separateNonEquiConds leftTags rightTags markTag node filters,
      h.getJoinSide f leftTags rightTags markTag = JoinSideBoth →
      (f ∉ st.leftPushdown ∧ f ∉ st.rightPushdown) ∧
      (st.joinType = .INNER ∧ (separateNonEquiConds = false ∨
          ∃ t a0 a1 rest, f = .f t "=" (a0 :: a1 :: rest) ∧
            h.getJoinSide a0 leftTags rightTags markTag ≠ JoinSideBoth ∧
            h.getJoinSide a1 leftTags rightTags markTag ≠ JoinSideBoth) →
        f ∈ st.onList ∧ f ∉ st.cantPushdown) ∧
      ((joinStart h leftTags rightTags markTag node filters).joinType ≠ .INNER ∨
          ¬ (separateNonEquiConds = false ∨
            ∃ t a0 a1 rest, f = .f t "=" (a0 :: a1 :: rest) ∧
              h.getJoinSide a0 leftTags rightTags markTag ≠ JoinSideBoth ∧
              h.getJoinSide a1 leftTags rightTags markTag ≠ JoinSideBoth) →
        f ∈ st.cantPushdown ∧
        (f ∈ st.onList → f ∈ (joinStart h leftTags rightTags markTag node filters).onList))) ∧
    (∀ (s s1 : JoinState) (f : Expr),
      placeFilter h separateNonEquiConds leftTags rightTags markTag s f JoinSideBoth =
        .ok s1 →
      ((s.joinType = .INNER ∧ (separateNonEquiConds = false ∨
          ∃ t a0 a1 rest, f = .f t "=" (a0 :: a1 :: rest) ∧
            h.getJoinSide a0 leftTags rightTags markTag ≠ JoinSideBoth ∧
            h.getJoinSide a1 leftTags rightTags markTag ≠ JoinSideBoth)) ∧
        s1 = { s with onList := s.onList ++ [f] }) ∨
      (¬ (s.joinType = .INNER ∧ (separateNonEquiConds = false ∨
          ∃ t a0 a1 rest, f = .f t "=" (a0 :: a1 :: rest) ∧
            h.getJoinSide a0 leftTags rightTags markTag ≠ JoinSideBoth ∧
            h.getJoinSide a1 leftTags rightTags markTag ≠ JoinSideBoth)) ∧
        s1 = { s with cantPushdown := s.cantPushdown ++ [f] })) ∧
    (∀ (rank : Nat → Nat) (out : Nodes × Nat × List Expr),
      WellFormed rank nodes → rank 0 < rank nodeID →
      pushdownFilters h separateNonEquiConds (fuel + 1) nodes nodeID filters = .ok out →
      out.2 = (nodeID, st.cantPushdown) ∧
      ∃ n1, out.1[nodeID]? = some n1 ∧ n1.joinType = st.joinType ∧ n1.onList = st.onList ∧
        ((node.joinType = .INNER ∨ n1.joinType = .INNER) →
          ∀ g ∈ n1.onList, h.getJoinSide g leftTags rightTags markTag = JoinSideBoth)) := by
  have hsides := classifyJoinFilters_lists_sides hst
  refine ⟨by
      subst hlt hrt
      exact pushdownFilters_join_chain h separateNonEquiConds fuel nodes nodeID c0 c1 markTag
        node filters st hn hk hc0 hc1 hm hst, mem_joinFilters _ _ _ _ _ _ _, ?_,
    fun s s1 f hp => placeFilter_both_ok hp, ?_⟩
  · intro f hf hside
    have hfrom : ∀ x : JoinState,
        LoopFrom h separateNonEquiConds leftTags rightTags markTag
          (joinStart h leftTags rightTags markTag node filters) x →
        x.joinType = (joinStart h leftTags rightTags markTag node filters).joinType ∨
          x.joinType = .SEMI ∨ x.joinType = .ANTI := by
      intro x hx
      rcases hx.loop_mono.2 with ⟨a, _⟩ | ⟨a, _⟩
      · exact Or.inl a
      · exact Or.inr a
    have hto : ∀ x x1 : JoinState, x1.joinType = x.joinType →
        LoopFrom h separateNonEquiConds leftTags rightTags markTag x1 st →
        st.joinType = x.joinType ∨ st.joinType = .SEMI ∨ st.joinType = .ANTI := by
      intro x x1 hx1t hx1
      rcases hx1.loop_mono.2 with ⟨a, _⟩ | ⟨a, _⟩
      · exact Or.inl (a.trans hx1t)
      · exact Or.inr a
    have hkeep : ∀ x x1 : JoinState,
        placeFilter h separateNonEquiConds leftTags rightTags markTag x f JoinSideBoth =
          .ok x1 → x1.joinType = x.joinType := by
      intro x x1 hx
      rcases placeFilter_both_ok hx with ⟨_, e⟩ | ⟨_, e⟩ <;> subst e <;> rfl
    obtain ⟨s, s1, hs, hstep, hs1⟩ := classifyJoinFilters_step hst f hf
    rw [hside] at hstep
    obtain ⟨⟨_, _, m3, m4⟩, _⟩ := hs1.loop_mono
    refine ⟨⟨?_, ?_⟩, ?_, ?_⟩
    · intro hin
      obtain ⟨x, x1, _, _, hxstep, _, hn1, hy1⟩ := classifyJoinFilters_origin_left hst f hin
      rw [hside] at hxstep
      rcases placeFilter_both_ok hxstep with ⟨_, e⟩ | ⟨_, e⟩ <;> subst e <;> exact hn1 hy1
    · intro hin
      rcases classifyJoinFilters_origin_right hst f hin with h1 |
        ⟨x, x1, _, _, hxstep, _, hn1, hy1⟩
      · -- the list for the right child starts with on-list conjuncts off the left side
        have hleft := joinStart_rightPushdown h leftTags rightTags markTag node filters f h1
        rw [hside] at hleft
        cases hleft
      · rw [hside] at hxstep
        rcases placeFilter_both_ok hxstep with ⟨_, e⟩ | ⟨_, e⟩ <;> subst e <;> exact hn1 hy1
    · rintro ⟨hT, hE⟩
      have hall : ∀ x x1 : JoinState, x1.joinType = x.joinType →
          LoopFrom h separateNonEquiConds leftTags rightTags markTag x1 st →
          x.joinType = .INNER := by
        intro x x1 hx1t hx1
        rcases hto x x1 hx1t hx1 with a | a | a
        · rw [← a]; exact hT
        · rw [a] at hT; cases hT
        · rw [a] at hT; cases hT
      refine ⟨?_, ?_⟩
      · rcases placeFilter_both_ok hstep with ⟨_, e⟩ | ⟨hc, _⟩
        · apply m4
          rw [e]
          simp
        · exact absurd ⟨hall s s1 (hkeep s s1 hstep) hs1, hE⟩ hc
      · intro hin
        obtain ⟨x, x1, _, _, hxstep, hx1, hn1, hy1⟩ := classifyJoinFilters_origin_cant hst f hin
        rw [hside] at hxstep
        rcases placeFilter_both_ok hxstep with ⟨_, e⟩ | ⟨hc, _⟩
        · subst e
          exact hn1 hy1
        · exact hc ⟨hall x x1 (hkeep x x1 hxstep) hx1, hE⟩
    · intro hcond
      have hno : ∀ x : JoinState,
          LoopFrom h separateNonEquiConds leftTags rightTags markTag
            (joinStart h leftTags rightTags markTag node filters) x →
          ¬ (x.joinType = .INNER ∧ (separateNonEquiConds = false ∨
            ∃ t a0 a1 rest, f = .f t "=" (a0 :: a1 :: rest) ∧
              h.getJoinSide a0 leftTags rightTags markTag ≠ JoinSideBoth ∧
              h.getJoinSide a1 leftTags rightTags markTag ≠ JoinSideBoth)) := by
        rintro x hx ⟨hxI, hE⟩
        rcases hcond with hT | hnE
        · rcases hfrom x hx with a | a | a
          · exact hT (a ▸ hxI)
          · rw [a] at hxI; cases hxI
          · rw [a] at hxI; cases hxI
        · exact hnE hE
      refine ⟨?_, ?_⟩
      · rcases placeFilter_both_ok hstep with ⟨hc, _⟩ | ⟨_, e⟩
        · exact absurd hc (hno s hs)
        · apply m3
          rw [e]
          simp [JoinState.keep]
      · intro hin
        rcases classifyJoinFilters_origin_on hst f hin with h1 |
          ⟨x, x1, _, hx, hxstep, _, hn1, hy1⟩
        · exact h1
        · rw [hside] at hxstep
          rcases placeFilter_both_ok hxstep with ⟨hc, _⟩ | ⟨_, e⟩
          · exact absurd hc (hno x hx)
          · subst e
            exact absurd hy1 hn1
  · intro rank out hwf h0 hcall
    obtain ⟨d0, d1, mt, st2, n1, hd0, hd1, hm2, hst2, hres, hn1, _, hj, _, hon, _⟩ :=
      pushdownFilters_join_final hwf h0 hn hk hcall
    rw [hc0] at hd0
    injection hd0 with hd0
    rw [hc1] at hd1
    injection hd1 with hd1
    rw [hm] at hm2
    injection hm2 with hm2
    subst hd0 hd1 hm2 hlt hrt
    rw [hst] at hst2
    injection hst2 with hst2
    subst hst2
    refine ⟨hres, n1, hn1, hj, hon, ?_⟩
    intro hinner
    rw [hon]
    exact classifyJoinFilters_on_both hst (by rw [← hj]; exact hinner)

/-- Witness of C23 with `separateNonEquiConds` on the inner join of `planB_inner`, whose
on-list holds `l.v = r.v` and `l.k = r.k`, with the filter `l.v < r.v`: the equalities are in
the on-list, the filter is returned unplaced, and after the call every entry of the on-list
is classified BOTH. -/
theorem join_both_placement_witness :
    pushdownFilters exJoinHelpers true 2 planB_inner 2 [predLT] =
        .ok (planB_inner, 2, [predLT]) ∧
      classifyJoinFilters exJoinHelpers true [1] [2] 0
          { nodeType := .JOIN, children := [0, 1], joinType := .INNER,
            onList := [predLR, condLR] } [predLT] = .ok planB_bothPlaced ∧
      (condLR ∈ planB_bothPlaced.onList ∧ condLR ∉ planB_bothPlaced.cantPushdown) ∧
      predLT ∈ planB_bothPlaced.cantPushdown ∧
      ((planB_inner, 2, [predLT]) : Nodes × Nat × List Expr).2 =
        (2, planB_bothPlaced.cantPushdown) ∧
      ∃ n1, planB_inner[2]? = some n1 ∧ n1.joinType = planB_bothPlaced.joinType ∧
        n1.onList = planB_bothPlaced.onList ∧
        ((JoinType.INNER = .INNER ∨ n1.joinType = .INNER) →
          ∀ g ∈ n1.onList, exJoinHelpers.getJoinSide g [1] [2] 0 = JoinSideBoth) := by
  have hw := join_both_placement exJoinHelpers true 1 planB_inner 2 0 1
    { nodeType := .JOIN, children := [0, 1], joinType := .INNER, onList := [predLR, condLR] }
    [1] [2] 0 [predLT] planB_bothPlaced
    (by decide) (by decide) (by decide) (by decide) (by decide) (by decide) (by decide)
    (by decide)
  have h1 := (hw.2.2.1 condLR (by decide) (by decide)).2.1
    ⟨by decide, Or.inr ⟨{}, .col {} 1 0, .col {} 2 0, [], rfl, by decide, by decide⟩⟩
  have h2 := ((hw.2.2.1 predLT (by decide) (by decide)).2.2 (Or.inr (by
    rintro (h3 | ⟨t, a0, a1, rest, he, _⟩)
    · cases h3
    · unfold predLT at he
      injection he with _ hname _
      exact absurd hname (by decide)))).1
  have h3 := hw.2.2.2.2 rankJoin (planB_inner, 2, [predLT]) (by decide) (by decide) (by decide)
  exact ⟨by decide, by decide, h1, h2, h3.1, h3.2⟩

/-- C24: every value of the substitution map returned by `removeSimpleProjections`, for every
plan, node and parent kind, is a bare column or a constant; and substituting with a map of
that kind turns a column or constant into a column or constant, and gives every list of
expressions the same answer to the triviality test `allColRef` as before. -/
theorem projection_map_values_simple :
    (∀ (fuel : Nat) (nodes : Nodes) (nodeID : Nat) (parentType : NodeType)
      (r : Nodes × Nat × ProjMap),
      removeSimpleProjections fuel nodes nodeID parentType = .ok r →
      ∀ kv ∈ r.2.2, kv.2.isCol = true ∨ kv.2.isC = true) ∧
    (∀ m : ProjMap, (∀ kv ∈ m, kv.2.isCol = true ∨ kv.2.isC = true) →
      (∀ e : Expr, e.isCol = true ∨ e.isC = true →
        (removeProjectionsForExpr e m).isCol = true ∨
          (removeProjectionsForExpr e m).isC = true) ∧
      (∀ e : Expr, e.isF = true → (removeProjectionsForExpr e m).isF = true) ∧
      (∀ l : List Expr, allColRef (removeProjectionsForExprList l m) = allColRef l)) := by
  refine ⟨removeSimpleProjections_simple, ?_⟩
  intro m hm
  refine ⟨removeProjectionsForExpr_simple hm, ?_, allColRef_removeProjections hm⟩
  intro e he
  cases e with
  | f t n args => rfl
  | col t r p => cases he
  | c t v => cases he

/-- Witness of C24 on `planA`: the map returned from the root holds the two columns of the
elided inner `PROJECT`. -/
theorem projection_map_values_simple_witness :
    removeSimpleProjections 4 planA 3 .UNKNOWN =
        .ok (planA_simplified, 3, [((5, 1), .col {} 1 1), ((5, 0), .col {} 1 0)]) ∧
      ∀ kv ∈ ([((5, 1), .col {} 1 1), ((5, 0), .col {} 1 0)] : ProjMap),
        kv.2.isCol = true ∨ kv.2.isC = true :=
  ⟨by decide,
    projection_map_values_simple.1 4 planA 3 .UNKNOWN
      (planA_simplified, 3, [((5, 1), .col {} 1 1), ((5, 0), .col {} 1 0)]) (by decide)⟩

/-- C25, counterexample: the inner join of `planI` receives no incoming filter, and the
conjunct of its on-list, folded into the filters of the placement, is classified MARK and is
the bare column of the join's first binding tag: after `pushdownFilters` the join is a SEMI
join. -/
theorem inner_join_becomes_semi :
    pushdownFilters exJoinHelpers false 2 planI 2 [] = .ok (planI_semi, 2, []) ∧
      (planI[2]?.map (fun n => (n.nodeType, n.joinType))) = some (.JOIN, .INNER) ∧
      (planI_semi[2]?.map (fun n => (n.nodeType, n.joinType))) = some (.JOIN, .SEMI) ∧
      joinFilters exJoinHelpers false [1] [2] 0
        { nodeType := .JOIN, children := [0, 1], joinType := .INNER, bindingTags := [0],
          onList := [.col {} 0 0] } [] = [.col {} 0 0] ∧
      exJoinHelpers.getJoinSide (.col {} 0 0) [1] [2] 0 = JoinSideMark := by
  decide

/-- C25, amended: a call of `pushdownFilters` on a JOIN node classifies the filters of the
placement (the incoming filters, the conjuncts of the on-list folded in for an inner or
strength-reduced join, and the extracted DNF filters) and writes the join type of the
classification to the node.  That type is the join's old type, or INNER for a LEFT or RIGHT
join, or SEMI when one of the filters of the placement is a bare column classified MARK, or
ANTI when one of them is a not-nullable call of `not` on a bare column, classified MARK.  So
a join of type INNER, SEMI, ANTI, SINGLE or OUTER for which no filter of the placement is
classified MARK keeps its type.  On a well-formed plan the node has the join type of the
classification after a returning call.  Every other node of the arena keeps its join type,
or was a LEFT or RIGHT join and is an INNER join, or is a SEMI or ANTI join, and a node that
is no join keeps its join type. -/
theorem join_type_changes (h : Helpers) (separateNonEquiConds : Bool) (fuel : Nat)
    (nodes : Nodes) (nodeID c0 c1 : Nat) (node : Node) (leftTags rightTags : List Int)
    (markTag : Int) (filters : List Expr) (st : JoinState)
    (hn : nodes[nodeID]? = some node) (hk : node.nodeType = .JOIN)
    (hc0 : node.children[0]? = some c0) (hc1 : node.children[1]? = some c1)
    (hlt : leftTags = h.enumerateTags nodes c0) (hrt : rightTags = h.enumerateTags nodes c1)
    (hm : getMarkTag node = .ok markTag)
    (hst : classifyJoinFilters h separateNonEquiConds leftTags rightTags markTag node filters =
      .ok st) :
    pushdownFilters h separateNonEquiConds (fuel + 1) nodes nodeID filters =
      (pushDeduced h (pushdownFilters h separateNonEquiConds fuel)
        (nodes.set nodeID { node with
          joinType := st.joinType, bindingTags := st.bindingTags, onList := st.onList })
        nodeID st.leftPushdown st.rightPushdown).bind (fun nodes2 =>
        (pushToChild (pushdownFilters h separateNonEquiConds fuel) nodes2 nodeID 0
          st.leftPushdown).bind (fun nodes3 =>
            (pushToChild (pushdownFilters h separateNonEquiConds fuel) nodes3 nodeID 1
              st.rightPushdown).map (fun nodes4 => (nodes4, nodeID, st.cantPushdown)))) ∧
    (∀ f ∈ filters,
      f ∈ joinFilters h separateNonEquiConds leftTags rightTags markTag node filters) ∧
    (st.joinType = node.joinType ∨
      ((node.joinType = .LEFT ∨ node.joinType = .RIGHT) ∧ st.joinType = .INNER) ∨
      ∃ f ∈ joinFilters h separateNonEquiConds leftTags rightTags markTag node filters,
        h.getJoinSide f leftTags rightTags markTag = JoinSideMark ∧
        ((st.joinType = .SEMI ∧ ∃ t r p, f = .col t r p) ∨
          (st.joinType = .ANTI ∧ ∃ t t2 r p rest, t.notNullable = true ∧
            f = .f t "not" (.col t2 r p :: rest)))) ∧
    (node.joinType ∈ [JoinType.INNER, .SEMI, .ANTI, .SINGLE, .OUTER] →
      (∀ f ∈ joinFilters h separateNonEquiConds leftTags rightTags markTag node filters,
        h.getJoinSide f leftTags rightTags markTag ≠ JoinSideMark) →
      st.joinType = node.joinType) ∧
    (∀ (rank : Nat → Nat) (out : Nodes × Nat × List Expr),
      WellFormed rank nodes → rank 0 < rank nodeID →
      pushdownFilters h separateNonEquiConds (fuel + 1) nodes nodeID filters = .ok out →
      ∃ n1, out.1[nodeID]? = some n1 ∧ n1.nodeType = .JOIN ∧ n1.joinType = st.joinType) ∧
    (∀ (out : Nodes × Nat × List Expr),
      pushdownFilters h separateNonEquiConds (fuel + 1) nodes nodeID filters = .ok out →
      ∀ (j : Nat) (n : Node), nodes[j]? = some n →
        ∃ n1 : Node, out.1[j]? = some n1 ∧
          (n.joinType = n1.joinType ∨
            ((n.joinType = .LEFT ∨ n.joinType = .RIGHT) ∧ n1.joinType = .INNER) ∨
            n1.joinType = .SEMI ∨ n1.joinType = .ANTI) ∧
          (n.nodeType ≠ .JOIN → n1.joinType = n.joinType)) := by
  have key : st.joinType = node.joinType ∨
      ((node.joinType = .LEFT ∨ node.joinType = .RIGHT) ∧ st.joinType = .INNER) ∨
      ∃ f ∈ joinFilters h separateNonEquiConds leftTags rightTags markTag node filters,
        h.getJoinSide f leftTags rightTags markTag = JoinSideMark ∧
        ((st.joinType = .SEMI ∧ ∃ t r p, f = .col t r p) ∨
          (st.joinType = .ANTI ∧ ∃ t t2 r p rest, t.notNullable = true ∧
            f = .f t "not" (.col t2 r p :: rest))) := by
    rcases classifyJoinFilters_converted hst with h1 | h1
    · rcases joinStart_joinType_cases h leftTags rightTags markTag node filters with h2 |
        ⟨h2, h3⟩
      · exact Or.inl (h1.trans h2)
      · exact Or.inr (Or.inl ⟨h2, h1.trans h3⟩)
    · exact Or.inr (Or.inr h1)
  refine ⟨by
      subst hlt hrt
      exact pushdownFilters_join_chain h separateNonEquiConds fuel nodes nodeID c0 c1 markTag
        node filters st hn hk hc0 hc1 hm hst, mem_joinFilters _ _ _ _ _ _ _, key, ?_, ?_, ?_⟩
  · intro hty hno
    rcases key with h1 | ⟨h1, _⟩ | ⟨f, hf, hside, _⟩
    · exact h1
    · simp only [List.mem_cons, List.mem_singleton, List.not_mem_nil, or_false] at hty
      rcases h1 with h1 | h1 <;> rw [h1] at hty <;> simp at hty
    · exact absurd hside (hno f hf)
  · intro rank out hwf h0 hcall
    obtain ⟨d0, d1, mt, st2, n1, hd0, hd1, hm2, hst2, _, hn1, hk1, hj, _, _, _⟩ :=
      pushdownFilters_join_final hwf h0 hn hk hcall
    rw [hc0] at hd0
    injection hd0 with hd0
    rw [hc1] at hd1
    injection hd1 with hd1
    rw [hm] at hm2
    injection hm2 with hm2
    subst hd0 hd1 hm2 hlt hrt
    rw [hst] at hst2
    injection hst2 with hst2
    subst hst2
    exact ⟨n1, hn1, hk1, hj⟩
  · intro out hcall j n hnj
    obtain ⟨n1, hn1, _, _, hj, hkk, _⟩ :=
      (pushdownFilters_grows h separateNonEquiConds (fuel + 1) nodes nodeID filters out
        hcall).1 j n hnj
    exact ⟨n1, hn1, hj, hkk⟩

/-- Witness of C25 (amended): on `planB` the filter `r.v = 10` turns the LEFT join (node 2)
into an INNER join, and the node is an INNER join after the call; on the outer join of
`planO` with the filter `r.v IS NULL`, where no filter of the placement is classified MARK,
the join type of the classification is OUTER and the node is an OUTER join after the
call. -/
theorem join_type_changes_witness :
    pushdownFilters exJoinHelpers false 2 planB 2 [predRV] = .ok (planB_done [] [], 2, []) ∧
      classifyJoinFilters exJoinHelpers false [1] [2] 0 planB_join [predRV] =
        .ok planB_innerPlaced ∧
      (∃ n1, (planB_done [] [])[2]? = some n1 ∧ n1.nodeType = .JOIN ∧
        n1.joinType = planB_innerPlaced.joinType) ∧
      pushdownFilters exJoinHelpers false 2 planO 2 [predRNull] = .ok (planO, 2, [predRNull]) ∧
      classifyJoinFilters exJoinHelpers false [1] [2] 0
          { nodeType := .JOIN, children := [0, 1], joinType := .OUTER, onList := [condLR] }
          [predRNull] = .ok planO_placed ∧
      planO_placed.joinType = .OUTER ∧
      (∃ n1, planO[2]? = some n1 ∧ n1.nodeType = .JOIN ∧
        n1.joinType = planO_placed.joinType) := by
  have hw := join_type_changes exJoinHelpers false 1 planB 2 0 1 planB_join [1] [2] 0
    [predRV] planB_innerPlaced
    (by decide) (by decide) (by decide) (by decide) (by decide) (by decide) (by decide)
    (by decide)
  have hw2 := join_type_changes exJoinHelpers false 1 planO 2 0 1
    { nodeType := .JOIN, children := [0, 1], joinType := .OUTER, onList := [condLR] }
    [1] [2] 0 [predRNull] planO_placed
    (by decide) (by decide) (by decide) (by decide) (by decide) (by decide) (by decide)
    (by decide)
  exact ⟨by decide, by decide,
    hw.2.2.2.2.1 rankJoin (planB_done [] [], 2, []) (by decide) (by decide) (by decide),
    by decide, by decide, hw2.2.2.2.1 (by decide) (by decide),
    hw2.2.2.2.2.1 rankJoin (planO, 2, [predRNull]) (by decide) (by decide) (by decide)⟩

/-- C26, the code at a failing input: on the mark join of `planM` (two children, the single
binding tag 9) both incoming filters `m` and `not(m)` are classified MARK; the first converts
the join to SEMI and clears its binding tags, and the read of `BindingTags[0]` for the second
is out of range: `pushdownFilters` panics, for every fuel of at least 2.  The same holds for
the filter `m` given twice. -/
theorem mark_join_second_mark_filter_panics :
    (planM[2]?.map (fun n => (n.nodeType, n.joinType, n.children, n.bindingTags))) =
      some (.JOIN, .MARK, [0, 1], [9]) ∧
    exJoinHelpers.getJoinSide predMark (exJoinHelpers.enumerateTags planM 0)
      (exJoinHelpers.enumerateTags planM 1) 9 = JoinSideMark ∧
    exJoinHelpers.getJoinSide predNotMarkNN (exJoinHelpers.enumerateTags planM 0)
      (exJoinHelpers.enumerateTags planM 1) 9 = JoinSideMark ∧
    pushdownFilters exJoinHelpers false 2 planM 2 [predMark] =
      .ok (planM_semi, 2, []) ∧
    (∀ fuel sep, pushdownFilters exJoinHelpers sep (fuel + 2) planM 2 [predMark, predNotMarkNN] =
      .error .panic) ∧
    (∀ fuel sep, pushdownFilters exJoinHelpers sep (fuel + 2) planM 2 [predMark, predMark] =
      .error .panic) := by
  have key : ∀ (fuel : Nat) (sep : Bool) (F : List Expr),
      classifyJoinFilters exJoinHelpers sep (exJoinHelpers.enumerateTags planM 0)
        (exJoinHelpers.enumerateTags planM 1) 9 planM_join F = .error .panic →
      pushdownFilters exJoinHelpers sep (fuel + 2) planM 2 F = .error .panic := by
    intro fuel sep F hc
    rw [pushdownFilters_join_eq exJoinHelpers sep (fuel + 1) planM 2 planM_join F rfl rfl]
    unfold pushdownJoin
    have h0 : getChild planM_join 0 = .ok 0 := rfl
    have h1 : getChild planM_join 1 = .ok 1 := rfl
    have hm : getMarkTag planM_join = .ok 9 := rfl
    simp only [h0, h1, hm, bind, Except.bind, hc]
  refine ⟨by decide, by decide, by decide, by decide, ?_, ?_⟩
  · intro fuel sep
    exact key fuel sep _ (by cases sep <;> decide)
  · intro fuel sep
    exact key fuel sep _ (by cases sep <;> decide)

end Plan
